import Mathlib

/-!
# Sheet checker: the ingestion pipeline of `sheet-checker/src/App.js`

A shallow embedding of the value parsers, the row classifier, the record
builder and the sheet loader of `App.js`, followed by theorems about them.

Modelling conventions.

* A JavaScript string is a `List Char`.
* A JavaScript number is a `JSNum`: `NaN`, the two infinities, or a finite
  value, given by the rational it denotes.  `Number`, `parseFloat`, `parseInt`
  and the operators `+`, `-`, `*`, `/` of the sheet checker return the binary64
  value nearest to the exact result (`JSNum.ofRat`: a tie goes to the even
  significand, and the result is `Infinity` from `2 ^ 1024 - 2 ^ 970` on);
  `-0` is identified with `0`.  The pixel arithmetic of the glass menu is kept
  exact (`JSNum.addExact` and the like).
* A cell value is a `JSVal`: `undefined`, `null`, a boolean, a number, a
  string or a `Date` object (its time value in milliseconds, `none` for an
  invalid date).
* An object is the list of its own properties in `Object.keys` order.
* What ECMAScript leaves to the host, or what depends on the time zone or on
  the Unicode tables, is a field of `JSEnv`: `Date.parse`, `String` of a
  `Date`, `String` of a number, `toLowerCase`.  The order in which
  `Array.prototype.sort` leaves an array under a comparator that is not a
  consistent ordering is a field of `SortEngine`.
* `XLSX.utils.sheet_to_json` is an external library: a `Sheet` carries its two
  results (object rows, and array rows for `header: 1`).
* The React state written by `loadSheetData` (`rawRows`, `fileError`) is the
  returned `LoadResult`; the state read by the parsers (`numericTimeAs`) is an
  explicit argument.
-/

namespace SheetChecker

/-! ## Numbers -/

/-- A JavaScript number: `NaN`, `Infinity`, `-Infinity` or a finite value. -/
inductive JSNum where
  | nan
  | posInf
  | negInf
  | fin (q : ℚ)
deriving DecidableEq

/-- The power `2 ^ k`. -/
@[irreducible] def pow2 (k : Nat) : Nat := 2 ^ k

/-- The number of halvings that bring `n` below `2`, in at most `fuel` steps. -/
def log2Aux : Nat → Nat → Nat
  | 0, _ => 0
  | fuel + 1, n => if n < 2 then 0 else log2Aux fuel (n / 2) + 1

/-- The integer part of the binary logarithm of a positive natural number. -/
def log2 (n : Nat) : Nat := log2Aux n n

namespace JSNum

/-- Unary minus. -/
def neg : JSNum → JSNum
  | nan => nan
  | posInf => negInf
  | negInf => posInf
  | fin a => fin (-a)

/-- Whether a rational is a binary64 value: `m * 2 ^ e` with `|m| < 2 ^ 53`
and `-1074 ≤ e ≤ 971`. -/
def isDouble (q : ℚ) : Bool :=
  let n := q.num.natAbs
  let k := log2 q.den
  decide (q.den = pow2 k) && decide (k ≤ 1074) &&
    (decide (n < pow2 53) ||
      (decide (q.den = 1) && decide (n < pow2 1024) && decide (n % pow2 (log2 n - 52) = 0)))

/-- The integer nearest to `n / d`, a tie going to the even one. -/
def roundHalfEven (n d : Nat) : Nat :=
  if 2 * (n % d) < d then n / d
  else if d < 2 * (n % d) then n / d + 1
  else if n / d % 2 = 0 then n / d else n / d + 1

/-- The exponent of the binary64 spacing at the positive rational `n / d`:
`⌊log2 (n / d)⌋ - 52`, and `-1074` in the subnormal range. -/
def doubleExponent (n d : Nat) : Int :=
  let k : Int := (log2 n : Int) - (log2 d : Int)
  let fl : Int := if d * pow2 k.toNat ≤ n * pow2 (-k).toNat then k else k - 1
  max (fl - 52) (-1074)

/-- The binary64 value nearest to the positive rational `n / d`, a tie going
to the even significand; `Infinity` from `2 ^ 1024 - 2 ^ 970` on. -/
def nearestDouble (n d : Nat) : JSNum :=
  let e := doubleExponent n d
  let m := roundHalfEven (n * pow2 (-e).toNat) (d * pow2 e.toNat)
  if pow2 1024 ≤ m * pow2 e.toNat then posInf
  else fin (((m * pow2 e.toNat : Nat) : ℚ) / ((pow2 (-e).toNat : Nat) : ℚ))

/-- The Number value for a real number: the number itself when it is a
binary64 value, and the nearest binary64 value otherwise. -/
def ofRat (q : ℚ) : JSNum :=
  if isDouble q then fin q
  else if 0 < q then nearestDouble q.num.natAbs q.den
  else (nearestDouble q.num.natAbs q.den).neg

/-- The `*` operator on numbers. -/
def mul : JSNum → JSNum → JSNum
  | nan, _ => nan
  | _, nan => nan
  | fin a, fin b => ofRat (a * b)
  | fin a, posInf => if a = 0 then nan else if 0 < a then posInf else negInf
  | fin a, negInf => if a = 0 then nan else if 0 < a then negInf else posInf
  | posInf, fin b => if b = 0 then nan else if 0 < b then posInf else negInf
  | negInf, fin b => if b = 0 then nan else if 0 < b then negInf else posInf
  | posInf, posInf => posInf
  | posInf, negInf => negInf
  | negInf, posInf => negInf
  | negInf, negInf => posInf

/-- The `+` operator on numbers. -/
def add : JSNum → JSNum → JSNum
  | nan, _ => nan
  | _, nan => nan
  | fin a, fin b => ofRat (a + b)
  | fin _, posInf => posInf
  | fin _, negInf => negInf
  | posInf, fin _ => posInf
  | negInf, fin _ => negInf
  | posInf, posInf => posInf
  | posInf, negInf => nan
  | negInf, posInf => nan
  | negInf, negInf => negInf

/-- The function `Math.round`: the nearest integer, halves going up. -/
def round : JSNum → JSNum
  | fin q => fin ((⌊q + 1 / 2⌋ : ℤ) : ℚ)
  | x => x

/-- Truthiness of a number: every number but `0` and `NaN`. -/
def truthy : JSNum → Bool
  | fin q => decide (q ≠ 0)
  | nan => false
  | _ => true

/-- The function `Number.isNaN`. -/
def isNaN : JSNum → Bool
  | nan => true
  | _ => false

/-- The comparison `x >= 0`. -/
def geZero : JSNum → Bool
  | fin q => decide (0 ≤ q)
  | posInf => true
  | _ => false

/-- The function `Number.isInteger`. -/
def isInteger : JSNum → Bool
  | fin q => decide (q.den = 1)
  | _ => false

end JSNum

/-! ## Characters and strings -/

/-- The class `\d`. -/
def isDigit (c : Char) : Bool := decide (48 ≤ c.toNat ∧ c.toNat ≤ 57)

/-- The class `\s`, which is also what `trim` strips: WhiteSpace and
LineTerminator code points. -/
def isWs (c : Char) : Bool :=
  let n := c.toNat
  decide (n = 9 ∨ n = 10 ∨ n = 11 ∨ n = 12 ∨ n = 13 ∨ n = 32 ∨ n = 160 ∨ n = 5760 ∨
    (8192 ≤ n ∧ n ≤ 8202) ∨ n = 8232 ∨ n = 8233 ∨ n = 8239 ∨ n = 8287 ∨ n = 12288 ∨
    n = 65279)

/-- Lower-case form of one character.  ASCII letters, and the two non-ASCII
letters whose lower-case form contains an ASCII letter (KELVIN SIGN, and
LATIN CAPITAL LETTER I WITH DOT ABOVE), are mapped as `toLowerCase` does;
every other character is left as it is. -/
def lowerChar (c : Char) : List Char :=
  if 65 ≤ c.toNat ∧ c.toNat ≤ 90 then [Char.ofNat (c.toNat + 32)]
  else if c.toNat = 8490 then ['k']
  else if c.toNat = 304 then ['i', Char.ofNat 775]
  else [c]

/-- The method `String.prototype.toLowerCase`, as far as ASCII patterns can
tell: see `lowerChar`. -/
def toLowerCase (s : List Char) : List Char := s.flatMap lowerChar

/-- The method `String.prototype.trim`. -/
def trim (s : List Char) : List Char := (s.dropWhile isWs).rdropWhile isWs

/-- The method `String.prototype.trimStart`. -/
def trimStart (s : List Char) : List Char := s.dropWhile isWs

/-- Replace every maximal run of whitespace by one space:
`s.replace(/\s+/g, ' ')`.  The flag tells whether the previous character was
whitespace. -/
def collapseWsAux : Bool → List Char → List Char
  | _, [] => []
  | inRun, c :: cs =>
    if isWs c then
      if inRun then collapseWsAux true cs else ' ' :: collapseWsAux true cs
    else c :: collapseWsAux false cs

/-- The call `s.replace(/\s+/g, ' ')`. -/
def collapseWs (s : List Char) : List Char := collapseWsAux false s

/-- The call `parts.join(sep)` on an array of strings. -/
def joinWith (sep : List Char) : List (List Char) → List Char
  | [] => []
  | [x] => x
  | x :: y :: rest => x ++ sep ++ joinWith sep (y :: rest)

/-- The call `text.split(c)` for a one-character separator. -/
def splitOnChar (c : Char) : List Char → List (List Char)
  | [] => [[]]
  | x :: xs =>
    match splitOnChar c xs with
    | [] => [[]]
    | p :: ps => if x = c then [] :: p :: ps else (x :: p) :: ps

/-- The call `hay.includes(needle)`. -/
def includes (hay needle : List Char) : Bool :=
  hay.tails.any (fun t => needle.isPrefixOf t)

/-! ## Numeric literals -/

/-- Value of a decimal digit. -/
def digitVal (c : Char) : Nat := c.toNat - 48

/-- Value of a string of decimal digits. -/
def digitsToNat (ds : List Char) : Nat := ds.foldl (fun acc c => 10 * acc + digitVal c) 0

/-- Value of a hexadecimal digit, if it is one. -/
def hexVal (c : Char) : Option Nat :=
  let n := c.toNat
  if 48 ≤ n ∧ n ≤ 57 then some (n - 48)
  else if 97 ≤ n ∧ n ≤ 102 then some (n - 87)
  else if 65 ≤ n ∧ n ≤ 70 then some (n - 55)
  else none

/-- Value of a non-empty string of digits in the given radix (2, 8 or 16). -/
def radixToNat (radix : Nat) (ds : List Char) : Option Nat :=
  if ds = [] then none
  else ds.foldl (fun acc c =>
    match acc, hexVal c with
    | some a, some d => if d < radix then some (radix * a + d) else none
    | _, _ => none) (some 0)

/-- An ExponentPart at the start of `s`: `e` or `E`, an optional sign and at
least one digit.  Returns the exponent and what follows it; without a
well-formed exponent the exponent is `0` and nothing is consumed. -/
def scanExponent (s : List Char) : Int × List Char :=
  match s with
  | e :: r =>
    if e = 'e' ∨ e = 'E' then
      match r with
      | '+' :: r1 =>
        if r1.takeWhile isDigit = [] then (0, s)
        else ((digitsToNat (r1.takeWhile isDigit) : Int), r1.dropWhile isDigit)
      | '-' :: r1 =>
        if r1.takeWhile isDigit = [] then (0, s)
        else (-(digitsToNat (r1.takeWhile isDigit) : Int), r1.dropWhile isDigit)
      | _ =>
        if r.takeWhile isDigit = [] then (0, s)
        else ((digitsToNat (r.takeWhile isDigit) : Int), r.dropWhile isDigit)
    else (0, s)
  | [] => (0, s)

/-- The rational `m * 10 ^ e / 10 ^ f`. -/
def decimalValue (m : Nat) (f : Nat) (e : Int) : ℚ :=
  match e with
  | Int.ofNat k => ((m * 10 ^ k : Nat) : ℚ) / ((10 ^ f : Nat) : ℚ)
  | Int.negSucc k => (m : ℚ) / ((10 ^ (f + (k + 1)) : Nat) : ℚ)

/-- The longest StrUnsignedDecimalLiteral (other than `Infinity`) at the start
of `s`: `digits`, `digits.`, `digits.digits` or `.digits`, each with an optional
exponent.  Returns its value and what follows it. -/
def scanUnsignedDecimal (s : List Char) : Option (ℚ × List Char) :=
  let ip := s.takeWhile isDigit
  let r1 := s.dropWhile isDigit
  match r1 with
  | '.' :: r2 =>
    let fp := r2.takeWhile isDigit
    let r3 := r2.dropWhile isDigit
    if ip = [] ∧ fp = [] then none
    else
      let ex := scanExponent r3
      some (decimalValue (digitsToNat (ip ++ fp)) fp.length ex.1, ex.2)
  | _ =>
    if ip = [] then none
    else
      let ex := scanExponent r1
      some (decimalValue (digitsToNat ip) 0 ex.1, ex.2)

/-- The text `Infinity`. -/
def infinityText : List Char := "Infinity".toList

/-- A StrDecimalLiteral without its sign, which must be the whole of `s`. -/
def unsignedLiteral (s : List Char) : JSNum :=
  if s = infinityText then JSNum.posInf
  else
    match scanUnsignedDecimal s with
    | some (v, []) => JSNum.ofRat v
    | _ => JSNum.nan

/-- The abstract operation StringToNumber, that is `Number(s)` for a string:
blank text is `0`; otherwise the trimmed text must be a binary, octal or
hexadecimal integer literal or an optionally signed decimal literal, and the
result is the binary64 value nearest to what the literal denotes. -/
def stringToNumber (s : List Char) : JSNum :=
  match trim s with
  | [] => JSNum.fin 0
  | '0' :: 'x' :: r => match radixToNat 16 r with | some n => JSNum.ofRat n | none => JSNum.nan
  | '0' :: 'X' :: r => match radixToNat 16 r with | some n => JSNum.ofRat n | none => JSNum.nan
  | '0' :: 'o' :: r => match radixToNat 8 r with | some n => JSNum.ofRat n | none => JSNum.nan
  | '0' :: 'O' :: r => match radixToNat 8 r with | some n => JSNum.ofRat n | none => JSNum.nan
  | '0' :: 'b' :: r => match radixToNat 2 r with | some n => JSNum.ofRat n | none => JSNum.nan
  | '0' :: 'B' :: r => match radixToNat 2 r with | some n => JSNum.ofRat n | none => JSNum.nan
  | '+' :: r => unsignedLiteral r
  | '-' :: r => (unsignedLiteral r).neg
  | t => unsignedLiteral t

/-- The function `parseFloat`: the binary64 value nearest to the longest
decimal literal at the start of the text, after leading whitespace and an
optional sign. -/
def parseFloat (s : List Char) : JSNum :=
  let body (r : List Char) : JSNum :=
    if infinityText.isPrefixOf r then JSNum.posInf
    else
      match scanUnsignedDecimal r with
      | some (v, _) => JSNum.ofRat v
      | none => JSNum.nan
  match trimStart s with
  | '+' :: r => body r
  | '-' :: r => (body r).neg
  | t => body t

/-- The call `parseInt(s, 10)`: the digits at the start of the text, after
leading whitespace and an optional sign. -/
def parseInt10 (s : List Char) : JSNum :=
  let body (r : List Char) : JSNum :=
    if r.takeWhile isDigit = [] then JSNum.nan
    else JSNum.ofRat (digitsToNat (r.takeWhile isDigit))
  match trimStart s with
  | '+' :: r => body r
  | '-' :: r => (body r).neg
  | t => body t

/-! ## Values -/

/-- Numeric interpretation mode, the state `numericTimeAs`. -/
inductive NumericMode where
  | HOURS
  | MINUTES
deriving DecidableEq

/-- A cell value. -/
inductive JSVal where
  | undefined
  | null
  | bool (b : Bool)
  | num (n : JSNum)
  | str (s : List Char)
  | date (t : Option Int)
deriving DecidableEq

/-- What the host decides: `Date.parse` (`none` for `NaN`), the text of `Date`
objects and of numbers, and `String.prototype.toLowerCase` with the case
mappings of the host's Unicode tables.  The host's `toLowerCase` is used
where one text of the data is searched for in another (the text filters).
Where a lower-cased text is only matched with a fixed ASCII pattern, the
function `toLowerCase` above decides the same and is used instead. -/
structure JSEnv where
  dateParse : List Char → Option Int
  dateToString : Option Int → List Char
  numberToString : JSNum → List Char
  toLowerCase : List Char → List Char

namespace JSVal

/-- Truthiness (ToBoolean). -/
def truthy : JSVal → Bool
  | undefined => false
  | null => false
  | bool b => b
  | num n => n.truthy
  | str s => decide (s ≠ [])
  | date _ => true

/-- The test `v == null`. -/
def isNullish : JSVal → Bool
  | undefined => true
  | null => true
  | _ => false

/-- The call `String(v)`. -/
def toStr (E : JSEnv) : JSVal → List Char
  | undefined => "undefined".toList
  | null => "null".toList
  | bool true => "true".toList
  | bool false => "false".toList
  | num n => E.numberToString n
  | str s => s
  | date t => E.dateToString t

/-- The call `Number(v)`. -/
def toNumber : JSVal → JSNum
  | undefined => JSNum.nan
  | null => JSNum.fin 0
  | bool true => JSNum.fin 1
  | bool false => JSNum.fin 0
  | num n => n
  | str s => stringToNumber s
  | date (some t) => JSNum.fin t
  | date none => JSNum.nan

/-- The expression `v ?? d`. -/
def orDefault (v d : JSVal) : JSVal := if v.isNullish then d else v

end JSVal

/-! ## Objects -/

/-- An object: its own properties in `Object.keys` order. -/
abbrev JSObj := List (List Char × JSVal)

/-- An array index: the canonical decimal text of an integer below `2^32 - 1`. -/
def arrayIndex (k : List Char) : Option Nat :=
  if k ≠ [] ∧ k.all isDigit ∧ (k = ['0'] ∨ k.head? ≠ some '0') ∧ digitsToNat k < 4294967295
  then some (digitsToNat k) else none

namespace JSObj

/-- The call `Object.keys(o)`. -/
def keys (o : JSObj) : List (List Char) := o.map Prod.fst

/-- The property read `o[k]`. -/
def get : JSObj → List Char → JSVal
  | [], _ => JSVal.undefined
  | (k1, v) :: rest, k => if k1 = k then v else get rest k

/-- Whether `k` is an own property. -/
def has (o : JSObj) (k : List Char) : Bool := o.any (fun p => decide (p.1 = k))

/-- Replace the value of an own property. -/
def replace : JSObj → List Char → JSVal → JSObj
  | [], _, _ => []
  | (k1, v1) :: rest, k, v => if k1 = k then (k1, v) :: rest else (k1, v1) :: replace rest k v

/-- Add a property that is an array index: in ascending numeric order among
the array indices, which come before every other key. -/
def insertIndex : JSObj → Nat → List Char → JSVal → JSObj
  | [], _, k, v => [(k, v)]
  | (k1, v1) :: rest, n, k, v =>
    match arrayIndex k1 with
    | some n1 => if n1 < n then (k1, v1) :: insertIndex rest n k v else (k, v) :: (k1, v1) :: rest
    | none => (k, v) :: (k1, v1) :: rest

/-- The assignment `o[k] = v` on a plain object: an own property keeps its
place; a new array index is placed among the array indices; any other new
key goes last.  Assigning to `__proto__` creates no own property. -/
def set (o : JSObj) (k : List Char) (v : JSVal) : JSObj :=
  if k = "__proto__".toList then o
  else if o.has k then o.replace k v
  else
    match arrayIndex k with
    | some n => o.insertIndex n k v
    | none => o ++ [(k, v)]

end JSObj

/-! ## Header normalizer and value parsers -/

/-- Source `normalizeHeaderKey`, on a string: `key.replace(/\s+/g, ' ').trim()`. -/
def normalizeHeaderKeyStr (key : List Char) : List Char := trim (collapseWs key)

/-- Source `normalizeHeaderKey`: a value that is not a string is returned
unchanged. -/
def normalizeHeaderKey : JSVal → JSVal
  | JSVal.str s => JSVal.str (normalizeHeaderKeyStr s)
  | v => v

/-- The loop shared by `isDateSeparatorRow` and `toRecord`:
`Object.keys(row).forEach((k) => normalized[normalizeHeaderKey(k)] = row[k])`,
started from the empty object. -/
def normalizeRow (row : JSObj) : JSObj :=
  row.keys.foldl (fun normalized k => normalized.set (normalizeHeaderKeyStr k) (row.get k)) []

/-- The time value of `new Date(t)` for a number: TimeClip. -/
def timeClip : JSNum → Option Int
  | JSNum.fin q =>
    if 8640000000000000 < |q| then none
    else some (if q < 0 then -⌊-q⌋ else ⌊q⌋)
  | _ => none

/-- The time value of `new Date(value)`. -/
def newDate (E : JSEnv) : JSVal → Option Int
  | JSVal.str s => E.dateParse s
  | JSVal.date t => t
  | v => timeClip v.toNumber

/-- Source `parseDateValue`.  The result is `none` for `null`, and the time
value of the date otherwise. -/
def parseDateValue (E : JSEnv) (value : JSVal) : Option Int :=
  if !value.truthy then none
  else
    match value with
    | JSVal.date (some t) => some t
    | _ => newDate E value

/-- The productive-hours fallback: `productiveHours ? Math.round(productiveHours * 60) : 0`. -/
def fallbackMinutes (productiveHours : JSNum) : JSNum :=
  if productiveHours.truthy then (productiveHours.mul (JSNum.fin 60)).round else JSNum.fin 0

/-- The numeric rule: `numericTimeAs === 'HOURS' ? Math.round(n * 60) : Math.round(n)`. -/
def byMode (mode : NumericMode) (n : JSNum) : JSNum :=
  match mode with
  | NumericMode.HOURS => (n.mul (JSNum.fin 60)).round
  | NumericMode.MINUTES => n.round

/-- The test `/^\d+:\d{1,2}$/.test(text)`: one or more digits, a colon, and one
or two digits up to the end of the text. -/
def colonTest (text : List Char) : Bool :=
  match text.dropWhile isDigit with
  | ':' :: m =>
    decide (text.takeWhile isDigit ≠ []) && (decide (m.length = 1) || decide (m.length = 2))
      && m.all isDigit
  | _ => false

/-- The part `(\d+(?:\.\d+)?)\s*h` of the pattern with its fraction present:
`ip` is the run of digits read so far and `r1` what follows it. -/
def hoursWithFraction (ip r1 : List Char) : Option (List Char × List Char) :=
  match r1 with
  | '.' :: r2 =>
    if r2.takeWhile isDigit = [] then none
    else
      match (r2.dropWhile isDigit).dropWhile isWs with
      | 'h' :: rest => some (ip ++ '.' :: r2.takeWhile isDigit, rest)
      | _ => none
  | _ => none

/-- The same part with its fraction absent. -/
def hoursWithoutFraction (ip r1 : List Char) : Option (List Char × List Char) :=
  match r1.dropWhile isWs with
  | 'h' :: rest => some (ip, rest)
  | _ => none

/-- The part `(\d+(?:\.\d+)?)\s*h` of the pattern, tried at the start of `s`:
the text of group 1 and what follows the `h`.  The digits are taken greedily;
giving any of them back never helps, since the next character would be a
digit where `.`, whitespace or `h` is required.  The fraction is tried first,
and when the `h` does not follow it the pattern is retried without it. -/
def matchHours (s : List Char) : Option (List Char × List Char) :=
  let ip := s.takeWhile isDigit
  let r1 := s.dropWhile isDigit
  if ip = [] then none
  else
    match hoursWithFraction ip r1 with
    | some r => some r
    | none => hoursWithoutFraction ip r1

/-- The part `(\d+)\s*m` of the pattern, tried at the start of `s`: the text of
group 2. -/
def matchMinutes (s : List Char) : Option (List Char) :=
  if s.takeWhile isDigit = [] then none
  else
    match (s.dropWhile isDigit).dropWhile isWs with
    | 'm' :: _ => some (s.takeWhile isDigit)
    | _ => none

/-- The call `text.match(/(?:(\d+(?:\.\d+)?)\s*h)?\s*(?:(\d+)\s*m)?/)`: groups 1
and 2, `none` for a group that did not take part.  The pattern is not
anchored and both of its parts are optional, so it always matches at index 0
(the result is never `null`): the hours part if it can, then whitespace, then
the minutes part if it can. -/
def matchHM (text : List Char) : Option (List Char) × Option (List Char) :=
  match matchHours text with
  | some (h, rest) => (some h, matchMinutes (rest.dropWhile isWs))
  | none => (none, matchMinutes (text.dropWhile isWs))

/-- Truthiness of a capture group: it took part and is not the empty text. -/
def groupTruthy : Option (List Char) → Bool
  | some g => decide (g ≠ [])
  | none => false

/-- The expression `matched[1] ? parseFloat(matched[1]) : 0`. -/
def groupHours (g : Option (List Char)) : JSNum :=
  match g with
  | some t => if t ≠ [] then parseFloat t else JSNum.fin 0
  | none => JSNum.fin 0

/-- The expression `matched[2] ? parseInt(matched[2], 10) : 0`. -/
def groupMinutes (g : Option (List Char)) : JSNum :=
  match g with
  | some t => if t ≠ [] then parseInt10 t else JSNum.fin 0
  | none => JSNum.fin 0

/-- Source `parseTimeSpentToMinutes`. -/
def parseTimeSpentToMinutes (E : JSEnv) (numericTimeAs : NumericMode) (value : JSVal)
    (productiveHours : JSNum) : JSNum :=
  if value.isNullish || value = JSVal.str [] then fallbackMinutes productiveHours
  else
    match value with
    | JSVal.num n => byMode numericTimeAs n
    | _ =>
      let text := toLowerCase (trim (value.toStr E))
      if colonTest text then
        match (splitOnChar ':' text).map stringToNumber with
        | h :: m :: _ => (h.mul (JSNum.fin 60)).add m
        | _ => JSNum.nan
      else
        let matched := matchHM text
        if groupTruthy matched.1 || groupTruthy matched.2 then
          let hours := groupHours matched.1
          let minutes := groupMinutes matched.2
          ((hours.mul (JSNum.fin 60)).add minutes).round
        else
          let maybeNumber := stringToNumber text
          if !maybeNumber.isNaN then byMode numericTimeAs maybeNumber
          else fallbackMinutes productiveHours

/-- The call `ticketValue.match(/#!\/(\d+)$/)`: group 1, the digits that end
the text, when `#!/` stands right before them. -/
def matchTicketFragment (s : List Char) : Option (List Char) :=
  let digits := (s.reverse.takeWhile isDigit).reverse
  let before := (s.reverse.dropWhile isDigit).reverse
  if digits ≠ [] ∧ "#!/".toList.reverse.isPrefixOf before.reverse then some digits else none

/-- Source `extractTicketNumber`. -/
def extractTicketNumber (ticketValue : JSVal) : JSVal :=
  match ticketValue with
  | JSVal.str s =>
    if s = [] then ticketValue
    else
      match matchTicketFragment s with
      | some digits => JSVal.str ('#' :: digits)
      | none => ticketValue
  | _ => ticketValue

/-! ## Row classifier and record builder -/

/-- The test `/^\d{1,2}\/\d{1,2}\/\d{4}$/.test(taskValue)`. -/
def slashDateTest (t : List Char) : Bool :=
  match t.dropWhile isDigit with
  | '/' :: r1 =>
    match r1.dropWhile isDigit with
    | '/' :: r2 =>
      (decide ((t.takeWhile isDigit).length = 1) || decide ((t.takeWhile isDigit).length = 2))
        && (decide ((r1.takeWhile isDigit).length = 1) || decide ((r1.takeWhile isDigit).length = 2))
        && decide (r2.length = 4) && r2.all isDigit
    | _ => false
  | _ => false

/-- Source `isDateSeparatorRow`.  The disjunct `taskValue instanceof Date` is
never true, `taskValue` being a string. -/
def isDateSeparatorRow (E : JSEnv) (row : JSObj) : Bool :=
  let normalized := normalizeRow row
  let hasOnlyTaskDate :=
    (normalized.get "Task".toList).truthy
      && !(normalized.get "Date".toList).truthy
      && !(normalized.get "Ticket".toList).truthy
      && !(normalized.get "Status".toList).truthy
      && !(normalized.get "Developer".toList).truthy
  if hasOnlyTaskDate then
    let taskValue := trim ((normalized.get "Task".toList).toStr E)
    slashDateTest taskValue || false || (E.dateParse taskValue).isSome
  else false

/-- A work record, as built by `toRecord`. -/
structure WorkRecord where
  date : Option Int
  ticket : List Char
  ticketDisplay : JSVal
  task : List Char
  status : List Char
  productive : JSNum
  timeSpentMinutes : JSNum
  developer : List Char
  comments : List Char
  original : JSObj
deriving DecidableEq

/-- The expression `String(v ?? '').trim()`. -/
def textField (E : JSEnv) (v : JSVal) : List Char := trim ((v.orDefault (JSVal.str [])).toStr E)

/-- Source `toRecord`. -/
def toRecord (E : JSEnv) (numericTimeAs : NumericMode) (row : JSObj) : WorkRecord :=
  let normalized := normalizeRow row
  let date := parseDateValue E (normalized.get "Date".toList)
  let ticketRaw := textField E (normalized.get "Ticket".toList)
  let productiveHours :=
    if (normalized.get "Productive".toList).truthy
    then (normalized.get "Productive".toList).toNumber else JSNum.fin 0
  { date := date
    ticket := ticketRaw
    ticketDisplay := extractTicketNumber (JSVal.str ticketRaw)
    task := textField E (normalized.get "Task".toList)
    status := textField E (normalized.get "Status".toList)
    productive := productiveHours
    timeSpentMinutes :=
      parseTimeSpentToMinutes E numericTimeAs (normalized.get "Time Spent".toList) productiveHours
    developer := textField E (normalized.get "Developer".toList)
    comments := textField E (normalized.get "Comments".toList)
    original := normalized }

/-! ## Sheet loader -/

/-- The seven required columns. -/
def requiredColumns : List (List Char) :=
  ["Date".toList, "Ticket".toList, "Task".toList, "Status".toList, "Productive".toList,
    "Time Spent".toList, "Developer".toList]

/-- Result of `requiredColumnsPresent`. -/
structure Presence where
  ok : Bool
  missing : List (List Char)
deriving DecidableEq

/-- Source `requiredColumnsPresent`. -/
def requiredColumnsPresent (sampleRow : JSObj) : Presence :=
  let present := sampleRow.keys.map normalizeHeaderKeyStr
  let missing := requiredColumns.filter (fun col => !present.contains col)
  { ok := decide (missing.length = 0), missing := missing }

/-- Body of the loop of `findHeaderRow`, from index `i` on. -/
def findHeaderRowFrom : Nat → List JSObj → Int
  | _, [] => -1
  | i, row :: rest =>
    if i < 10 then
      let keys := row.keys.map normalizeHeaderKeyStr
      if keys.contains "Date".toList && keys.contains "Ticket".toList
          && keys.contains "Task".toList && keys.contains "Status".toList
          && keys.contains "Productive".toList && keys.contains "Time Spent".toList
          && keys.contains "Developer".toList
      then (i : Int)
      else findHeaderRowFrom (i + 1) rest
    else -1

/-- Source `findHeaderRow`. -/
def findHeaderRow (json : List JSObj) : Int := findHeaderRowFrom 0 json

/-- The call `row.join('')` on an array of cells: `null` and `undefined` give
the empty text. -/
def joinCells (E : JSEnv) (row : List JSVal) : List Char :=
  joinWith [] (row.map (fun v => if v.isNullish then [] else v.toStr E))

/-- The header test of the array-format scan in `loadSheetData`. -/
def gridHeaderTest (E : JSEnv) (row : List JSVal) : Bool :=
  decide (row.length ≥ 7) &&
    (let rowStr := toLowerCase (joinCells E row)
     includes rowStr "date".toList && includes rowStr "ticket".toList
       && includes rowStr "task".toList && includes rowStr "status".toList
       && includes rowStr "productive".toList && includes rowStr "developer".toList)

/-- The array-format scan of `loadSheetData`, from index `i` on: the first of
the first ten rows that passes the header test, or `-1`. -/
def findGridHeaderFrom (E : JSEnv) : Nat → List (List JSVal) → Int
  | _, [] => -1
  | i, row :: rest =>
    if i < 10 then
      if gridHeaderTest E row then (i : Int) else findGridHeaderFrom E (i + 1) rest
    else -1

/-- The row object built from the header row and one data row:
`headers.forEach((header, index) => { if (header && row[index] !== undefined) obj[header] = row[index]; })`. -/
def rowToObject (E : JSEnv) (headers row : List JSVal) : JSObj :=
  headers.enum.foldl (fun obj hi =>
    if hi.2.truthy && decide (row.getD hi.1 JSVal.undefined ≠ JSVal.undefined)
    then obj.set (hi.2.toStr E) (row.getD hi.1 JSVal.undefined) else obj) []

/-- A sheet, as `XLSX.utils.sheet_to_json` reads it: `objectRows` with the
options `defval: ''` and `raw: false`, `arrayRows` with `header: 1` added. -/
structure Sheet where
  objectRows : List JSObj
  arrayRows : List (List JSVal)

/-- The state written by `loadSheetData`: `setRawRows` and `setFileError`. -/
structure LoadResult where
  rawRows : List WorkRecord
  fileError : List Char
deriving DecidableEq

/-- Message of the empty-sheet failure. -/
def emptySheetMessage : List Char := "The selected sheet is empty.".toList

/-- Message of the header-not-found failure. -/
def headerNotFoundMessage : List Char :=
  "Could not find header row with required columns: Date, Ticket, Task, Status, Productive, Time Spent, Developer".toList

/-- Message of the no-data-rows failure. -/
def noDataRowsMessage : List Char := "No data rows found after header.".toList

/-- Message of the missing-columns failure. -/
def missingColumnsMessage (missing found : List (List Char)) : List Char :=
  "Missing required columns: ".toList ++ joinWith ", ".toList missing
    ++ ". Found columns: ".toList ++ joinWith ", ".toList found

/-- The rows that `loadSheetData` takes as data once the header is located,
or `none` when neither reading of the sheet shows a header row. -/
def locateRows (E : JSEnv) (sheet : Sheet) : Option (List JSObj) :=
  let json := sheet.objectRows
  let headerRowIndex := findHeaderRow json
  if headerRowIndex = -1 then
    let grid := sheet.arrayRows
    let headerRow := findGridHeaderFrom E 0 grid
    if headerRow = -1 then none
    else
      let headers := grid.getD headerRow.toNat []
      let dataRows := grid.drop (headerRow.toNat + 1)
      some ((dataRows.map (rowToObject E headers)).filter (fun row => decide (row.keys.length > 0)))
  else if headerRowIndex > 0 then some (json.drop headerRowIndex.toNat)
  else some json

/-- Source `loadSheetData`, for the sheet `workbook.Sheets[sheetName]`. -/
def loadSheetData (E : JSEnv) (numericTimeAs : NumericMode) (sheet : Sheet) : LoadResult :=
  if sheet.objectRows.length = 0 then { rawRows := [], fileError := emptySheetMessage }
  else
    match locateRows E sheet with
    | none => { rawRows := [], fileError := headerNotFoundMessage }
    | some json =>
      match json with
      | [] => { rawRows := [], fileError := noDataRowsMessage }
      | first :: _ =>
        let presence := requiredColumnsPresent first
        if !presence.ok then
          { rawRows := [], fileError := missingColumnsMessage presence.missing first.keys }
        else
          let validRows := json.filter (fun row => !isDateSeparatorRow E row)
          let records := (validRows.map (toRecord E numericTimeAs)).filter
            (fun record => decide (record.developer ≠ []) && decide (record.task ≠ []))
          { rawRows := records, fileError := [] }

/-! ## Comparisons and further arithmetic on numbers -/

/-- The comparison `a < b` on numbers. -/
def JSNum.lt : JSNum → JSNum → Bool
  | JSNum.nan, _ => false
  | _, JSNum.nan => false
  | JSNum.fin a, JSNum.fin b => decide (a < b)
  | JSNum.negInf, JSNum.negInf => false
  | JSNum.negInf, _ => true
  | _, JSNum.negInf => false
  | JSNum.posInf, _ => false
  | _, JSNum.posInf => true

/-- The comparison `a <= b` on numbers. -/
def JSNum.le (a b : JSNum) : Bool := !a.isNaN && !b.isNaN && !(b.lt a)

/-- The `-` operator on numbers. -/
def JSNum.sub (a b : JSNum) : JSNum := a.add b.neg

/-- The `/` operator on numbers. -/
def JSNum.div : JSNum → JSNum → JSNum
  | JSNum.nan, _ => JSNum.nan
  | _, JSNum.nan => JSNum.nan
  | JSNum.fin a, JSNum.fin b =>
    if b = 0 then (if a = 0 then JSNum.nan else if 0 < a then JSNum.posInf else JSNum.negInf)
    else JSNum.ofRat (a / b)
  | JSNum.fin _, _ => JSNum.fin 0
  | JSNum.posInf, JSNum.fin b => if 0 ≤ b then JSNum.posInf else JSNum.negInf
  | JSNum.negInf, JSNum.fin b => if 0 ≤ b then JSNum.negInf else JSNum.posInf
  | _, _ => JSNum.nan

/-- The expression `x || 0` on a number. -/
def JSNum.orZero (x : JSNum) : JSNum := if x.truthy then x else JSNum.fin 0

/-! ## Leave classification and the filter engine -/

/-- Source `isLeaveEntry`.  The fields of a record are strings, so
`String(row.task || '')` is the field itself. -/
def isLeaveEntry (row : WorkRecord) : Bool :=
  let task := trim (toLowerCase row.task)
  let ticket := trim (toLowerCase row.ticket)
  let status := trim (toLowerCase row.status)
  includes task "leave".toList
    || includes ticket "leave".toList
    || includes status "leave".toList
    || includes task "vacation".toList
    || includes task "holiday".toList
    || includes task "sick".toList
    || includes task "time off".toList
    || includes task "pto".toList

/-- The filter state of the report tab: `excludeLeave`, `developerFilter`,
`statusFilter`, `productiveFilter`, `textQuery`, `startDate`, `endDate`. -/
structure FilterCriteria where
  excludeLeave : Bool
  developerFilter : List Char
  statusFilter : List Char
  productiveFilter : List Char
  textQuery : List Char
  startDate : List Char
  endDate : List Char
deriving DecidableEq

/-- The local time zone of the host, as the date filters use it:
`endOfLocalDay t` is the time value of
`new Date(to.getFullYear(), to.getMonth(), to.getDate(), 23, 59, 59, 999)`
for a valid date `to` of time value `t` (`none` for an invalid date). -/
structure TimeZone where
  endOfLocalDay : Int → Option Int

/-- The comparison `row.date < from` of a valid date with a date that may be
invalid. -/
def dateBefore (t : Int) (bound : Option Int) : Bool :=
  match bound with
  | some b => decide (t < b)
  | none => false

/-- The comparison `row.date > bound` of a valid date with a date that may be
invalid. -/
def dateAfter (t : Int) (bound : Option Int) : Bool :=
  match bound with
  | some b => decide (b < t)
  | none => false

/-- The start-date test `!row.date || row.date < from`, with
`from = new Date(startDate)`. -/
def rejectedByStart (E : JSEnv) (startDate : List Char) (date : Option Int) : Bool :=
  match date with
  | none => true
  | some t => dateBefore t (E.dateParse startDate)

/-- The end-date test `!row.date || row.date > new Date(to.getFullYear(),
to.getMonth(), to.getDate(), 23, 59, 59, 999)`, with `to = new Date(endDate)`. -/
def rejectedByEnd (E : JSEnv) (Z : TimeZone) (endDate : List Char) (date : Option Int) : Bool :=
  match date with
  | none => true
  | some t => dateAfter t ((E.dateParse endDate).bind Z.endOfLocalDay)

/-- The callback of `rawRows.filter` in `filteredRows`. -/
def filterKeeps (E : JSEnv) (Z : TimeZone) (c : FilterCriteria) (row : WorkRecord) : Bool :=
  if c.excludeLeave && isLeaveEntry row then false
  else if decide (c.developerFilter ≠ "ALL".toList) && decide (row.developer ≠ c.developerFilter)
  then false
  else if decide (c.statusFilter ≠ "ALL".toList) && decide (row.status ≠ c.statusFilter)
  then false
  else if decide (c.productiveFilter ≠ "ALL".toList)
      && decide (c.productiveFilter = "YES".toList) && row.productive.le (JSNum.fin 0)
  then false
  else if decide (c.productiveFilter ≠ "ALL".toList)
      && decide (c.productiveFilter = "NO".toList) && (JSNum.fin 0).lt row.productive
  then false
  else if decide (c.textQuery ≠ [])
      && !includes
        (E.toLowerCase (row.ticket ++ ' ' :: (row.task ++ ' ' :: row.ticketDisplay.toStr E)))
        (E.toLowerCase c.textQuery)
  then false
  else if decide (c.startDate ≠ []) && rejectedByStart E c.startDate row.date then false
  else if decide (c.endDate ≠ []) && rejectedByEnd E Z c.endDate row.date then false
  else true

/-- Source `filteredRows`. -/
def filteredRows (E : JSEnv) (Z : TimeZone) (c : FilterCriteria) (rawRows : List WorkRecord) :
    List WorkRecord :=
  rawRows.filter (filterKeeps E Z c)

/-- The filter state of the performance tab. -/
structure PerformanceCriteria where
  excludeLeave : Bool
  performanceDeveloper : List Char
  performanceStartDate : List Char
  performanceEndDate : List Char
  performanceTicketFilter : List Char
deriving DecidableEq

/-- Source `performanceRows`. -/
def performanceRows (E : JSEnv) (Z : TimeZone) (c : PerformanceCriteria)
    (rawRows : List WorkRecord) : List WorkRecord :=
  if c.performanceDeveloper = [] then []
  else
    rawRows.filter (fun row =>
      if c.excludeLeave && isLeaveEntry row then false
      else if decide (row.developer ≠ c.performanceDeveloper) then false
      else if decide (c.performanceStartDate ≠ [])
          && rejectedByStart E c.performanceStartDate row.date then false
      else if decide (c.performanceEndDate ≠ [])
          && rejectedByEnd E Z c.performanceEndDate row.date then false
      else if decide (c.performanceTicketFilter ≠ [])
          && !includes (E.toLowerCase (row.ticket ++ ' ' :: row.ticketDisplay.toStr E))
            (E.toLowerCase c.performanceTicketFilter)
      then false
      else true)

/-! ## Aggregator -/

/-- The value of `totals`. -/
structure Totals where
  minutes : JSNum
  productiveHours : JSNum
  tasks : Nat
  developers : Nat
  productiveCount : Nat
  nonProductiveCount : Nat
deriving DecidableEq

/-- Source `totals`. -/
def totals (filteredRows : List WorkRecord) : Totals where
  minutes := filteredRows.foldl (fun acc r => acc.add r.timeSpentMinutes.orZero) (JSNum.fin 0)
  productiveHours := filteredRows.foldl (fun acc r => acc.add r.productive.orZero) (JSNum.fin 0)
  tasks := filteredRows.length
  developers := ((filteredRows.map (fun r => r.developer)).filter (fun d => decide (d ≠ []))).dedup.length
  productiveCount := (filteredRows.filter (fun r => (JSNum.fin 0).lt r.productive)).length
  nonProductiveCount := (filteredRows.filter (fun r => r.productive.le (JSNum.fin 0))).length

/-- A `Map`: its entries in insertion order. -/
abbrev JSMap (K V : Type) := List (K × V)

namespace JSMap

variable {K V : Type} [DecidableEq K]

/-- The call `map.has(k)`. -/
def has (m : JSMap K V) (k : K) : Bool := m.any (fun e => decide (e.1 = k))

/-- The call `map.get(k)`, `none` for `undefined`. -/
def get? : JSMap K V → K → Option V
  | [], _ => none
  | (k1, v) :: rest, k => if k1 = k then some v else get? rest k

/-- The call `map.set(k, v)`: an entry keeps its place, a new key goes last. -/
def set : JSMap K V → K → V → JSMap K V
  | [], k, v => [(k, v)]
  | (k1, v1) :: rest, k, v => if k1 = k then (k1, v) :: rest else (k1, v1) :: set rest k v

end JSMap

/-- Insertion of `x` into a sorted array: after the elements it has to follow. -/
def insertSorted {α : Type} (after : α → α → Bool) (x : α) : List α → List α
  | [] => [x]
  | y :: l => if after x y then y :: insertSorted after x l else x :: y :: l

/-- The method `Array.prototype.sort(compare)` for a comparator that is a
consistent ordering, where `after a b` tells whether `compare(a, b) > 0`.
The sort is stable: its result is the one arrangement that is sorted and
keeps equal elements in their order, which insertion from the right
computes. -/
def jsSort {α : Type} (after : α → α → Bool) : List α → List α
  | [] => []
  | x :: l => insertSorted after x (jsSort after l)

/-- The comparator is a consistent ordering of the elements of `l`: "has to
follow" is a strict weak ordering of them (no element follows itself, the
relation is transitive, and so is being neither before nor after). -/
def ConsistentOn {α : Type} (after : α → α → Bool) (l : List α) : Prop :=
  (∀ a ∈ l, after a a = false)
  ∧ (∀ a ∈ l, ∀ b ∈ l, ∀ c ∈ l, after a b = true → after b c = true → after a c = true)
  ∧ (∀ a ∈ l, ∀ b ∈ l, ∀ c ∈ l, after a b = false → after b a = false →
      after b c = false → after c b = false → after a c = false ∧ after c a = false)

/-- The key `r.status || 'Unknown'`. -/
def statusKey (r : WorkRecord) : List Char :=
  if r.status ≠ [] then r.status else "Unknown".toList

/-- The loop of `statusBreakdown`:
`map.set(key, (map.get(key) || 0) + 1)` for every row. -/
def statusCounts (rows : List WorkRecord) : JSMap (List Char) Nat :=
  rows.foldl (fun map r => map.set (statusKey r) ((map.get? (statusKey r)).getD 0 + 1)) []

/-- Source `statusBreakdown`:
`Array.from(map.entries()).sort((a, b) => b[1] - a[1])`.  The comparator, a
difference of counts, is a consistent ordering. -/
def statusBreakdown (filteredRows : List WorkRecord) : List (List Char × Nat) :=
  jsSort (fun a b => decide ((b.2 : Int) - (a.2 : Int) > 0)) (statusCounts filteredRows)

/-- A `Set`, in insertion order: the call `set.add(x)`. -/
def setAdd {α : Type} [DecidableEq α] (s : List α) (x : α) : List α :=
  if x ∈ s then s else s ++ [x]

/-- A group of `groupedPerformanceData` while the rows are read. -/
structure GroupAcc where
  task : List Char
  entries : List WorkRecord
  totalMinutes : JSNum
  totalProductiveHours : JSNum
  tickets : List JSVal
  statuses : List (List Char)
  dates : List Int
  count : Nat
deriving DecidableEq

/-- A group of `groupedPerformanceData`. -/
structure TaskGroup where
  task : List Char
  entries : List WorkRecord
  totalMinutes : JSNum
  totalProductiveHours : JSNum
  tickets : List JSVal
  statuses : List (List Char)
  dates : List Int
  count : Nat
  avgProductiveHours : JSNum
  firstDate : JSVal
  lastDate : JSVal
deriving DecidableEq

/-- The key `row.task.trim() || 'Unnamed Task'`. -/
def taskKey (row : WorkRecord) : List Char :=
  if trim row.task ≠ [] then trim row.task else "Unnamed Task".toList

/-- The group that `taskGroups.set(taskKey, ...)` creates. -/
def newGroup (taskKey : List Char) : GroupAcc :=
  { task := taskKey, entries := [], totalMinutes := JSNum.fin 0,
    totalProductiveHours := JSNum.fin 0, tickets := [], statuses := [], dates := [], count := 0 }

/-- The updates of a group for one row. -/
def addToGroup (group : GroupAcc) (row : WorkRecord) : GroupAcc :=
  { task := group.task
    entries := group.entries ++ [row]
    totalMinutes := group.totalMinutes.add row.timeSpentMinutes.orZero
    totalProductiveHours := group.totalProductiveHours.add row.productive.orZero
    tickets := setAdd group.tickets
      (if row.ticketDisplay.truthy then row.ticketDisplay else JSVal.str row.ticket)
    statuses := setAdd group.statuses row.status
    dates := match row.date with
      | some d => group.dates ++ [d]
      | none => group.dates
    count := group.count + 1 }

/-- Body of the loop of `groupedPerformanceData` for one row. -/
def groupRow (taskGroups : JSMap (List Char) GroupAcc) (row : WorkRecord) :
    JSMap (List Char) GroupAcc :=
  let key := taskKey row
  let taskGroups1 := if !taskGroups.has key then taskGroups.set key (newGroup key) else taskGroups
  match taskGroups1.get? key with
  | some group => taskGroups1.set key (addToGroup group row)
  | none => taskGroups1

/-- The least element of a non-empty list of time values: `Math.min(...)`. -/
def minTime : List Int → Int
  | [] => 0
  | d :: ds => ds.foldl min d

/-- The greatest element of a non-empty list of time values: `Math.max(...)`. -/
def maxTime : List Int → Int
  | [] => 0
  | d :: ds => ds.foldl max d

/-- The group as the final `map` of `groupedPerformanceData` returns it. -/
def finishGroup (group : GroupAcc) : TaskGroup :=
  { task := group.task
    entries := group.entries
    totalMinutes := group.totalMinutes
    totalProductiveHours := group.totalProductiveHours
    tickets := group.tickets.filter (fun t => t.truthy)
    statuses := group.statuses.filter (fun s => decide (s ≠ []))
    dates := group.dates
    count := group.count
    avgProductiveHours := group.totalProductiveHours.div (JSNum.fin group.count)
    firstDate :=
      if group.dates.length ≠ 0 then JSVal.date (timeClip (JSNum.fin (minTime group.dates)))
      else JSVal.null
    lastDate :=
      if group.dates.length ≠ 0 then JSVal.date (timeClip (JSNum.fin (maxTime group.dates)))
      else JSVal.null }

/-- What `Array.prototype.sort` leaves to the implementation, for the array
of groups.  `sort after l` is the array after `l.sort(compare)`, where
`after a b` tells whether `compare(a, b) > 0` (a comparator that returns NaN
counts as returning `0`).  The result is a permutation of the array.  It is
the stable sort when the comparator is a consistent ordering of the elements;
otherwise the order is implementation-defined. -/
structure SortEngine where
  sort : (TaskGroup → TaskGroup → Bool) → List TaskGroup → List TaskGroup
  perm : ∀ after l, (sort after l).Perm l
  stable : ∀ after l, ConsistentOn after l → sort after l = jsSort after l

/-- Source `groupedPerformanceData`; `none` is `null`.  The difference of two
totals is NaN when one of them is, and then the comparator is not a
consistent ordering: the order of the groups is the engine's. -/
def groupedPerformanceData (S : SortEngine) (groupByTask : Bool)
    (performanceRows : List WorkRecord) : Option (List TaskGroup) :=
  if !groupByTask || performanceRows.length = 0 then none
  else
    let taskGroups := performanceRows.foldl groupRow []
    some (S.sort
      (fun a b => (JSNum.fin 0).lt (b.totalProductiveHours.sub a.totalProductiveHours))
      ((taskGroups.map Prod.snd).map finishGroup))


/-- The value of `performanceTotals`. -/
structure PerformanceTotals where
  minutes : JSNum
  productiveHours : JSNum
  tasks : Nat
  productiveCount : Nat
  nonProductiveCount : Nat
  status : List (List Char × Nat)
deriving DecidableEq

/-- Source `performanceTotals`. -/
def performanceTotals (performanceRows : List WorkRecord) : PerformanceTotals where
  minutes := performanceRows.foldl (fun acc r => acc.add r.timeSpentMinutes.orZero) (JSNum.fin 0)
  productiveHours :=
    performanceRows.foldl (fun acc r => acc.add r.productive.orZero) (JSNum.fin 0)
  tasks := performanceRows.length
  productiveCount := (performanceRows.filter (fun r => (JSNum.fin 0).lt r.productive)).length
  nonProductiveCount := (performanceRows.filter (fun r => r.productive.le (JSNum.fin 0))).length
  status :=
    jsSort (fun a b => decide ((b.2 : Int) - (a.2 : Int) > 0))
      (performanceRows.foldl
        (fun (statusMap : JSMap (List Char) Nat) r =>
          statusMap.set (statusKey r) ((statusMap.get? (statusKey r)).getD 0 + 1)) [])

/-- The filter state of the report tab when the component is mounted: the
initial values of the `useState` calls. -/
def initialCriteria : FilterCriteria :=
  { excludeLeave := false
    developerFilter := "ALL".toList
    statusFilter := "ALL".toList
    productiveFilter := "ALL".toList
    textQuery := []
    startDate := []
    endDate := [] }

/-! ## Candidate sheets of a workbook -/

/-- The method `String.prototype.startsWith`. -/
def startsWith (s start : List Char) : Bool := start.isPrefixOf s

/-- The callback of `workbook.SheetNames.filter` in `handleFileChange`. -/
def isDataSheet (name : List Char) : Bool :=
  let lowerName := toLowerCase name
  !includes lowerName "template".toList
    && !includes lowerName "sheet15".toList
    && !startsWith lowerName "sheet".toList
    && decide (lowerName ≠ "summary".toList)

/-- The value `dataSheets` of `handleFileChange`, which becomes
`availableSheets`. -/
def dataSheets (sheetNames : List (List Char)) : List (List Char) :=
  sheetNames.filter isDataSheet

/-! ## The glass menu (`HorizontalScrollMenu`)

Widths and positions are pixel lengths; their arithmetic is kept exact here,
the rounding of binary64 being far below the half item width that decides an
index. -/

namespace JSNum

/-- The `*` operator on pixel lengths, without rounding. -/
def mulExact : JSNum → JSNum → JSNum
  | nan, _ => nan
  | _, nan => nan
  | fin a, fin b => fin (a * b)
  | fin a, posInf => if a = 0 then nan else if 0 < a then posInf else negInf
  | fin a, negInf => if a = 0 then nan else if 0 < a then negInf else posInf
  | posInf, fin b => if b = 0 then nan else if 0 < b then posInf else negInf
  | negInf, fin b => if b = 0 then nan else if 0 < b then negInf else posInf
  | posInf, posInf => posInf
  | posInf, negInf => negInf
  | negInf, posInf => negInf
  | negInf, negInf => posInf

/-- The `+` operator on pixel lengths, without rounding. -/
def addExact : JSNum → JSNum → JSNum
  | nan, _ => nan
  | _, nan => nan
  | fin a, fin b => fin (a + b)
  | fin _, posInf => posInf
  | fin _, negInf => negInf
  | posInf, fin _ => posInf
  | negInf, fin _ => negInf
  | posInf, posInf => posInf
  | posInf, negInf => nan
  | negInf, posInf => nan
  | negInf, negInf => negInf

/-- The `-` operator on pixel lengths, without rounding. -/
def subExact (a b : JSNum) : JSNum := a.addExact b.neg

/-- The `/` operator on pixel lengths, without rounding. -/
def divExact : JSNum → JSNum → JSNum
  | nan, _ => nan
  | _, nan => nan
  | fin a, fin b =>
    if b = 0 then (if a = 0 then nan else if 0 < a then posInf else negInf)
    else fin (a / b)
  | fin _, _ => fin 0
  | posInf, fin b => if 0 ≤ b then posInf else negInf
  | negInf, fin b => if 0 ≤ b then negInf else posInf
  | _, _ => nan

/-- The function `Math.max` of two numbers. -/
def max : JSNum → JSNum → JSNum
  | nan, _ => nan
  | _, nan => nan
  | fin a, fin b => fin (Max.max a b)
  | posInf, _ => posInf
  | _, posInf => posInf
  | negInf, b => b
  | a, negInf => a

/-- The function `Math.min` of two numbers. -/
def min : JSNum → JSNum → JSNum
  | nan, _ => nan
  | _, nan => nan
  | fin a, fin b => fin (Min.min a b)
  | negInf, _ => negInf
  | _, negInf => negInf
  | posInf, b => b
  | a, posInf => a

/-- The `%` operator on numbers: the remainder has the sign of the dividend. -/
def rem : JSNum → JSNum → JSNum
  | fin a, fin b =>
    if b = 0 then nan
    else fin (a - b * (if 0 ≤ a / b then (⌊a / b⌋ : ℤ) else (⌈a / b⌉ : ℤ)))
  | fin a, posInf => fin a
  | fin a, negInf => fin a
  | _, _ => nan

end JSNum

/-- The constant `itemWidth`: 120px width + 16px gap. -/
def itemWidth : JSNum := JSNum.fin 136

/-- The state of the component: the values of its `useState` calls. -/
structure MenuState where
  isDragging : Bool
  startX : JSNum
  glassPosition : JSNum
  activeIndex : JSNum
deriving DecidableEq

/-- The expression `(containerRect.width - totalItemsWidth) / 2 + 20`, with
`totalItemsWidth = items.length * itemWidth`. -/
def startOffset (width : JSNum) (length : Nat) : JSNum :=
  ((width.subExact ((JSNum.fin length).mulExact itemWidth)).divExact (JSNum.fin 2)).addExact
    (JSNum.fin 20)

/-- Source `getIndexFromGlassPosition`.  The container is `menuRef.current`,
given by the width of its bounding rectangle, `none` when the ref is empty;
`length` is `items.length`. -/
def getIndexFromGlassPosition (container : Option JSNum) (length : Nat) (position : JSNum) :
    JSNum :=
  match container with
  | none => JSNum.fin 0
  | some width =>
    let adjustedPosition := position.subExact (startOffset width length)
    let index := (adjustedPosition.divExact itemWidth).round
    JSNum.max (JSNum.fin 0) (JSNum.min ((JSNum.fin length).subExact (JSNum.fin 1)) index)

/-- Source `moveGlassToIndex`: the state after the call. -/
def moveGlassToIndex (container : Option JSNum) (length : Nat) (s : MenuState) (index : JSNum) :
    MenuState :=
  let actualIndex := index.rem (JSNum.fin length)
  match container with
  | none => s
  | some width =>
    let targetPosition := (startOffset width length).addExact (actualIndex.mulExact itemWidth)
    { s with glassPosition := targetPosition, activeIndex := actualIndex }

/-- Source `snapToClosest`: the state after the call. -/
def snapToClosest (container : Option JSNum) (length : Nat) (s : MenuState) : MenuState :=
  let closestIndex := getIndexFromGlassPosition container length s.glassPosition
  moveGlassToIndex container length s closestIndex

/-- Source `stopDrag`: the state after the call. -/
def stopDrag (container : Option JSNum) (length : Nat) (s : MenuState) : MenuState :=
  let s1 := if s.isDragging then snapToClosest container length s else s
  { s1 with isDragging := false }
/-! ## Vocabulary of the statements -/

/-- Every character is a decimal digit. -/
abbrev AllDigits (s : List Char) : Prop := ∀ c ∈ s, isDigit c = true

/-- Every character is whitespace. -/
abbrev AllWs (s : List Char) : Prop := ∀ c ∈ s, isWs c = true

/-- Text of an unsigned decimal numeral: the integer digits and, when `fp` is
not empty, a point and the fraction digits. -/
def decimalText (ip fp : List Char) : List Char := if fp = [] then ip else ip ++ '.' :: fp

/-- The number that `decimalText ip fp` denotes. -/
def decimalNumber (ip fp : List Char) : ℚ :=
  (digitsToNat ip : ℚ) + (digitsToNat fp : ℚ) / (10 : ℚ) ^ fp.length

/-- The expression `Math.round(hours * 60 + minutes)`. -/
def roundedMinutes (hours minutes : JSNum) : JSNum :=
  ((hours.mul (JSNum.fin 60)).add minutes).round

/-- A sign: none or `+`, or `-` for a negative numeral. -/
def IsSign (s : List Char) (negative : Bool) : Prop :=
  (s = [] ∧ negative = false) ∨ (s = ['+'] ∧ negative = false) ∨ (s = ['-'] ∧ negative = true)

/-- The significand of a decimal numeral with the integer digits `ip` and the
fraction digits `fp`: digits, or digits, a point and digits, with a digit on
at least one side of the point. -/
def IsSignificand (m ip fp : List Char) : Prop :=
  AllDigits ip ∧ AllDigits fp
    ∧ ((m = ip ∧ fp = [] ∧ ip ≠ []) ∨ (m = ip ++ '.' :: fp ∧ (ip ≠ [] ∨ fp ≠ [])))

/-- The exponent part of a decimal numeral, of value `e`: nothing, or `e` or
`E`, an optional sign and digits. -/
def IsExponent (x : List Char) (e : Int) : Prop :=
  (x = [] ∧ e = 0) ∨ ∃ c ds, (c = 'e' ∨ c = 'E') ∧ AllDigits ds ∧ ds ≠ []
    ∧ ((x = c :: ds ∧ e = (digitsToNat ds : Int))
      ∨ (x = c :: '+' :: ds ∧ e = (digitsToNat ds : Int))
      ∨ (x = c :: '-' :: ds ∧ e = -(digitsToNat ds : Int)))

/-- The number that `Number` gives for the decimal numeral with the given
sign, digits and exponent: the binary64 value nearest to
`ip.fp * 10 ^ e`, negated under a minus sign. -/
def numeralNumber (negative : Bool) (ip fp : List Char) (e : Int) : JSNum :=
  if negative then (JSNum.ofRat (decimalValue (digitsToNat (ip ++ fp)) fp.length e)).neg
  else JSNum.ofRat (decimalValue (digitsToNat (ip ++ fp)) fp.length e)

/-- The colon pattern: digits, a colon, one or two digits. -/
def IsColonText (t : List Char) : Prop :=
  ∃ h m, AllDigits h ∧ h ≠ [] ∧ AllDigits m ∧ (m.length = 1 ∨ m.length = 2) ∧ t = h ++ ':' :: m

/-- The hours part of the h/m pattern at the start of the text: a decimal
numeral, optional whitespace, `h`. -/
def StartsWithHours (t : List Char) : Prop :=
  ∃ ip fp ws rest, AllDigits ip ∧ ip ≠ [] ∧ AllDigits fp ∧ AllWs ws ∧
    t = decimalText ip fp ++ ws ++ 'h' :: rest

/-- The minutes part of the h/m pattern at the start of the text: optional
whitespace, digits, optional whitespace, `m`. -/
def StartsWithMinutes (t : List Char) : Prop :=
  ∃ ws0 b ws rest, AllWs ws0 ∧ AllDigits b ∧ b ≠ [] ∧ AllWs ws ∧
    t = ws0 ++ b ++ ws ++ 'm' :: rest

/-- The date-separator text: one or two digits, a slash, one or two digits, a
slash, four digits. -/
def IsSlashDate (t : List Char) : Prop :=
  ∃ d m y, AllDigits d ∧ (d.length = 1 ∨ d.length = 2) ∧ AllDigits m
    ∧ (m.length = 1 ∨ m.length = 2) ∧ AllDigits y ∧ y.length = 4
    ∧ t = d ++ '/' :: (m ++ '/' :: y)

/-- A host for concrete evaluations.  Its `Date.parse` rejects every text; it
gives the text of `NaN`, of the infinities and of the integers, and of an
invalid date; it lower-cases the ASCII letters. -/
def sampleHost : JSEnv where
  dateParse := fun _ => none
  dateToString := fun _ => "Invalid Date".toList
  toLowerCase := toLowerCase
  numberToString := fun n =>
    match n with
    | JSNum.nan => "NaN".toList
    | JSNum.posInf => "Infinity".toList
    | JSNum.negInf => "-Infinity".toList
    | JSNum.fin q => if q.den = 1 then (toString q.num).toList else []

/-- A number that is not negative: a finite value from `0` on, or `Infinity`. -/
def JSNum.IsNonneg : JSNum → Prop
  | JSNum.fin q => 0 ≤ q
  | JSNum.posInf => True
  | _ => False

/-- The values of the form `z / 2 ^ 1074`: every finite binary64 value is one. -/
def OnGrid (q : ℚ) : Prop := ∃ z : ℤ, q = (z : ℚ) / ((pow2 1074 : ℕ) : ℚ)

/-- A finite number on the binary64 grid, or an infinity or `NaN`. -/
def JSNum.Gridded : JSNum → Prop
  | JSNum.fin q => OnGrid q
  | _ => True

/-- A number above zero: a positive finite value, or `Infinity`. -/
def JSNum.IsPos : JSNum → Prop
  | JSNum.fin q => 0 < q
  | JSNum.posInf => True
  | _ => False

/-- A finite number that is not negative. -/
def JSNum.NonNegative (n : JSNum) : Prop := ∃ q : ℚ, 0 ≤ q ∧ n = JSNum.fin q

/-- A non-negative integer. -/
def JSNum.IsNat (n : JSNum) : Prop := ∃ k : ℕ, n = JSNum.fin (k : ℚ)

/-- A non-negative integer, or `Infinity`. -/
def JSNum.IsNatOrInf (n : JSNum) : Prop := n.IsNat ∨ n = JSNum.posInf

/-- A row whose Productive cell holds `1e308` and whose Time Spent cell is
empty. -/
def hugeProductiveRow : JSObj :=
  [("Date".toList, JSVal.str []), ("Ticket".toList, JSVal.str "T-7".toList),
    ("Task".toList, JSVal.str "Migrate".toList), ("Status".toList, JSVal.str "Open".toList),
    ("Productive".toList, JSVal.str "1e308".toList), ("Time Spent".toList, JSVal.str []),
    ("Developer".toList, JSVal.str "Cid".toList)]

/-- A Time Spent value that is neither a negative or non-finite number, nor a
text that `Number` reads as a negative or non-finite number. -/
def timeSpentAdmissible (E : JSEnv) (v : JSVal) : Prop :=
  match v with
  | JSVal.num n => n.NonNegative
  | _ =>
    stringToNumber (toLowerCase (trim (v.toStr E))) = JSNum.nan
      ∨ (stringToNumber (toLowerCase (trim (v.toStr E)))).NonNegative

/-- A Productive value that is empty (falsy) or converts to a finite number
that is not negative. -/
def productiveAdmissible (v : JSVal) : Prop :=
  v.truthy = false ∨ v.toNumber.NonNegative

/-! ## Sample rows -/

/-- A row object from its cells, all of them text. -/
def textRow (cells : List (String × String)) : JSObj :=
  cells.map (fun c => (c.1.toList, JSVal.str c.2.toList))

/-- A timesheet row with 1.5 productive hours and no time spent. -/
def sampleRowAnn : JSObj :=
  textRow [("Date", ""), ("Ticket", "T-1"), ("Task", "Fix bug"), ("Status", "Done"),
    ("Productive", "1.5"), ("Time Spent", ""), ("Developer", "Ann")]

/-- A timesheet row whose Productive cell holds a negative number. -/
def negativeProductiveRow : JSObj :=
  textRow [("Date", ""), ("Ticket", "T-2"), ("Task", "Write doc"), ("Status", "Open"),
    ("Productive", "-2"), ("Time Spent", ""), ("Developer", "Bob")]

/-- A date-separator row: only its Task cell is filled, with a date. -/
def separatorRow : JSObj :=
  textRow [("Date", ""), ("Ticket", ""), ("Task", "3/14/2024"), ("Status", ""),
    ("Productive", ""), ("Time Spent", ""), ("Developer", "")]

/-! ## Sample sheet -/

/-- An array row from its cells, all of them text. -/
def gridRow (cells : List String) : List JSVal := cells.map (fun c => JSVal.str c.toList)

/-- The header row of the sample sheet. -/
def sampleHeader : List String :=
  ["Date", "Ticket", "Task", "Status", "Productive", "Time Spent", "Developer"]

/-- The rows that follow the header of the sample sheet: five data rows, and
a date-separator row after the second of them. -/
def sampleData : List (List String) :=
  [["", "T-1", "Fix bug", "Done", "1.5", "", "Ann"],
   ["", "T-2", "Write doc", "Open", "0", "45m", "Bob"],
   ["", "", "3/14/2024", "", "", "", ""],
   ["", "T-3", "Review", "Done", "2", "1:45", "Ann"],
   ["", "T-4", "Deploy", "Open", "", "2h 30m", "Cid"],
   ["", "T-5", "Plan", "Done", "1", "90", "Bob"]]

/-- The sample sheet: a title row, an empty row, the header row as third row,
then `sampleData`.  In object mode the keys come from the title row, and the
empty row is skipped. -/
def sampleSheet : Sheet where
  objectRows :=
    (sampleHeader :: sampleData).map (fun cells =>
      (["March timesheet", "__EMPTY", "__EMPTY_1", "__EMPTY_2", "__EMPTY_3", "__EMPTY_4",
        "__EMPTY_5"].zip cells).map (fun kc => (kc.1.toList, JSVal.str kc.2.toList)))
  arrayRows :=
    gridRow ["March timesheet", "", "", "", "", "", ""] :: gridRow ["", "", "", "", "", "", ""]
      :: gridRow sampleHeader :: sampleData.map gridRow

/-- A sheet whose first row is the header, read as `XLSX.utils.sheet_to_json`
does: in object mode the keys are the header cells. -/
def plainSheet (header : List String) (rows : List (List String)) : Sheet where
  objectRows := rows.map (fun cells =>
    (header.zip cells).map (fun kc => (kc.1.toList, JSVal.str kc.2.toList)))
  arrayRows := gridRow header :: rows.map gridRow

/-- A sheet with the header in its first row and two rows under it: a date
separator, and a row without developer. -/
def droppedRowsSheet : Sheet :=
  plainSheet sampleHeader
    [["", "", "3/14/2024", "", "", "", ""],
     ["", "T-9", "Orphan task", "Open", "1", "", ""]]

/-- A sheet with the six other required columns and no Developer column. -/
def noDeveloperSheet : Sheet :=
  plainSheet ["Date", "Ticket", "Task", "Status", "Productive", "Time Spent"]
    [["", "T-1", "Fix bug", "Done", "1.5", ""]]

/-- A sheet whose seventh column is labelled `Developer Name`. -/
def developerNameSheet : Sheet :=
  plainSheet ["Date", "Ticket", "Task", "Status", "Productive", "Time Spent", "Developer Name"]
    [["", "T-1", "Fix bug", "Done", "1.5", "", "Ann"]]

/-- The sample sheet under a title that holds the six words of the header
scan. -/
def keywordTitleSheet : Sheet where
  objectRows :=
    (sampleHeader :: sampleData).map (fun cells =>
      (["Developer productive hours: task status by ticket and date", "__EMPTY", "__EMPTY_1",
        "__EMPTY_2", "__EMPTY_3", "__EMPTY_4", "__EMPTY_5"].zip cells).map
          (fun kc => (kc.1.toList, JSVal.str kc.2.toList)))
  arrayRows :=
    gridRow ["Developer productive hours: task status by ticket and date", "", "", "", "", "", ""]
      :: gridRow ["", "", "", "", "", "", ""]
      :: gridRow sampleHeader :: sampleData.map gridRow

/-! ## Vocabulary of the statements on header detection, filtering and aggregation -/

/-- The normalized key set of a row contains the seven required columns. -/
def HasRequiredColumns (row : JSObj) : Prop :=
  ∀ c ∈ requiredColumns, c ∈ row.keys.map normalizeHeaderKeyStr

instance (row : JSObj) : Decidable (HasRequiredColumns row) := by
  unfold HasRequiredColumns
  infer_instance

/-- A row object whose only key is a title. -/
def titleOnlyRow : JSObj := textRow [("March timesheet", "")]

/-- Object rows with a qualifying row at index 2. -/
def headerAtTwoRows : List JSObj := [titleOnlyRow, titleOnlyRow, sampleRowAnn, negativeProductiveRow]

/-- Object rows with their only qualifying row at index 10. -/
def headerAtTenRows : List JSObj := List.replicate 10 titleOnlyRow ++ [sampleRowAnn]

/-- The text `kw` occurs in the text `s` as a substring. -/
def Occurs (kw s : List Char) : Prop := ∃ a b, s = a ++ (kw ++ b)

/-- The text `kw` occurs in `field`, letter case apart. -/
def ContainsFolded (field kw : List Char) : Prop := Occurs kw (toLowerCase field)

/-- The six substrings of the leave classification. -/
def leaveKeywords : List (List Char) :=
  ["leave".toList, "vacation".toList, "holiday".toList, "sick".toList, "time off".toList,
    "pto".toList]

/-- The substrings that `isLeaveEntry` looks for in the task only. -/
def taskOnlyKeywords : List (List Char) :=
  ["vacation".toList, "holiday".toList, "sick".toList, "time off".toList, "pto".toList]

/-- A record from its texts and numbers; no date, and the ticket shown as it
is written. -/
def mkRecord (ticket task status developer : String) (productive minutes : ℚ) : WorkRecord :=
  { date := none
    ticket := ticket.toList
    ticketDisplay := JSVal.str ticket.toList
    task := task.toList
    status := status.toList
    productive := JSNum.fin productive
    timeSpentMinutes := JSNum.fin minutes
    developer := developer.toList
    comments := []
    original := [] }

/-- A record of ordinary work whose status is "Sick". -/
def sickStatusRecord : WorkRecord := mkRecord "T-1" "Fix bug" "Sick" "Ann" 2 120

/-- A record of a leave day. -/
def annualLeaveRecord : WorkRecord := mkRecord "" "Annual Leave" "Done" "Ann" 0 0

/-- A record of ordinary work. -/
def fixBugRecord : WorkRecord := mkRecord "T-1" "Fix bug" "Done" "Ann" 2 120

/-- A host time zone at a fixed offset from UTC, `offsetMinutes` east of
Greenwich, with no daylight saving: the local day of an instant is found by
shifting it, and its last millisecond is shifted back.  (Years 0 to 99, which
the `Date` constructor maps to 1900 to 1999, are outside the samples.) -/
def fixedOffsetZone (offsetMinutes : Int) : TimeZone where
  endOfLocalDay := fun t =>
    some ((t + offsetMinutes * 60000) / 86400000 * 86400000 + 86399999 - offsetMinutes * 60000)

/-- A host whose `Date.parse` reads the date-only form "2024-03-14", which
ECMAScript takes as midnight UTC of that day. -/
def isoHost : JSEnv where
  dateParse := fun s => if s = "2024-03-14".toList then some 1710374400000 else none
  dateToString := sampleHost.dateToString
  numberToString := sampleHost.numberToString
  toLowerCase := sampleHost.toLowerCase

/-- Lower-case form of a character of Latin-1: the ASCII capitals, and the
capitals from U+00C0 to U+00DE (the multiplication sign U+00D7 is no
letter). -/
def lowerLatin1 (c : Char) : Char :=
  if (65 ≤ c.toNat ∧ c.toNat ≤ 90) ∨ (192 ≤ c.toNat ∧ c.toNat ≤ 222 ∧ c.toNat ≠ 215)
  then Char.ofNat (c.toNat + 32) else c

/-- A host whose `toLowerCase` knows the letters of Latin-1. -/
def latinHost : JSEnv where
  dateParse := sampleHost.dateParse
  dateToString := sampleHost.dateToString
  numberToString := sampleHost.numberToString
  toLowerCase := fun s => s.map lowerLatin1

/-- A record whose task has an accented letter. -/
def ecoleRecord : WorkRecord := mkRecord "T-8" "Visite école" "Done" "Ann" 1 60

/-- The record satisfies the leave-exclusion criterion. -/
def leaveOk (c : FilterCriteria) (r : WorkRecord) : Prop :=
  c.excludeLeave = true → isLeaveEntry r = false

/-- The record satisfies the developer criterion. -/
def developerOk (c : FilterCriteria) (r : WorkRecord) : Prop :=
  c.developerFilter = "ALL".toList ∨ r.developer = c.developerFilter

/-- The record satisfies the status criterion. -/
def statusOk (c : FilterCriteria) (r : WorkRecord) : Prop :=
  c.statusFilter = "ALL".toList ∨ r.status = c.statusFilter

/-- The record satisfies the productivity criterion, a choice of three: "ALL"
asks for nothing, "YES" for a productive record (`productive > 0`), "NO" for
a non-productive one (`productive <= 0`). -/
def productiveOk (c : FilterCriteria) (r : WorkRecord) : Prop :=
  (c.productiveFilter = "YES".toList → (JSNum.fin 0).lt r.productive = true)
  ∧ (c.productiveFilter = "NO".toList → r.productive.le (JSNum.fin 0) = true)

/-- The productivity test as the code makes it: "YES" rejects the records
with `productive <= 0`, and "NO" those with `productive > 0`. -/
def productivePasses (c : FilterCriteria) (r : WorkRecord) : Prop :=
  (c.productiveFilter = "YES".toList → r.productive.le (JSNum.fin 0) = false)
  ∧ (c.productiveFilter = "NO".toList → (JSNum.fin 0).lt r.productive = false)

/-- The text the free-text criterion searches: ticket, task and ticketDisplay
with one space between them. -/
def searchText (E : JSEnv) (r : WorkRecord) : List Char :=
  r.ticket ++ " ".toList ++ r.task ++ " ".toList ++ r.ticketDisplay.toStr E

/-- The record satisfies the free-text criterion. -/
def textOk (E : JSEnv) (c : FilterCriteria) (r : WorkRecord) : Prop :=
  c.textQuery = [] ∨ Occurs (E.toLowerCase c.textQuery) (E.toLowerCase (searchText E r))

/-- The record satisfies the start-date criterion: it has a date, which is
not before the start date. -/
def startOk (E : JSEnv) (c : FilterCriteria) (r : WorkRecord) : Prop :=
  c.startDate = [] ∨ ∃ t, r.date = some t ∧ ∀ b, E.dateParse c.startDate = some b → b ≤ t

/-- The record satisfies the end-date criterion: it has a date, which is not
after the end bound. -/
def endOk (E : JSEnv) (Z : TimeZone) (c : FilterCriteria) (r : WorkRecord) : Prop :=
  c.endDate = [] ∨
    ∃ t, r.date = some t ∧ ∀ b, (E.dateParse c.endDate).bind Z.endOfLocalDay = some b → t ≤ b

/-- The record satisfies every criterion. -/
def Satisfies (E : JSEnv) (Z : TimeZone) (c : FilterCriteria) (r : WorkRecord) : Prop :=
  leaveOk c r ∧ developerOk c r ∧ statusOk c r ∧ productiveOk c r ∧ textOk E c r
    ∧ startOk E c r ∧ endOk E Z c r

/-- The record passes every test of the filter callback. -/
def Passes (E : JSEnv) (Z : TimeZone) (c : FilterCriteria) (r : WorkRecord) : Prop :=
  leaveOk c r ∧ developerOk c r ∧ statusOk c r ∧ productivePasses c r ∧ textOk E c r
    ∧ startOk E c r ∧ endOk E Z c r

/-- No dimension is constrained by both criteria values. -/
def Independent (c1 c2 : FilterCriteria) : Prop :=
  (c1.excludeLeave = false ∨ c2.excludeLeave = false)
  ∧ (c1.developerFilter = "ALL".toList ∨ c2.developerFilter = "ALL".toList)
  ∧ (c1.statusFilter = "ALL".toList ∨ c2.statusFilter = "ALL".toList)
  ∧ (c1.productiveFilter = "ALL".toList ∨ c2.productiveFilter = "ALL".toList)
  ∧ (c1.textQuery = [] ∨ c2.textQuery = [])
  ∧ (c1.startDate = [] ∨ c2.startDate = [])
  ∧ (c1.endDate = [] ∨ c2.endDate = [])

/-- The criteria value that constrains every dimension as `c1` or `c2` does. -/
def combine (c1 c2 : FilterCriteria) : FilterCriteria :=
  { excludeLeave := c1.excludeLeave || c2.excludeLeave
    developerFilter :=
      if c1.developerFilter = "ALL".toList then c2.developerFilter else c1.developerFilter
    statusFilter := if c1.statusFilter = "ALL".toList then c2.statusFilter else c1.statusFilter
    productiveFilter :=
      if c1.productiveFilter = "ALL".toList then c2.productiveFilter else c1.productiveFilter
    textQuery := if c1.textQuery = [] then c2.textQuery else c1.textQuery
    startDate := if c1.startDate = [] then c2.startDate else c1.startDate
    endDate := if c1.endDate = [] then c2.endDate else c1.endDate }

/-- The criteria value with a text query and nothing else. -/
def textOnly (q : List Char) : FilterCriteria := { initialCriteria with textQuery := q }

/-- The criteria value with a developer and nothing else. -/
def developerOnly (d : String) : FilterCriteria :=
  { initialCriteria with developerFilter := d.toList }

/-- The criteria value with a status and nothing else. -/
def statusOnly (s : String) : FilterCriteria := { initialCriteria with statusFilter := s.toList }

/-- Four records of two developers. -/
def sampleRecords : List WorkRecord :=
  [mkRecord "T-1" "Fix bug" "Done" "Ann" 2 120, mkRecord "T-2" "Write doc" "Open" "Bob" 1 60,
    mkRecord "" "Annual Leave" "Done" "Ann" 0 0, mkRecord "T-3" "Review" "Open" "Ann" 3 180]

/-- The criteria value with the start date and the end date on one day. -/
def sameDayCriteria (day : String) : FilterCriteria :=
  { initialCriteria with startDate := day.toList, endDate := day.toList }

/-- A record of ordinary work dated at the instant `t` (milliseconds since the
epoch). -/
def recordAt (t : Int) : WorkRecord := { fixBugRecord with date := some t }

/-- The performance criteria for developer "Ann" with the start date and the
end date on one day. -/
def sameDayPerformance (day : String) : PerformanceCriteria :=
  { excludeLeave := false
    performanceDeveloper := "Ann".toList
    performanceStartDate := day.toList
    performanceEndDate := day.toList
    performanceTicketFilter := [] }

/-- A timesheet row whose Productive cell holds the word "yes". -/
def yesProductiveRow : JSObj :=
  textRow [("Date", ""), ("Ticket", "T-4"), ("Task", "Deploy"), ("Status", "Done"),
    ("Productive", "yes"), ("Time Spent", "2h"), ("Developer", "Ann")]

/-- The index of the first occurrence of `a` in a list (its length when `a`
does not occur). -/
def firstIndex {α : Type} [DecidableEq α] (a : α) : List α → Nat
  | [] => 0
  | b :: l => if b = a then 0 else firstIndex a l + 1

/-- The value of a finite number, and 0 for the others. -/
def JSNum.toRat : JSNum → ℚ
  | JSNum.fin q => q
  | _ => 0

/-- The place of a number in the order `-Infinity < finite < Infinity` (NaN,
which no comparison orders, is put at the bottom). -/
def JSNum.rank : JSNum → WithBot (WithTop ℚ)
  | JSNum.fin q => ((q : WithTop ℚ) : WithBot (WithTop ℚ))
  | JSNum.posInf => ((⊤ : WithTop ℚ) : WithBot (WithTop ℚ))
  | _ => ⊥

/-- A finite number. -/
def JSNum.IsFinite (n : JSNum) : Prop := ∃ q : ℚ, n = JSNum.fin q

/-- Five records with four status keys, one of them blank. -/
def statusSampleRecords : List WorkRecord :=
  [mkRecord "T-1" "Fix bug" "Open" "Ann" 2 120, mkRecord "T-2" "Write doc" "Done" "Ann" 1 60,
    mkRecord "T-3" "Review" "" "Ann" 1 60, mkRecord "T-4" "Fix bug" "Done" "Ann" 1 60,
    mkRecord "T-5" "Deploy" "Blocked" "Ann" 1 60]

/-- Four records with three task keys, one of them blank. -/
def groupSampleRecords : List WorkRecord :=
  [mkRecord "T-1" "Fix bug" "Open" "Ann" 2 120, mkRecord "T-2" "Write doc" "Done" "Ann" 5 300,
    mkRecord "T-3" "Fix bug" "Done" "Ann" 1 60, mkRecord "T-4" "" "Done" "Ann" 4 240]


/-- A sort engine for concrete evaluations: the stable insertion sort,
whatever the comparator. -/
def insertionEngine : SortEngine where
  sort := jsSort
  perm := by
    intro after l
    induction l with
    | nil => exact List.Perm.refl _
    | cons x l ih =>
      have hins : ∀ m : List TaskGroup, (insertSorted after x m).Perm (x :: m) := by
        intro m
        induction m with
        | nil => exact List.Perm.refl _
        | cons y m ihm =>
          rw [insertSorted]
          split
          · exact (List.Perm.cons y ihm).trans (List.Perm.swap x y m)
          · exact List.Perm.refl _
      exact (hins _).trans (List.Perm.cons x ih)
  stable := fun _ _ _ => rfl

/-- A record with the given task and productive hours. -/
def taskRecord (task : String) (productive : JSNum) : WorkRecord :=
  { mkRecord "T-1" task "Done" "Ann" 0 0 with productive := productive }

/-- Four records of three tasks; the second task has the productive hours
`Infinity` and `-Infinity`, as the cells `Infinity` and `-Infinity` give them,
so that its total is NaN. -/
def nanTotalRecords : List WorkRecord :=
  [taskRecord "Fix bug" (JSNum.fin 1), taskRecord "Migrate" JSNum.posInf,
    taskRecord "Migrate" JSNum.negInf, taskRecord "Review" (JSNum.fin 2)]

/-- A timesheet row whose Productive cell holds the text `-Infinity`. -/
def infinityProductiveRow : JSObj :=
  textRow [("Date", ""), ("Ticket", "T-1"), ("Task", "Migrate"), ("Status", "Done"),
    ("Productive", "-Infinity"), ("Time Spent", "1h"), ("Developer", "Ann")]

/-- Three records of two tasks with the productive hours 0.1, and 0.2 and
0.3. -/
def tenthsRecords : List WorkRecord :=
  [taskRecord "Fix bug" (JSNum.ofRat (1 / 10)), taskRecord "Review" (JSNum.ofRat (2 / 10)),
    taskRecord "Review" (JSNum.ofRat (3 / 10))]

/-- The value of a number that is a non-negative integer, and 0 for the
others. -/
def JSNum.toNat : JSNum → ℕ
  | JSNum.fin q => ⌊q⌋₊
  | _ => 0

/-- The comparator of `groupedPerformanceData`:
`b.totalProductiveHours - a.totalProductiveHours > 0`. -/
def afterByTotal (a b : TaskGroup) : Bool :=
  (JSNum.fin 0).lt (b.totalProductiveHours.sub a.totalProductiveHours)

/-- The groups of `groupedPerformanceData` before they are sorted: in the
order in which their keys are first met. -/
def unsortedGroups (rows : List WorkRecord) : List TaskGroup :=
  ((rows.foldl groupRow []).map Prod.snd).map finishGroup

/-- The sum `values.reduce((acc, v) => acc + v, 0)`. -/
def reduceSum (values : List JSNum) : JSNum := values.foldl JSNum.add (JSNum.fin 0)
/-! ## Vocabulary of the statements on sheet names, header keys and the glass menu -/

/-- The sheet name is one that `handleFileChange` leaves out: its lower-cased
form contains "template" or "sheet15", starts with "sheet", or is "summary". -/
def ExcludedSheet (name : List Char) : Prop :=
  Occurs "template".toList (toLowerCase name)
  ∨ Occurs "sheet15".toList (toLowerCase name)
  ∨ (∃ rest, toLowerCase name = "sheet".toList ++ rest)
  ∨ toLowerCase name = "summary".toList

/-- The sheet names of a sample workbook. -/
def sampleSheetNames : List (List Char) :=
  ["March".toList, "Template".toList, "Timesheet15".toList, "Sheet1".toList, "Summary".toList,
    "April 2024".toList]

/-- The position of item `i` in a container of width `w` that holds `length`
items: `startOffset + i * 136`, with
`startOffset = (w - length * 136) / 2 + 20`. -/
def itemPosition (w : ℚ) (length i : Nat) : ℚ :=
  (w - (length : ℚ) * 136) / 2 + 20 + (i : ℚ) * 136

/-- A state of the glass menu while the glass is dragged, at position 500. -/
def draggingState : MenuState :=
  { isDragging := true, startX := JSNum.fin 640, glassPosition := JSNum.fin 500,
    activeIndex := JSNum.fin 1 }

/-- The text is empty or starts with whitespace. -/
def startsWs : List Char → Bool
  | [] => true
  | d :: _ => isWs d

/-- Put a character in front of the first word. -/
def consWord (c : Char) : List (List Char) → List (List Char)
  | w :: ws => (c :: w) :: ws
  | [] => [[c]]

/-- The words of a text: its maximal runs of characters that are not
whitespace, in order.  Two texts have the same words exactly when they differ
only in their whitespace: in the length (or the characters) of the whitespace
runs between words, and in leading and trailing whitespace. -/
def wsWords : List Char → List (List Char)
  | [] => []
  | c :: cs =>
    if isWs c then wsWords cs
    else if startsWs cs then [c] :: wsWords cs
    else consWord c (wsWords cs)

/-- A word: not empty, and without whitespace. -/
def IsWord (w : List Char) : Prop := w ≠ [] ∧ ∀ c ∈ w, isWs c = false

/-! ## Rounding to binary64 -/

theorem pow2_eq (k : Nat) : pow2 k = 2 ^ k := by
  unfold pow2; rfl

theorem pow2_pos (k : Nat) : 0 < pow2 k := by
  rw [pow2_eq]; positivity

theorem pow2_zero : pow2 0 = 1 := by
  rw [pow2_eq]; rfl

theorem pow2_add (a b : Nat) : pow2 (a + b) = pow2 a * pow2 b := by
  simp only [pow2_eq, pow_add]

theorem pow2_cast (k : Nat) : ((pow2 k : ℕ) : ℚ) = (2 : ℚ) ^ (k : ℤ) := by
  rw [pow2_eq]; push_cast; rw [zpow_natCast]

theorem log2Aux_spec : ∀ (fuel n : Nat), n ≤ fuel → 1 ≤ n →
    2 ^ log2Aux fuel n ≤ n ∧ n < 2 ^ (log2Aux fuel n + 1)
  | 0, n, h1, h2 => by omega
  | fuel + 1, n, h1, h2 => by
    rw [log2Aux]
    by_cases h : n < 2
    · rw [if_pos h]
      constructor
      · simpa using h2
      · simpa using h
    · rw [if_neg h]
      have ih := log2Aux_spec fuel (n / 2) (by omega) (by omega)
      obtain ⟨i1, i2⟩ := ih
      rw [pow_succ] at i2
      constructor
      · rw [pow_succ]; omega
      · rw [pow_succ, pow_succ]; omega

theorem log2_le {n : Nat} (h : 1 ≤ n) : 2 ^ log2 n ≤ n :=
  (log2Aux_spec n n le_rfl h).1

theorem lt_log2 {n : Nat} (h : 1 ≤ n) : n < 2 ^ (log2 n + 1) :=
  (log2Aux_spec n n le_rfl h).2

theorem log2_one_eq : log2 1 = 0 := by decide

theorem ofRat_of_isDouble {q : ℚ} (h : JSNum.isDouble q = true) : JSNum.ofRat q = JSNum.fin q := by
  simp [JSNum.ofRat, h]

theorem isDouble_int (z : ℤ) (h : z.natAbs < 2 ^ 53) : JSNum.isDouble (z : ℚ) = true := by
  have h2 : z.natAbs < pow2 53 := by
    rw [pow2_eq]; exact h
  simp only [JSNum.isDouble, Rat.intCast_den, Rat.intCast_num, log2_one_eq, pow2_zero]
  simp [h2]

theorem isDouble_nat (n : ℕ) (h : n < 2 ^ 53) : JSNum.isDouble (n : ℚ) = true := by
  have := isDouble_int (n : ℤ) (by simpa using h)
  simpa using this

theorem ofRat_nat (n : ℕ) (h : n < 2 ^ 53) : JSNum.ofRat (n : ℚ) = JSNum.fin (n : ℚ) :=
  ofRat_of_isDouble (isDouble_nat n h)

theorem ofRat_int (z : ℤ) (h : z.natAbs < 2 ^ 53) : JSNum.ofRat (z : ℚ) = JSNum.fin (z : ℚ) :=
  ofRat_of_isDouble (isDouble_int z h)

theorem ofRat_zero : JSNum.ofRat 0 = JSNum.fin 0 := by
  have := ofRat_nat 0 (by norm_num)
  simpa using this

theorem nearestDouble_nonneg (n d : Nat) : (JSNum.nearestDouble n d).IsNonneg := by
  unfold JSNum.nearestDouble
  simp only []
  split_ifs
  · trivial
  · show (0 : ℚ) ≤ _
    exact div_nonneg (Nat.cast_nonneg _) (Nat.cast_nonneg _)

theorem ofRat_nonneg {q : ℚ} (h : 0 ≤ q) : (JSNum.ofRat q).IsNonneg := by
  unfold JSNum.ofRat
  split_ifs with h1 h2
  · exact h
  · exact nearestDouble_nonneg _ _
  · have : q = 0 := le_antisymm (not_lt.1 h2) h
    subst this
    exact absurd (isDouble_nat 0 (by norm_num)) (by simpa using h1)

theorem ofRat_ne_nan (q : ℚ) : JSNum.ofRat q ≠ JSNum.nan := by
  unfold JSNum.ofRat JSNum.nearestDouble
  simp only []
  split_ifs <;> simp [JSNum.neg]

/-! ### Positive values do not round to zero -/

theorem roundHalfEven_pos {n d : Nat} (hd : 0 < d) (h : d ≤ n) : 1 ≤ JSNum.roundHalfEven n d := by
  have h1 : 1 ≤ n / d := Nat.div_pos h hd
  unfold JSNum.roundHalfEven
  split_ifs <;> omega

theorem scale_iff (n d : Nat) (j : ℤ) :
    d * pow2 j.toNat ≤ n * pow2 (-j).toNat ↔ (d : ℚ) * (2 : ℚ) ^ j ≤ n := by
  have h2 : (0 : ℚ) < 2 := by norm_num
  rcases le_total 0 j with hj | hj
  · have e1 : (-j).toNat = 0 := by omega
    obtain ⟨k, rfl⟩ := Int.eq_ofNat_of_zero_le hj
    rw [e1, pow2_zero, Int.toNat_ofNat, mul_one, zpow_natCast, pow2_eq]
    constructor
    · intro h
      have : ((d * 2 ^ k : ℕ) : ℚ) ≤ (n : ℚ) := by exact_mod_cast h
      simpa using this
    · intro h
      have : ((d * 2 ^ k : ℕ) : ℚ) ≤ (n : ℚ) := by simpa using h
      exact_mod_cast this
  · have e1 : j.toNat = 0 := by omega
    obtain ⟨k, hk⟩ := Int.eq_ofNat_of_zero_le (neg_nonneg.2 hj)
    have hj2 : j = -(k : ℤ) := by omega
    subst hj2
    rw [e1, pow2_zero, mul_one, neg_neg, Int.toNat_ofNat, zpow_neg, zpow_natCast, pow2_eq]
    have hp : (0 : ℚ) < 2 ^ k := by positivity
    rw [← div_eq_mul_inv, div_le_iff₀ hp]
    constructor
    · intro h
      exact_mod_cast h
    · intro h
      exact_mod_cast h

theorem scale_log (n d : Nat) (hn : 1 ≤ n) (hd : 1 ≤ d) :
    (d : ℚ) * (2 : ℚ) ^ ((log2 n : ℤ) - (log2 d : ℤ) - 1) ≤ n := by
  have h1 : ((2 ^ log2 n : ℕ) : ℚ) ≤ n := by exact_mod_cast log2_le hn
  have h2 : (d : ℚ) < ((2 ^ (log2 d + 1) : ℕ) : ℚ) := by exact_mod_cast lt_log2 hd
  push_cast at h1 h2
  have h3 : (0 : ℚ) < (2 : ℚ) ^ ((log2 n : ℤ) - (log2 d : ℤ) - 1) := by positivity
  calc (d : ℚ) * (2 : ℚ) ^ ((log2 n : ℤ) - (log2 d : ℤ) - 1)
      ≤ (2 : ℚ) ^ (log2 d + 1) * (2 : ℚ) ^ ((log2 n : ℤ) - (log2 d : ℤ) - 1) :=
        mul_le_mul_of_nonneg_right h2.le h3.le
    _ = (2 : ℚ) ^ (log2 n) := by
        rw [← zpow_natCast, ← zpow_natCast, ← zpow_add₀ (by norm_num : (2 : ℚ) ≠ 0)]
        congr 1
        push_cast
        ring
    _ ≤ n := h1

theorem doubleExponent_ge (n d : Nat) : -1074 ≤ JSNum.doubleExponent n d := by
  unfold JSNum.doubleExponent
  exact le_max_right _ _

theorem doubleExponent_scale (n d : Nat) (hn : 1 ≤ n) (hd : 1 ≤ d)
    (hmin : d ≤ n * pow2 1074) :
    d * pow2 (JSNum.doubleExponent n d).toNat ≤ n * pow2 (-(JSNum.doubleExponent n d)).toNat := by
  rw [scale_iff]
  have hlog := scale_log n d hn hd
  have hd0 : (0 : ℚ) ≤ d := Nat.cast_nonneg d
  have hfl : ∀ fl : ℤ, fl ≤ (log2 n : ℤ) - (log2 d : ℤ) →
      (d : ℚ) * (2 : ℚ) ^ (max (fl - 52) (-1074)) ≤ n := by
    intro fl hflk
    rcases le_total (fl - 52) (-1074) with h | h
    · rw [max_eq_right h]
      exact (scale_iff n d (-1074)).1 (by simpa [pow2_zero] using hmin)
    · rw [max_eq_left h]
      have hle : fl - 52 ≤ (log2 n : ℤ) - (log2 d : ℤ) - 1 := by omega
      calc (d : ℚ) * (2 : ℚ) ^ (fl - 52)
          ≤ (d : ℚ) * (2 : ℚ) ^ ((log2 n : ℤ) - (log2 d : ℤ) - 1) :=
            mul_le_mul_of_nonneg_left (zpow_le_zpow_right₀ (by norm_num) hle) hd0
        _ ≤ n := hlog
  unfold JSNum.doubleExponent
  simp only []
  split_ifs
  · exact hfl _ le_rfl
  · exact hfl _ (by omega)

theorem pow2_cast_pos (k : Nat) : (0 : ℚ) < ((pow2 k : ℕ) : ℚ) := by
  exact_mod_cast pow2_pos k

theorem onGrid_of_div (z : ℤ) (a : Nat) (ha : a ≤ 1074) :
    OnGrid ((z : ℚ) / ((pow2 a : ℕ) : ℚ)) := by
  refine ⟨z * (pow2 (1074 - a) : ℕ), ?_⟩
  have e : pow2 1074 = pow2 a * pow2 (1074 - a) := by
    rw [← pow2_add]; congr 1; omega
  have h1 := pow2_cast_pos a
  have h2 := pow2_cast_pos (1074 - a)
  rw [e]
  push_cast
  field_simp
  ring

theorem onGrid_neg {q : ℚ} (h : OnGrid q) : OnGrid (-q) := by
  obtain ⟨z, rfl⟩ := h
  exact ⟨-z, by push_cast; ring⟩

theorem onGrid_zero : OnGrid 0 := ⟨0, by simp⟩

theorem onGrid_gap {x y : ℚ} (hx : OnGrid x) (hy : OnGrid y) (h : x < y) :
    1 / ((pow2 1074 : ℕ) : ℚ) ≤ y - x := by
  obtain ⟨a, rfl⟩ := hx
  obtain ⟨b, rfl⟩ := hy
  have hp := pow2_cast_pos 1074
  have hab : a < b := by
    have := (div_lt_div_iff_of_pos_right hp).1 h
    exact_mod_cast this
  rw [← sub_div, div_le_div_iff_of_pos_right hp]
  have : a + 1 ≤ b := hab
  have h3 : ((a + 1 : ℤ) : ℚ) ≤ (b : ℚ) := by exact_mod_cast this
  push_cast at h3
  linarith

theorem nearestDouble_gridded (n d : Nat) : (JSNum.nearestDouble n d).Gridded := by
  unfold JSNum.nearestDouble
  simp only []
  split_ifs
  · trivial
  · show OnGrid _
    have ha : (-(JSNum.doubleExponent n d)).toNat ≤ 1074 := by
      have := doubleExponent_ge n d
      omega
    have := onGrid_of_div ((JSNum.roundHalfEven (n * pow2 (-JSNum.doubleExponent n d).toNat)
      (d * pow2 (JSNum.doubleExponent n d).toNat) * pow2 (JSNum.doubleExponent n d).toNat : ℕ) : ℤ) _ ha
    simpa using this

theorem gridded_neg {a : JSNum} (h : a.Gridded) : a.neg.Gridded := by
  cases a with
  | fin q => exact onGrid_neg h
  | _ => trivial

theorem isDouble_onGrid {q : ℚ} (h : JSNum.isDouble q = true) : OnGrid q := by
  unfold JSNum.isDouble at h
  simp only [Bool.and_eq_true, decide_eq_true_eq] at h
  obtain ⟨⟨h1, h2⟩, _⟩ := h
  have := onGrid_of_div q.num (log2 q.den) h2
  rw [← h1] at this
  rwa [Rat.num_div_den] at this

theorem ofRat_gridded (q : ℚ) : (JSNum.ofRat q).Gridded := by
  unfold JSNum.ofRat
  split_ifs with h1 h2
  · exact isDouble_onGrid h1
  · exact nearestDouble_gridded _ _
  · exact gridded_neg (nearestDouble_gridded _ _)

theorem nearestDouble_pos (n d : Nat) (hn : 1 ≤ n) (hd : 1 ≤ d) (hmin : d ≤ n * pow2 1074) :
    (JSNum.nearestDouble n d).IsPos := by
  have hs := doubleExponent_scale n d hn hd hmin
  have hD : 0 < d * pow2 (JSNum.doubleExponent n d).toNat := Nat.mul_pos hd (pow2_pos _)
  have hm := roundHalfEven_pos hD hs
  unfold JSNum.nearestDouble
  simp only []
  split_ifs
  · trivial
  · show (0 : ℚ) < _
    apply div_pos
    · have : 0 < JSNum.roundHalfEven (n * pow2 (-JSNum.doubleExponent n d).toNat)
          (d * pow2 (JSNum.doubleExponent n d).toNat) * pow2 (JSNum.doubleExponent n d).toNat :=
        Nat.mul_pos hm (pow2_pos _)
      exact_mod_cast this
    · exact pow2_cast_pos _

theorem ofRat_pos {q : ℚ} (h : 1 / ((pow2 1074 : ℕ) : ℚ) ≤ q) : (JSNum.ofRat q).IsPos := by
  have hp := pow2_cast_pos 1074
  have hq : 0 < q := lt_of_lt_of_le (by positivity) h
  unfold JSNum.ofRat
  split_ifs with h1
  · exact hq
  · have hnum : 0 < q.num := Rat.num_pos.2 hq
    have hn : 1 ≤ q.num.natAbs := by omega
    have hd : 1 ≤ q.den := q.den_pos
    apply nearestDouble_pos _ _ hn hd
    have hq2 : q = (q.num.natAbs : ℚ) / (q.den : ℚ) := by
      have e : ((q.num.natAbs : ℤ) : ℚ) = (q.num : ℚ) := by
        rw [Int.natAbs_of_nonneg hnum.le]
      have e2 : ((q.num.natAbs : ℕ) : ℚ) = ((q.num.natAbs : ℤ) : ℚ) := (Int.cast_natCast _).symm
      rw [e2, e, Rat.num_div_den]
    rw [hq2, div_le_div_iff₀ hp (by exact_mod_cast hd)] at h
    have : ((q.den : ℕ) : ℚ) ≤ ((q.num.natAbs * pow2 1074 : ℕ) : ℚ) := by
      push_cast; linarith
    exact_mod_cast this

theorem ofRat_neg_eq (q : ℚ) : JSNum.ofRat (-q) = (JSNum.ofRat q).neg := by
  have hd : JSNum.isDouble (-q) = JSNum.isDouble q := by
    unfold JSNum.isDouble
    simp
  unfold JSNum.ofRat
  rw [hd]
  by_cases h1 : JSNum.isDouble q = true
  · simp [h1, JSNum.neg]
  · have hne : q ≠ 0 := by
      rintro rfl
      exact h1 (isDouble_nat 0 (by norm_num))
    simp only [h1, Bool.false_eq_true, if_false, Rat.neg_num, Int.natAbs_neg, Rat.neg_den]
    rcases lt_or_gt_of_ne hne with h | h
    · have h2 : ¬ (0 < q) := not_lt.2 h.le
      have h3 : 0 < -q := neg_pos.2 h
      simp only [h2, h3, if_true, if_false]
      cases JSNum.nearestDouble q.num.natAbs q.den <;> simp [JSNum.neg]
    · have h2 : ¬ (0 < -q) := not_lt.2 (neg_nonpos.2 h.le)
      simp only [h, h2, if_true, if_false]

theorem mul_fin (a b : ℚ) : (JSNum.fin a).mul (JSNum.fin b) = JSNum.ofRat (a * b) := rfl

theorem add_fin (a b : ℚ) : (JSNum.fin a).add (JSNum.fin b) = JSNum.ofRat (a + b) := rfl

theorem mul_nat (a b : ℕ) (h : a * b < 2 ^ 53) :
    (JSNum.fin (a : ℚ)).mul (JSNum.fin (b : ℚ)) = JSNum.fin ((a : ℚ) * (b : ℚ)) := by
  rw [mul_fin]
  have := ofRat_nat (a * b) h
  push_cast at this
  exact this

theorem add_nat (a b : ℕ) (h : a + b < 2 ^ 53) :
    (JSNum.fin (a : ℚ)).add (JSNum.fin (b : ℚ)) = JSNum.fin ((a : ℚ) + (b : ℚ)) := by
  rw [add_fin]
  have := ofRat_nat (a + b) h
  push_cast at this
  exact this
/-! ## Lists of characters -/

theorem takeWhile_append_stop {α : Type} (p : α → Bool) (l r : List α)
    (hl : ∀ a ∈ l, p a = true) (hr : ∀ a, r.head? = some a → p a = false) :
    (l ++ r).takeWhile p = l := by
  induction l with
  | nil =>
    cases r with
    | nil => rfl
    | cons a r => simp [List.takeWhile_cons, hr a rfl]
  | cons a l ih =>
    have ha : p a = true := hl a (List.mem_cons_self a l)
    simp [List.takeWhile_cons, ha, ih (fun b hb => hl b (List.mem_cons_of_mem a hb))]

theorem dropWhile_append_stop {α : Type} (p : α → Bool) (l r : List α)
    (hl : ∀ a ∈ l, p a = true) (hr : ∀ a, r.head? = some a → p a = false) :
    (l ++ r).dropWhile p = r := by
  induction l with
  | nil =>
    cases r with
    | nil => rfl
    | cons a r => simp [List.dropWhile_cons, hr a rfl]
  | cons a l ih =>
    have ha : p a = true := hl a (List.mem_cons_self a l)
    simp [List.dropWhile_cons, ha, ih (fun b hb => hl b (List.mem_cons_of_mem a hb))]

theorem takeWhile_all {α : Type} (p : α → Bool) (l : List α) :
    ∀ a ∈ l.takeWhile p, p a = true := by
  intro a ha
  exact List.mem_takeWhile_imp ha

theorem dropWhile_head_stop {α : Type} (p : α → Bool) (l : List α) :
    ∀ a, (l.dropWhile p).head? = some a → p a = false := by
  intro a ha
  have := List.head?_dropWhile_not p l
  rw [ha] at this
  simpa using this

theorem isDigit_not_isWs {c : Char} (h : isDigit c = true) : isWs c = false := by
  simp only [isDigit, isWs, decide_eq_true_eq, decide_eq_false_iff_not] at *
  omega

theorem isWs_not_isDigit {c : Char} (h : isWs c = true) : isDigit c = false := by
  simp only [isDigit, isWs, decide_eq_true_eq, decide_eq_false_iff_not] at *
  omega

theorem lowerChar_of_isDigit {c : Char} (h : isDigit c = true) : lowerChar c = [c] := by
  simp only [isDigit, decide_eq_true_eq] at h
  have h1 : ¬ (65 ≤ c.toNat ∧ c.toNat ≤ 90) := by omega
  have h2 : ¬ c.toNat = 8490 := by omega
  have h3 : ¬ c.toNat = 304 := by omega
  simp [lowerChar, h1, h2, h3]

theorem lowerChar_of_isWs {c : Char} (h : isWs c = true) : lowerChar c = [c] := by
  simp only [isWs, decide_eq_true_eq] at h
  have h1 : ¬ (65 ≤ c.toNat ∧ c.toNat ≤ 90) := by omega
  have h2 : ¬ c.toNat = 8490 := by omega
  have h3 : ¬ c.toNat = 304 := by omega
  simp [lowerChar, h1, h2, h3]

theorem toLowerCase_append (a b : List Char) :
    toLowerCase (a ++ b) = toLowerCase a ++ toLowerCase b := by
  simp [toLowerCase]

theorem toLowerCase_cons (c : Char) (s : List Char) :
    toLowerCase (c :: s) = lowerChar c ++ toLowerCase s := by
  simp [toLowerCase]

theorem toLowerCase_stable (s : List Char) (h : ∀ c ∈ s, lowerChar c = [c]) :
    toLowerCase s = s := by
  induction s with
  | nil => rfl
  | cons c s ih =>
    rw [toLowerCase_cons, h c (List.mem_cons_self c s),
      ih (fun d hd => h d (List.mem_cons_of_mem c hd))]
    rfl

theorem toLowerCase_digits (s : List Char) (h : AllDigits s) : toLowerCase s = s :=
  toLowerCase_stable s (fun c hc => lowerChar_of_isDigit (h c hc))

theorem toLowerCase_ws (s : List Char) (h : AllWs s) : toLowerCase s = s :=
  toLowerCase_stable s (fun c hc => lowerChar_of_isWs (h c hc))

theorem trim_sandwich (pre core post : List Char) (hpre : AllWs pre) (hpost : AllWs post)
    (hh : ∀ a, core.head? = some a → isWs a = false)
    (hl : ∀ a, core.getLast? = some a → isWs a = false) :
    trim (pre ++ (core ++ post)) = core := by
  unfold trim
  rw [List.dropWhile_append_of_pos hpre]
  cases core with
  | nil =>
    simp only [List.nil_append]
    rw [(List.dropWhile_eq_nil_iff).2 hpost]
    rfl
  | cons a core =>
    have ha : isWs a = false := hh a rfl
    rw [List.cons_append, List.dropWhile_cons_of_neg (by simp [ha])]
    rw [← List.cons_append, List.rdropWhile, List.reverse_append,
      dropWhile_append_stop isWs post.reverse (a :: core).reverse
        (fun c hc => hpost c (List.mem_reverse.1 hc))
        (fun c hc => hl c (by rw [List.getLast?_eq_head?_reverse]; exact hc))]
    simp
/-! ## Numeric literals -/

theorem digitsToNat_append (a b : List Char) :
    digitsToNat (a ++ b) = digitsToNat a * 10 ^ b.length + digitsToNat b := by
  unfold digitsToNat
  rw [List.foldl_append]
  generalize List.foldl (fun acc c => 10 * acc + digitVal c) 0 a = n
  induction b generalizing n with
  | nil => simp
  | cons c b ih =>
    simp only [List.foldl_cons, List.length_cons]
    rw [ih (10 * n + digitVal c), ih (10 * 0 + digitVal c)]
    ring

theorem scanExponent_nil : scanExponent [] = (0, []) := rfl

theorem trim_self (t : List Char) (hh : ∀ a, t.head? = some a → isWs a = false)
    (hl : ∀ a, t.getLast? = some a → isWs a = false) : trim t = t := by
  have := trim_sandwich [] t [] (fun _ h => absurd h (List.not_mem_nil _))
    (fun _ h => absurd h (List.not_mem_nil _)) hh hl
  simpa using this

theorem decimalText_head (ip fp : List Char) (hip : AllDigits ip) (hne : ip ≠ []) :
    ∃ d r, decimalText ip fp = d :: r ∧ isDigit d = true := by
  cases ip with
  | nil => exact absurd rfl hne
  | cons d ip =>
    refine ⟨d, if fp = [] then ip else ip ++ '.' :: fp, ?_, hip d (List.mem_cons_self d ip)⟩
    unfold decimalText
    split <;> simp

theorem decimalText_last (ip fp : List Char) (hip : AllDigits ip) (hfp : AllDigits fp) : ∀ a, (decimalText ip fp).getLast? = some a → isDigit a = true := by
  intro a ha
  unfold decimalText at ha
  split at ha
  · exact hip a (List.mem_of_getLast?_eq_some ha)
  · rename_i hfpne
    have : (ip ++ '.' :: fp) = (ip ++ ['.']) ++ fp := by simp
    rw [this, List.getLast?_append_of_ne_nil _ hfpne] at ha
    exact hfp a (List.mem_of_getLast?_eq_some ha)

theorem scanUnsignedDecimal_decimalText (ip fp : List Char) (hip : AllDigits ip)
    (hfp : AllDigits fp) (hne : ip ≠ []) :
    scanUnsignedDecimal (decimalText ip fp) = some (decimalNumber ip fp, []) := by
  unfold decimalText
  split
  · rename_i hfp0
    subst hfp0
    have h1 : ip.takeWhile isDigit = ip := by
      simpa using takeWhile_append_stop isDigit ip [] hip (by simp)
    have h2 : ip.dropWhile isDigit = [] := by
      simpa using dropWhile_append_stop isDigit ip [] hip (by simp)
    simp [scanUnsignedDecimal, h1, h2, hne, scanExponent_nil, decimalValue, decimalNumber,
      digitsToNat]
  · rename_i hfp0
    have hdot : ∀ a, ('.' :: fp).head? = some a → isDigit a = false := by
      intro a ha
      simp at ha
      subst ha
      decide
    have h1 : (ip ++ '.' :: fp).takeWhile isDigit = ip :=
      takeWhile_append_stop isDigit ip _ hip hdot
    have h2 : (ip ++ '.' :: fp).dropWhile isDigit = '.' :: fp :=
      dropWhile_append_stop isDigit ip _ hip hdot
    have h3 : fp.takeWhile isDigit = fp := by
      simpa using takeWhile_append_stop isDigit fp [] hfp (by simp)
    have h4 : fp.dropWhile isDigit = [] := by
      simpa using dropWhile_append_stop isDigit fp [] hfp (by simp)
    simp only [scanUnsignedDecimal, h1, h2, h3, h4, scanExponent_nil, decimalValue,
      decimalNumber, digitsToNat_append]
    simp only [hne, false_and, if_false]
    congr 2
    have h10 : ((10 : ℚ) ^ fp.length) ≠ 0 := by positivity
    push_cast
    field_simp

theorem decimalText_chars (ip fp : List Char) (hip : AllDigits ip) (hfp : AllDigits fp) :
    ∀ c ∈ decimalText ip fp, isDigit c = true ∨ c = '.' := by
  intro c hc
  unfold decimalText at hc
  split at hc
  · exact Or.inl (hip c hc)
  · rcases List.mem_append.1 hc with h | h
    · exact Or.inl (hip c h)
    · rcases List.mem_cons.1 h with h | h
      · exact Or.inr h
      · exact Or.inl (hfp c h)

theorem trim_decimalText (ip fp : List Char) (hip : AllDigits ip) (hfp : AllDigits fp)
    (hne : ip ≠ []) : trim (decimalText ip fp) = decimalText ip fp := by
  apply trim_self
  · intro a ha
    obtain ⟨d, r, hdr, hd⟩ := decimalText_head ip fp hip hne
    rw [hdr] at ha
    simp at ha
    subst ha
    exact isDigit_not_isWs hd
  · intro a ha
    exact isDigit_not_isWs (decimalText_last ip fp hip hfp a ha)

theorem unsignedLiteral_decimalText (ip fp : List Char) (hip : AllDigits ip)
    (hfp : AllDigits fp) (hne : ip ≠ []) :
    unsignedLiteral (decimalText ip fp) = JSNum.ofRat (decimalNumber ip fp) := by
  unfold unsignedLiteral
  have hinf : decimalText ip fp ≠ infinityText := by
    intro h
    have := decimalText_chars ip fp hip hfp 'I' (by rw [h]; decide)
    revert this
    decide
  rw [if_neg hinf, scanUnsignedDecimal_decimalText ip fp hip hfp hne]

theorem stringToNumber_decimalText (ip fp : List Char) (hip : AllDigits ip)
    (hfp : AllDigits fp) (hne : ip ≠ []) :
    stringToNumber (decimalText ip fp) = JSNum.ofRat (decimalNumber ip fp) := by
  have hch := decimalText_chars ip fp hip hfp
  have key : ∀ c : Char, (isDigit c = true ∨ c = '.') → c ≠ 'x' ∧ c ≠ 'X' ∧ c ≠ 'o' ∧ c ≠ 'O'
      ∧ c ≠ 'b' ∧ c ≠ 'B' ∧ c ≠ '+' ∧ c ≠ '-' := by
    intro c hc
    refine ⟨?_, ?_, ?_, ?_, ?_, ?_, ?_, ?_⟩ <;> (intro h; subst h; revert hc; decide)
  obtain ⟨d, r, hdr, hd⟩ := decimalText_head ip fp hip hne
  unfold stringToNumber
  rw [trim_decimalText ip fp hip hfp hne]
  split
  · rename_i h; rw [hdr] at h; exact absurd h (List.cons_ne_nil _ _)
  · rename_i r1 h
    exact absurd rfl (key 'x' (hch 'x' (by rw [h]; simp))).1
  · rename_i r1 h
    exact absurd rfl (key 'X' (hch 'X' (by rw [h]; simp))).2.1
  · rename_i r1 h
    exact absurd rfl (key 'o' (hch 'o' (by rw [h]; simp))).2.2.1
  · rename_i r1 h
    exact absurd rfl (key 'O' (hch 'O' (by rw [h]; simp))).2.2.2.1
  · rename_i r1 h
    exact absurd rfl (key 'b' (hch 'b' (by rw [h]; simp))).2.2.2.2.1
  · rename_i r1 h
    exact absurd rfl (key 'B' (hch 'B' (by rw [h]; simp))).2.2.2.2.2.1
  · rename_i r1 h
    exact absurd rfl (key '+' (hch '+' (by rw [h]; simp))).2.2.2.2.2.2.1
  · rename_i r1 h
    exact absurd rfl (key '-' (hch '-' (by rw [h]; simp))).2.2.2.2.2.2.2
  · exact unsignedLiteral_decimalText ip fp hip hfp hne

theorem decimalText_nil_right (ip : List Char) : decimalText ip [] = ip := by
  simp [decimalText]

theorem decimalNumber_nil_right (ip : List Char) :
    decimalNumber ip [] = (digitsToNat ip : ℚ) := by
  simp [decimalNumber, digitsToNat]

theorem stringToNumber_digits (ds : List Char) (hds : AllDigits ds) (hne : ds ≠ []) :
    stringToNumber ds = JSNum.ofRat (digitsToNat ds : ℚ) := by
  have := stringToNumber_decimalText ds [] hds (fun _ h => absurd h (List.not_mem_nil _)) hne
  rwa [decimalText_nil_right, decimalNumber_nil_right] at this

theorem parseFloat_decimalText (ip fp : List Char) (hip : AllDigits ip)
    (hfp : AllDigits fp) (hne : ip ≠ []) :
    parseFloat (decimalText ip fp) = JSNum.ofRat (decimalNumber ip fp) := by
  obtain ⟨d, r, hdr, hd⟩ := decimalText_head ip fp hip hne
  have hts : trimStart (decimalText ip fp) = decimalText ip fp := by
    rw [hdr]
    unfold trimStart
    rw [List.dropWhile_cons_of_neg (by simp [isDigit_not_isWs hd])]
  have hinf : infinityText.isPrefixOf (decimalText ip fp) = false := by
    rw [hdr]
    have : d ≠ 'I' := by
      intro h; subst h; revert hd; decide
    simp [infinityText, List.isPrefixOf, this]
    intro h
    exact absurd h.symm this
  unfold parseFloat
  rw [hts]
  split
  · rename_i r1 h
    rw [hdr] at h
    have : d = '+' := by injection h
    subst this; exact absurd hd (by decide)
  · rename_i r1 h
    rw [hdr] at h
    have : d = '-' := by injection h
    subst this; exact absurd hd (by decide)
  · simp only [hinf, scanUnsignedDecimal_decimalText ip fp hip hfp hne]
    simp

theorem parseInt10_digits (ds : List Char) (hds : AllDigits ds) (hne : ds ≠ []) :
    parseInt10 ds = JSNum.ofRat (digitsToNat ds : ℚ) := by
  cases ds with
  | nil => exact absurd rfl hne
  | cons d r =>
    have hd : isDigit d = true := hds d (List.mem_cons_self d r)
    have hts : trimStart (d :: r) = d :: r := by
      unfold trimStart
      rw [List.dropWhile_cons_of_neg (by simp [isDigit_not_isWs hd])]
    have htw : (d :: r).takeWhile isDigit = d :: r := by
      simpa using takeWhile_append_stop isDigit (d :: r) [] hds (by simp)
    unfold parseInt10
    rw [hts]
    split
    · rename_i r1 h
      have : d = '+' := by injection h
      subst this; exact absurd hd (by decide)
    · rename_i r1 h
      have : d = '-' := by injection h
      subst this; exact absurd hd (by decide)
    · simp [htw]

/-! ## The patterns of the duration parser -/

theorem takeWhile_append_dropWhile_eq {α : Type} (p : α → Bool) (l : List α) :
    l = l.takeWhile p ++ l.dropWhile p := (List.takeWhile_append_dropWhile p l).symm

theorem colonTest_form (h m : List Char) (hh : AllDigits h) (hne : h ≠ [])
    (hm : AllDigits m) (hlen : m.length = 1 ∨ m.length = 2) :
    colonTest (h ++ ':' :: m) = true := by
  have hstop : ∀ a, (':' :: m).head? = some a → isDigit a = false := by
    intro a ha
    simp at ha
    subst ha
    decide
  unfold colonTest
  rw [dropWhile_append_stop isDigit h _ hh hstop, takeWhile_append_stop isDigit h _ hh hstop]
  simp only [Bool.and_eq_true, Bool.or_eq_true, decide_eq_true_eq, List.all_eq_true]
  exact ⟨⟨hne, hlen⟩, hm⟩

theorem colonTest_imp (t : List Char) (h : colonTest t = true) : IsColonText t := by
  unfold colonTest at h
  split at h
  · rename_i m hm
    simp only [Bool.and_eq_true, Bool.or_eq_true, decide_eq_true_eq, List.all_eq_true] at h
    refine ⟨t.takeWhile isDigit, m, takeWhile_all isDigit t, h.1.1, h.2, h.1.2, ?_⟩
    rw [← hm]
    exact takeWhile_append_dropWhile_eq isDigit t
  · exact absurd h (by simp)

theorem colonTest_eq_false (ds rest : List Char) (hds : AllDigits ds)
    (hrest : ∀ a, rest.head? = some a → isDigit a = false ∧ a ≠ ':') :
    colonTest (ds ++ rest) = false := by
  unfold colonTest
  rw [dropWhile_append_stop isDigit ds rest hds (fun a ha => (hrest a ha).1)]
  cases rest with
  | nil => rfl
  | cons c rest =>
    have hc : c ≠ ':' := (hrest c rfl).2
    split
    · rename_i m hm
      injection hm with h1 h2
      exact absurd h1 hc
    · rfl

theorem splitOnChar_not_mem (c : Char) (s : List Char) (h : c ∉ s) :
    splitOnChar c s = [s] := by
  induction s with
  | nil => rfl
  | cons x xs ih =>
    have hx : x ≠ c := fun e => h (e ▸ List.mem_cons_self x xs)
    have hxs : c ∉ xs := fun e => h (List.mem_cons_of_mem x e)
    simp [splitOnChar, ih hxs, hx]

theorem splitOnChar_ne_nil (c : Char) (s : List Char) : splitOnChar c s ≠ [] := by
  cases s with
  | nil => simp [splitOnChar]
  | cons x xs =>
    unfold splitOnChar
    split
    · simp
    · split <;> simp

theorem splitOnChar_append (c : Char) (h m : List Char) (hc : c ∉ h) :
    splitOnChar c (h ++ c :: m) = h :: splitOnChar c m := by
  induction h with
  | nil =>
    simp only [List.nil_append]
    cases hs : splitOnChar c m with
    | nil => exact absurd hs (splitOnChar_ne_nil c m)
    | cons p ps => simp [splitOnChar, hs]
  | cons x xs ih =>
    have hx : x ≠ c := fun e => hc (e ▸ List.mem_cons_self x xs)
    have hxs : c ∉ xs := fun e => hc (List.mem_cons_of_mem x e)
    simp [splitOnChar, ih hxs, hx]

theorem not_mem_of_allDigits (c : Char) (hc : isDigit c = false) (s : List Char)
    (hs : AllDigits s) : c ∉ s := by
  intro h
  rw [hs c h] at hc
  exact absurd hc (by simp)

theorem hoursWithFraction_no_dot (ip r1 : List Char) (h : r1.head? ≠ some '.') :
    hoursWithFraction ip r1 = none := by
  unfold hoursWithFraction
  split
  · rename_i r2
    exact absurd rfl h
  · rfl

theorem ws_h_head_digit (ws rest : List Char) (c : Char) (hws : AllWs ws)
    (hc : isDigit c = false) :
    ∀ a, (ws ++ c :: rest).head? = some a → isDigit a = false := by
  intro a ha
  cases ws with
  | nil => simp at ha; subst ha; exact hc
  | cons w ws =>
    simp at ha; subst ha
    exact isWs_not_isDigit (hws _ (List.mem_cons_self _ _))

theorem ws_h_head_dot (ws rest : List Char) (c : Char) (hws : AllWs ws) (hc : c ≠ '.') :
    (ws ++ c :: rest).head? ≠ some '.' := by
  cases ws with
  | nil => simpa using hc
  | cons w ws =>
    simp only [List.cons_append, List.head?_cons, ne_eq, Option.some.injEq]
    intro h
    have := hws w (List.mem_cons_self _ _)
    rw [h] at this
    exact absurd this (by decide)

theorem matchHours_whole (ip ws rest : List Char) (hip : AllDigits ip) (hne : ip ≠ [])
    (hws : AllWs ws) : matchHours (ip ++ (ws ++ 'h' :: rest)) = some (ip, rest) := by
  have hstop := ws_h_head_digit ws rest 'h' hws (by decide)
  have hh : ∀ a, ('h' :: rest).head? = some a → isWs a = false := by
    intro a ha; simp at ha; subst ha; decide
  unfold matchHours
  simp only [takeWhile_append_stop isDigit ip _ hip hstop,
    dropWhile_append_stop isDigit ip _ hip hstop, if_neg hne,
    hoursWithFraction_no_dot ip _ (ws_h_head_dot ws rest 'h' hws (by decide)),
    hoursWithoutFraction, dropWhile_append_stop isWs ws _ hws hh]

theorem matchHours_fraction (ip fp ws rest : List Char) (hip : AllDigits ip) (hne : ip ≠ [])
    (hfp : AllDigits fp) (hfne : fp ≠ []) (hws : AllWs ws) :
    matchHours (ip ++ '.' :: (fp ++ (ws ++ 'h' :: rest))) = some (ip ++ '.' :: fp, rest) := by
  have hdot : ∀ a, ('.' :: (fp ++ (ws ++ 'h' :: rest))).head? = some a → isDigit a = false := by
    intro a ha; simp at ha; subst ha; decide
  have hstop := ws_h_head_digit ws rest 'h' hws (by decide)
  have hh : ∀ a, ('h' :: rest).head? = some a → isWs a = false := by
    intro a ha; simp at ha; subst ha; decide
  unfold matchHours
  simp only [takeWhile_append_stop isDigit ip _ hip hdot,
    dropWhile_append_stop isDigit ip _ hip hdot, if_neg hne, hoursWithFraction,
    takeWhile_append_stop isDigit fp _ hfp hstop, dropWhile_append_stop isDigit fp _ hfp hstop,
    if_neg hfne, dropWhile_append_stop isWs ws _ hws hh]

theorem matchHours_decimalText (ip fp ws rest : List Char) (hip : AllDigits ip)
    (hne : ip ≠ []) (hfp : AllDigits fp) (hws : AllWs ws) :
    matchHours (decimalText ip fp ++ (ws ++ 'h' :: rest)) = some (decimalText ip fp, rest) := by
  unfold decimalText
  split
  · exact matchHours_whole ip ws rest hip hne hws
  · rename_i hfne
    have := matchHours_fraction ip fp ws rest hip hne hfp hfne hws
    simpa using this

theorem hoursWithFraction_imp (ip r1 g rest : List Char)
    (h : hoursWithFraction ip r1 = some (g, rest)) :
    ∃ fp ws, AllDigits fp ∧ fp ≠ [] ∧ AllWs ws ∧ r1 = '.' :: fp ++ ws ++ 'h' :: rest := by
  unfold hoursWithFraction at h
  split at h
  · rename_i r2
    split at h
    · exact absurd h (by simp)
    · rename_i hfne
      split at h
      · rename_i rest2 h3
        simp only [Option.some.injEq, Prod.mk.injEq] at h
        refine ⟨r2.takeWhile isDigit, (r2.dropWhile isDigit).takeWhile isWs,
          takeWhile_all _ _, hfne, takeWhile_all _ _, ?_⟩
        rw [← h.2, ← h3]
        conv_lhs => rw [takeWhile_append_dropWhile_eq isDigit r2,
          takeWhile_append_dropWhile_eq isWs (r2.dropWhile isDigit)]
        simp
      · exact absurd h (by simp)
  · exact absurd h (by simp)

theorem hoursWithoutFraction_imp (ip r1 g rest : List Char)
    (h : hoursWithoutFraction ip r1 = some (g, rest)) :
    ∃ ws, AllWs ws ∧ r1 = ws ++ 'h' :: rest := by
  unfold hoursWithoutFraction at h
  split at h
  · rename_i rest2 h3
    simp only [Option.some.injEq, Prod.mk.injEq] at h
    refine ⟨r1.takeWhile isWs, takeWhile_all _ _, ?_⟩
    rw [← h.2, ← h3]
    exact takeWhile_append_dropWhile_eq isWs r1
  · exact absurd h (by simp)

theorem matchHours_imp (t g rest : List Char) (h : matchHours t = some (g, rest)) :
    StartsWithHours t := by
  unfold matchHours at h
  simp only at h
  split at h
  · exact absurd h (by simp)
  · rename_i hne
    split at h
    · rename_i r heq
      obtain ⟨fp, ws, hfp, hfne, hws, hr1⟩ := hoursWithFraction_imp _ _ r.1 r.2 heq
      refine ⟨t.takeWhile isDigit, fp, ws, r.2, takeWhile_all _ _, hne, hfp, hws, ?_⟩
      rw [decimalText, if_neg hfne]
      conv_lhs => rw [takeWhile_append_dropWhile_eq isDigit t, hr1]
      simp
    · obtain ⟨ws, hws, hr1⟩ := hoursWithoutFraction_imp _ _ g rest h
      refine ⟨t.takeWhile isDigit, [], ws, rest, takeWhile_all _ _, hne,
        fun _ hc => absurd hc (List.not_mem_nil _), hws, ?_⟩
      rw [decimalText_nil_right]
      conv_lhs => rw [takeWhile_append_dropWhile_eq isDigit t, hr1]
      simp

theorem matchMinutes_form (b ws rest : List Char) (hb : AllDigits b) (hne : b ≠ [])
    (hws : AllWs ws) : matchMinutes (b ++ (ws ++ 'm' :: rest)) = some b := by
  have hstop := ws_h_head_digit ws rest 'm' hws (by decide)
  have hm : ∀ a, ('m' :: rest).head? = some a → isWs a = false := by
    intro a ha; simp at ha; subst ha; decide
  unfold matchMinutes
  simp only [takeWhile_append_stop isDigit b _ hb hstop,
    dropWhile_append_stop isDigit b _ hb hstop, if_neg hne, dropWhile_append_stop isWs ws _ hws hm]

theorem matchMinutes_imp (s g : List Char) (h : matchMinutes s = some g) :
    ∃ b ws rest, AllDigits b ∧ b ≠ [] ∧ AllWs ws ∧ s = b ++ ws ++ 'm' :: rest := by
  unfold matchMinutes at h
  split at h
  · exact absurd h (by simp)
  · rename_i hne
    split at h
    · rename_i rest h3
      refine ⟨s.takeWhile isDigit, (s.dropWhile isDigit).takeWhile isWs, rest,
        takeWhile_all _ _, hne, takeWhile_all _ _, ?_⟩
      rw [← h3]
      conv_lhs => rw [takeWhile_append_dropWhile_eq isDigit s,
        takeWhile_append_dropWhile_eq isWs (s.dropWhile isDigit)]
      simp
    · exact absurd h (by simp)

theorem matchHM_none_of_not (t : List Char) (h1 : ¬ StartsWithHours t)
    (h2 : ¬ StartsWithMinutes t) : matchHM t = (none, none) := by
  unfold matchHM
  cases hh : matchHours t with
  | some p => exact absurd (matchHours_imp t p.1 p.2 hh) h1
  | none =>
    cases hm : matchMinutes (t.dropWhile isWs) with
    | none => rfl
    | some g =>
      exfalso
      obtain ⟨b, ws, rest, hb, hne, hws, heq⟩ := matchMinutes_imp _ g hm
      refine h2 ⟨t.takeWhile isWs, b, ws, rest, takeWhile_all _ _, hb, hne, hws, ?_⟩
      conv_lhs => rw [takeWhile_append_dropWhile_eq isWs t, heq]
      simp

theorem isColonText_imp (t : List Char) (h : IsColonText t) : colonTest t = true := by
  obtain ⟨hd, m, hh, hne, hm, hlen, rfl⟩ := h
  exact colonTest_form hd m hh hne hm hlen

theorem startsWithHours_imp (t : List Char) (h : StartsWithHours t) :
    (matchHours t).isSome = true := by
  obtain ⟨ip, fp, ws, rest, hip, hne, hfp, hws, rfl⟩ := h
  rw [List.append_assoc, matchHours_decimalText ip fp ws rest hip hne hfp hws]
  rfl

theorem startsWithMinutes_imp (t : List Char) (h : StartsWithMinutes t) :
    (matchMinutes (t.dropWhile isWs)).isSome = true := by
  obtain ⟨ws0, b, ws, rest, hws0, hb, hne, hws, rfl⟩ := h
  have hstop : ∀ a, (b ++ (ws ++ 'm' :: rest)).head? = some a → isWs a = false := by
    intro a ha
    cases b with
    | nil => exact absurd rfl hne
    | cons d b =>
      simp at ha; subst ha
      exact isDigit_not_isWs (hb _ (List.mem_cons_self _ _))
  rw [List.append_assoc, List.append_assoc, dropWhile_append_stop isWs ws0 _ hws0 hstop,
    matchMinutes_form b ws rest hb hne hws]
  rfl

theorem parse_str_colon (E : JSEnv) (mode : NumericMode) (s : List Char) (ph : JSNum)
    (hs : s ≠ []) (hc : colonTest (toLowerCase (trim s)) = true) :
    parseTimeSpentToMinutes E mode (JSVal.str s) ph =
      match (splitOnChar ':' (toLowerCase (trim s))).map stringToNumber with
      | h :: m :: _ => (h.mul (JSNum.fin 60)).add m
      | _ => JSNum.nan := by
  simp only [parseTimeSpentToMinutes, JSVal.isNullish, JSVal.toStr, hc, if_true, Bool.false_or,
    decide_eq_true_eq, JSVal.str.injEq, hs, if_false]

theorem parse_str_hm (E : JSEnv) (mode : NumericMode) (s : List Char) (ph : JSNum)
    (hs : s ≠ []) (hc : colonTest (toLowerCase (trim s)) = false)
    (g1 g2 : Option (List Char)) (hm : matchHM (toLowerCase (trim s)) = (g1, g2))
    (hg : groupTruthy g1 = true ∨ groupTruthy g2 = true) :
    parseTimeSpentToMinutes E mode (JSVal.str s) ph =
      (((groupHours g1).mul (JSNum.fin 60)).add (groupMinutes g2)).round := by
  have hcond : (groupTruthy g1 || groupTruthy g2) = true := by
    rcases hg with h | h <;> simp [h]
  simp [parseTimeSpentToMinutes, JSVal.isNullish, JSVal.toStr, hs, hc, hm, hcond]

theorem parse_str_number (E : JSEnv) (mode : NumericMode) (s : List Char) (ph : JSNum)
    (hs : s ≠ []) (hc : colonTest (toLowerCase (trim s)) = false)
    (hm : matchHM (toLowerCase (trim s)) = (none, none)) :
    parseTimeSpentToMinutes E mode (JSVal.str s) ph =
      if (stringToNumber (toLowerCase (trim s))).isNaN then fallbackMinutes ph
      else byMode mode (stringToNumber (toLowerCase (trim s))) := by
  cases hn : (stringToNumber (toLowerCase (trim s))).isNaN <;>
    simp [parseTimeSpentToMinutes, JSVal.isNullish, hs, JSVal.toStr, hc, hm, groupTruthy, hn]

/-! ## Claims on the duration parser -/

/-- C1. `parseTimeSpentToMinutes` falls back to the productive hours: for
`null`, `undefined` and the empty string, and for every string whose trimmed,
lower-cased text is not of the colon form, does not start with the hours or
the minutes part of the h/m pattern, and is read by `Number` as `NaN`, the
result is `Math.round(productiveHours * 60)` when `productiveHours` is truthy
and `0` otherwise, in both numeric modes. -/
theorem parseTimeSpentToMinutes_fallback (E : JSEnv) (mode : NumericMode) (value : JSVal)
    (productiveHours : JSNum)
    (h : value = JSVal.null ∨ value = JSVal.undefined ∨ value = JSVal.str [] ∨
      ∃ s, value = JSVal.str s ∧ ¬ IsColonText (toLowerCase (trim s)) ∧
        ¬ StartsWithHours (toLowerCase (trim s)) ∧
        ¬ StartsWithMinutes (toLowerCase (trim s)) ∧
        stringToNumber (toLowerCase (trim s)) = JSNum.nan) :
    parseTimeSpentToMinutes E mode value productiveHours =
      if productiveHours.truthy then (productiveHours.mul (JSNum.fin 60)).round
      else JSNum.fin 0 := by
  rcases h with h | h | h | ⟨s, hv, hcolon, hhours, hminutes, hnan⟩
  · subst h; simp [parseTimeSpentToMinutes, JSVal.isNullish, fallbackMinutes]
  · subst h; simp [parseTimeSpentToMinutes, JSVal.isNullish, fallbackMinutes]
  · subst h; simp [parseTimeSpentToMinutes, JSVal.isNullish, fallbackMinutes]
  · subst hv
    by_cases hs : s = []
    · subst hs; simp [parseTimeSpentToMinutes, JSVal.isNullish, fallbackMinutes]
    · have hc : colonTest (toLowerCase (trim s)) = false := by
        cases hct : colonTest (toLowerCase (trim s)) with
        | false => rfl
        | true => exact absurd (colonTest_imp _ hct) hcolon
      rw [parse_str_number E mode s productiveHours hs hc
        (matchHM_none_of_not _ hhours hminutes), hnan]
      simp [JSNum.isNaN, fallbackMinutes]

/-- Witness for C1: the empty value with 1.5 productive hours gives 90, and so
does the text `n/a` in MINUTES mode. -/
theorem parseTimeSpentToMinutes_fallback_witness :
    parseTimeSpentToMinutes sampleHost NumericMode.HOURS (JSVal.str []) (JSNum.fin (3 / 2))
        = JSNum.fin 90 ∧
      parseTimeSpentToMinutes sampleHost NumericMode.MINUTES (JSVal.str "n/a".toList)
        (JSNum.fin (3 / 2)) = JSNum.fin 90 := by
  constructor
  · rw [parseTimeSpentToMinutes_fallback sampleHost NumericMode.HOURS (JSVal.str [])
      (JSNum.fin (3 / 2)) (Or.inr (Or.inr (Or.inl rfl)))]
    decide!
  · rw [parseTimeSpentToMinutes_fallback sampleHost NumericMode.MINUTES
      (JSVal.str "n/a".toList) (JSNum.fin (3 / 2))
      (Or.inr (Or.inr (Or.inr ⟨"n/a".toList, rfl,
        fun h => absurd (isColonText_imp _ h) (by decide),
        fun h => absurd (startsWithHours_imp _ h) (by decide),
        fun h => absurd (startsWithMinutes_imp _ h) (by decide),
        by decide⟩)))]
    decide!

theorem toLowerCase_decimalText (ip fp : List Char) (hip : AllDigits ip) (hfp : AllDigits fp) :
    toLowerCase (decimalText ip fp) = decimalText ip fp := by
  apply toLowerCase_stable
  intro c hc
  rcases decimalText_chars ip fp hip hfp c hc with h | h
  · exact lowerChar_of_isDigit h
  · subst h; decide

theorem colonTest_decimalText_append (ip fp X : List Char) (hip : AllDigits ip)
    (hX : ∀ a, X.head? = some a → isDigit a = false ∧ a ≠ ':') :
    colonTest (decimalText ip fp ++ X) = false := by
  unfold decimalText
  split
  · exact colonTest_eq_false ip X hip hX
  · rw [List.append_assoc]
    apply colonTest_eq_false ip _ hip
    intro a ha
    simp at ha
    subst ha
    exact ⟨by decide, by decide⟩

theorem ws_then_head (ws rest : List Char) (c : Char) (hws : AllWs ws)
    (hc : isDigit c = false ∧ c ≠ ':') :
    ∀ a, (ws ++ c :: rest).head? = some a → isDigit a = false ∧ a ≠ ':' := by
  intro a ha
  cases ws with
  | nil => simp at ha; subst ha; exact hc
  | cons w ws =>
    simp at ha; subst ha
    have hw := hws _ (List.mem_cons_self _ _)
    refine ⟨isWs_not_isDigit hw, ?_⟩
    intro h
    rw [h] at hw
    exact absurd hw (by decide)

theorem matchHours_minutes_only (b ws rest : List Char) (hb : AllDigits b) (hws : AllWs ws) :
    matchHours (b ++ (ws ++ 'm' :: rest)) = none := by
  have hstop := ws_h_head_digit ws rest 'm' hws (by decide)
  have hm : ∀ a, ('m' :: rest).head? = some a → isWs a = false := by
    intro a ha; simp at ha; subst ha; decide
  unfold matchHours
  simp only [takeWhile_append_stop isDigit b _ hb hstop,
    dropWhile_append_stop isDigit b _ hb hstop,
    hoursWithFraction_no_dot b _ (ws_h_head_dot ws rest 'm' hws (by decide)),
    hoursWithoutFraction, dropWhile_append_stop isWs ws _ hws hm]
  split <;> rfl

theorem dropWhile_isWs_digits (b rest : List Char) (hb : AllDigits b) (hne : b ≠ []) :
    (b ++ rest).dropWhile isWs = b ++ rest := by
  cases b with
  | nil => exact absurd rfl hne
  | cons d b =>
    rw [List.cons_append,
      List.dropWhile_cons_of_neg (by simp [isDigit_not_isWs (hb d (List.mem_cons_self d b))])]

theorem decimalText_ne_nil (ip fp : List Char) (hne : ip ≠ []) : decimalText ip fp ≠ [] := by
  unfold decimalText
  split
  · exact hne
  · simp

theorem lowerChar_h (c : Char) (h : c = 'h' ∨ c = 'H') : lowerChar c = ['h'] := by
  rcases h with h | h <;> subst h <;> decide

theorem lowerChar_m (c : Char) (h : c = 'm' ∨ c = 'M') : lowerChar c = ['m'] := by
  rcases h with h | h <;> subst h <;> decide

theorem not_isWs_h (c : Char) (h : c = 'h' ∨ c = 'H') : isWs c = false := by
  rcases h with h | h <;> subst h <;> decide

theorem not_isWs_m (c : Char) (h : c = 'm' ∨ c = 'M') : isWs c = false := by
  rcases h with h | h <;> subst h <;> decide

theorem head_decimalText_append (ip fp X : List Char) (hip : AllDigits ip) (hne : ip ≠ []) :
    ∀ a, (decimalText ip fp ++ X).head? = some a → isWs a = false := by
  intro a ha
  obtain ⟨d, r, hdr, hd⟩ := decimalText_head ip fp hip hne
  rw [hdr] at ha
  simp at ha
  subst ha
  exact isDigit_not_isWs hd

theorem head_digits_append (b X : List Char) (hb : AllDigits b) (hne : b ≠ []) :
    ∀ a, (b ++ X).head? = some a → isWs a = false := by
  intro a ha
  cases b with
  | nil => exact absurd rfl hne
  | cons d b =>
    simp at ha; subst ha
    exact isDigit_not_isWs (hb _ (List.mem_cons_self _ _))

theorem getLast_append_singleton (X : List Char) (c : Char) :
    ∀ a, (X ++ [c]).getLast? = some a → a = c := by
  intro a ha
  simp at ha
  exact ha.symm

theorem text_of_sandwich (pre core post low : List Char) (hpre : AllWs pre)
    (hpost : AllWs post)
    (hh : ∀ a, core.head? = some a → isWs a = false)
    (hl : ∀ a, core.getLast? = some a → isWs a = false)
    (hlow : toLowerCase core = low) :
    toLowerCase (trim (pre ++ core ++ post)) = low := by
  rw [List.append_assoc, trim_sandwich pre core post hpre hpost hh hl, hlow]

theorem sandwich_ne_nil (pre core post : List Char) (h : core ≠ []) :
    pre ++ core ++ post ≠ [] := by
  simp [h]

theorem length_ne_nil_of (M : List Char) (h : M.length = 1 ∨ M.length = 2) : M ≠ [] := by
  intro hM
  subst hM
  simp at h

/-- C3 (amended). For every text that, once trimmed, is one or more digits `H`, a colon
and one or two digits `M`, `parseTimeSpentToMinutes` returns
`Number(H) * 60 + Number(M)`, whatever the numeric mode and the productive
hours: the colon rule is the first one tried.  The result is `H * 60 + M`
whenever this is below `2 ^ 53`. -/
theorem parseTimeSpentToMinutes_colon (E : JSEnv) (mode : NumericMode)
    (productiveHours : JSNum) (pre post H M : List Char)
    (hpre : AllWs pre) (hpost : AllWs post) (hH : AllDigits H) (hne : H ≠ [])
    (hM : AllDigits M) (hlen : M.length = 1 ∨ M.length = 2) :
    parseTimeSpentToMinutes E mode (JSVal.str (pre ++ (H ++ ':' :: M) ++ post))
        productiveHours
      = ((JSNum.ofRat (digitsToNat H : ℚ)).mul (JSNum.fin 60)).add
          (JSNum.ofRat (digitsToNat M : ℚ))
    ∧ (digitsToNat H * 60 + digitsToNat M < 2 ^ 53 →
        parseTimeSpentToMinutes E mode (JSVal.str (pre ++ (H ++ ':' :: M) ++ post))
            productiveHours
          = JSNum.fin ((digitsToNat H : ℚ) * 60 + (digitsToNat M : ℚ))) := by
  have hMne : M ≠ [] := length_ne_nil_of M hlen
  have hcolon : lowerChar ':' = [':'] := by decide
  have hlow : toLowerCase (H ++ ':' :: M) = H ++ ':' :: M := by
    rw [toLowerCase_append, toLowerCase_cons, toLowerCase_digits H hH,
      toLowerCase_digits M hM, hcolon]
    rfl
  have hlast : ∀ a, (H ++ ':' :: M).getLast? = some a → isWs a = false := by
    intro a ha
    have : (H ++ ':' :: M) = (H ++ [':']) ++ M := by simp
    rw [this, List.getLast?_append_of_ne_nil _ hMne] at ha
    exact isDigit_not_isWs (hM a (List.mem_of_getLast?_eq_some ha))
  have htext : toLowerCase (trim (pre ++ (H ++ ':' :: M) ++ post)) = H ++ ':' :: M :=
    text_of_sandwich pre _ post _ hpre hpost (head_digits_append H _ hH hne) hlast hlow
  have hs : pre ++ (H ++ ':' :: M) ++ post ≠ [] := sandwich_ne_nil pre _ post (by simp)
  have hnc : isDigit ':' = false := by decide
  have hval : parseTimeSpentToMinutes E mode (JSVal.str (pre ++ (H ++ ':' :: M) ++ post))
        productiveHours
      = ((JSNum.ofRat (digitsToNat H : ℚ)).mul (JSNum.fin 60)).add
          (JSNum.ofRat (digitsToNat M : ℚ)) := by
    rw [parse_str_colon E mode _ productiveHours hs
      (by rw [htext]; exact colonTest_form H M hH hne hM hlen), htext,
      splitOnChar_append ':' H M (not_mem_of_allDigits ':' hnc H hH),
      splitOnChar_not_mem ':' M (not_mem_of_allDigits ':' hnc M hM)]
    simp [stringToNumber_digits H hH hne, stringToNumber_digits M hM hMne]
  refine ⟨hval, ?_⟩
  intro hb
  rw [hval, ofRat_nat _ (by omega), ofRat_nat _ (by omega)]
  have h60 : (60 : ℚ) = ((60 : ℕ) : ℚ) := by norm_num
  rw [h60, mul_nat _ _ (by omega)]
  have hm : ((digitsToNat H : ℕ) : ℚ) * ((60 : ℕ) : ℚ) = ((digitsToNat H * 60 : ℕ) : ℚ) := by
    push_cast; rfl
  rw [hm, add_nat _ _ hb]

/-- Witness for C3: the text `1:45` gives 105. -/
theorem parseTimeSpentToMinutes_colon_witness :
    digitsToNat "1".toList * 60 + digitsToNat "45".toList < 2 ^ 53
    ∧ parseTimeSpentToMinutes sampleHost NumericMode.MINUTES (JSVal.str " 1:45".toList)
      (JSNum.fin 7) = JSNum.fin 105 := by
  have hb : digitsToNat "1".toList * 60 + digitsToNat "45".toList < 2 ^ 53 := by decide
  have h := (parseTimeSpentToMinutes_colon sampleHost NumericMode.MINUTES (JSNum.fin 7)
    " ".toList [] "1".toList "45".toList (by decide) (by decide) (by decide) (by decide)
    (by decide) (by decide)).2 hb
  refine ⟨hb, ?_⟩
  rw [show (" 1:45".toList) = " ".toList ++ ("1".toList ++ ':' :: "45".toList) ++ [] from rfl,
    h]
  decide!

/-- Counterexample for C3 as it was worded: an hour count of sixteen digits.
`Number("9007199254740993")` is `9007199254740992`, the nearest binary64
value, so the text `9007199254740993:00` gives `540431955284459520` where
`H * 60 + M` is `540431955284459580`. -/
theorem parseTimeSpentToMinutes_colon_counterexample :
    parseTimeSpentToMinutes sampleHost NumericMode.HOURS
        (JSVal.str "9007199254740993:00".toList) (JSNum.fin 0)
      = JSNum.fin 540431955284459520
    ∧ parseTimeSpentToMinutes sampleHost NumericMode.HOURS
        (JSVal.str "9007199254740993:00".toList) (JSNum.fin 0)
      ≠ JSNum.fin ((digitsToNat "9007199254740993".toList : ℚ) * 60
          + (digitsToNat "00".toList : ℚ)) := by
  constructor
  · decide!
  · decide!

theorem matchMinutes_nil : matchMinutes [] = none := rfl

theorem matchHM_hours_only (a ws : List Char) (ip fp : List Char) (ha : a = decimalText ip fp)
    (hip : AllDigits ip) (hne : ip ≠ []) (hfp : AllDigits fp) (hws : AllWs ws) :
    matchHM (a ++ (ws ++ ['h'])) = (some a, none) := by
  subst ha
  unfold matchHM
  rw [matchHours_decimalText ip fp ws [] hip hne hfp hws]
  rfl

theorem matchHM_minutes_only (b ws : List Char) (hb : AllDigits b) (hne : b ≠ [])
    (hws : AllWs ws) : matchHM (b ++ (ws ++ ['m'])) = (none, some b) := by
  unfold matchHM
  rw [matchHours_minutes_only b ws [] hb hws]
  simp only
  rw [dropWhile_isWs_digits b _ hb hne, matchMinutes_form b ws [] hb hne hws]

theorem matchHM_both (ip fp w1 w2 b w3 : List Char)
    (hip : AllDigits ip) (hne : ip ≠ []) (hfp : AllDigits fp) (hw1 : AllWs w1)
    (hw2 : AllWs w2) (hb : AllDigits b) (hbne : b ≠ []) (hw3 : AllWs w3) :
    matchHM (decimalText ip fp ++ (w1 ++ 'h' :: (w2 ++ (b ++ (w3 ++ ['m'])))))
      = (some (decimalText ip fp), some b) := by
  unfold matchHM
  rw [matchHours_decimalText ip fp w1 _ hip hne hfp hw1]
  simp only
  rw [dropWhile_append_stop isWs w2 _ hw2 (head_digits_append b _ hb hbne),
    matchMinutes_form b w3 [] hb hbne hw3]

/-- C2 (amended). For every text of the form `<a>h`, `<b>m` or `<a>h <b>m`, where `a` is
written as digits with an optional fraction (a point and digits), `b` as
digits, with optional whitespace between a number and its unit, between the
two parts and around the text, and the letters in either case,
`parseTimeSpentToMinutes` returns `Math.round(a * 60 + b)`, the absent part
counting as `0`, whatever the numeric mode and the productive hours.  Here
`a` and `b` are the numbers that `parseFloat` and `parseInt` give, the
binary64 values nearest to the numerals, and the product and the sum are
those of binary64; when `a`, `b`, `a * 60` and `a * 60 + b` are binary64
values as they stand, the result is the integer nearest to `a * 60 + b`. -/
theorem parseTimeSpentToMinutes_hm (E : JSEnv) (mode : NumericMode) (productiveHours : JSNum)
    (pre post w1 w2 w3 ip fp b : List Char) (hc mc : Char)
    (hpre : AllWs pre) (hpost : AllWs post) (hw1 : AllWs w1) (hw2 : AllWs w2)
    (hw3 : AllWs w3) (hip : AllDigits ip) (hne : ip ≠ []) (hfp : AllDigits fp)
    (hb : AllDigits b) (hbne : b ≠ []) (hhc : hc = 'h' ∨ hc = 'H')
    (hmc : mc = 'm' ∨ mc = 'M') :
    parseTimeSpentToMinutes E mode
        (JSVal.str (pre ++ (decimalText ip fp ++ w1 ++ [hc]) ++ post)) productiveHours
      = roundedMinutes (JSNum.ofRat (decimalNumber ip fp)) (JSNum.fin 0)
    ∧ parseTimeSpentToMinutes E mode
        (JSVal.str (pre ++ (b ++ w3 ++ [mc]) ++ post)) productiveHours
      = roundedMinutes (JSNum.fin 0) (JSNum.ofRat (digitsToNat b : ℚ))
    ∧ parseTimeSpentToMinutes E mode
        (JSVal.str (pre ++ (decimalText ip fp ++ w1 ++ [hc] ++ w2 ++ b ++ w3 ++ [mc]) ++ post))
        productiveHours
      = roundedMinutes (JSNum.ofRat (decimalNumber ip fp)) (JSNum.ofRat (digitsToNat b : ℚ))
    ∧ (∀ x y : ℚ, JSNum.isDouble x = true → JSNum.isDouble y = true →
        JSNum.isDouble (x * 60) = true → JSNum.isDouble (x * 60 + y) = true →
        roundedMinutes (JSNum.ofRat x) (JSNum.ofRat y)
          = JSNum.fin ((⌊x * 60 + y + 1 / 2⌋ : ℤ) : ℚ)) := by
  have hlh := lowerChar_h hc hhc
  have hlm := lowerChar_m mc hmc
  have hda := toLowerCase_decimalText ip fp hip hfp
  have hane := decimalText_ne_nil ip fp hne
  have hhead_h : isDigit 'h' = false ∧ 'h' ≠ ':' := ⟨by decide, by decide⟩
  have hhead_m : isDigit 'm' = false ∧ 'm' ≠ ':' := ⟨by decide, by decide⟩
  refine ⟨?_, ?_, ?_, ?_⟩
  · -- hours only
    have hlow : toLowerCase (decimalText ip fp ++ w1 ++ [hc])
        = decimalText ip fp ++ (w1 ++ ['h']) := by
      rw [toLowerCase_append, toLowerCase_append, hda, toLowerCase_ws w1 hw1,
        toLowerCase_cons, hlh]
      simp [toLowerCase]
    have htext := text_of_sandwich pre (decimalText ip fp ++ w1 ++ [hc]) post _ hpre hpost
      (by rw [List.append_assoc]; exact head_decimalText_append ip fp _ hip hne)
      (fun a ha => by rw [getLast_append_singleton _ hc a ha]; exact not_isWs_h hc hhc) hlow
    have hs := sandwich_ne_nil pre (decimalText ip fp ++ w1 ++ [hc]) post (by simp)
    have hct := colonTest_decimalText_append ip fp _ hip (ws_then_head w1 [] 'h' hw1 hhead_h)
    have hmt := matchHM_hours_only _ w1 ip fp rfl hip hne hfp hw1
    rw [← htext] at hct hmt
    rw [parse_str_hm E mode _ productiveHours hs hct (some (decimalText ip fp)) none hmt
      (Or.inl (by simp [groupTruthy, hane]))]
    simp [groupHours, groupMinutes, hane, parseFloat_decimalText ip fp hip hfp hne,
      roundedMinutes]
  · -- minutes only
    have hlow : toLowerCase (b ++ w3 ++ [mc]) = b ++ (w3 ++ ['m']) := by
      rw [toLowerCase_append, toLowerCase_append, toLowerCase_digits b hb,
        toLowerCase_ws w3 hw3, toLowerCase_cons, hlm]
      simp [toLowerCase]
    have htext := text_of_sandwich pre (b ++ w3 ++ [mc]) post _ hpre hpost
      (by rw [List.append_assoc]; exact head_digits_append b _ hb hbne)
      (fun a ha => by rw [getLast_append_singleton _ mc a ha]; exact not_isWs_m mc hmc) hlow
    have hs := sandwich_ne_nil pre (b ++ w3 ++ [mc]) post (by simp)
    have hct := colonTest_eq_false b _ hb (ws_then_head w3 [] 'm' hw3 hhead_m)
    have hmt := matchHM_minutes_only b w3 hb hbne hw3
    rw [← htext] at hct hmt
    rw [parse_str_hm E mode _ productiveHours hs hct none (some b) hmt
      (Or.inr (by simp [groupTruthy, hbne]))]
    simp [groupHours, groupMinutes, hbne, parseInt10_digits b hb hbne, roundedMinutes]
  · -- hours and minutes
    have hlow : toLowerCase (decimalText ip fp ++ w1 ++ [hc] ++ w2 ++ b ++ w3 ++ [mc])
        = decimalText ip fp ++ (w1 ++ 'h' :: (w2 ++ (b ++ (w3 ++ ['m'])))) := by
      simp only [toLowerCase_append, hda, toLowerCase_ws w1 hw1, toLowerCase_ws w2 hw2,
        toLowerCase_ws w3 hw3, toLowerCase_digits b hb, toLowerCase_cons, hlh, hlm]
      simp [toLowerCase]
    have htext := text_of_sandwich pre
      (decimalText ip fp ++ w1 ++ [hc] ++ w2 ++ b ++ w3 ++ [mc]) post _ hpre hpost
      (by simp only [List.append_assoc]; exact head_decimalText_append ip fp _ hip hne)
      (fun a ha => by rw [getLast_append_singleton _ mc a ha]; exact not_isWs_m mc hmc) hlow
    have hs := sandwich_ne_nil pre
      (decimalText ip fp ++ w1 ++ [hc] ++ w2 ++ b ++ w3 ++ [mc]) post (by simp)
    have hct := colonTest_decimalText_append ip fp _ hip
      (ws_then_head w1 (w2 ++ (b ++ (w3 ++ ['m']))) 'h' hw1 hhead_h)
    have hmt := matchHM_both ip fp w1 w2 b w3 hip hne hfp hw1 hw2 hb hbne hw3
    rw [← htext] at hct hmt
    rw [parse_str_hm E mode _ productiveHours hs hct (some (decimalText ip fp)) (some b) hmt
      (Or.inl (by simp [groupTruthy, hane]))]
    simp [groupHours, groupMinutes, hane, hbne, parseFloat_decimalText ip fp hip hfp hne,
      parseInt10_digits b hb hbne, roundedMinutes]
  · intro x y hx hy hxm hxy
    unfold roundedMinutes
    rw [ofRat_of_isDouble hx, ofRat_of_isDouble hy, mul_fin, ofRat_of_isDouble hxm, add_fin,
      ofRat_of_isDouble hxy]
    rfl

/-- Witness for C2: `2h 30m` gives 150, `1.5H` gives 90 and `45 m` gives 45;
`1.025h` gives 61, the product `1.025 * 60` being `61.49999999999999` in
binary64. -/
theorem parseTimeSpentToMinutes_hm_witness :
    parseTimeSpentToMinutes sampleHost NumericMode.MINUTES (JSVal.str "2h 30m".toList)
        (JSNum.fin 7) = JSNum.fin 150
    ∧ parseTimeSpentToMinutes sampleHost NumericMode.HOURS (JSVal.str " 1.5H".toList)
        JSNum.nan = JSNum.fin 90
    ∧ parseTimeSpentToMinutes sampleHost NumericMode.HOURS (JSVal.str "45 m".toList)
        (JSNum.fin 7) = JSNum.fin 45
    ∧ parseTimeSpentToMinutes sampleHost NumericMode.HOURS (JSVal.str "1.025h".toList)
        (JSNum.fin 7) = JSNum.fin 61 := by
  refine ⟨?_, ?_, ?_, ?_⟩
  · have h := (parseTimeSpentToMinutes_hm sampleHost NumericMode.MINUTES (JSNum.fin 7)
      [] [] [] " ".toList [] "2".toList [] "30".toList 'h' 'm' (by decide) (by decide)
      (by decide) (by decide) (by decide) (by decide) (by decide) (by decide) (by decide)
      (by decide) (by decide) (by decide)).2.2.1
    rw [show ("2h 30m".toList) = [] ++ (decimalText "2".toList [] ++ [] ++ ['h'] ++ " ".toList
      ++ "30".toList ++ [] ++ ['m']) ++ [] from rfl, h]
    decide!
  · have h := (parseTimeSpentToMinutes_hm sampleHost NumericMode.HOURS JSNum.nan
      " ".toList [] [] [] [] "1".toList "5".toList "0".toList 'H' 'm' (by decide) (by decide)
      (by decide) (by decide) (by decide) (by decide) (by decide) (by decide) (by decide)
      (by decide) (by decide) (by decide)).1
    rw [show (" 1.5H".toList) = " ".toList ++ (decimalText "1".toList "5".toList ++ [] ++ ['H'])
      ++ [] from rfl, h]
    decide!
  · have h := (parseTimeSpentToMinutes_hm sampleHost NumericMode.HOURS (JSNum.fin 7)
      [] [] [] [] " ".toList "0".toList [] "45".toList 'h' 'm' (by decide) (by decide)
      (by decide) (by decide) (by decide) (by decide) (by decide) (by decide) (by decide)
      (by decide) (by decide) (by decide)).2.1
    rw [show ("45 m".toList) = [] ++ ("45".toList ++ " ".toList ++ ['m']) ++ [] from rfl, h]
    decide!
  · have h := (parseTimeSpentToMinutes_hm sampleHost NumericMode.HOURS (JSNum.fin 7)
      [] [] [] [] [] "1".toList "025".toList "0".toList 'h' 'm' (by decide) (by decide)
      (by decide) (by decide) (by decide) (by decide) (by decide) (by decide) (by decide)
      (by decide) (by decide) (by decide)).1
    rw [show ("1.025h".toList) = [] ++ (decimalText "1".toList "025".toList ++ [] ++ ['h'])
      ++ [] from rfl, h]
    decide!

/-- Counterexample for C2 as it was worded: a numeral without a digit before
its point.  On `.5h` neither part of the pattern takes part (the hours part
needs a digit first), `Number(".5h")` is `NaN`, and the result is the
productive-hours fallback, 120 for two productive hours and 0 for none,
where `round(0.5 * 60)` is 30. -/
theorem parseTimeSpentToMinutes_hm_counterexample :
    matchHM (toLowerCase (trim ".5h".toList)) = (none, none)
    ∧ parseTimeSpentToMinutes sampleHost NumericMode.HOURS (JSVal.str ".5h".toList)
        (JSNum.fin 2) = JSNum.fin 120
    ∧ parseTimeSpentToMinutes sampleHost NumericMode.MINUTES (JSVal.str ".5h".toList)
        (JSNum.fin 0) = JSNum.fin 0
    ∧ (JSNum.fin ((1 : ℚ) / 2 * 60)).round = JSNum.fin 30 := by
  refine ⟨by decide, by decide!, by decide!, by decide!⟩

theorem matchHM_decimalText (ip fp : List Char) (hip : AllDigits ip) (hfp : AllDigits fp) :
    matchHM (decimalText ip fp) = (none, none) := by
  have hch := decimalText_chars ip fp hip hfp
  apply matchHM_none_of_not
  · rintro ⟨ip2, fp2, ws, rest, -, -, -, -, heq⟩
    have : 'h' ∈ decimalText ip fp := by rw [heq]; simp
    exact absurd (hch 'h' this) (by decide)
  · rintro ⟨ws0, b, ws, rest, -, -, -, -, heq⟩
    have : 'm' ∈ decimalText ip fp := by rw [heq]; simp
    exact absurd (hch 'm' this) (by decide)

theorem colonTest_of_no_colon (t : List Char) (h : ':' ∉ t) : colonTest t = false := by
  cases hc : colonTest t with
  | false => rfl
  | true =>
    obtain ⟨hd, m, -, -, -, -, rfl⟩ := colonTest_imp t hc
    exact absurd (by simp) h

theorem matchHM_of_no_unit (t : List Char) (hh : 'h' ∉ t) (hm : 'm' ∉ t) :
    matchHM t = (none, none) := by
  apply matchHM_none_of_not
  · rintro ⟨ip2, fp2, ws, rest, -, -, -, -, heq⟩
    exact hh (by rw [heq]; simp)
  · rintro ⟨ws0, b, ws, rest, -, -, -, -, heq⟩
    exact hm (by rw [heq]; simp)

/-! ## Decimal numerals -/

theorem takeWhile_digits_nil (ds : List Char) (h : AllDigits ds) :
    ds.takeWhile isDigit = ds := by
  simpa using takeWhile_append_stop isDigit ds [] h (by simp)

theorem dropWhile_digits_nil (ds : List Char) (h : AllDigits ds) :
    ds.dropWhile isDigit = [] := by
  simpa using dropWhile_append_stop isDigit ds [] h (by simp)

theorem scanExponent_digits (c : Char) (ds : List Char) (hc : c = 'e' ∨ c = 'E')
    (hds : AllDigits ds) (hne : ds ≠ []) :
    scanExponent (c :: ds) = ((digitsToNat ds : Int), []) := by
  cases ds with
  | nil => exact absurd rfl hne
  | cons d r =>
    have hd : isDigit d = true := hds d (List.mem_cons_self d r)
    have hp : d ≠ '+' := by rintro rfl; exact absurd hd (by decide)
    have hm : d ≠ '-' := by rintro rfl; exact absurd hd (by decide)
    have htw := takeWhile_digits_nil (d :: r) hds
    have hdw := dropWhile_digits_nil (d :: r) hds
    unfold scanExponent
    simp only [hc, if_true]
    split
    · rename_i r1 heq
      exact absurd (List.cons.inj heq).1 hp
    · rename_i r1 heq
      exact absurd (List.cons.inj heq).1 hm
    · rw [htw, hdw]
      simp

theorem scanExponent_plus (c : Char) (ds : List Char) (hc : c = 'e' ∨ c = 'E')
    (hds : AllDigits ds) (hne : ds ≠ []) :
    scanExponent (c :: '+' :: ds) = ((digitsToNat ds : Int), []) := by
  unfold scanExponent
  simp only [hc, if_true, takeWhile_digits_nil ds hds, dropWhile_digits_nil ds hds, hne,
    if_false]

theorem scanExponent_minus (c : Char) (ds : List Char) (hc : c = 'e' ∨ c = 'E')
    (hds : AllDigits ds) (hne : ds ≠ []) :
    scanExponent (c :: '-' :: ds) = (-(digitsToNat ds : Int), []) := by
  unfold scanExponent
  simp only [hc, if_true, takeWhile_digits_nil ds hds, dropWhile_digits_nil ds hds, hne,
    if_false]

theorem scanExponent_of (x : List Char) (e : Int) (h : IsExponent x e) :
    scanExponent x = (e, []) := by
  rcases h with ⟨rfl, rfl⟩ | ⟨c, ds, hc, hds, hne, h⟩
  · rfl
  · rcases h with ⟨rfl, rfl⟩ | ⟨rfl, rfl⟩ | ⟨rfl, rfl⟩
    · exact scanExponent_digits c ds hc hds hne
    · exact scanExponent_plus c ds hc hds hne
    · exact scanExponent_minus c ds hc hds hne

theorem exponent_head (x : List Char) (e : Int) (h : IsExponent x e) :
    ∀ a, x.head? = some a → a = 'e' ∨ a = 'E' := by
  intro a ha
  rcases h with ⟨rfl, rfl⟩ | ⟨c, ds, hc, hds, hne, h⟩
  · simp at ha
  · rcases h with ⟨rfl, rfl⟩ | ⟨rfl, rfl⟩ | ⟨rfl, rfl⟩ <;>
      (simp at ha; subst ha; exact hc)

theorem exponent_head_not_digit (x : List Char) (e : Int) (h : IsExponent x e) :
    ∀ a, x.head? = some a → isDigit a = false := by
  intro a ha
  rcases exponent_head x e h a ha with rfl | rfl <;> decide

theorem scanUnsignedDecimal_of (m ip fp x : List Char) (e : Int)
    (hm : IsSignificand m ip fp) (hx : IsExponent x e) :
    scanUnsignedDecimal (m ++ x)
      = some (decimalValue (digitsToNat (ip ++ fp)) fp.length e, []) := by
  obtain ⟨hip, hfp, hm⟩ := hm
  have hxd := exponent_head_not_digit x e hx
  rcases hm with ⟨rfl, rfl, hne⟩ | ⟨rfl, hne⟩
  · have h1 : (m ++ x).takeWhile isDigit = m := takeWhile_append_stop isDigit m x hip hxd
    have h2 : (m ++ x).dropWhile isDigit = x := dropWhile_append_stop isDigit m x hip hxd
    have hdot : ∀ r2, x ≠ '.' :: r2 := by
      intro r2 h
      have := exponent_head x e hx '.' (by rw [h]; rfl)
      revert this
      decide
    unfold scanUnsignedDecimal
    simp only [h1, h2]
    rw [if_neg hne, scanExponent_of x e hx]
    simp
  · have hdot : ∀ a, ('.' :: (fp ++ x)).head? = some a → isDigit a = false := by
      intro a ha
      simp at ha
      subst ha
      decide
    have h1 : (ip ++ '.' :: fp ++ x).takeWhile isDigit = ip := by
      rw [List.append_assoc, List.cons_append]
      exact takeWhile_append_stop isDigit ip _ hip hdot
    have h2 : (ip ++ '.' :: fp ++ x).dropWhile isDigit = '.' :: (fp ++ x) := by
      rw [List.append_assoc, List.cons_append]
      exact dropWhile_append_stop isDigit ip _ hip hdot
    have h3 : (fp ++ x).takeWhile isDigit = fp := takeWhile_append_stop isDigit fp x hfp hxd
    have h4 : (fp ++ x).dropWhile isDigit = x := dropWhile_append_stop isDigit fp x hfp hxd
    unfold scanUnsignedDecimal
    simp only [h1, h2, h3, h4]
    rw [if_neg (by
      rintro ⟨a, b⟩
      rcases hne with h | h
      · exact h a
      · exact h b), scanExponent_of x e hx]

/-- The characters of a decimal numeral. -/
theorem numeral_chars (m ip fp x : List Char) (e : Int) (hm : IsSignificand m ip fp)
    (hx : IsExponent x e) :
    ∀ c ∈ m ++ x, isDigit c = true ∨ c = '.' ∨ c = 'e' ∨ c = 'E' ∨ c = '+' ∨ c = '-' := by
  obtain ⟨hip, hfp, hm⟩ := hm
  have hmc : ∀ c ∈ m, isDigit c = true ∨ c = '.' := by
    intro c hc
    rcases hm with ⟨rfl, rfl, -⟩ | ⟨rfl, -⟩
    · exact Or.inl (hip c hc)
    · rcases List.mem_append.1 hc with h | h
      · exact Or.inl (hip c h)
      · rcases List.mem_cons.1 h with h | h
        · exact Or.inr h
        · exact Or.inl (hfp c h)
  have hxc : ∀ c ∈ x, isDigit c = true ∨ c = 'e' ∨ c = 'E' ∨ c = '+' ∨ c = '-' := by
    intro c hc
    rcases hx with ⟨rfl, rfl⟩ | ⟨c0, ds, hc0, hds, hne, h⟩
    · simp at hc
    · rcases h with ⟨rfl, rfl⟩ | ⟨rfl, rfl⟩ | ⟨rfl, rfl⟩
      · rcases List.mem_cons.1 hc with h | h
        · rcases hc0 with h0 | h0
          · exact Or.inr (Or.inl (h.trans h0))
          · exact Or.inr (Or.inr (Or.inl (h.trans h0)))
        · exact Or.inl (hds c h)
      · rcases List.mem_cons.1 hc with h | h
        · rcases hc0 with h0 | h0
          · exact Or.inr (Or.inl (h.trans h0))
          · exact Or.inr (Or.inr (Or.inl (h.trans h0)))
        · rcases List.mem_cons.1 h with h | h
          · exact Or.inr (Or.inr (Or.inr (Or.inl h)))
          · exact Or.inl (hds c h)
      · rcases List.mem_cons.1 hc with h | h
        · rcases hc0 with h0 | h0
          · exact Or.inr (Or.inl (h.trans h0))
          · exact Or.inr (Or.inr (Or.inl (h.trans h0)))
        · rcases List.mem_cons.1 h with h | h
          · exact Or.inr (Or.inr (Or.inr (Or.inr h)))
          · exact Or.inl (hds c h)
  intro c hc
  rcases List.mem_append.1 hc with h | h
  · rcases hmc c h with h1 | h1
    · exact Or.inl h1
    · exact Or.inr (Or.inl h1)
  · rcases hxc c h with h1 | h1
    · exact Or.inl h1
    · exact Or.inr (Or.inr h1)

theorem significand_head (m ip fp : List Char) (hm : IsSignificand m ip fp) :
    ∃ d r, m = d :: r ∧ (isDigit d = true ∨ d = '.') := by
  obtain ⟨hip, hfp, hm⟩ := hm
  rcases hm with ⟨rfl, rfl, hne⟩ | ⟨rfl, hne⟩
  · cases m with
    | nil => exact absurd rfl hne
    | cons d r => exact ⟨d, r, rfl, Or.inl (hip d (List.mem_cons_self d r))⟩
  · cases ip with
    | nil => exact ⟨'.', fp, rfl, Or.inr rfl⟩
    | cons d r => exact ⟨d, r ++ '.' :: fp, rfl, Or.inl (hip d (List.mem_cons_self d r))⟩

theorem unsignedLiteral_of (m ip fp x : List Char) (e : Int)
    (hm : IsSignificand m ip fp) (hx : IsExponent x e) :
    unsignedLiteral (m ++ x)
      = JSNum.ofRat (decimalValue (digitsToNat (ip ++ fp)) fp.length e) := by
  have hinf : m ++ x ≠ infinityText := by
    intro h
    have := numeral_chars m ip fp x e hm hx 'I' (by rw [h]; decide)
    revert this
    decide
  unfold unsignedLiteral
  rw [if_neg hinf, scanUnsignedDecimal_of m ip fp x e hm hx]

theorem numeral_last (m ip fp x : List Char) (e : Int) (hm : IsSignificand m ip fp)
    (hx : IsExponent x e) : ∀ a, (m ++ x).getLast? = some a → isWs a = false := by
  intro a ha
  have hmem : a ∈ m ++ x := List.mem_of_getLast?_eq_some ha
  rcases numeral_chars m ip fp x e hm hx a hmem with h | rfl | rfl | rfl | rfl | rfl
  · exact isDigit_not_isWs h
  all_goals decide

theorem stringToNumber_of (sg m ip fp x : List Char) (neg : Bool) (e : Int)
    (hs : IsSign sg neg) (hm : IsSignificand m ip fp) (hx : IsExponent x e) :
    stringToNumber (sg ++ (m ++ x)) = numeralNumber neg ip fp e := by
  have hch := numeral_chars m ip fp x e hm hx
  obtain ⟨d, r, hdr, hd⟩ := significand_head m ip fp hm
  have hlit := unsignedLiteral_of m ip fp x e hm hx
  have hdws : isWs d = false := by
    rcases hd with h | rfl
    · exact isDigit_not_isWs h
    · decide
  have hlast := numeral_last m ip fp x e hm hx
  have hnot : ∀ c : Char, (c = 'x' ∨ c = 'X' ∨ c = 'o' ∨ c = 'O' ∨ c = 'b' ∨ c = 'B') →
      c ∉ m ++ x := by
    intro c hc hmem
    have := hch c hmem
    rcases hc with rfl | rfl | rfl | rfl | rfl | rfl <;> revert this <;> decide
  have hbody : stringToNumber (m ++ x) = unsignedLiteral (m ++ x) := by
    have htrim : trim (m ++ x) = m ++ x := by
      apply trim_self _ _ hlast
      intro a ha
      rw [hdr] at ha
      simp at ha
      subst ha
      exact hdws
    unfold stringToNumber
    rw [htrim]
    split
    · rename_i h
      rw [hdr] at h
      exact absurd h (by simp)
    · rename_i r1 h
      exact absurd (by rw [h]; simp) (hnot 'x' (by simp))
    · rename_i r1 h
      exact absurd (by rw [h]; simp) (hnot 'X' (by simp))
    · rename_i r1 h
      exact absurd (by rw [h]; simp) (hnot 'o' (by simp))
    · rename_i r1 h
      exact absurd (by rw [h]; simp) (hnot 'O' (by simp))
    · rename_i r1 h
      exact absurd (by rw [h]; simp) (hnot 'b' (by simp))
    · rename_i r1 h
      exact absurd (by rw [h]; simp) (hnot 'B' (by simp))
    · rename_i r1 h
      rw [hdr] at h
      have : d = '+' := (List.cons.inj h).1
      subst this
      rcases hd with h2 | h2
      · exact absurd h2 (by decide)
      · exact absurd h2 (by decide)
    · rename_i r1 h
      rw [hdr] at h
      have : d = '-' := (List.cons.inj h).1
      subst this
      rcases hd with h2 | h2
      · exact absurd h2 (by decide)
      · exact absurd h2 (by decide)
    · rfl
  have hsigned : ∀ s : Char, (s = '+' ∨ s = '-') → trim (s :: (m ++ x)) = s :: (m ++ x) := by
    intro s hs
    apply trim_self
    · intro a ha
      simp at ha
      subst ha
      rcases hs with rfl | rfl <;> decide
    · intro a ha
      rw [hdr, List.cons_append, List.getLast?_cons_cons, ← List.cons_append, ← hdr] at ha
      exact hlast a ha
  rcases hs with ⟨rfl, rfl⟩ | ⟨rfl, rfl⟩ | ⟨rfl, rfl⟩
  · rw [List.nil_append, hbody, hlit]
    rfl
  · show stringToNumber ('+' :: (m ++ x)) = _
    unfold stringToNumber
    rw [hsigned '+' (Or.inl rfl)]
    show unsignedLiteral (m ++ x) = _
    rw [hlit]
    rfl
  · show stringToNumber ('-' :: (m ++ x)) = _
    unfold stringToNumber
    rw [hsigned '-' (Or.inr rfl)]
    show (unsignedLiteral (m ++ x)).neg = _
    rw [hlit]
    rfl

theorem lowerChar_numeral (c : Char)
    (h : isDigit c = true ∨ c = '.' ∨ c = 'e' ∨ c = '+' ∨ c = '-') : lowerChar c = [c] := by
  rcases h with h | rfl | rfl | rfl | rfl
  · exact lowerChar_of_isDigit h
  all_goals decide

theorem toLowerCase_sign (sg : List Char) (neg : Bool) (h : IsSign sg neg) :
    toLowerCase sg = sg := by
  rcases h with ⟨rfl, -⟩ | ⟨rfl, -⟩ | ⟨rfl, -⟩ <;> decide

theorem toLowerCase_significand (m ip fp : List Char) (hm : IsSignificand m ip fp) :
    toLowerCase m = m := by
  obtain ⟨hip, hfp, hm⟩ := hm
  rcases hm with ⟨rfl, rfl, -⟩ | ⟨rfl, -⟩
  · exact toLowerCase_digits m hip
  · rw [toLowerCase_append, toLowerCase_cons, toLowerCase_digits ip hip, toLowerCase_digits fp hfp]
    rfl

theorem toLowerCase_exponent (x : List Char) (e : Int) (hx : IsExponent x e) :
    IsExponent (toLowerCase x) e := by
  rcases hx with ⟨rfl, rfl⟩ | ⟨c, ds, hc, hds, hne, h⟩
  · exact Or.inl ⟨rfl, rfl⟩
  · have hlc : lowerChar c = ['e'] := by
      rcases hc with rfl | rfl <;> decide
    have hp : lowerChar '+' = ['+'] := by decide
    have hm : lowerChar '-' = ['-'] := by decide
    refine Or.inr ⟨'e', ds, Or.inl rfl, hds, hne, ?_⟩
    rcases h with ⟨rfl, rfl⟩ | ⟨rfl, rfl⟩ | ⟨rfl, rfl⟩
    · refine Or.inl ⟨?_, rfl⟩
      rw [toLowerCase_cons, hlc, toLowerCase_digits ds hds]
      rfl
    · refine Or.inr (Or.inl ⟨?_, rfl⟩)
      rw [toLowerCase_cons, toLowerCase_cons, hlc, hp, toLowerCase_digits ds hds]
      rfl
    · refine Or.inr (Or.inr ⟨?_, rfl⟩)
      rw [toLowerCase_cons, toLowerCase_cons, hlc, hm, toLowerCase_digits ds hds]
      rfl

theorem sign_chars (sg : List Char) (neg : Bool) (h : IsSign sg neg) :
    ∀ c ∈ sg, c = '+' ∨ c = '-' := by
  intro c hc
  rcases h with ⟨rfl, -⟩ | ⟨rfl, -⟩ | ⟨rfl, -⟩
  · simp at hc
  · exact Or.inl (List.mem_singleton.1 hc)
  · exact Or.inr (List.mem_singleton.1 hc)

theorem numeralNumber_ne_nan (neg : Bool) (ip fp : List Char) (e : Int) :
    numeralNumber neg ip fp e ≠ JSNum.nan := by
  unfold numeralNumber
  have h := ofRat_ne_nan (decimalValue (digitsToNat (ip ++ fp)) fp.length e)
  cases neg
  · simpa using h
  · simp only [if_true]
    cases hv : JSNum.ofRat (decimalValue (digitsToNat (ip ++ fp)) fp.length e) with
    | nan => exact absurd hv h
    | _ => simp [JSNum.neg]

theorem parse_numeral (E : JSEnv) (mode : NumericMode) (productiveHours : JSNum)
    (pre post sg m ip fp x : List Char) (neg : Bool) (e : Int)
    (hpre : AllWs pre) (hpost : AllWs post) (hs : IsSign sg neg)
    (hm : IsSignificand m ip fp) (hx : IsExponent x e) :
    parseTimeSpentToMinutes E mode (JSVal.str (pre ++ (sg ++ (m ++ x)) ++ post)) productiveHours
      = byMode mode (numeralNumber neg ip fp e) := by
  have hx2 := toLowerCase_exponent x e hx
  have hlow : toLowerCase (sg ++ (m ++ x)) = sg ++ (m ++ toLowerCase x) := by
    rw [toLowerCase_append, toLowerCase_append, toLowerCase_sign sg neg hs,
      toLowerCase_significand m ip fp hm]
  obtain ⟨d, r, hdr, hd⟩ := significand_head m ip fp hm
  have hdws : isWs d = false := by
    rcases hd with h | rfl
    · exact isDigit_not_isWs h
    · decide
  have hhead : ∀ a, (sg ++ (m ++ x)).head? = some a → isWs a = false := by
    intro a ha
    rcases hs with ⟨rfl, -⟩ | ⟨rfl, -⟩ | ⟨rfl, -⟩
    · rw [List.nil_append, hdr] at ha
      simp at ha
      subst ha
      exact hdws
    · simp at ha
      subst ha
      decide
    · simp at ha
      subst ha
      decide
  have hlast : ∀ a, (sg ++ (m ++ x)).getLast? = some a → isWs a = false := by
    intro a ha
    have hne : m ++ x ≠ [] := by rw [hdr]; simp
    rw [List.getLast?_append_of_ne_nil _ hne] at ha
    exact numeral_last m ip fp x e hm hx a ha
  have htext := text_of_sandwich pre (sg ++ (m ++ x)) post _ hpre hpost hhead hlast hlow
  have hne : pre ++ (sg ++ (m ++ x)) ++ post ≠ [] :=
    sandwich_ne_nil pre _ post (by rw [hdr]; simp)
  have hchars : ∀ c ∈ sg ++ (m ++ toLowerCase x),
      isDigit c = true ∨ c = '.' ∨ c = 'e' ∨ c = 'E' ∨ c = '+' ∨ c = '-' := by
    intro c hc
    rcases List.mem_append.1 hc with h | h
    · rcases sign_chars sg neg hs c h with h1 | h1
      · exact Or.inr (Or.inr (Or.inr (Or.inr (Or.inl h1))))
      · exact Or.inr (Or.inr (Or.inr (Or.inr (Or.inr h1))))
    · exact numeral_chars m ip fp _ e hm hx2 c h
  have hnot : ∀ c : Char, (c = ':' ∨ c = 'h' ∨ c = 'm') → c ∉ sg ++ (m ++ toLowerCase x) := by
    intro c hc hmem
    have := hchars c hmem
    rcases hc with rfl | rfl | rfl <;> revert this <;> decide
  rw [parse_str_number E mode _ productiveHours hne
    (by rw [htext]; exact colonTest_of_no_colon _ (hnot ':' (by simp)))
    (by rw [htext]; exact matchHM_of_no_unit _ (hnot 'h' (by simp)) (hnot 'm' (by simp))),
    htext, stringToNumber_of sg m ip fp _ neg e hs hm hx2]
  have : (numeralNumber neg ip fp e).isNaN = false := by
    cases hv : numeralNumber neg ip fp e with
    | nan => exact absurd hv (numeralNumber_ne_nan neg ip fp e)
    | _ => rfl
  rw [this]
  rfl

/-- C4. For every number `v`, `parseTimeSpentToMinutes` returns
`Math.round(v * 60)` in HOURS mode and `Math.round(v)` in MINUTES mode,
whatever the productive hours.  For every text without a colon and without
the letters `h` and `m` (in either case) that `Number` reads as a number `v`,
the result is the one for the number `v`.  Every decimal numeral is such a
text: with or without a sign, with digits, a point or both in its
significand, with or without an exponent part, and with whitespace around it;
the number it denotes is the binary64 value nearest to its value,
`numeralNumber`, and the result is the one for that number.  For digits with
an optional fraction that number is `Number` of `decimalNumber`. -/
theorem parseTimeSpentToMinutes_numeric (E : JSEnv) (mode : NumericMode)
    (productiveHours : JSNum) :
    (∀ v : JSNum, parseTimeSpentToMinutes E mode (JSVal.num v) productiveHours =
      match mode with
      | NumericMode.HOURS => (v.mul (JSNum.fin 60)).round
      | NumericMode.MINUTES => v.round)
    ∧ (∀ s : List Char, s ≠ [] → ':' ∉ toLowerCase (trim s) → 'h' ∉ toLowerCase (trim s) →
        'm' ∉ toLowerCase (trim s) → stringToNumber (toLowerCase (trim s)) ≠ JSNum.nan →
        parseTimeSpentToMinutes E mode (JSVal.str s) productiveHours
          = parseTimeSpentToMinutes E mode
              (JSVal.num (stringToNumber (toLowerCase (trim s)))) productiveHours)
    ∧ (∀ (pre post sg m ip fp x : List Char) (neg : Bool) (e : Int), AllWs pre → AllWs post →
        IsSign sg neg → IsSignificand m ip fp → IsExponent x e →
        stringToNumber (sg ++ (m ++ x)) = numeralNumber neg ip fp e
        ∧ numeralNumber neg ip fp e ≠ JSNum.nan
        ∧ parseTimeSpentToMinutes E mode (JSVal.str (pre ++ (sg ++ (m ++ x)) ++ post))
            productiveHours
          = parseTimeSpentToMinutes E mode (JSVal.num (numeralNumber neg ip fp e))
            productiveHours)
    ∧ (∀ pre post ip fp : List Char, AllWs pre → AllWs post → AllDigits ip → ip ≠ [] →
        AllDigits fp →
        parseTimeSpentToMinutes E mode (JSVal.str (pre ++ decimalText ip fp ++ post))
            productiveHours
          = parseTimeSpentToMinutes E mode
              (JSVal.num (JSNum.ofRat (decimalNumber ip fp))) productiveHours) := by
  have hnum : ∀ v : JSNum, parseTimeSpentToMinutes E mode (JSVal.num v) productiveHours =
      byMode mode v := by
    intro v
    simp [parseTimeSpentToMinutes, JSVal.isNullish]
  refine ⟨?_, ?_, ?_, ?_⟩
  · intro v
    rw [hnum v]
    cases mode <;> rfl
  · intro s hs hc hh hm hn
    rw [parse_str_number E mode s productiveHours hs (colonTest_of_no_colon _ hc)
      (matchHM_of_no_unit _ hh hm), hnum]
    have : (stringToNumber (toLowerCase (trim s))).isNaN = false := by
      cases hv : stringToNumber (toLowerCase (trim s)) with
      | nan => exact absurd hv hn
      | _ => rfl
    rw [this]
    rfl
  · intro pre post sg m ip fp x neg e hpre hpost hs hm hx
    refine ⟨stringToNumber_of sg m ip fp x neg e hs hm hx, numeralNumber_ne_nan neg ip fp e, ?_⟩
    rw [parse_numeral E mode productiveHours pre post sg m ip fp x neg e hpre hpost hs hm hx,
      hnum]
  · intro pre post ip fp hpre hpost hip hne hfp
    have htext := text_of_sandwich pre (decimalText ip fp) post _ hpre hpost
      (by
        have := head_decimalText_append ip fp [] hip hne
        simpa using this)
      (fun a ha => isDigit_not_isWs (decimalText_last ip fp hip hfp a ha))
      (toLowerCase_decimalText ip fp hip hfp)
    have hs := sandwich_ne_nil pre (decimalText ip fp) post (decimalText_ne_nil ip fp hne)
    have hct : colonTest (decimalText ip fp) = false := by
      have := colonTest_decimalText_append ip fp [] hip (by simp)
      simpa using this
    have hmt := matchHM_decimalText ip fp hip hfp
    rw [← htext] at hct hmt
    rw [parse_str_number E mode _ productiveHours hs hct hmt, htext,
      stringToNumber_decimalText ip fp hip hfp hne, hnum]
    have : (JSNum.ofRat (decimalNumber ip fp)).isNaN = false := by
      cases hv : JSNum.ofRat (decimalNumber ip fp) with
      | nan => exact absurd hv (ofRat_ne_nan _)
      | _ => rfl
    rw [this]
    rfl

/-- Witness for C4: the numeral `2.5`, between blanks, in HOURS mode gives
what the number 2.5 gives, which is 150; `1.025` gives 61, the product
`1.025 * 60` being `61.49999999999999` in binary64; `.5`, `-1`, `1E3` and
`-.5E+1` are read as 0.5, -1, 1000 and -5. -/
theorem parseTimeSpentToMinutes_numeric_witness :
    parseTimeSpentToMinutes sampleHost NumericMode.HOURS (JSVal.str " 2.5 ".toList)
        (JSNum.fin 7)
      = parseTimeSpentToMinutes sampleHost NumericMode.HOURS (JSVal.num (JSNum.fin (5 / 2)))
        (JSNum.fin 7)
    ∧ parseTimeSpentToMinutes sampleHost NumericMode.HOURS (JSVal.num (JSNum.fin (5 / 2)))
        (JSNum.fin 7) = JSNum.fin 150
    ∧ parseTimeSpentToMinutes sampleHost NumericMode.HOURS (JSVal.num (JSNum.fin 2))
        (JSNum.fin 7) = JSNum.fin 120
    ∧ parseTimeSpentToMinutes sampleHost NumericMode.MINUTES (JSVal.num (JSNum.fin 90))
        (JSNum.fin 7) = JSNum.fin 90
    ∧ parseTimeSpentToMinutes sampleHost NumericMode.HOURS (JSVal.str "1.025".toList)
        (JSNum.fin 7) = JSNum.fin 61
    ∧ parseTimeSpentToMinutes sampleHost NumericMode.HOURS (JSVal.str ".5".toList)
        (JSNum.fin 7) = JSNum.fin 30
    ∧ parseTimeSpentToMinutes sampleHost NumericMode.MINUTES (JSVal.str "-1".toList)
        (JSNum.fin 7) = JSNum.fin (-1)
    ∧ parseTimeSpentToMinutes sampleHost NumericMode.MINUTES (JSVal.str " 1E3".toList)
        (JSNum.fin 7) = JSNum.fin 1000
    ∧ IsSign "-".toList true ∧ IsSignificand ".5".toList [] "5".toList
    ∧ IsExponent "E+1".toList 1
    ∧ stringToNumber "-.5E+1".toList = JSNum.fin (-5)
    ∧ parseTimeSpentToMinutes sampleHost NumericMode.HOURS (JSVal.str " -.5E+1 ".toList)
        (JSNum.fin 7) = JSNum.fin (-300) := by
  have h := (parseTimeSpentToMinutes_numeric sampleHost NumericMode.HOURS (JSNum.fin 7)).2.2.2
    " ".toList " ".toList "2".toList "5".toList (by decide) (by decide) (by decide)
    (by decide) (by decide)
  have hv : JSNum.ofRat (decimalNumber "2".toList "5".toList) = JSNum.fin (5 / 2) := by decide!
  rw [hv] at h
  have hgen : ∀ (mode : NumericMode) (s : String) (v : JSNum),
      s.toList ≠ [] → ':' ∉ toLowerCase (trim s.toList) → 'h' ∉ toLowerCase (trim s.toList) →
      'm' ∉ toLowerCase (trim s.toList) → stringToNumber (toLowerCase (trim s.toList)) = v →
      v ≠ JSNum.nan →
      parseTimeSpentToMinutes sampleHost mode (JSVal.str s.toList) (JSNum.fin 7)
        = parseTimeSpentToMinutes sampleHost mode (JSVal.num v) (JSNum.fin 7) := by
    intro mode s v h1 h2 h3 h4 h5 h6
    rw [← h5]
    exact (parseTimeSpentToMinutes_numeric sampleHost mode (JSNum.fin 7)).2.1 s.toList h1 h2 h3
      h4 (by rw [h5]; exact h6)
  have hs : IsSign "-".toList true := Or.inr (Or.inr ⟨rfl, rfl⟩)
  have hm : IsSignificand ".5".toList [] "5".toList :=
    ⟨by decide, by decide, Or.inr ⟨rfl, Or.inr (by decide)⟩⟩
  have hx : IsExponent "E+1".toList 1 :=
    Or.inr ⟨'E', "1".toList, Or.inr rfl, by decide, by decide, Or.inr (Or.inl ⟨rfl, by decide⟩)⟩
  have hnumeral := (parseTimeSpentToMinutes_numeric sampleHost NumericMode.HOURS
    (JSNum.fin 7)).2.2.1 " ".toList " ".toList "-".toList ".5".toList [] "5".toList
    "E+1".toList true 1 (by decide) (by decide) hs hm hx
  have hval : numeralNumber true [] "5".toList 1 = JSNum.fin (-5) := by decide!
  rw [hval] at hnumeral
  refine ⟨h, ?_, ?_, ?_, ?_, ?_, ?_, ?_, hs, hm, hx, hnumeral.1, ?_⟩
  · rw [(parseTimeSpentToMinutes_numeric sampleHost NumericMode.HOURS (JSNum.fin 7)).1]
    decide!
  · rw [(parseTimeSpentToMinutes_numeric sampleHost NumericMode.HOURS (JSNum.fin 7)).1]
    decide!
  · rw [(parseTimeSpentToMinutes_numeric sampleHost NumericMode.MINUTES (JSNum.fin 7)).1]
    decide!
  · rw [hgen NumericMode.HOURS "1.025" (JSNum.ofRat (41 / 40)) (by decide) (by decide)
      (by decide) (by decide) (by decide!) (by decide!)]
    decide!
  · rw [hgen NumericMode.HOURS ".5" (JSNum.fin (1 / 2)) (by decide) (by decide)
      (by decide) (by decide) (by decide!) (by decide)]
    decide!
  · rw [hgen NumericMode.MINUTES "-1" (JSNum.fin (-1)) (by decide) (by decide)
      (by decide) (by decide) (by decide!) (by decide)]
    decide!
  · rw [hgen NumericMode.MINUTES " 1E3" (JSNum.fin 1000) (by decide) (by decide)
      (by decide) (by decide) (by decide!) (by decide)]
    decide!
  · rw [show (" -.5E+1 ".toList) = " ".toList ++ ("-".toList ++ (".5".toList ++ "E+1".toList))
      ++ " ".toList from rfl, hnumeral.2.2,
      (parseTimeSpentToMinutes_numeric sampleHost NumericMode.HOURS (JSNum.fin 7)).1]
    decide!

/-! ## Sign and integrality of the parsed duration -/

theorem round_isNat (q : ℚ) (hq : 0 ≤ q) : (JSNum.fin q).round.IsNat := by
  have hz : 0 ≤ ⌊q + 1 / 2⌋ := Int.floor_nonneg.2 (by linarith)
  refine ⟨⌊q + 1 / 2⌋.toNat, ?_⟩
  show JSNum.fin ((⌊q + 1 / 2⌋ : ℤ) : ℚ) = JSNum.fin ((⌊q + 1 / 2⌋.toNat : ℕ) : ℚ)
  congr 1
  have := Int.toNat_of_nonneg hz
  exact_mod_cast this.symm

theorem isNat_geZero (n : JSNum) (h : n.IsNat) : n.geZero = true := by
  obtain ⟨k, rfl⟩ := h
  simp [JSNum.geZero]

theorem isNat_isInteger (n : JSNum) (h : n.IsNat) : n.isInteger = true := by
  obtain ⟨k, rfl⟩ := h
  simp [JSNum.isInteger]

theorem nonNegative_geZero (n : JSNum) (h : n.NonNegative) : n.geZero = true := by
  obtain ⟨q, hq, rfl⟩ := h
  simp [JSNum.geZero, hq]

theorem nonNegative_of_geZero (n : JSNum) (h1 : n.geZero = true) (h2 : n ≠ JSNum.posInf) :
    n.NonNegative := by
  cases n with
  | fin q => exact ⟨q, by simpa [JSNum.geZero] using h1, rfl⟩
  | posInf => exact absurd rfl h2
  | nan => simp [JSNum.geZero] at h1
  | negInf => simp [JSNum.geZero] at h1

theorem isNatOrInf_geZero (n : JSNum) (h : n.IsNatOrInf) : n.geZero = true := by
  rcases h with h | h
  · exact isNat_geZero n h
  · rw [h]; rfl

theorem isNatOrInf_integer (n : JSNum) (h : n.IsNatOrInf) :
    n.isInteger = true ∨ n = JSNum.posInf :=
  h.imp (isNat_isInteger n) id

theorem nonNegative_isNonneg (n : JSNum) (h : n.NonNegative) : n.IsNonneg := by
  obtain ⟨q, hq, rfl⟩ := h
  exact hq

theorem round_of_isNonneg (x : JSNum) (h : x.IsNonneg) : x.round.IsNatOrInf := by
  cases x with
  | fin q => exact Or.inl (round_isNat q h)
  | posInf => exact Or.inr rfl
  | nan => exact absurd h id
  | negInf => exact absurd h id

theorem mul_sixty_isNonneg (x : JSNum) (h : x.IsNonneg) : (x.mul (JSNum.fin 60)).IsNonneg := by
  cases x with
  | fin q =>
    have hq : 0 ≤ q := h
    exact ofRat_nonneg (by positivity)
  | posInf => simp [JSNum.mul, JSNum.IsNonneg]
  | nan => exact absurd h id
  | negInf => exact absurd h id

theorem add_isNonneg (x y : JSNum) (hx : x.IsNonneg) (hy : y.IsNonneg) :
    (x.add y).IsNonneg := by
  cases x with
  | fin a =>
    cases y with
    | fin b =>
      have ha : 0 ≤ a := hx
      have hb : 0 ≤ b := hy
      exact ofRat_nonneg (by positivity)
    | posInf => trivial
    | nan => exact absurd hy id
    | negInf => exact absurd hy id
  | posInf =>
    cases y with
    | fin b => trivial
    | posInf => trivial
    | nan => exact absurd hy id
    | negInf => exact absurd hy id
  | nan => exact absurd hx id
  | negInf => exact absurd hx id

theorem log2_ge (n : Nat) (h : 2 ^ 53 ≤ n) : 53 ≤ log2 n := by
  by_contra hlt
  have h1 : log2 n + 1 ≤ 53 := by omega
  have h2 := lt_log2 (n := n) (by
    have : 0 < 2 ^ 53 := by positivity
    omega)
  have h3 : 2 ^ (log2 n + 1) ≤ 2 ^ 53 := Nat.pow_le_pow_right (by norm_num) h1
  omega

theorem doubleExponent_nat (n : Nat) (h : 2 ^ 53 ≤ n) : 0 ≤ JSNum.doubleExponent n 1 := by
  have hl := log2_ge n h
  unfold JSNum.doubleExponent
  simp only [log2_one_eq]
  apply le_max_of_le_left
  split_ifs <;> omega

theorem ofRat_natCast (n : ℕ) : (JSNum.ofRat (n : ℚ)).IsNatOrInf := by
  by_cases hn : n < 2 ^ 53
  · rw [ofRat_nat n hn]
    exact Or.inl ⟨n, rfl⟩
  · have hpos : (0 : ℚ) < (n : ℚ) := by
      have : 0 < n := by
        have : 0 < 2 ^ 53 := by positivity
        omega
      exact_mod_cast this
    unfold JSNum.ofRat
    split_ifs with h1
    · exact Or.inl ⟨n, rfl⟩
    · simp only [Rat.num_natCast, Int.natAbs_ofNat, Rat.den_natCast]
      have he := doubleExponent_nat n (not_lt.1 hn)
      unfold JSNum.nearestDouble
      simp only []
      have hz : (-(JSNum.doubleExponent n 1)).toNat = 0 := by omega
      rw [hz, pow2_zero]
      split_ifs
      · exact Or.inr rfl
      · refine Or.inl ⟨JSNum.roundHalfEven (n * 1) (1 * pow2 (JSNum.doubleExponent n 1).toNat)
          * pow2 (JSNum.doubleExponent n 1).toNat, ?_⟩
        simp

theorem mul_sixty_isNatOrInf (x : JSNum) (h : x.IsNatOrInf) :
    (x.mul (JSNum.fin 60)).IsNatOrInf := by
  rcases h with ⟨k, rfl⟩ | rfl
  · rw [mul_fin]
    have := ofRat_natCast (k * 60)
    push_cast at this
    exact this
  · simp [JSNum.mul, JSNum.IsNatOrInf]

theorem add_isNatOrInf (x y : JSNum) (hx : x.IsNatOrInf) (hy : y.IsNatOrInf) :
    (x.add y).IsNatOrInf := by
  rcases hx with ⟨a, rfl⟩ | rfl <;> rcases hy with ⟨b, rfl⟩ | rfl
  · rw [add_fin]
    have := ofRat_natCast (a + b)
    push_cast at this
    exact this
  · exact Or.inr rfl
  · exact Or.inr rfl
  · exact Or.inr rfl

theorem fallbackMinutes_isNat (ph : JSNum) (h : ph.NonNegative) :
    (fallbackMinutes ph).IsNatOrInf := by
  unfold fallbackMinutes
  split
  · exact round_of_isNonneg _ (mul_sixty_isNonneg _ (nonNegative_isNonneg _ h))
  · exact Or.inl ⟨0, by simp⟩

theorem byMode_isNat (mode : NumericMode) (n : JSNum) (h : n.NonNegative) :
    (byMode mode n).IsNatOrInf := by
  cases mode
  · exact round_of_isNonneg _ (mul_sixty_isNonneg _ (nonNegative_isNonneg _ h))
  · exact round_of_isNonneg _ (nonNegative_isNonneg _ h)

theorem colonValue_isNat (t : List Char) (h : colonTest t = true) :
    (match (splitOnChar ':' t).map stringToNumber with
      | h :: m :: _ => (h.mul (JSNum.fin 60)).add m
      | _ => JSNum.nan).IsNatOrInf := by
  obtain ⟨H, M, hH, hne, hM, hlen, rfl⟩ := colonTest_imp t h
  have hnc : isDigit ':' = false := by decide
  rw [splitOnChar_append ':' H M (not_mem_of_allDigits ':' hnc H hH),
    splitOnChar_not_mem ':' M (not_mem_of_allDigits ':' hnc M hM)]
  simp only [List.map_cons, List.map_nil, stringToNumber_digits H hH hne,
    stringToNumber_digits M hM (length_ne_nil_of M hlen)]
  exact add_isNatOrInf _ _ (mul_sixty_isNatOrInf _ (ofRat_natCast _)) (ofRat_natCast _)

theorem matchHours_group (t g rest : List Char) (h : matchHours t = some (g, rest)) :
    ∃ ip fp, AllDigits ip ∧ ip ≠ [] ∧ AllDigits fp ∧ g = decimalText ip fp := by
  unfold matchHours at h
  simp only at h
  split at h
  · exact absurd h (by simp)
  · rename_i hne
    split at h
    · rename_i r heq
      unfold hoursWithFraction at heq
      split at heq
      · rename_i r2 hr2
        split at heq
        · exact absurd heq (by simp)
        · rename_i hfne
          split at heq
          · simp only [Option.some.injEq] at heq h
            refine ⟨t.takeWhile isDigit, r2.takeWhile isDigit, takeWhile_all _ _, hne,
              takeWhile_all _ _, ?_⟩
            rw [decimalText, if_neg hfne]
            rw [← heq] at h
            simp only [Prod.mk.injEq] at h
            exact h.1.symm
          · exact absurd heq (by simp)
      · exact absurd heq (by simp)
    · unfold hoursWithoutFraction at h
      split at h
      · simp only [Option.some.injEq, Prod.mk.injEq] at h
        exact ⟨t.takeWhile isDigit, [], takeWhile_all _ _, hne,
          fun _ hc => absurd hc (List.not_mem_nil _), by rw [decimalText_nil_right]; exact h.1.symm⟩
      · exact absurd h (by simp)

theorem matchMinutes_group (s g : List Char) (h : matchMinutes s = some g) :
    AllDigits g ∧ g ≠ [] := by
  unfold matchMinutes at h
  split at h
  · exact absurd h (by simp)
  · rename_i hne
    split at h
    · simp only [Option.some.injEq] at h
      rw [← h]
      exact ⟨takeWhile_all _ _, hne⟩
    · exact absurd h (by simp)

theorem decimalNumber_nonneg (ip fp : List Char) : 0 ≤ decimalNumber ip fp := by
  unfold decimalNumber
  positivity

theorem groupHours_nonNegative (t : List Char) : (groupHours (matchHM t).1).IsNonneg := by
  unfold matchHM
  cases hh : matchHours t with
  | none => exact le_refl (0 : ℚ)
  | some p =>
    obtain ⟨ip, fp, hip, hne, hfp, hg⟩ := matchHours_group t p.1 p.2 hh
    simp only [groupHours, hg, decimalText_ne_nil ip fp hne, ne_eq, not_false_eq_true, if_true,
      parseFloat_decimalText ip fp hip hfp hne]
    exact ofRat_nonneg (decimalNumber_nonneg ip fp)

theorem groupMinutes_nonNegative (t : List Char) :
    (groupMinutes (matchHM t).2).IsNonneg := by
  have key : ∀ s, (groupMinutes (matchMinutes s)).IsNonneg := by
    intro s
    cases hm : matchMinutes s with
    | none => exact le_refl (0 : ℚ)
    | some g =>
      obtain ⟨hg, hne⟩ := matchMinutes_group s g hm
      simp only [groupMinutes, hne, ne_eq, not_false_eq_true, if_true,
        parseInt10_digits g hg hne]
      exact ofRat_nonneg (by positivity)
  unfold matchHM
  cases matchHours t with
  | none => exact key _
  | some p => exact key _

theorem hmValue_isNat (t : List Char) :
    (((groupHours (matchHM t).1).mul (JSNum.fin 60)).add
      (groupMinutes (matchHM t).2)).round.IsNatOrInf :=
  round_of_isNonneg _ (add_isNonneg _ _ (mul_sixty_isNonneg _ (groupHours_nonNegative t))
    (groupMinutes_nonNegative t))

theorem parse_text_eq (E : JSEnv) (mode : NumericMode) (v : JSVal) (ph : JSNum)
    (hnn : v.isNullish = false) (hne : v ≠ JSVal.str []) (hnum : ∀ n, v ≠ JSVal.num n) :
    parseTimeSpentToMinutes E mode v ph =
      if colonTest (toLowerCase (trim (v.toStr E))) then
        match (splitOnChar ':' (toLowerCase (trim (v.toStr E)))).map stringToNumber with
        | h :: m :: _ => (h.mul (JSNum.fin 60)).add m
        | _ => JSNum.nan
      else if groupTruthy (matchHM (toLowerCase (trim (v.toStr E)))).1
          || groupTruthy (matchHM (toLowerCase (trim (v.toStr E)))).2 then
        (((groupHours (matchHM (toLowerCase (trim (v.toStr E)))).1).mul (JSNum.fin 60)).add
          (groupMinutes (matchHM (toLowerCase (trim (v.toStr E)))).2)).round
      else if !(stringToNumber (toLowerCase (trim (v.toStr E)))).isNaN then
        byMode mode (stringToNumber (toLowerCase (trim (v.toStr E))))
      else fallbackMinutes ph := by
  cases v with
  | undefined => simp [JSVal.isNullish] at hnn
  | null => simp [JSVal.isNullish] at hnn
  | num n => exact absurd rfl (hnum n)
  | bool b => simp [parseTimeSpentToMinutes, JSVal.isNullish]
  | str s => simp [parseTimeSpentToMinutes, JSVal.isNullish, hne]
  | date t => simp [parseTimeSpentToMinutes, JSVal.isNullish]

theorem parseTimeSpentToMinutes_isNat (E : JSEnv) (mode : NumericMode) (v : JSVal)
    (ph : JSNum) (hph : ph.NonNegative) (hv : timeSpentAdmissible E v) :
    (parseTimeSpentToMinutes E mode v ph).IsNatOrInf := by
  by_cases hnn : v.isNullish = true
  · have : parseTimeSpentToMinutes E mode v ph = fallbackMinutes ph := by
      simp [parseTimeSpentToMinutes, hnn]
    rw [this]
    exact fallbackMinutes_isNat ph hph
  by_cases hne : v = JSVal.str []
  · have : parseTimeSpentToMinutes E mode v ph = fallbackMinutes ph := by
      simp [parseTimeSpentToMinutes, hne]
    rw [this]
    exact fallbackMinutes_isNat ph hph
  by_cases hnum : ∃ n, v = JSVal.num n
  · obtain ⟨n, rfl⟩ := hnum
    have : parseTimeSpentToMinutes E mode (JSVal.num n) ph = byMode mode n := by
      simp [parseTimeSpentToMinutes, JSVal.isNullish]
    rw [this]
    exact byMode_isNat mode n hv
  · have hnum2 : ∀ n, v ≠ JSVal.num n := fun n h => hnum ⟨n, h⟩
    have hadm : stringToNumber (toLowerCase (trim (v.toStr E))) = JSNum.nan
        ∨ (stringToNumber (toLowerCase (trim (v.toStr E)))).NonNegative := by
      cases v with
      | num n => exact absurd rfl (hnum2 n)
      | undefined => exact hv
      | null => exact hv
      | bool b => exact hv
      | str s => exact hv
      | date t => exact hv
    rw [parse_text_eq E mode v ph (by simpa using hnn) hne hnum2]
    split
    · rename_i hc
      exact colonValue_isNat _ hc
    · split
      · exact hmValue_isNat _
      · split
        · rename_i hnan
          rcases hadm with h | h
          · rw [h] at hnan
            simp [JSNum.isNaN] at hnan
          · exact byMode_isNat mode _ h
        · exact fallbackMinutes_isNat ph hph

/-! ## Claims on the record builder -/

/-- C5, as the specification states it, fails: a row whose Productive cell
holds `-2` and whose Time Spent cell is empty gives a record with
`productive = -2` and `timeSpentMinutes = -120`. -/
theorem toRecord_negative_counterexample :
    (toRecord sampleHost NumericMode.HOURS negativeProductiveRow).productive = JSNum.fin (-2)
    ∧ (toRecord sampleHost NumericMode.HOURS negativeProductiveRow).timeSpentMinutes
        = JSNum.fin (-120)
    ∧ (toRecord sampleHost NumericMode.HOURS negativeProductiveRow).productive.geZero = false
    ∧ (toRecord sampleHost NumericMode.HOURS negativeProductiveRow).timeSpentMinutes.geZero
        = false := by
  decide!

/-- C5, amended.  For every raw row whose Productive cell is empty or converts
to a finite number that is not negative, and whose Time Spent cell is neither
a negative or non-finite number nor a text that `Number` reads as one, the
record built by `toRecord` has `timeSpentMinutes >= 0` and `productive >= 0`,
and `timeSpentMinutes` is an integer or `Infinity`, in either numeric mode.
(`Infinity` is what a product or a numeral beyond the binary64 range gives.) -/
theorem toRecord_nonneg (E : JSEnv) (mode : NumericMode) (row : JSObj)
    (hp : productiveAdmissible ((normalizeRow row).get "Productive".toList))
    (ht : timeSpentAdmissible E ((normalizeRow row).get "Time Spent".toList)) :
    (toRecord E mode row).timeSpentMinutes.geZero = true
    ∧ (toRecord E mode row).productive.geZero = true
    ∧ ((toRecord E mode row).timeSpentMinutes.isInteger = true
      ∨ (toRecord E mode row).timeSpentMinutes = JSNum.posInf) := by
  have hprod : (toRecord E mode row).productive.NonNegative := by
    show (if ((normalizeRow row).get "Productive".toList).truthy
      then ((normalizeRow row).get "Productive".toList).toNumber else JSNum.fin 0).NonNegative
    rcases hp with h | h
    · rw [h]
      exact ⟨0, le_refl 0, rfl⟩
    · split
      · exact h
      · exact ⟨0, le_refl 0, rfl⟩
  have htime : (toRecord E mode row).timeSpentMinutes.IsNatOrInf :=
    parseTimeSpentToMinutes_isNat E mode _ _ hprod ht
  exact ⟨isNatOrInf_geZero _ htime, nonNegative_geZero _ hprod, isNatOrInf_integer _ htime⟩

/-- Witness for C5, amended: a row with 1.5 productive hours and an empty Time
Spent cell gives 90 minutes; a row with `1e308` productive hours and an empty
Time Spent cell gives `Infinity`, the product by 60 being beyond the binary64
range. -/
theorem toRecord_nonneg_witness :
    (toRecord sampleHost NumericMode.HOURS sampleRowAnn).timeSpentMinutes.geZero = true
    ∧ (toRecord sampleHost NumericMode.HOURS sampleRowAnn).productive.geZero = true
    ∧ (toRecord sampleHost NumericMode.HOURS sampleRowAnn).timeSpentMinutes = JSNum.fin 90
    ∧ productiveAdmissible ((normalizeRow hugeProductiveRow).get "Productive".toList)
    ∧ ((toRecord sampleHost NumericMode.HOURS hugeProductiveRow).timeSpentMinutes.isInteger
        = true
      ∨ (toRecord sampleHost NumericMode.HOURS hugeProductiveRow).timeSpentMinutes
        = JSNum.posInf)
    ∧ (toRecord sampleHost NumericMode.HOURS hugeProductiveRow).timeSpentMinutes
        = JSNum.posInf :=
  have h := toRecord_nonneg sampleHost NumericMode.HOURS sampleRowAnn
    (Or.inr ⟨3 / 2, by norm_num, by decide!⟩) (Or.inr ⟨0, le_refl 0, by decide!⟩)
  have hp : productiveAdmissible ((normalizeRow hugeProductiveRow).get "Productive".toList) :=
    Or.inr (nonNegative_of_geZero _ (by decide!) (by decide!))
  have h2 := toRecord_nonneg sampleHost NumericMode.HOURS hugeProductiveRow hp
    (Or.inr ⟨0, le_refl 0, by decide!⟩)
  ⟨h.1, h.2.1, by decide!, hp, h2.2.2, by decide!⟩

/-! ## The loader, step by step -/

theorem loadSheetData_cases (E : JSEnv) (mode : NumericMode) (sheet : Sheet) :
    (sheet.objectRows = [] ∧
        loadSheetData E mode sheet = { rawRows := [], fileError := emptySheetMessage })
    ∨ (sheet.objectRows ≠ [] ∧ locateRows E sheet = none ∧
        loadSheetData E mode sheet = { rawRows := [], fileError := headerNotFoundMessage })
    ∨ (sheet.objectRows ≠ [] ∧ locateRows E sheet = some [] ∧
        loadSheetData E mode sheet = { rawRows := [], fileError := noDataRowsMessage })
    ∨ (∃ first rest, sheet.objectRows ≠ [] ∧ locateRows E sheet = some (first :: rest) ∧
        (requiredColumnsPresent first).ok = false ∧
        loadSheetData E mode sheet =
          { rawRows := [],
            fileError := missingColumnsMessage (requiredColumnsPresent first).missing
              first.keys })
    ∨ (∃ json, sheet.objectRows ≠ [] ∧ json ≠ [] ∧ locateRows E sheet = some json ∧
        (∀ first, json.head? = some first → (requiredColumnsPresent first).ok = true) ∧
        loadSheetData E mode sheet =
          { rawRows := ((json.filter (fun row => !isDateSeparatorRow E row)).map
              (toRecord E mode)).filter
                (fun record => decide (record.developer ≠ []) && decide (record.task ≠ [])),
            fileError := [] }) := by
  by_cases h0 : sheet.objectRows = []
  · left
    exact ⟨h0, by simp [loadSheetData, h0]⟩
  · right
    have hlen : ¬ sheet.objectRows.length = 0 := by
      simpa [List.length_eq_zero] using h0
    cases hloc : locateRows E sheet with
    | none =>
      left
      exact ⟨h0, rfl, by simp [loadSheetData, hlen, hloc]⟩
    | some json =>
      right
      cases json with
      | nil =>
        left
        exact ⟨h0, rfl, by simp [loadSheetData, hlen, hloc]⟩
      | cons first rest =>
        right
        cases hok : (requiredColumnsPresent first).ok with
        | false =>
          left
          exact ⟨first, rest, h0, rfl, hok, by simp [loadSheetData, hlen, hloc, hok]⟩
        | true =>
          right
          refine ⟨first :: rest, h0, by simp, rfl, ?_, by simp [loadSheetData, hlen, hloc, hok]⟩
          intro f hf
          simp at hf
          subst hf
          exact hok

theorem loadSheetData_mem (E : JSEnv) (mode : NumericMode) (sheet : Sheet) (rec : WorkRecord)
    (h : rec ∈ (loadSheetData E mode sheet).rawRows) :
    ∃ json row, locateRows E sheet = some json ∧ row ∈ json ∧ isDateSeparatorRow E row = false
      ∧ rec = toRecord E mode row ∧ rec.developer ≠ [] ∧ rec.task ≠ [] := by
  rcases loadSheetData_cases E mode sheet with
    ⟨-, he⟩ | ⟨-, -, he⟩ | ⟨-, -, he⟩ | ⟨f, r, -, -, -, he⟩ | ⟨json, -, -, hloc, -, he⟩
  · rw [he] at h; exact absurd h (List.not_mem_nil _)
  · rw [he] at h; exact absurd h (List.not_mem_nil _)
  · rw [he] at h; exact absurd h (List.not_mem_nil _)
  · rw [he] at h; exact absurd h (List.not_mem_nil _)
  · rw [he] at h
    simp only [List.mem_filter, List.mem_map, Bool.and_eq_true, decide_eq_true_eq,
      Bool.not_eq_true'] at h
    obtain ⟨⟨row, ⟨hrow, hsep⟩, hrec⟩, hdev, htask⟩ := h
    exact ⟨json, row, hloc, hrow, hsep, hrec.symm, hdev, htask⟩

theorem isDateSeparatorRow_congr (E : JSEnv) (r1 r2 : JSObj)
    (h : normalizeRow r1 = normalizeRow r2) :
    isDateSeparatorRow E r1 = isDateSeparatorRow E r2 := by
  unfold isDateSeparatorRow
  rw [h]

theorem toRecord_original (E : JSEnv) (mode : NumericMode) (row : JSObj) :
    (toRecord E mode row).original = normalizeRow row := rfl

theorem slashDateTest_form (t : List Char) (h : IsSlashDate t) : slashDateTest t = true := by
  obtain ⟨d, m, y, hd, hdl, hm, hml, hy, hyl, rfl⟩ := h
  have hs1 : ∀ a, ('/' :: (m ++ '/' :: y)).head? = some a → isDigit a = false := by
    intro a ha; simp at ha; subst ha; decide
  have hs2 : ∀ a, ('/' :: y).head? = some a → isDigit a = false := by
    intro a ha; simp at ha; subst ha; decide
  unfold slashDateTest
  simp only [dropWhile_append_stop isDigit d _ hd hs1, takeWhile_append_stop isDigit d _ hd hs1,
    dropWhile_append_stop isDigit m _ hm hs2, takeWhile_append_stop isDigit m _ hm hs2]
  simp only [Bool.and_eq_true, Bool.or_eq_true, decide_eq_true_eq, List.all_eq_true]
  exact ⟨⟨⟨hdl, hml⟩, hyl⟩, hy⟩

theorem isSlashDate_ends (t : List Char) (h : IsSlashDate t) :
    t ≠ [] ∧ (∀ a, t.head? = some a → isWs a = false)
      ∧ (∀ a, t.getLast? = some a → isWs a = false) := by
  obtain ⟨d, m, y, hd, hdl, hm, hml, hy, hyl, rfl⟩ := h
  have hdne : d ≠ [] := length_ne_nil_of d hdl
  have hyne : y ≠ [] := by
    intro hy0; subst hy0; simp at hyl
  refine ⟨by simp, head_digits_append d _ hd hdne, ?_⟩
  intro a ha
  have : d ++ '/' :: (m ++ '/' :: y) = (d ++ '/' :: (m ++ ['/'])) ++ y := by simp
  rw [this, List.getLast?_append_of_ne_nil _ hyne] at ha
  exact isDigit_not_isWs (hy a (List.mem_of_getLast?_eq_some ha))

/-! ## Claims on the row classifier -/

/-- C6. A row that, after header-key normalization, has a Task text of the
form `D/D/YYYY` (one or two digits, `/`, one or two digits, `/`, four digits,
possibly between whitespace) and empty Date, Ticket, Status and Developer is
classified as a date separator, and no record of any sheet load is built from
it; a row with any of Date, Ticket, Status or Developer non-empty is never
classified as a date separator. -/
theorem isDateSeparatorRow_spec (E : JSEnv) (mode : NumericMode) :
    (∀ (row : JSObj) (pre t post : List Char), AllWs pre → AllWs post → IsSlashDate t →
        (normalizeRow row).get "Task".toList = JSVal.str (pre ++ t ++ post) →
        ((normalizeRow row).get "Date".toList).truthy = false →
        ((normalizeRow row).get "Ticket".toList).truthy = false →
        ((normalizeRow row).get "Status".toList).truthy = false →
        ((normalizeRow row).get "Developer".toList).truthy = false →
        isDateSeparatorRow E row = true
          ∧ ∀ sheet : Sheet, toRecord E mode row ∉ (loadSheetData E mode sheet).rawRows)
    ∧ (∀ row : JSObj,
        (((normalizeRow row).get "Date".toList).truthy = true
          ∨ ((normalizeRow row).get "Ticket".toList).truthy = true
          ∨ ((normalizeRow row).get "Status".toList).truthy = true
          ∨ ((normalizeRow row).get "Developer".toList).truthy = true) →
        isDateSeparatorRow E row = false) := by
  refine ⟨?_, ?_⟩
  · intro row pre t post hpre hpost ht hTask hDate hTicket hStatus hDev
    obtain ⟨htne, hhead, hlast⟩ := isSlashDate_ends t ht
    have hsep : isDateSeparatorRow E row = true := by
      have htrim : trim (pre ++ t ++ post) = t := by
        rw [List.append_assoc]
        exact trim_sandwich pre t post hpre hpost hhead hlast
      have htruthy : (JSVal.str (pre ++ t ++ post)).truthy = true := by
        simp [JSVal.truthy, htne]
      unfold isDateSeparatorRow
      simp only [hTask, hDate, hTicket, hStatus, hDev, htruthy, JSVal.toStr, htrim,
        slashDateTest_form t ht]
      rfl
    refine ⟨hsep, ?_⟩
    intro sheet hmem
    obtain ⟨json, r, -, -, hr, hrec, -, -⟩ := loadSheetData_mem E mode sheet _ hmem
    have horig : normalizeRow row = normalizeRow r := by
      have := congrArg WorkRecord.original hrec
      simpa [toRecord_original] using this
    rw [isDateSeparatorRow_congr E row r horig, hr] at hsep
    exact absurd hsep (by simp)
  · intro row h
    unfold isDateSeparatorRow
    rcases h with h | h | h | h <;> (simp only [h]; simp)

/-- Witness for C6: the row whose only filled cell is Task = `3/14/2024` is a
date separator and yields no record of the sample sheet; a row with a
developer is not a date separator. -/
theorem isDateSeparatorRow_spec_witness :
    isDateSeparatorRow sampleHost separatorRow = true
    ∧ toRecord sampleHost NumericMode.HOURS separatorRow
        ∉ (loadSheetData sampleHost NumericMode.HOURS sampleSheet).rawRows
    ∧ isDateSeparatorRow sampleHost sampleRowAnn = false :=
  have h := (isDateSeparatorRow_spec sampleHost NumericMode.HOURS).1 separatorRow
    [] "3/14/2024".toList [] (by decide) (by decide)
    ⟨"3".toList, "14".toList, "2024".toList, by decide, by decide, by decide, by decide,
      by decide, by decide, rfl⟩
    (by decide) (by decide) (by decide) (by decide) (by decide)
  ⟨h.1, h.2 sampleSheet,
    (isDateSeparatorRow_spec sampleHost NumericMode.HOURS).2 sampleRowAnn
      (Or.inr (Or.inl (by decide)))⟩

/-! ## Claims on the sheet loader -/

theorem missingColumnsMessage_ne_nil (missing found : List (List Char)) :
    missingColumnsMessage missing found ≠ [] := by
  simp [missingColumnsMessage]

theorem missingColumnsMessage_head (missing found : List (List Char)) :
    (missingColumnsMessage missing found).head? = some 'M' := by
  simp [missingColumnsMessage]

theorem presence_ok_iff (row : JSObj) :
    (requiredColumnsPresent row).ok = true ↔ (requiredColumnsPresent row).missing = [] := by
  show decide ((requiredColumnsPresent row).missing.length = 0) = true ↔ _
  rw [decide_eq_true_eq, List.length_eq_zero]

theorem loadSheetData_success (E : JSEnv) (mode : NumericMode) (sheet : Sheet)
    (json : List JSObj) (h0 : sheet.objectRows ≠ []) (hloc : locateRows E sheet = some json)
    (hne : json ≠ [])
    (hok : ∀ first, json.head? = some first → (requiredColumnsPresent first).ok = true) :
    loadSheetData E mode sheet =
      { rawRows := ((json.filter (fun row => !isDateSeparatorRow E row)).map
          (toRecord E mode)).filter
            (fun record => decide (record.developer ≠ []) && decide (record.task ≠ [])),
        fileError := [] } := by
  have hlen : ¬ sheet.objectRows.length = 0 := by
    simpa [List.length_eq_zero] using h0
  cases json with
  | nil => exact absurd rfl hne
  | cons first rest =>
    have := hok first rfl
    simp [loadSheetData, hlen, hloc, this]

/-- C7, as the specification states it, fails: with the header in the first
row and every data row dropped (a date separator, and a row without
developer), the load ends with no record and no failure message. -/
theorem loadSheetData_silent_empty_counterexample :
    loadSheetData sampleHost NumericMode.HOURS droppedRowsSheet
      = { rawRows := [], fileError := [] } := by
  decide!

/-- C7, amended.  Every sheet load ends either with a cleared failure message
and the records of the rows kept, possibly none, or with no record and one
of four failure messages: sheet empty, header not found, no data rows after
header, missing columns.  The failure `No data rows found after header.` is
the outcome exactly when the sheet is not empty and a header is located with
no row object after it, and it differs from `The selected sheet is empty.`;
when rows follow the header and all of them are dropped, the outcome is the
empty record sequence with a cleared message. -/
theorem loadSheetData_outcome (E : JSEnv) (mode : NumericMode) (sheet : Sheet) :
    (((loadSheetData E mode sheet).fileError = [] ∧
        ∃ json, locateRows E sheet = some json ∧ json ≠ [] ∧
          (loadSheetData E mode sheet).rawRows =
            ((json.filter (fun row => !isDateSeparatorRow E row)).map (toRecord E mode)).filter
              (fun record => decide (record.developer ≠ []) && decide (record.task ≠ [])))
      ∨ ((loadSheetData E mode sheet).rawRows = [] ∧
          ((loadSheetData E mode sheet).fileError = emptySheetMessage
            ∨ (loadSheetData E mode sheet).fileError = headerNotFoundMessage
            ∨ (loadSheetData E mode sheet).fileError = noDataRowsMessage
            ∨ ∃ missing found, missing ≠ [] ∧
                (loadSheetData E mode sheet).fileError = missingColumnsMessage missing found)))
    ∧ ((loadSheetData E mode sheet).fileError = noDataRowsMessage ↔
        (sheet.objectRows ≠ [] ∧ locateRows E sheet = some []))
    ∧ noDataRowsMessage ≠ emptySheetMessage
    ∧ (∀ json, sheet.objectRows ≠ [] → locateRows E sheet = some json → json ≠ [] →
        (∀ first, json.head? = some first → (requiredColumnsPresent first).ok = true) →
        (∀ row ∈ json, isDateSeparatorRow E row = true ∨ (toRecord E mode row).developer = []
          ∨ (toRecord E mode row).task = []) →
        loadSheetData E mode sheet = { rawRows := [], fileError := [] }) := by
  have hne1 : emptySheetMessage ≠ noDataRowsMessage := by decide
  have hne2 : headerNotFoundMessage ≠ noDataRowsMessage := by decide
  have hne3 : ([] : List Char) ≠ noDataRowsMessage := by decide
  have hne4 : ∀ missing found, missingColumnsMessage missing found ≠ noDataRowsMessage := by
    intro missing found h
    have := missingColumnsMessage_head missing found
    rw [h] at this
    exact absurd this (by decide)
  refine ⟨?_, ?_, fun h => hne1 h.symm, ?_⟩
  · rcases loadSheetData_cases E mode sheet with
      ⟨-, he⟩ | ⟨-, -, he⟩ | ⟨-, -, he⟩ | ⟨f, r, -, -, hok, he⟩ | ⟨json, -, hjne, hloc, -, he⟩
    · right; rw [he]; exact ⟨rfl, Or.inl rfl⟩
    · right; rw [he]; exact ⟨rfl, Or.inr (Or.inl rfl)⟩
    · right; rw [he]; exact ⟨rfl, Or.inr (Or.inr (Or.inl rfl))⟩
    · right
      rw [he]
      refine ⟨rfl, Or.inr (Or.inr (Or.inr ⟨_, _, ?_, rfl⟩))⟩
      intro hm
      rw [(presence_ok_iff f).2 hm] at hok
      exact absurd hok (by simp)
    · left; rw [he]; exact ⟨rfl, json, hloc, hjne, rfl⟩
  · rcases loadSheetData_cases E mode sheet with
      ⟨h0, he⟩ | ⟨-, hloc, he⟩ | ⟨h0, hloc, he⟩ | ⟨f, r, -, hloc, -, he⟩
        | ⟨json, -, hjne, hloc, -, he⟩
    · rw [he]
      exact ⟨fun h => absurd h hne1, fun h => absurd h0 h.1⟩
    · rw [he]
      exact ⟨fun h => absurd h hne2, fun h => by rw [hloc] at h; exact absurd h.2 (by simp)⟩
    · rw [he]
      exact ⟨fun _ => ⟨h0, hloc⟩, fun _ => rfl⟩
    · rw [he]
      exact ⟨fun h => absurd h (hne4 _ _),
        fun h => by rw [hloc] at h; exact absurd h.2 (by simp)⟩
    · rw [he]
      refine ⟨fun h => absurd h hne3, fun h => ?_⟩
      rw [hloc] at h
      simp only [Option.some.injEq] at h
      exact absurd h.2 hjne
  · intro json h0 hloc hjne hok hdrop
    rw [loadSheetData_success E mode sheet json h0 hloc hjne hok]
    congr 1
    rw [List.filter_eq_nil_iff]
    intro rec hrec
    simp only [List.mem_map, List.mem_filter, Bool.not_eq_true'] at hrec
    obtain ⟨row, ⟨hrow, hsep⟩, rfl⟩ := hrec
    rcases hdrop row hrow with h | h | h
    · rw [h] at hsep; exact absurd hsep (by simp)
    · simp [h]
    · simp [h]

/-- Witness for C7, amended: the rows under the header of the sample are a
date separator and a row without developer; the load ends with no record and
a cleared message. -/
theorem loadSheetData_outcome_witness :
    loadSheetData sampleHost NumericMode.MINUTES droppedRowsSheet
      = { rawRows := [], fileError := [] } :=
  (loadSheetData_outcome sampleHost NumericMode.MINUTES droppedRowsSheet).2.2.2
    droppedRowsSheet.objectRows (by decide) (by decide) (by decide)
    (by
      intro first hf
      have : first = droppedRowsSheet.objectRows.head (by decide) := by
        have h2 : droppedRowsSheet.objectRows.head? = some first := hf
        rw [List.head?_eq_head (by decide)] at h2
        exact (Option.some.inj h2).symm
      subst this
      decide)
    (by decide!)

theorem contains_iff_mem (l : List (List Char)) (a : List Char) :
    l.contains a = true ↔ a ∈ l := by
  simp

theorem findHeaderRowFrom_none (rows : List JSObj) (i : Nat)
    (h : ∀ r ∈ rows, ¬ (∀ c ∈ requiredColumns, c ∈ r.keys.map normalizeHeaderKeyStr)) :
    findHeaderRowFrom i rows = -1 := by
  induction rows generalizing i with
  | nil => rfl
  | cons r rest ih =>
    unfold findHeaderRowFrom
    split
    · have hr := h r (List.mem_cons_self r rest)
      have hcond : ((r.keys.map normalizeHeaderKeyStr).contains "Date".toList
          && (r.keys.map normalizeHeaderKeyStr).contains "Ticket".toList
          && (r.keys.map normalizeHeaderKeyStr).contains "Task".toList
          && (r.keys.map normalizeHeaderKeyStr).contains "Status".toList
          && (r.keys.map normalizeHeaderKeyStr).contains "Productive".toList
          && (r.keys.map normalizeHeaderKeyStr).contains "Time Spent".toList
          && (r.keys.map normalizeHeaderKeyStr).contains "Developer".toList) = false := by
        rw [Bool.eq_false_iff]
        intro hall
        apply hr
        simp only [Bool.and_eq_true, contains_iff_mem] at hall
        intro c hc
        simp only [requiredColumns, List.mem_cons, List.mem_singleton, List.not_mem_nil,
          or_false] at hc
        rcases hc with rfl | rfl | rfl | rfl | rfl | rfl | rfl
        · exact hall.1.1.1.1.1.1
        · exact hall.1.1.1.1.1.2
        · exact hall.1.1.1.1.2
        · exact hall.1.1.1.2
        · exact hall.1.1.2
        · exact hall.1.2
        · exact hall.2
      simp only [hcond]
      exact ih (i + 1) (fun r2 hr2 => h r2 (List.mem_cons_of_mem r hr2))
    · rfl

theorem findGridHeaderFrom_none (E : JSEnv) (rows : List (List JSVal)) (i : Nat)
    (h : ∀ r ∈ rows, gridHeaderTest E r = false) : findGridHeaderFrom E i rows = -1 := by
  induction rows generalizing i with
  | nil => rfl
  | cons r rest ih =>
    unfold findGridHeaderFrom
    split
    · rw [h r (List.mem_cons_self r rest)]
      exact ih (i + 1) (fun r2 hr2 => h r2 (List.mem_cons_of_mem r hr2))
    · rfl

theorem gridHeaderTest_no_developer (E : JSEnv) (row : List JSVal)
    (h : includes (toLowerCase (joinCells E row)) "developer".toList = false) :
    gridHeaderTest E row = false := by
  unfold gridHeaderTest
  simp only [h, Bool.and_false]

theorem developer_mem_requiredColumns : "Developer".toList ∈ requiredColumns := by decide

/-- C8, as the specification states it, fails: a sheet with the other six
required columns and no Developer column fails with the header-not-found
failure, not with the missing-columns failure. -/
theorem loadSheetData_no_developer_counterexample :
    loadSheetData sampleHost NumericMode.HOURS noDeveloperSheet
      = { rawRows := [], fileError := headerNotFoundMessage } := by
  decide!

/-- C8, amended.  For every non-empty sheet in which no column is labelled
Developer and no row contains the text `developer`, `loadSheetData` fails with
the header-not-found failure, whose message lists the seven required columns.
The missing-columns failure is the outcome when a header row is located and
the first row object under it has no Developer key: its message names
Developer among the missing columns and lists the keys found. -/
theorem loadSheetData_no_developer (E : JSEnv) (mode : NumericMode) (sheet : Sheet) :
    (sheet.objectRows ≠ [] →
      (∀ r ∈ sheet.objectRows, "Developer".toList ∉ r.keys.map normalizeHeaderKeyStr) →
      (∀ row ∈ sheet.arrayRows,
        includes (toLowerCase (joinCells E row)) "developer".toList = false) →
      loadSheetData E mode sheet = { rawRows := [], fileError := headerNotFoundMessage })
    ∧ (∀ first rest, sheet.objectRows ≠ [] → locateRows E sheet = some (first :: rest) →
        "Developer".toList ∉ first.keys.map normalizeHeaderKeyStr →
        "Developer".toList ∈ (requiredColumnsPresent first).missing
          ∧ loadSheetData E mode sheet =
            { rawRows := [],
              fileError := missingColumnsMessage (requiredColumnsPresent first).missing
                first.keys }) := by
  refine ⟨?_, ?_⟩
  · intro h0 hobj hgrid
    have h1 : findHeaderRow sheet.objectRows = -1 :=
      findHeaderRowFrom_none _ 0
        (fun r hr hall => hobj r hr (hall _ developer_mem_requiredColumns))
    have h2 : findGridHeaderFrom E 0 sheet.arrayRows = -1 :=
      findGridHeaderFrom_none E _ 0
        (fun r hr => gridHeaderTest_no_developer E r (hgrid r hr))
    have hloc : locateRows E sheet = none := by
      simp [locateRows, h1, h2]
    have hlen : ¬ sheet.objectRows.length = 0 := by
      simpa [List.length_eq_zero] using h0
    simp [loadSheetData, hlen, hloc]
  · intro first rest h0 hloc hdev
    have hmem : "Developer".toList ∈ (requiredColumnsPresent first).missing := by
      show "Developer".toList ∈ requiredColumns.filter
        (fun col => !(first.keys.map normalizeHeaderKeyStr).contains col)
      rw [List.mem_filter]
      refine ⟨developer_mem_requiredColumns, ?_⟩
      simpa using hdev
    have hok : (requiredColumnsPresent first).ok = false := by
      rw [Bool.eq_false_iff]
      intro h
      rw [(presence_ok_iff first).1 h] at hmem
      exact absurd hmem (List.not_mem_nil _)
    have hlen : ¬ sheet.objectRows.length = 0 := by
      simpa [List.length_eq_zero] using h0
    exact ⟨hmem, by simp [loadSheetData, hlen, hloc, hok]⟩

/-- Witness for C8, amended: the sheet without Developer column fails with
header not found; the sheet whose header reads `Developer Name` fails with
missing columns, naming Developer and listing the seven keys found. -/
theorem loadSheetData_no_developer_witness :
    loadSheetData sampleHost NumericMode.MINUTES noDeveloperSheet
        = { rawRows := [], fileError := headerNotFoundMessage }
    ∧ loadSheetData sampleHost NumericMode.MINUTES developerNameSheet
        = { rawRows := [],
            fileError := ("Missing required columns: Developer. Found columns: "
              ++ "Date, Ticket, Task, Status, Productive, Time Spent, Developer Name").toList }
    := by
  refine ⟨?_, ?_⟩
  · exact (loadSheetData_no_developer sampleHost NumericMode.MINUTES noDeveloperSheet).1
      (by decide) (by decide) (by decide)
  · have h := (loadSheetData_no_developer sampleHost NumericMode.MINUTES developerNameSheet).2
      ((developerNameSheet.arrayRows.drop 1).map
        (rowToObject sampleHost (developerNameSheet.arrayRows.headD []))).head!
      [] (by decide) (by decide) (by decide)
    rw [h.2]
    decide

/-! ## The array-format reading -/

theorem isPrefixOf_append_self (n b : List Char) : n.isPrefixOf (n ++ b) = true := by
  induction n with
  | nil => simp [List.isPrefixOf]
  | cons c n ih => simp [List.isPrefixOf, ih]

theorem includes_mid (a n b : List Char) : includes (a ++ (n ++ b)) n = true := by
  unfold includes
  rw [List.any_eq_true]
  exact ⟨n ++ b, (List.mem_tails _ _).2 (List.suffix_append a _), isPrefixOf_append_self n b⟩

theorem joinWith_nil_mem (l : List (List Char)) (s : List Char) (h : s ∈ l) :
    ∃ a b, joinWith [] l = a ++ (s ++ b) := by
  induction l with
  | nil => exact absurd h (List.not_mem_nil _)
  | cons x rest ih =>
    cases rest with
    | nil =>
      have : s = x := by simpa using h
      subst this
      exact ⟨[], [], by simp [joinWith]⟩
    | cons y rest2 =>
      rcases List.mem_cons.1 h with h1 | h1
      · subst h1
        exact ⟨[], joinWith [] (y :: rest2), by simp [joinWith]⟩
      · obtain ⟨a, b, hab⟩ := ih h1
        exact ⟨x ++ a, b, by simp [joinWith, hab]⟩

theorem joinCells_mem (E : JSEnv) (row : List JSVal) (s : List Char)
    (h : JSVal.str s ∈ row) : ∃ a b, joinCells E row = a ++ (s ++ b) := by
  unfold joinCells
  apply joinWith_nil_mem
  rw [List.mem_map]
  exact ⟨JSVal.str s, h, by simp [JSVal.isNullish, JSVal.toStr]⟩

theorem includes_lower_of_mem (E : JSEnv) (row : List JSVal) (s low : List Char)
    (h : JSVal.str s ∈ row) (hlow : toLowerCase s = low) :
    includes (toLowerCase (joinCells E row)) low = true := by
  obtain ⟨a, b, hab⟩ := joinCells_mem E row s h
  rw [hab, toLowerCase_append, toLowerCase_append, hlow]
  exact includes_mid _ _ _

theorem requiredColumns_length_le (header : List JSVal)
    (h : ∀ c ∈ requiredColumns, JSVal.str c ∈ header) : 7 ≤ header.length := by
  have hnodup : (requiredColumns.map JSVal.str).Nodup := by decide
  have hsub : requiredColumns.map JSVal.str ⊆ header := by
    intro v hv
    rw [List.mem_map] at hv
    obtain ⟨c, hc, rfl⟩ := hv
    exact h c hc
  have := (hnodup.subperm hsub).length_le
  simpa [requiredColumns] using this

theorem gridHeaderTest_header (E : JSEnv) (header : List JSVal)
    (h : ∀ c ∈ requiredColumns, JSVal.str c ∈ header) : gridHeaderTest E header = true := by
  have hlen := requiredColumns_length_le header h
  have h1 := includes_lower_of_mem E header "Date".toList "date".toList
    (h _ (by decide)) (by decide)
  have h2 := includes_lower_of_mem E header "Ticket".toList "ticket".toList
    (h _ (by decide)) (by decide)
  have h3 := includes_lower_of_mem E header "Task".toList "task".toList
    (h _ (by decide)) (by decide)
  have h4 := includes_lower_of_mem E header "Status".toList "status".toList
    (h _ (by decide)) (by decide)
  have h5 := includes_lower_of_mem E header "Productive".toList "productive".toList
    (h _ (by decide)) (by decide)
  have h6 := includes_lower_of_mem E header "Developer".toList "developer".toList
    (h _ (by decide)) (by decide)
  unfold gridHeaderTest
  simp only [h1, h2, h3, h4, h5, h6, Bool.and_true, decide_eq_true_eq]
  exact hlen

theorem findGridHeader_third (E : JSEnv) (title separator header : List JSVal)
    (rows : List (List JSVal)) (htitle : gridHeaderTest E title = false)
    (hsep : gridHeaderTest E separator = false)
    (hheader : gridHeaderTest E header = true) :
    findGridHeaderFrom E 0 (title :: separator :: header :: rows) = 2 := by
  simp [findGridHeaderFrom, htitle, hsep, hheader]

/-! ## Keys of a row object built by position -/

theorem has_iff_mem_keys (o : JSObj) (k : List Char) : o.has k = true ↔ k ∈ o.keys := by
  unfold JSObj.has JSObj.keys
  simp only [List.any_eq_true, decide_eq_true_eq, List.mem_map]

theorem keys_replace (o : JSObj) (k : List Char) (v : JSVal) :
    (o.replace k v).keys = o.keys := by
  induction o with
  | nil => rfl
  | cons p rest ih =>
    obtain ⟨k1, v1⟩ := p
    unfold JSObj.replace
    split
    · rfl
    · simp only [JSObj.keys, List.map_cons] at ih ⊢
      rw [ih]

theorem mem_keys_insertIndex (o : JSObj) (n : Nat) (k k2 : List Char) (v : JSVal) :
    k2 ∈ (o.insertIndex n k v).keys ↔ k2 = k ∨ k2 ∈ o.keys := by
  induction o with
  | nil => simp [JSObj.insertIndex, JSObj.keys]
  | cons p rest ih =>
    obtain ⟨k1, v1⟩ := p
    unfold JSObj.insertIndex
    split
    · split
      · simp only [JSObj.keys, List.map_cons, List.mem_cons] at ih ⊢
        rw [ih]
        tauto
      · simp only [JSObj.keys, List.map_cons, List.mem_cons]
    · simp only [JSObj.keys, List.map_cons, List.mem_cons]

theorem mem_keys_set (o : JSObj) (k k2 : List Char) (v : JSVal)
    (hk : k ≠ "__proto__".toList) :
    k2 ∈ (o.set k v).keys ↔ k2 = k ∨ k2 ∈ o.keys := by
  unfold JSObj.set
  rw [if_neg hk]
  split
  · rename_i hhas
    rw [keys_replace]
    have := (has_iff_mem_keys o k).1 hhas
    constructor
    · exact fun h => Or.inr h
    · rintro (h | h)
      · rw [h]; exact this
      · exact h
  · split
    · exact mem_keys_insertIndex o _ k k2 v
    · simp only [JSObj.keys, List.map_append, List.mem_append, List.map_cons, List.map_nil,
        List.mem_singleton]
      tauto

theorem mem_keys_set_of_mem (o : JSObj) (k k2 : List Char) (v : JSVal) (h : k2 ∈ o.keys) :
    k2 ∈ (o.set k v).keys := by
  by_cases hk : k = "__proto__".toList
  · unfold JSObj.set
    rw [if_pos hk]
    exact h
  · exact (mem_keys_set o k k2 v hk).2 (Or.inr h)

theorem rowObject_foldl_keys (E : JSEnv) (row : List JSVal) (k : List Char)
    (hk : k ≠ "__proto__".toList) (hs : List JSVal) (n : Nat) (obj : JSObj)
    (hdef : ∀ j, j < hs.length → row.getD (n + j) JSVal.undefined ≠ JSVal.undefined)
    (h : k ∈ obj.keys ∨ ∃ c ∈ hs, c.truthy = true ∧ c.toStr E = k) :
    k ∈ ((hs.enumFrom n).foldl (fun obj hi =>
      if hi.2.truthy && decide (row.getD hi.1 JSVal.undefined ≠ JSVal.undefined)
      then obj.set (hi.2.toStr E) (row.getD hi.1 JSVal.undefined) else obj) obj).keys := by
  induction hs generalizing n obj with
  | nil =>
    rcases h with h | ⟨c, hc, -⟩
    · exact h
    · exact absurd hc (List.not_mem_nil _)
  | cons c0 rest ih =>
    simp only [List.enumFrom_cons, List.foldl_cons]
    apply ih
    · intro j hj
      have := hdef (j + 1) (by simp; omega)
      rw [show n + 1 + j = n + (j + 1) by omega]
      exact this
    · have h0 : row.getD n JSVal.undefined ≠ JSVal.undefined := by
        have := hdef 0 (by simp)
        simpa using this
      rcases h with h | ⟨c, hc, hct, hck⟩
      · left
        split
        · exact mem_keys_set_of_mem _ _ _ _ h
        · exact h
      · rcases List.mem_cons.1 hc with rfl | hc2
        · left
          simp only [hct, h0, ne_eq, not_false_eq_true, decide_True, Bool.and_self, if_true]
          rw [hck]
          exact (mem_keys_set _ k k _ hk).2 (Or.inl rfl)
        · right
          exact ⟨c, hc2, hct, hck⟩

theorem rowToObject_keys (E : JSEnv) (header row : List JSVal) (c : List Char)
    (hc : c ∈ requiredColumns) (hmem : JSVal.str c ∈ header)
    (hdef : ∀ j, j < header.length → row.getD j JSVal.undefined ≠ JSVal.undefined) :
    c ∈ (rowToObject E header row).keys := by
  have hall : ∀ d ∈ requiredColumns, d ≠ [] ∧ d ≠ "__proto__".toList := by decide
  have hne := hall c hc
  unfold rowToObject List.enum
  apply rowObject_foldl_keys E row c hne.2 header 0 []
  · intro j hj
    simpa using hdef j hj
  · right
    exact ⟨JSVal.str c, hmem, by simp [JSVal.truthy, hne.1], rfl⟩

theorem requiredColumns_normalized :
    ∀ c ∈ requiredColumns, normalizeHeaderKeyStr c = c := by decide

theorem presence_ok_of_keys (o : JSObj) (h : ∀ c ∈ requiredColumns, c ∈ o.keys) :
    (requiredColumnsPresent o).ok = true := by
  rw [presence_ok_iff]
  show requiredColumns.filter
    (fun col => !(o.keys.map normalizeHeaderKeyStr).contains col) = []
  rw [List.filter_eq_nil_iff]
  intro c hc
  have hmem : c ∈ o.keys.map normalizeHeaderKeyStr :=
    List.mem_map.2 ⟨c, h c hc, requiredColumns_normalized c hc⟩
  simp [hmem]

/-- C9, as the specification states it, fails: under a title row that holds
the six words of the header scan, the title row is taken as the header and
the load of the sample sheet, with its five valid rows, fails with the
missing-columns failure. -/
theorem loadSheetData_keyword_title_counterexample :
    (loadSheetData sampleHost NumericMode.HOURS keywordTitleSheet).rawRows = []
    ∧ (loadSheetData sampleHost NumericMode.HOURS keywordTitleSheet).fileError
        = ("Missing required columns: Date, Ticket, Task, Status, Productive, Time Spent, "
            ++ "Developer. Found columns: "
            ++ "Developer productive hours: task status by ticket and date").toList := by
  decide!

/-- C9, amended.  End-to-end load: for every sheet whose object-mode reading
shows no header, and whose array reading has the header row, holding the seven
required labels, as third row, preceded by a title row and a separator row
neither of which passes the header scan (seven cells or more whose joined,
lower-cased text holds date, ticket, task, status, productive and developer),
and followed by rows with a cell under every header column, each of them a
date separator or a row with non-blank Developer and Task: `loadSheetData`
returns exactly one record per row that is not a date separator, in sheet
order, with a cleared failure message when a row follows the header. -/
theorem loadSheetData_header_third_row (E : JSEnv) (mode : NumericMode) (sheet : Sheet)
    (title separator header : List JSVal) (rows : List (List JSVal))
    (hobj : sheet.objectRows ≠ [])
    (hkeys : ∀ r ∈ sheet.objectRows,
      ¬ (∀ c ∈ requiredColumns, c ∈ r.keys.map normalizeHeaderKeyStr))
    (hgrid : sheet.arrayRows = title :: separator :: header :: rows)
    (htitle : gridHeaderTest E title = false)
    (hsep : gridHeaderTest E separator = false)
    (hheader : ∀ c ∈ requiredColumns, JSVal.str c ∈ header)
    (hcells : ∀ r ∈ rows, ∀ j, j < header.length →
      r.getD j JSVal.undefined ≠ JSVal.undefined)
    (hrows : ∀ r ∈ rows, isDateSeparatorRow E (rowToObject E header r) = false →
      textField E ((normalizeRow (rowToObject E header r)).get "Developer".toList) ≠ []
        ∧ textField E ((normalizeRow (rowToObject E header r)).get "Task".toList) ≠ []) :
    (loadSheetData E mode sheet).rawRows =
        (rows.filter (fun r => !isDateSeparatorRow E (rowToObject E header r))).map
          (fun r => toRecord E mode (rowToObject E header r))
    ∧ (loadSheetData E mode sheet).rawRows.length =
        (rows.filter (fun r => !isDateSeparatorRow E (rowToObject E header r))).length
    ∧ (rows ≠ [] → (loadSheetData E mode sheet).fileError = []) := by
  have h1 : findHeaderRow sheet.objectRows = -1 := findHeaderRowFrom_none _ 0 hkeys
  have h2 : findGridHeaderFrom E 0 sheet.arrayRows = 2 := by
    rw [hgrid]
    exact findGridHeader_third E title separator header rows htitle hsep
      (gridHeaderTest_header E header hheader)
  have hkeysAll : ∀ r ∈ rows, ∀ c ∈ requiredColumns, c ∈ (rowToObject E header r).keys :=
    fun r hr c hc => rowToObject_keys E header r c hc (hheader c hc) (hcells r hr)
  have hloc : locateRows E sheet = some (rows.map (rowToObject E header)) := by
    have hfil : (rows.map (rowToObject E header)).filter
        (fun row => decide (row.keys.length > 0)) = rows.map (rowToObject E header) := by
      rw [List.filter_eq_self]
      intro o ho
      obtain ⟨r, hr, rfl⟩ := List.mem_map.1 ho
      have := hkeysAll r hr "Date".toList (by decide)
      simp only [decide_eq_true_eq]
      exact List.length_pos_of_mem this
    unfold locateRows
    simp only [h1, h2]
    rw [hgrid]
    simp only [if_true]
    have hne : ¬ ((2 : Int) = -1) := by decide
    rw [if_neg hne]
    exact congrArg some hfil
  have hmain : (loadSheetData E mode sheet).rawRows =
        (rows.filter (fun r => !isDateSeparatorRow E (rowToObject E header r))).map
          (fun r => toRecord E mode (rowToObject E header r))
      ∧ (rows ≠ [] → (loadSheetData E mode sheet).fileError = []) := by
    by_cases hr0 : rows = []
    · subst hr0
      rcases loadSheetData_cases E mode sheet with
        ⟨h0, -⟩ | ⟨-, hl, -⟩ | ⟨-, -, he⟩ | ⟨f, r, -, hl, -, -⟩ | ⟨json, -, hjne, hl, -, -⟩
      · exact absurd h0 hobj
      · rw [hloc] at hl; exact absurd hl (by simp)
      · rw [he]; exact ⟨rfl, fun h => absurd rfl h⟩
      · rw [hloc] at hl; simp at hl
      · rw [hloc] at hl
        simp only [List.map_nil, Option.some.injEq] at hl
        exact absurd hl.symm hjne
    · have hjne : rows.map (rowToObject E header) ≠ [] := by simpa using hr0
      have hok : ∀ first, (rows.map (rowToObject E header)).head? = some first →
          (requiredColumnsPresent first).ok = true := by
        intro first hf
        have hmem : first ∈ rows.map (rowToObject E header) := List.mem_of_mem_head? hf
        obtain ⟨r, hr, rfl⟩ := List.mem_map.1 hmem
        exact presence_ok_of_keys _ (hkeysAll r hr)
      rw [loadSheetData_success E mode sheet _ hobj hloc hjne hok]
      refine ⟨?_, fun _ => rfl⟩
      show List.filter _ (List.map (toRecord E mode) (List.filter _ (List.map _ rows))) = _
      rw [List.filter_map, List.filter_eq_self.2, List.filter_map, List.map_map]
      · rfl
      · intro o ho
        rw [List.mem_filter] at ho
        obtain ⟨r, hr, rfl⟩ := List.mem_map.1 ho.1
        have hsepf : isDateSeparatorRow E (rowToObject E header r) = false := by
          simpa using ho.2
        have := hrows r hr hsepf
        simp only [Function.comp, Bool.and_eq_true, decide_eq_true_eq]
        exact this
  refine ⟨hmain.1, ?_, hmain.2⟩
  rw [hmain.1, List.length_map]

/-- Witness for C9, amended: the sample sheet, with its header in the third
row, five valid rows and one date-separator row, loads as exactly five
records, in sheet order. -/
theorem loadSheetData_header_third_row_witness :
    (loadSheetData sampleHost NumericMode.HOURS sampleSheet).rawRows.length = 5
    ∧ (loadSheetData sampleHost NumericMode.HOURS sampleSheet).fileError = []
    ∧ (loadSheetData sampleHost NumericMode.HOURS sampleSheet).rawRows.map WorkRecord.task
        = ["Fix bug".toList, "Write doc".toList, "Review".toList, "Deploy".toList,
            "Plan".toList] := by
  have h := loadSheetData_header_third_row sampleHost NumericMode.HOURS sampleSheet
    (gridRow ["March timesheet", "", "", "", "", "", ""])
    (gridRow ["", "", "", "", "", "", ""]) (gridRow sampleHeader) (sampleData.map gridRow)
    (by decide) (by decide) rfl (by decide) (by decide) (by decide) (by decide) (by decide)
  refine ⟨?_, h.2.2 (by decide), ?_⟩
  · rw [h.2.1]
    decide
  · rw [h.1]
    decide!

/-- C10. Every record of a sheet load has a non-empty developer and a
non-empty task; and in a load that reaches record construction, every row
that is not a date separator and whose Developer and Task texts, trimmed,
are not empty gives a record of the result, also when its Date cell is
empty, absent or a text that `Date.parse` rejects, the date of the record
being `null` then. -/
theorem loadSheetData_records (E : JSEnv) (mode : NumericMode) (sheet : Sheet) :
    (∀ rec ∈ (loadSheetData E mode sheet).rawRows, rec.developer ≠ [] ∧ rec.task ≠ [])
    ∧ (∀ json row, (loadSheetData E mode sheet).fileError = [] →
        locateRows E sheet = some json → row ∈ json →
        isDateSeparatorRow E row = false →
        textField E ((normalizeRow row).get "Developer".toList) ≠ [] →
        textField E ((normalizeRow row).get "Task".toList) ≠ [] →
        toRecord E mode row ∈ (loadSheetData E mode sheet).rawRows
          ∧ ((((normalizeRow row).get "Date".toList).truthy = false
              ∨ ∃ s, (normalizeRow row).get "Date".toList = JSVal.str s ∧ E.dateParse s = none) →
            (toRecord E mode row).date = none)) := by
  refine ⟨?_, ?_⟩
  · intro rec hrec
    obtain ⟨json, row, -, -, -, -, hdev, htask⟩ := loadSheetData_mem E mode sheet rec hrec
    exact ⟨hdev, htask⟩
  · intro json row herr hloc hrow hsep hdev htask
    refine ⟨?_, ?_⟩
    · rcases loadSheetData_cases E mode sheet with
        ⟨-, he⟩ | ⟨-, -, he⟩ | ⟨-, -, he⟩ | ⟨f, r, -, -, -, he⟩ | ⟨json2, -, -, hloc2, -, he⟩
      · rw [he] at herr; exact absurd herr (by decide)
      · rw [he] at herr; exact absurd herr (by decide)
      · rw [he] at herr; exact absurd herr (by decide)
      · rw [he] at herr; exact absurd herr (missingColumnsMessage_ne_nil _ _)
      · rw [hloc] at hloc2
        have hj : json = json2 := Option.some.inj hloc2
        subst hj
        rw [he]
        simp only [List.mem_filter, List.mem_map, Bool.and_eq_true, decide_eq_true_eq,
          Bool.not_eq_true']
        exact ⟨⟨row, ⟨hrow, hsep⟩, rfl⟩, hdev, htask⟩
    · intro hdate
      show parseDateValue E ((normalizeRow row).get "Date".toList) = none
      rcases hdate with h | ⟨s, hs, hparse⟩
      · unfold parseDateValue
        rw [h]
        rfl
      · rw [hs]
        unfold parseDateValue
        split
        · rfl
        · simp [newDate, hparse]

/-- Witness for C10: the first data row of the sample sheet has an empty
Date cell; its record is in the result, with `date = null`. -/
theorem loadSheetData_records_witness :
    toRecord sampleHost NumericMode.HOURS (rowToObject sampleHost (gridRow sampleHeader)
        (gridRow ["", "T-1", "Fix bug", "Done", "1.5", "", "Ann"]))
      ∈ (loadSheetData sampleHost NumericMode.HOURS sampleSheet).rawRows
    ∧ (toRecord sampleHost NumericMode.HOURS (rowToObject sampleHost (gridRow sampleHeader)
        (gridRow ["", "T-1", "Fix bug", "Done", "1.5", "", "Ann"]))).date = none :=
  have h := (loadSheetData_records sampleHost NumericMode.HOURS sampleSheet).2
    ((sampleData.map gridRow).map (rowToObject sampleHost (gridRow sampleHeader)))
    (rowToObject sampleHost (gridRow sampleHeader)
      (gridRow ["", "T-1", "Fix bug", "Done", "1.5", "", "Ann"]))
    (by decide!) (by decide) (by decide) (by decide) (by decide) (by decide)
  ⟨h.1, h.2 (Or.inl (by decide))⟩

/-! ## Claims on header detection -/

theorem hasRequired_iff (row : JSObj) :
    ((row.keys.map normalizeHeaderKeyStr).contains "Date".toList
      && (row.keys.map normalizeHeaderKeyStr).contains "Ticket".toList
      && (row.keys.map normalizeHeaderKeyStr).contains "Task".toList
      && (row.keys.map normalizeHeaderKeyStr).contains "Status".toList
      && (row.keys.map normalizeHeaderKeyStr).contains "Productive".toList
      && (row.keys.map normalizeHeaderKeyStr).contains "Time Spent".toList
      && (row.keys.map normalizeHeaderKeyStr).contains "Developer".toList) = true
    ↔ HasRequiredColumns row := by
  unfold HasRequiredColumns
  simp only [Bool.and_eq_true, contains_iff_mem]
  constructor
  · intro hall c hc
    simp only [requiredColumns, List.mem_cons, List.mem_singleton, List.not_mem_nil,
      or_false] at hc
    rcases hc with rfl | rfl | rfl | rfl | rfl | rfl | rfl
    · exact hall.1.1.1.1.1.1
    · exact hall.1.1.1.1.1.2
    · exact hall.1.1.1.1.2
    · exact hall.1.1.1.2
    · exact hall.1.1.2
    · exact hall.1.2
    · exact hall.2
  · intro h
    exact ⟨⟨⟨⟨⟨⟨h _ (by decide), h _ (by decide)⟩, h _ (by decide)⟩, h _ (by decide)⟩,
      h _ (by decide)⟩, h _ (by decide)⟩, h _ (by decide)⟩

theorem findHeaderRowFrom_cases (rows : List JSObj) (k : Nat) :
    (findHeaderRowFrom k rows = -1
      ∧ ∀ j row, rows[j]? = some row → k + j < 10 → ¬ HasRequiredColumns row)
    ∨ (∃ i row, rows[i]? = some row ∧ k + i < 10 ∧ HasRequiredColumns row
        ∧ (∀ j row2, j < i → rows[j]? = some row2 → ¬ HasRequiredColumns row2)
        ∧ findHeaderRowFrom k rows = ((k + i : Nat) : Int)) := by
  induction rows generalizing k with
  | nil =>
    left
    exact ⟨rfl, fun j row h => by simp at h⟩
  | cons r rest ih =>
    by_cases hk : k < 10
    · by_cases hr : HasRequiredColumns r
      · right
        refine ⟨0, r, by simp, by simpa using hk, hr, fun j _ hj => absurd hj (Nat.not_lt_zero j), ?_⟩
        unfold findHeaderRowFrom
        simp only [hk, if_true, (hasRequired_iff r).2 hr, Nat.add_zero]
      · have hstep : findHeaderRowFrom k (r :: rest) = findHeaderRowFrom (k + 1) rest := by
          have hf : ((r.keys.map normalizeHeaderKeyStr).contains "Date".toList
              && (r.keys.map normalizeHeaderKeyStr).contains "Ticket".toList
              && (r.keys.map normalizeHeaderKeyStr).contains "Task".toList
              && (r.keys.map normalizeHeaderKeyStr).contains "Status".toList
              && (r.keys.map normalizeHeaderKeyStr).contains "Productive".toList
              && (r.keys.map normalizeHeaderKeyStr).contains "Time Spent".toList
              && (r.keys.map normalizeHeaderKeyStr).contains "Developer".toList) = false := by
            rw [Bool.eq_false_iff]
            exact fun h => hr ((hasRequired_iff r).1 h)
          conv_lhs => unfold findHeaderRowFrom
          simp only [hk, if_true, hf, Bool.false_eq_true, if_false]
        rcases ih (k + 1) with ⟨hres, hnone⟩ | ⟨i, row, hrow, hlt, hq, hfirst, hres⟩
        · left
          refine ⟨by rw [hstep, hres], ?_⟩
          intro j row hj hlt
          cases j with
          | zero =>
            simp at hj
            subst hj
            exact hr
          | succ j =>
            simp at hj
            exact hnone j row hj (by omega)
        · right
          refine ⟨i + 1, row, by simpa using hrow, by omega, hq, ?_, ?_⟩
          · intro j row2 hj hrow2
            cases j with
            | zero =>
              simp at hrow2
              subst hrow2
              exact hr
            | succ j =>
              simp at hrow2
              exact hfirst j row2 (by omega) hrow2
          · rw [hstep, hres]
            congr 1
            omega
    · left
      refine ⟨by unfold findHeaderRowFrom; simp [hk], ?_⟩
      intro j row _ hlt
      omega

theorem presence_ok_of_hasRequired (o : JSObj) (h : HasRequiredColumns o) :
    (requiredColumnsPresent o).ok = true := by
  rw [presence_ok_iff]
  show requiredColumns.filter
    (fun col => !(o.keys.map normalizeHeaderKeyStr).contains col) = []
  rw [List.filter_eq_nil_iff]
  intro c hc
  simp [h c hc]

theorem getElem?_lt_min (json : List JSObj) (i : Nat) (row : JSObj)
    (h : json[i]? = some row) (h10 : i < 10) : i < min json.length 10 := by
  have := (List.getElem?_eq_some_iff.1 h).1
  omega

/-- C11. `findHeaderRow` returns the smallest index `i < min(number of rows, 10)`
whose row has the seven required columns among its normalized keys, and `-1`
exactly when none of the first ten rows has them (a qualifying row at index
10 or later is not found); when the index is `i > 0`, `loadSheetData` takes
as its rows exactly the rows from `i` on. -/
theorem findHeaderRow_spec (E : JSEnv) (mode : NumericMode) (sheet : Sheet) :
    (∀ i : Nat, findHeaderRow sheet.objectRows = (i : Int) ↔
      (i < min sheet.objectRows.length 10
        ∧ (∃ row, sheet.objectRows[i]? = some row ∧ HasRequiredColumns row)
        ∧ ∀ j row, j < i → sheet.objectRows[j]? = some row → ¬ HasRequiredColumns row))
    ∧ (findHeaderRow sheet.objectRows = -1 ↔
        ∀ j row, j < min sheet.objectRows.length 10 → sheet.objectRows[j]? = some row →
          ¬ HasRequiredColumns row)
    ∧ (∀ i : Nat, 0 < i → findHeaderRow sheet.objectRows = (i : Int) →
        locateRows E sheet = some (sheet.objectRows.drop i)
        ∧ loadSheetData E mode sheet =
          { rawRows := (((sheet.objectRows.drop i).filter
              (fun row => !isDateSeparatorRow E row)).map (toRecord E mode)).filter
                (fun record => decide (record.developer ≠ []) && decide (record.task ≠ [])),
            fileError := [] }) := by
  have hcases := findHeaderRowFrom_cases sheet.objectRows 0
  have hfirst : ∀ i : Nat, findHeaderRow sheet.objectRows = (i : Int) →
      (i < min sheet.objectRows.length 10
        ∧ (∃ row, sheet.objectRows[i]? = some row ∧ HasRequiredColumns row)
        ∧ ∀ j row, j < i → sheet.objectRows[j]? = some row → ¬ HasRequiredColumns row) := by
    intro i hi
    rcases hcases with ⟨hres, -⟩ | ⟨i2, row, hrow, hlt, hq, hmin, hres⟩
    · unfold findHeaderRow at hi
      rw [hres] at hi
      omega
    · unfold findHeaderRow at hi
      rw [hres] at hi
      have hii : i2 = i := by omega
      subst hii
      exact ⟨getElem?_lt_min _ _ row hrow (by omega), ⟨row, hrow, hq⟩,
        fun j row2 hj hrow2 => hmin j row2 hj hrow2⟩
  refine ⟨?_, ?_, ?_⟩
  · intro i
    refine ⟨hfirst i, ?_⟩
    rintro ⟨hlt, ⟨row, hrow, hq⟩, hmin⟩
    rcases hcases with ⟨-, hnone⟩ | ⟨i2, row2, hrow2, hlt2, hq2, hmin2, hres⟩
    · exact absurd hq (hnone i row hrow (by omega))
    · unfold findHeaderRow
      rw [hres]
      have hii : i2 = i := by
        rcases Nat.lt_trichotomy i2 i with h | h | h
        · exact absurd hq2 (hmin i2 row2 h hrow2)
        · exact h
        · exact absurd hq (hmin2 i row h hrow)
      simp [hii]
  · constructor
    · intro hres j row hj hrow hq
      rcases hcases with ⟨-, hnone⟩ | ⟨i2, row2, hrow2, hlt2, hq2, hmin2, hres2⟩
      · exact hnone j row hrow (by omega) hq
      · unfold findHeaderRow at hres
        rw [hres2] at hres
        omega
    · intro hall
      rcases hcases with ⟨hres, -⟩ | ⟨i2, row2, hrow2, hlt2, hq2, hmin2, hres2⟩
      · exact hres
      · exact absurd hq2 (hall i2 row2 (getElem?_lt_min _ _ row2 hrow2 (by omega)) hrow2)
  · intro i hpos hi
    obtain ⟨hlt, ⟨row, hrow, hq⟩, -⟩ := hfirst i hi
    have hloc : locateRows E sheet = some (sheet.objectRows.drop i) := by
      unfold locateRows
      simp only [hi]
      have h1 : ¬ ((i : Int) = -1) := by omega
      have h2 : (i : Int) > 0 := by omega
      simp [h1, h2]
    have hne0 : sheet.objectRows ≠ [] := by
      intro h
      rw [h] at hlt
      simp at hlt
    have hdrop : sheet.objectRows.drop i ≠ [] := by
      intro h
      rw [List.drop_eq_nil_iff] at h
      omega
    have hhead : ∀ first, (sheet.objectRows.drop i).head? = some first →
        (requiredColumnsPresent first).ok = true := by
      intro first hf
      rw [List.head?_drop] at hf
      rw [hrow] at hf
      have : row = first := Option.some.inj hf
      subst this
      exact presence_ok_of_hasRequired _ hq
    exact ⟨hloc, loadSheetData_success E mode sheet _ hne0 hloc hdrop hhead⟩

/-- Witness for C11: with the first qualifying row at index 2 the result is 2
and the two rows before it are discarded; with the only qualifying row at
index 10 the result is -1. -/
theorem findHeaderRow_spec_witness :
    findHeaderRow headerAtTwoRows = 2
    ∧ locateRows sampleHost { objectRows := headerAtTwoRows, arrayRows := [] }
        = some [sampleRowAnn, negativeProductiveRow]
    ∧ findHeaderRow headerAtTenRows = -1 := by
  have h := findHeaderRow_spec sampleHost NumericMode.HOURS
    { objectRows := headerAtTwoRows, arrayRows := [] }
  have h2 : findHeaderRow headerAtTwoRows = ((2 : Nat) : Int) := by decide
  exact ⟨h2, (h.2.2 2 (by decide) h2).1, by decide⟩

/-! ## Substrings -/

theorem isPrefixOf_split (n t : List Char) (h : n.isPrefixOf t = true) : ∃ b, t = n ++ b := by
  induction n generalizing t with
  | nil => exact ⟨t, rfl⟩
  | cons c n ih =>
    cases t with
    | nil => simp [List.isPrefixOf] at h
    | cons d t =>
      simp only [List.isPrefixOf, Bool.and_eq_true, beq_iff_eq] at h
      obtain ⟨b, hb⟩ := ih t h.2
      exact ⟨b, by rw [h.1, hb]; rfl⟩

theorem includes_iff (hay n : List Char) : includes hay n = true ↔ Occurs n hay := by
  constructor
  · intro h
    unfold includes at h
    rw [List.any_eq_true] at h
    obtain ⟨t, ht, hp⟩ := h
    obtain ⟨a, ha⟩ := (List.mem_tails _ _).1 ht
    obtain ⟨b, hb⟩ := isPrefixOf_split n t hp
    exact ⟨a, b, by rw [← ha, hb]⟩
  · rintro ⟨a, b, h⟩
    rw [h]
    exact includes_mid a n b

theorem includes_eq_false_iff (hay n : List Char) : includes hay n = false ↔ ¬ Occurs n hay := by
  rw [← includes_iff]
  simp

theorem occurs_dropWhile (p : Char → Bool) (k : Char) (ks s : List Char) (hk : p k = false) :
    Occurs (k :: ks) (s.dropWhile p) ↔ Occurs (k :: ks) s := by
  induction s with
  | nil => simp
  | cons c s ih =>
    by_cases hc : p c = true
    · rw [List.dropWhile_cons_of_pos hc, ih]
      constructor
      · rintro ⟨a, b, h⟩
        exact ⟨c :: a, b, by rw [h]; rfl⟩
      · rintro ⟨a, b, h⟩
        cases a with
        | nil =>
          simp only [List.nil_append, List.cons_append, List.cons.injEq] at h
          rw [h.1, hk] at hc
          exact absurd hc (by simp)
        | cons d a =>
          simp only [List.cons_append, List.cons.injEq] at h
          exact ⟨a, b, h.2⟩
    · rw [List.dropWhile_cons_of_neg hc]

theorem occurs_reverse (n s : List Char) : Occurs n.reverse s.reverse ↔ Occurs n s := by
  have key : ∀ n s : List Char, Occurs n s → Occurs n.reverse s.reverse := by
    rintro n s ⟨a, b, h⟩
    exact ⟨b.reverse, a.reverse, by rw [h]; simp⟩
  constructor
  · intro h
    have := key _ _ h
    simpa using this
  · exact key n s

theorem occurs_trim (k : Char) (ks s : List Char) (hk : isWs k = false)
    (hl : ∀ a, (k :: ks).getLast? = some a → isWs a = false) :
    Occurs (k :: ks) (trim s) ↔ Occurs (k :: ks) s := by
  unfold trim
  rw [← occurs_dropWhile isWs k ks s hk, List.rdropWhile, ← occurs_reverse _ (List.reverse _),
    List.reverse_reverse]
  have hne : (k :: ks).reverse ≠ [] := by simp
  obtain ⟨d, ds, hd⟩ := List.exists_cons_of_ne_nil hne
  have hdw : isWs d = false := by
    apply hl
    rw [List.getLast?_eq_head?_reverse, hd]
    rfl
  rw [hd, occurs_dropWhile isWs d ds _ hdw, ← hd, occurs_reverse]

theorem includes_trim (kw s : List Char) (k : Char) (ks : List Char) (hkw : kw = k :: ks)
    (hk : isWs k = false) (hl : ∀ a, kw.getLast? = some a → isWs a = false) :
    includes (trim s) kw = includes s kw := by
  subst hkw
  rw [Bool.eq_iff_iff, includes_iff, includes_iff]
  exact occurs_trim k ks s hk hl

theorem includes_trim_keyword (s kw : List Char) (h : kw ∈ leaveKeywords) :
    includes (trim s) kw = includes s kw := by
  simp only [leaveKeywords, List.mem_cons, List.mem_singleton, List.not_mem_nil, or_false] at h
  rcases h with h | h | h | h | h | h <;> subst h
  · exact includes_trim _ s 'l' "eave".toList rfl (by decide) (by decide)
  · exact includes_trim _ s 'v' "acation".toList rfl (by decide) (by decide)
  · exact includes_trim _ s 'h' "oliday".toList rfl (by decide) (by decide)
  · exact includes_trim _ s 's' "ick".toList rfl (by decide) (by decide)
  · exact includes_trim _ s 't' "ime off".toList rfl (by decide) (by decide)
  · exact includes_trim _ s 'p' "to".toList rfl (by decide) (by decide)

/-! ## Claims on the leave classification -/

/-- C12 (counterexample). A record whose status is "Sick", with an ordinary
task and ticket, is not classified as a leave entry, although its status
contains "sick" when letter case is ignored. -/
theorem isLeaveEntry_status_sick_counterexample :
    sickStatusRecord.status = "Sick".toList
    ∧ ContainsFolded sickStatusRecord.status "sick".toList
    ∧ "sick".toList ∈ leaveKeywords
    ∧ isLeaveEntry sickStatusRecord = false := by
  refine ⟨rfl, ?_, by decide, by decide⟩
  exact (includes_iff _ _).1 (by decide)

theorem isLeaveEntry_spec_aux (row : WorkRecord) :
    isLeaveEntry row = true ↔
      (ContainsFolded row.task "leave".toList ∨ ContainsFolded row.ticket "leave".toList
        ∨ ContainsFolded row.status "leave".toList
        ∨ ∃ kw ∈ taskOnlyKeywords, ContainsFolded row.task kw) := by
  unfold isLeaveEntry ContainsFolded
  simp only [includes_trim_keyword _ _ (by decide : "leave".toList ∈ leaveKeywords),
    includes_trim_keyword _ _ (by decide : "vacation".toList ∈ leaveKeywords),
    includes_trim_keyword _ _ (by decide : "holiday".toList ∈ leaveKeywords),
    includes_trim_keyword _ _ (by decide : "sick".toList ∈ leaveKeywords),
    includes_trim_keyword _ _ (by decide : "time off".toList ∈ leaveKeywords),
    includes_trim_keyword _ _ (by decide : "pto".toList ∈ leaveKeywords),
    Bool.or_eq_true, includes_iff, taskOnlyKeywords, List.mem_cons, List.mem_singleton,
    List.not_mem_nil, or_false, exists_eq_or_imp, exists_eq_left]
  tauto

/-- C12 (amended). The function `isLeaveEntry` is true exactly for the records
in which the task, the ticket or the status contains "leave", letter case
apart, or the task contains one of "vacation", "holiday", "sick", "time off",
"pto"; so it is false for every record in which none of the three fields
contains any of the six substrings. -/
theorem isLeaveEntry_spec (row : WorkRecord) :
    (isLeaveEntry row = true ↔
      (ContainsFolded row.task "leave".toList ∨ ContainsFolded row.ticket "leave".toList
        ∨ ContainsFolded row.status "leave".toList
        ∨ ∃ kw ∈ taskOnlyKeywords, ContainsFolded row.task kw))
    ∧ ((∀ kw ∈ leaveKeywords, ¬ ContainsFolded row.task kw ∧ ¬ ContainsFolded row.ticket kw
          ∧ ¬ ContainsFolded row.status kw) → isLeaveEntry row = false) := by
  have hiff := isLeaveEntry_spec_aux row
  refine ⟨hiff, ?_⟩
  intro hnone
  rw [← Bool.not_eq_true, hiff]
  rintro (h | h | h | ⟨kw, hkw, h⟩)
  · exact (hnone _ (by decide)).1 h
  · exact (hnone _ (by decide)).2.1 h
  · exact (hnone _ (by decide)).2.2 h
  · refine (hnone kw ?_).1 h
    revert hkw
    simp only [taskOnlyKeywords, leaveKeywords, List.mem_cons, List.mem_singleton,
      List.not_mem_nil, or_false]
    tauto

/-- Witness for C12: "Annual Leave" is a leave entry by its task, and a record
of ordinary work is none. -/
theorem isLeaveEntry_spec_witness :
    isLeaveEntry annualLeaveRecord = true ∧ isLeaveEntry fixBugRecord = false := by
  refine ⟨(isLeaveEntry_spec annualLeaveRecord).1.2 (Or.inl ((includes_iff _ _).1 (by decide))),
    (isLeaveEntry_spec fixBugRecord).2 ?_⟩
  intro kw hkw
  simp only [leaveKeywords, List.mem_cons, List.mem_singleton, List.not_mem_nil, or_false] at hkw
  rcases hkw with h | h | h | h | h | h <;> subst h <;>
    exact ⟨(includes_eq_false_iff _ _).1 (by decide), (includes_eq_false_iff _ _).1 (by decide),
      (includes_eq_false_iff _ _).1 (by decide)⟩

/-! ## Claims on the filter engine -/

theorem chain_eq (a b c d e f g h : Bool) :
    (if a then false else if b then false else if c then false else if d then false
      else if e then false else if f then false else if g then false else if h then false
      else true) = (!a && !b && !c && !d && !e && !f && !g && !h) := by
  cases a <;> cases b <;> cases c <;> cases d <;> cases e <;> cases f <;> cases g <;> cases h <;>
    rfl

theorem filterKeeps_eq (E : JSEnv) (Z : TimeZone) (c : FilterCriteria) (r : WorkRecord) :
    filterKeeps E Z c r =
      (!(c.excludeLeave && isLeaveEntry r)
        && !(decide (c.developerFilter ≠ "ALL".toList) && decide (r.developer ≠ c.developerFilter))
        && !(decide (c.statusFilter ≠ "ALL".toList) && decide (r.status ≠ c.statusFilter))
        && !(decide (c.productiveFilter ≠ "ALL".toList)
            && decide (c.productiveFilter = "YES".toList) && r.productive.le (JSNum.fin 0))
        && !(decide (c.productiveFilter ≠ "ALL".toList)
            && decide (c.productiveFilter = "NO".toList) && (JSNum.fin 0).lt r.productive)
        && !(decide (c.textQuery ≠ [])
            && !includes
              (E.toLowerCase (r.ticket ++ ' ' :: (r.task ++ ' ' :: r.ticketDisplay.toStr E)))
              (E.toLowerCase c.textQuery))
        && !(decide (c.startDate ≠ []) && rejectedByStart E c.startDate r.date)
        && !(decide (c.endDate ≠ []) && rejectedByEnd E Z c.endDate r.date)) := by
  unfold filterKeeps
  exact chain_eq _ _ _ _ _ _ _ _

theorem searchText_eq (E : JSEnv) (r : WorkRecord) :
    r.ticket ++ ' ' :: (r.task ++ ' ' :: r.ticketDisplay.toStr E) = searchText E r := by
  simp [searchText]

theorem leaveOk_iff (c : FilterCriteria) (r : WorkRecord) :
    (!(c.excludeLeave && isLeaveEntry r)) = true ↔ leaveOk c r := by
  unfold leaveOk
  cases c.excludeLeave <;> cases isLeaveEntry r <;> simp

theorem developerOk_iff (c : FilterCriteria) (r : WorkRecord) :
    (!(decide (c.developerFilter ≠ "ALL".toList) && decide (r.developer ≠ c.developerFilter)))
      = true ↔ developerOk c r := by
  unfold developerOk
  by_cases h1 : c.developerFilter = "ALL".toList <;>
    by_cases h2 : r.developer = c.developerFilter <;> simp [h1, h2]

theorem statusOk_iff (c : FilterCriteria) (r : WorkRecord) :
    (!(decide (c.statusFilter ≠ "ALL".toList) && decide (r.status ≠ c.statusFilter)))
      = true ↔ statusOk c r := by
  unfold statusOk
  by_cases h1 : c.statusFilter = "ALL".toList <;>
    by_cases h2 : r.status = c.statusFilter <;> simp [h1, h2]

theorem productivePasses_iff (c : FilterCriteria) (r : WorkRecord) :
    (!(decide (c.productiveFilter ≠ "ALL".toList)
          && decide (c.productiveFilter = "YES".toList) && r.productive.le (JSNum.fin 0))
      && !(decide (c.productiveFilter ≠ "ALL".toList)
          && decide (c.productiveFilter = "NO".toList) && (JSNum.fin 0).lt r.productive))
      = true ↔ productivePasses c r := by
  unfold productivePasses
  by_cases h1 : c.productiveFilter = "YES".toList
  · have h2 : c.productiveFilter ≠ "NO".toList := by rw [h1]; decide
    have h3 : c.productiveFilter ≠ "ALL".toList := by rw [h1]; decide
    simp only [h2, h3]
    simp [h1]
  · by_cases h2 : c.productiveFilter = "NO".toList
    · have h3 : c.productiveFilter ≠ "ALL".toList := by rw [h2]; decide
      simp only [h1, h3]
      simp [h2]
    · simp only [h1, h2]
      simp

theorem textOk_iff (E : JSEnv) (c : FilterCriteria) (r : WorkRecord) :
    (!(decide (c.textQuery ≠ [])
        && !includes
          (E.toLowerCase (r.ticket ++ ' ' :: (r.task ++ ' ' :: r.ticketDisplay.toStr E)))
          (E.toLowerCase c.textQuery))) = true ↔ textOk E c r := by
  unfold textOk
  rw [searchText_eq, ← includes_iff]
  by_cases h1 : c.textQuery = [] <;>
    cases includes (E.toLowerCase (searchText E r)) (E.toLowerCase c.textQuery) <;> simp [h1]

theorem startOk_iff (E : JSEnv) (c : FilterCriteria) (r : WorkRecord) :
    (!(decide (c.startDate ≠ []) && rejectedByStart E c.startDate r.date)) = true
      ↔ startOk E c r := by
  unfold startOk rejectedByStart dateBefore
  by_cases h1 : c.startDate = []
  · simp [h1]
  · cases hd : r.date with
    | none => simp [h1]
    | some t =>
      cases hb : E.dateParse c.startDate with
      | none => simp [h1]
      | some b => simp [h1]

theorem endOk_iff (E : JSEnv) (Z : TimeZone) (c : FilterCriteria) (r : WorkRecord) :
    (!(decide (c.endDate ≠ []) && rejectedByEnd E Z c.endDate r.date)) = true
      ↔ endOk E Z c r := by
  unfold endOk rejectedByEnd dateAfter
  by_cases h1 : c.endDate = []
  · simp [h1]
  · cases hd : r.date with
    | none => simp [h1]
    | some t =>
      cases hb : (E.dateParse c.endDate).bind Z.endOfLocalDay with
      | none => simp [h1]
      | some b => simp [h1]

theorem filterKeeps_iff (E : JSEnv) (Z : TimeZone) (c : FilterCriteria) (r : WorkRecord) :
    filterKeeps E Z c r = true ↔ Passes E Z c r := by
  rw [filterKeeps_eq]
  unfold Passes
  rw [← leaveOk_iff, ← developerOk_iff, ← statusOk_iff, ← productivePasses_iff, ← textOk_iff,
    ← startOk_iff, ← endOk_iff E Z]
  simp only [Bool.and_eq_true]
  tauto

theorem le_zero_eq_not_lt (x : JSNum) (h : x.isNaN = false) :
    x.le (JSNum.fin 0) = !(JSNum.fin 0).lt x := by
  cases x <;> simp [JSNum.le, JSNum.lt, JSNum.isNaN] at h ⊢

theorem productivePasses_iff_ok (c : FilterCriteria) (r : WorkRecord)
    (h : r.productive.isNaN = false) : productivePasses c r ↔ productiveOk c r := by
  unfold productivePasses productiveOk
  rw [le_zero_eq_not_lt _ h]
  cases (JSNum.fin 0).lt r.productive <;> simp

theorem passes_iff_satisfies (E : JSEnv) (Z : TimeZone) (c : FilterCriteria) (r : WorkRecord)
    (h : r.productive.isNaN = false) : Passes E Z c r ↔ Satisfies E Z c r := by
  unfold Passes Satisfies
  rw [productivePasses_iff_ok c r h]

theorem satisfies_imp_passes (E : JSEnv) (Z : TimeZone) (c : FilterCriteria) (r : WorkRecord)
    (h : Satisfies E Z c r) : Passes E Z c r := by
  obtain ⟨h1, h2, h3, ⟨h4, h5⟩, h6, h7, h8⟩ := h
  refine ⟨h1, h2, h3, ⟨?_, ?_⟩, h6, h7, h8⟩
  · intro hy
    have := h4 hy
    cases hp : r.productive <;> simp [hp, JSNum.le, JSNum.lt, JSNum.isNaN] at this ⊢
    exact this
  · intro hn
    have := h5 hn
    cases hp : r.productive <;> simp [hp, JSNum.le, JSNum.lt, JSNum.isNaN] at this ⊢
    exact this

theorem filterKeeps_leave_flag (E : JSEnv) (Z : TimeZone) (c : FilterCriteria) (r : WorkRecord)
    (b : Bool) :
    filterKeeps E Z { c with excludeLeave := b } r
      = (!(b && isLeaveEntry r) && filterKeeps E Z { c with excludeLeave := false } r) := by
  rw [filterKeeps_eq, filterKeeps_eq]
  simp [Bool.and_assoc]

theorem passes_initial (E : JSEnv) (Z : TimeZone) (r : WorkRecord) :
    Passes E Z initialCriteria r := by
  refine ⟨?_, Or.inl rfl, Or.inl rfl, ⟨?_, ?_⟩, Or.inl rfl, Or.inl rfl, Or.inl rfl⟩
  · intro h
    exact absurd h (by decide)
  · intro h
    exact absurd h (by decide)
  · intro h
    exact absurd h (by decide)

/-- C13. For a record whose task contains "leave" in any letter case: when
leave-exclusion is enabled it is in `filteredRows` for no setting of the other
criteria, and in the initial filter state (leave-exclusion disabled, no other
criterion active) it is in `filteredRows` whenever it is among the records.
For every criteria value, enabling the flag removes the leave entries from the
result obtained with the flag disabled and nothing else, so a record that is
not a leave entry is kept or rejected as without the flag. -/
theorem filteredRows_leave (E : JSEnv) (Z : TimeZone) (rows : List WorkRecord)
    (row : WorkRecord) (h : ContainsFolded row.task "leave".toList) :
    (∀ c : FilterCriteria, c.excludeLeave = true → row ∉ filteredRows E Z c rows)
    ∧ (row ∈ rows → row ∈ filteredRows E Z initialCriteria rows)
    ∧ (∀ c : FilterCriteria,
        filteredRows E Z { c with excludeLeave := true } rows
          = (filteredRows E Z { c with excludeLeave := false } rows).filter
              (fun r => !isLeaveEntry r))
    ∧ (∀ (c : FilterCriteria) (r : WorkRecord), isLeaveEntry r = false →
        filterKeeps E Z { c with excludeLeave := true } r
          = filterKeeps E Z { c with excludeLeave := false } r) := by
  have hleave : isLeaveEntry row = true := (isLeaveEntry_spec_aux row).2 (Or.inl h)
  refine ⟨?_, ?_, ?_, ?_⟩
  · intro c hc hmem
    have hk : filterKeeps E Z c row = true := (List.mem_filter.1 hmem).2
    have := ((filterKeeps_iff E Z c row).1 hk).1 hc
    rw [hleave] at this
    exact absurd this (by decide)
  · intro hmem
    exact List.mem_filter.2 ⟨hmem, (filterKeeps_iff E Z _ row).2 (passes_initial E Z row)⟩
  · intro c
    unfold filteredRows
    rw [List.filter_filter]
    congr 1
    funext r
    rw [filterKeeps_leave_flag E Z c r true]
    simp
  · intro c r hr
    rw [filterKeeps_leave_flag E Z c r true, hr]
    simp

/-- Witness for C13: "Annual Leave" among the sample records. -/
theorem filteredRows_leave_witness :
    ContainsFolded annualLeaveRecord.task "leave".toList
    ∧ annualLeaveRecord ∉
        filteredRows sampleHost (fixedOffsetZone 0) { initialCriteria with excludeLeave := true }
          sampleRecords
    ∧ annualLeaveRecord ∈ filteredRows sampleHost (fixedOffsetZone 0) initialCriteria sampleRecords :=
  have h : ContainsFolded annualLeaveRecord.task "leave".toList :=
    (includes_iff _ _).1 (by decide)
  ⟨h, (filteredRows_leave sampleHost (fixedOffsetZone 0) sampleRecords annualLeaveRecord h).1 _ rfl,
    (filteredRows_leave sampleHost (fixedOffsetZone 0) sampleRecords annualLeaveRecord h).2.1
      (by decide)⟩

/-- C14 (divergence). `filteredRows` is the input sequence filtered, in
order, by the conjunction of the seven tests of the callback.  For a record
whose `productive` is not NaN these are the seven criteria (leave exclusion,
developer, status, productivity as a choice of three, free text, start date,
end date), and every record that satisfies the criteria is kept; a criterion
at its no-constraint value (false, "ALL", empty text) is satisfied by every
record, and in the initial state the output is the input.  A record whose
`productive` is NaN is neither productive nor non-productive, and both
"YES" and "NO" keep it: so it is for the record of a row whose Productive
cell holds "yes". -/
theorem filteredRows_spec (E : JSEnv) (Z : TimeZone) (c : FilterCriteria)
    (rows : List WorkRecord) :
    (∃ keep : WorkRecord → Bool,
      filteredRows E Z c rows = rows.filter keep
      ∧ (∀ r, keep r = true ↔ Passes E Z c r)
      ∧ (∀ r, r.productive.isNaN = false → (keep r = true ↔ Satisfies E Z c r))
      ∧ (∀ r, Satisfies E Z c r → keep r = true))
    ∧ (c.excludeLeave = false → ∀ r, leaveOk c r)
    ∧ (c.developerFilter = "ALL".toList → ∀ r, developerOk c r)
    ∧ (c.statusFilter = "ALL".toList → ∀ r, statusOk c r)
    ∧ (c.productiveFilter = "ALL".toList → ∀ r, productiveOk c r)
    ∧ (c.textQuery = [] → ∀ r, textOk E c r)
    ∧ (c.startDate = [] → ∀ r, startOk E c r)
    ∧ (c.endDate = [] → ∀ r, endOk E Z c r)
    ∧ filteredRows E Z initialCriteria rows = rows
    ∧ (∀ r : WorkRecord, r.productive = JSNum.nan →
        filterKeeps E Z { initialCriteria with productiveFilter := "YES".toList } r = true
        ∧ ¬ productiveOk { initialCriteria with productiveFilter := "YES".toList } r
        ∧ filterKeeps E Z { initialCriteria with productiveFilter := "NO".toList } r = true
        ∧ ¬ productiveOk { initialCriteria with productiveFilter := "NO".toList } r)
    ∧ (toRecord sampleHost NumericMode.HOURS yesProductiveRow).productive = JSNum.nan
    ∧ filteredRows sampleHost (fixedOffsetZone 0)
        { initialCriteria with productiveFilter := "YES".toList }
        [toRecord sampleHost NumericMode.HOURS yesProductiveRow]
      = [toRecord sampleHost NumericMode.HOURS yesProductiveRow]
    ∧ filteredRows sampleHost (fixedOffsetZone 0)
        { initialCriteria with productiveFilter := "NO".toList }
        [toRecord sampleHost NumericMode.HOURS yesProductiveRow]
      = [toRecord sampleHost NumericMode.HOURS yesProductiveRow] := by
  refine ⟨⟨filterKeeps E Z c, rfl, filterKeeps_iff E Z c, ?_, ?_⟩, ?_, ?_, ?_, ?_, ?_, ?_, ?_, ?_,
    ?_, by decide, by decide!, by decide!⟩
  · intro r hr
    rw [filterKeeps_iff, passes_iff_satisfies E Z c r hr]
  · intro r hr
    exact (filterKeeps_iff E Z c r).2 (satisfies_imp_passes E Z c r hr)
  · intro h r hc
    rw [h] at hc
    exact absurd hc (by decide)
  · exact fun h r => Or.inl h
  · exact fun h r => Or.inl h
  · intro h r
    constructor
    · intro h2
      rw [h] at h2
      exact absurd h2 (by decide)
    · intro h2
      rw [h] at h2
      exact absurd h2 (by decide)
  · exact fun h r => Or.inl h
  · exact fun h r => Or.inl h
  · exact fun h r => Or.inl h
  · unfold filteredRows
    rw [List.filter_eq_self]
    intro r _
    exact (filterKeeps_iff E Z _ r).2 (passes_initial E Z r)
  · intro r hr
    refine ⟨?_, ?_, ?_, ?_⟩
    · rw [filterKeeps_eq]
      simp [initialCriteria, hr, JSNum.le, JSNum.lt, JSNum.isNaN]
    · intro h
      have := h.1 rfl
      rw [hr] at this
      simp [JSNum.lt] at this
    · rw [filterKeeps_eq]
      simp [initialCriteria, hr, JSNum.le, JSNum.lt, JSNum.isNaN]
    · intro h
      have := h.2 rfl
      rw [hr] at this
      simp [JSNum.le, JSNum.isNaN] at this

theorem combine_dim {α : Type} [DecidableEq α] (A x y : α) (P : α → Prop) (hA : P A)
    (h : x = A ∨ y = A) : P (if x = A then y else x) ↔ P x ∧ P y := by
  by_cases hx : x = A
  · rw [if_pos hx]
    exact ⟨fun hh => ⟨hx ▸ hA, hh⟩, fun hh => hh.2⟩
  · rw [if_neg hx]
    have hy : y = A := h.resolve_left hx
    exact ⟨fun hh => ⟨hh, hy ▸ hA⟩, fun hh => hh.1⟩

theorem passes_combine (E : JSEnv) (Z : TimeZone) (c1 c2 : FilterCriteria)
    (h : Independent c1 c2) (r : WorkRecord) :
    Passes E Z (combine c1 c2) r ↔ Passes E Z c1 r ∧ Passes E Z c2 r := by
  obtain ⟨-, h2, h3, h4, h5, h6, h7⟩ := h
  have e1 : leaveOk (combine c1 c2) r ↔ leaveOk c1 r ∧ leaveOk c2 r := by
    unfold leaveOk combine
    cases c1.excludeLeave <;> cases c2.excludeLeave <;> simp
  have e2 : developerOk (combine c1 c2) r ↔ developerOk c1 r ∧ developerOk c2 r :=
    combine_dim "ALL".toList c1.developerFilter c2.developerFilter
      (fun f => f = "ALL".toList ∨ r.developer = f) (Or.inl rfl) h2
  have e3 : statusOk (combine c1 c2) r ↔ statusOk c1 r ∧ statusOk c2 r :=
    combine_dim "ALL".toList c1.statusFilter c2.statusFilter
      (fun f => f = "ALL".toList ∨ r.status = f) (Or.inl rfl) h3
  have e4 : productivePasses (combine c1 c2) r ↔ productivePasses c1 r ∧ productivePasses c2 r :=
    combine_dim "ALL".toList c1.productiveFilter c2.productiveFilter
      (fun f => (f = "YES".toList → r.productive.le (JSNum.fin 0) = false)
        ∧ (f = "NO".toList → (JSNum.fin 0).lt r.productive = false))
      ⟨fun h0 => absurd h0 (by decide), fun h0 => absurd h0 (by decide)⟩ h4
  have e5 : textOk E (combine c1 c2) r ↔ textOk E c1 r ∧ textOk E c2 r :=
    combine_dim [] c1.textQuery c2.textQuery
      (fun f => f = [] ∨ Occurs (E.toLowerCase f) (E.toLowerCase (searchText E r))) (Or.inl rfl) h5
  have e6 : startOk E (combine c1 c2) r ↔ startOk E c1 r ∧ startOk E c2 r :=
    combine_dim [] c1.startDate c2.startDate
      (fun f => f = [] ∨ ∃ t, r.date = some t ∧ ∀ b, E.dateParse f = some b → b ≤ t)
      (Or.inl rfl) h6
  have e7 : endOk E Z (combine c1 c2) r ↔ endOk E Z c1 r ∧ endOk E Z c2 r :=
    combine_dim [] c1.endDate c2.endDate
      (fun f => f = [] ∨
        ∃ t, r.date = some t ∧ ∀ b, (E.dateParse f).bind Z.endOfLocalDay = some b → t ≤ b)
      (Or.inl rfl) h7
  unfold Passes
  rw [e1, e2, e3, e4, e5, e6, e7]
  constructor
  · rintro ⟨⟨a1, a2⟩, ⟨b1, b2⟩, ⟨d1, d2⟩, ⟨p1, p2⟩, ⟨q1, q2⟩, ⟨s1, s2⟩, ⟨t1, t2⟩⟩
    exact ⟨⟨a1, b1, d1, p1, q1, s1, t1⟩, ⟨a2, b2, d2, p2, q2, s2, t2⟩⟩
  · rintro ⟨⟨a1, b1, d1, p1, q1, s1, t1⟩, ⟨a2, b2, d2, p2, q2, s2, t2⟩⟩
    exact ⟨⟨a1, a2⟩, ⟨b1, b2⟩, ⟨d1, d2⟩, ⟨p1, p2⟩, ⟨q1, q2⟩, ⟨s1, s2⟩, ⟨t1, t2⟩⟩

/-- C15. For two criteria values that constrain different dimensions,
filtering by one and then by the other, in either order, and filtering once by
the combined criteria give the same record sequence. -/
theorem filteredRows_order_independent (E : JSEnv) (Z : TimeZone) (c1 c2 : FilterCriteria)
    (rows : List WorkRecord) (h : Independent c1 c2) :
    filteredRows E Z c2 (filteredRows E Z c1 rows) = filteredRows E Z c1 (filteredRows E Z c2 rows)
    ∧ filteredRows E Z c2 (filteredRows E Z c1 rows) = filteredRows E Z (combine c1 c2) rows := by
  unfold filteredRows
  rw [List.filter_filter, List.filter_filter]
  constructor
  · congr 1
    funext r
    exact Bool.and_comm _ _
  · congr 1
    funext r
    rw [Bool.eq_iff_iff, Bool.and_eq_true, filterKeeps_iff, filterKeeps_iff, filterKeeps_iff,
      passes_combine E Z c1 c2 h r]
    tauto

/-- Witness for C15: developer "Ann" and status "Done" on the sample records. -/
theorem filteredRows_order_independent_witness :
    Independent (developerOnly "Ann") (statusOnly "Done")
    ∧ filteredRows sampleHost (fixedOffsetZone 0) (statusOnly "Done")
        (filteredRows sampleHost (fixedOffsetZone 0) (developerOnly "Ann") sampleRecords)
      = filteredRows sampleHost (fixedOffsetZone 0)
          (combine (developerOnly "Ann") (statusOnly "Done")) sampleRecords :=
  have h : Independent (developerOnly "Ann") (statusOnly "Done") :=
    ⟨Or.inl rfl, Or.inr rfl, Or.inl rfl, Or.inl rfl, Or.inl rfl, Or.inl rfl, Or.inl rfl⟩
  ⟨h, (filteredRows_order_independent sampleHost (fixedOffsetZone 0) (developerOnly "Ann")
    (statusOnly "Done") sampleRecords h).2⟩

theorem lowerChar_ne_nil (c : Char) : lowerChar c ≠ [] := by
  unfold lowerChar
  split_ifs <;> simp

theorem toLowerCase_eq_nil (s : List Char) (h : toLowerCase s = []) : s = [] := by
  cases s with
  | nil => rfl
  | cons c s =>
    rw [toLowerCase_cons] at h
    exact absurd (List.append_eq_nil.1 h).1 (lowerChar_ne_nil c)

theorem space_of_mem_lowerChar (c : Char) (h : ' ' ∈ lowerChar c) : c = ' ' := by
  unfold lowerChar at h
  split_ifs at h with h1 h2 h3
  · exfalso
    obtain ⟨n, hn⟩ : ∃ n, c.toNat = n := ⟨_, rfl⟩
    rw [hn] at h h1
    obtain ⟨h1a, h1b⟩ := h1
    interval_cases n <;> simp at h
  · simp at h
  · simp at h
  · rw [List.mem_singleton] at h
    exact h.symm

theorem space_not_mem_toLowerCase (q : List Char) (h : ' ' ∉ q) : ' ' ∉ toLowerCase q := by
  intro hmem
  unfold toLowerCase at hmem
  rw [List.mem_flatMap] at hmem
  obtain ⟨c, hc, hs⟩ := hmem
  rw [space_of_mem_lowerChar c hs] at hc
  exact h hc

theorem occurs_left (n a b : List Char) (h : Occurs n a) : Occurs n (a ++ b) := by
  obtain ⟨x, y, hxy⟩ := h
  exact ⟨x, y ++ b, by rw [hxy]; simp⟩

theorem occurs_right (n a b : List Char) (h : Occurs n b) : Occurs n (a ++ b) := by
  obtain ⟨x, y, hxy⟩ := h
  exact ⟨a ++ x, y, by rw [hxy]; simp⟩

theorem occurs_space (n a b : List Char) (hn : ' ' ∉ n) :
    Occurs n (a ++ ' ' :: b) ↔ Occurs n a ∨ Occurs n b := by
  constructor
  · rintro ⟨x, y, h⟩
    rcases List.append_eq_append_iff.1 h with ⟨a2, hx, hb⟩ | ⟨c2, ha, hny⟩
    · cases a2 with
      | nil =>
        cases n with
        | nil => exact Or.inl ⟨a, [], by simp⟩
        | cons k ks =>
          simp only [List.nil_append, List.cons_append, List.cons.injEq] at hb
          exact absurd (by rw [← hb.1]; exact List.mem_cons_self _ _) hn
      | cons d a2 =>
        simp only [List.cons_append, List.cons.injEq] at hb
        exact Or.inr ⟨a2, y, hb.2⟩
    · rcases List.append_eq_append_iff.1 hny with ⟨m, hc2, hy⟩ | ⟨m, hn2, hb⟩
      · exact Or.inl ⟨x, m, by rw [ha, hc2]⟩
      · cases m with
        | nil =>
          rw [List.append_nil] at hn2
          exact Or.inl ⟨x, [], by rw [ha, hn2]; simp⟩
        | cons d m =>
          simp only [List.cons_append, List.cons.injEq] at hb
          exact absurd (by rw [hn2, ← hb.1]; simp) hn
  · rintro (h | h)
    · exact occurs_left n a _ h
    · exact occurs_right n a (' ' :: b) (by
        obtain ⟨x, y, hxy⟩ := h
        exact ⟨' ' :: x, y, by rw [hxy]; rfl⟩)

theorem filterKeeps_textOnly (E : JSEnv) (Z : TimeZone) (q : List Char) (r : WorkRecord) :
    filterKeeps E Z (textOnly q) r = true ↔ textOk E (textOnly q) r := by
  rw [filterKeeps_iff]
  constructor
  · exact fun h => h.2.2.2.2.1
  · intro h
    have h0 := passes_initial E Z r
    exact ⟨h0.1, h0.2.1, h0.2.2.1, h0.2.2.2.1, h, h0.2.2.2.2.2.1, h0.2.2.2.2.2.2⟩

/-! ## Claims on the free-text criterion -/

/-- C16 (counterexample). The query "1 fix" selects the record with ticket
"T-1" and task "Fix bug", although it occurs in none of ticket, task and
ticketDisplay: it spans the space that joins them.  The query "1fix", which
occurs in the three texts put end to end, does not select the record. -/
theorem filterKeeps_text_span_counterexample :
    filterKeeps sampleHost (fixedOffsetZone 0) (textOnly "1 fix".toList) fixBugRecord = true
    ∧ ¬ ContainsFolded fixBugRecord.ticket (toLowerCase "1 fix".toList)
    ∧ ¬ ContainsFolded fixBugRecord.task (toLowerCase "1 fix".toList)
    ∧ ¬ ContainsFolded (fixBugRecord.ticketDisplay.toStr sampleHost) (toLowerCase "1 fix".toList)
    ∧ Occurs (toLowerCase "1fix".toList)
        (toLowerCase (fixBugRecord.ticket ++ fixBugRecord.task
          ++ fixBugRecord.ticketDisplay.toStr sampleHost))
    ∧ filterKeeps sampleHost (fixedOffsetZone 0) (textOnly "1fix".toList) fixBugRecord = false := by
  refine ⟨by decide, ?_, ?_, ?_, ?_, by decide⟩
  · exact (includes_eq_false_iff _ _).1 (by decide)
  · exact (includes_eq_false_iff _ _).1 (by decide)
  · exact (includes_eq_false_iff _ _).1 (by decide)
  · exact (includes_iff _ _).1 (by decide)

/-- C16 (amended). With a non-empty text query `q` and no other criterion, a
record passes if and only if lower-cased `q` is a substring of the lower-cased
text made of ticket, task and ticketDisplay with one space between them, the
lower-casing being that of the host; with any other criteria beside `q`, a
record that passes has that property.  So queries with the same lower-case
form select the same records, whatever the other criteria are.  On a host
whose `toLowerCase` treats the texts on either side of a space separately (as
that of Unicode does), when lower-cased `q` has no space in it a record passes
if and only if `q` occurs, letter case apart, in its ticket, its task or its
ticketDisplay. -/
theorem filterKeeps_text (E : JSEnv) (Z : TimeZone) (q : List Char) (r : WorkRecord)
    (hq : q ≠ []) :
    (filterKeeps E Z (textOnly q) r = true
      ↔ Occurs (E.toLowerCase q) (E.toLowerCase (searchText E r)))
    ∧ (∀ c : FilterCriteria, c.textQuery = q → filterKeeps E Z c r = true →
        Occurs (E.toLowerCase q) (E.toLowerCase (searchText E r)))
    ∧ (∀ (q2 : List Char) (c : FilterCriteria), q2 ≠ [] →
        E.toLowerCase q2 = E.toLowerCase q →
        ∀ rows, filteredRows E Z { c with textQuery := q2 } rows
          = filteredRows E Z { c with textQuery := q } rows)
    ∧ ((∀ a b : List Char,
          E.toLowerCase (a ++ ' ' :: b) = E.toLowerCase a ++ ' ' :: E.toLowerCase b) →
        ' ' ∉ E.toLowerCase q →
        (filterKeeps E Z (textOnly q) r = true
          ↔ Occurs (E.toLowerCase q) (E.toLowerCase r.ticket)
            ∨ Occurs (E.toLowerCase q) (E.toLowerCase r.task)
            ∨ Occurs (E.toLowerCase q) (E.toLowerCase (r.ticketDisplay.toStr E)))) := by
  have hiff : ∀ (q1 : List Char) (r1 : WorkRecord), q1 ≠ [] →
      (filterKeeps E Z (textOnly q1) r1 = true
        ↔ Occurs (E.toLowerCase q1) (E.toLowerCase (searchText E r1))) := by
    intro q1 r1 hq1
    rw [filterKeeps_textOnly]
    exact ⟨fun h => h.resolve_left hq1, Or.inr⟩
  refine ⟨hiff q r hq, ?_, ?_, ?_⟩
  · intro c hc hk
    have := ((filterKeeps_iff E Z c r).1 hk).2.2.2.2.1
    unfold textOk at this
    rw [hc] at this
    exact this.resolve_left hq
  · intro q2 c hne hq2 rows
    unfold filteredRows
    congr 1
    funext r1
    rw [filterKeeps_eq, filterKeeps_eq]
    simp only [hq2, hne, hq, ne_eq, not_false_eq_true, decide_True]
  · intro hsep hl
    rw [hiff q r hq, ← searchText_eq, hsep, hsep, occurs_space _ _ _ hl, occurs_space _ _ _ hl]

/-- Witness for C16: the query "BUG" selects the record whose task is
"Fix bug"; on a host that knows the letters of Latin-1, the query "ÉCOLE"
selects the record whose task is "Visite école", in which it occurs. -/
theorem filterKeeps_text_witness :
    "BUG".toList ≠ []
    ∧ filterKeeps sampleHost (fixedOffsetZone 0) (textOnly "BUG".toList) fixBugRecord = true
    ∧ "ÉCOLE".toList ≠ []
    ∧ (∀ a b : List Char, latinHost.toLowerCase (a ++ ' ' :: b)
        = latinHost.toLowerCase a ++ ' ' :: latinHost.toLowerCase b)
    ∧ ' ' ∉ latinHost.toLowerCase "ÉCOLE".toList
    ∧ Occurs (latinHost.toLowerCase "ÉCOLE".toList) (latinHost.toLowerCase ecoleRecord.task)
    ∧ filterKeeps latinHost (fixedOffsetZone 0) (textOnly "ÉCOLE".toList) ecoleRecord = true :=
  have hsep : ∀ a b : List Char, latinHost.toLowerCase (a ++ ' ' :: b)
      = latinHost.toLowerCase a ++ ' ' :: latinHost.toLowerCase b := by
    intro a b
    show List.map lowerLatin1 (a ++ ' ' :: b)
      = List.map lowerLatin1 a ++ ' ' :: List.map lowerLatin1 b
    rw [List.map_append, List.map_cons]
    rfl
  have hsp : ' ' ∉ latinHost.toLowerCase "ÉCOLE".toList := by decide
  have hocc : Occurs (latinHost.toLowerCase "ÉCOLE".toList)
      (latinHost.toLowerCase ecoleRecord.task) := (includes_iff _ _).1 (by decide)
  ⟨by decide,
    (filterKeeps_text sampleHost (fixedOffsetZone 0) "BUG".toList fixBugRecord (by decide)).1.2
      ((includes_iff _ _).1 (by decide)),
    by decide, hsep, hsp, hocc,
    ((filterKeeps_text latinHost (fixedOffsetZone 0) "ÉCOLE".toList ecoleRecord
      (by decide)).2.2.2 hsep hsp).2 (Or.inr (Or.inl hocc))⟩

/-! ## Claims on the date range -/

/-- C17 (divergence). Start date and end date are both 2024-03-14, which
`Date.parse` reads as midnight UTC (1710374400000).  On a host five hours west
of Greenwich, a record dated 06:00 UTC of that day (01:00 local time of that
day) is rejected, and so is one dated at local midnight; on a host five and a
half hours east, a record dated at local midnight of that day is rejected.
The same holds for `performanceRows`.  On a host at UTC the records of the
first and the last millisecond of the day are kept. -/
theorem filteredRows_same_day_rejected :
    filteredRows isoHost (fixedOffsetZone (-300)) (sameDayCriteria "2024-03-14")
        [recordAt 1710396000000] = []
    ∧ filteredRows isoHost (fixedOffsetZone (-300)) (sameDayCriteria "2024-03-14")
        [recordAt 1710392400000] = []
    ∧ filteredRows isoHost (fixedOffsetZone 330) (sameDayCriteria "2024-03-14")
        [recordAt 1710354600000] = []
    ∧ performanceRows isoHost (fixedOffsetZone (-300)) (sameDayPerformance "2024-03-14")
        [recordAt 1710396000000] = []
    ∧ performanceRows isoHost (fixedOffsetZone 330) (sameDayPerformance "2024-03-14")
        [recordAt 1710354600000] = []
    ∧ filteredRows isoHost (fixedOffsetZone 0) (sameDayCriteria "2024-03-14")
        [recordAt 1710374400000, recordAt 1710460799999]
        = [recordAt 1710374400000, recordAt 1710460799999] := by
  refine ⟨?_, ?_, ?_, ?_, ?_, ?_⟩ <;> decide

/-! ## Claims on the totals -/

theorem le_zero_eq (p : JSNum) :
    p.le (JSNum.fin 0) = (!p.isNaN && !(JSNum.fin 0).lt p) := by
  unfold JSNum.le
  cases p <;> simp [JSNum.isNaN]

theorem lt_zero_nan (p : JSNum) (h : p.isNaN = true) : (JSNum.fin 0).lt p = false := by
  cases p <;> simp_all [JSNum.isNaN, JSNum.lt]

theorem counts_sum (rows : List WorkRecord) :
    (rows.filter (fun r => (JSNum.fin 0).lt r.productive)).length
      + (rows.filter (fun r => r.productive.le (JSNum.fin 0))).length
      = (rows.filter (fun r => !r.productive.isNaN)).length := by
  have hle : (fun r : WorkRecord => r.productive.le (JSNum.fin 0))
      = fun r => (!r.productive.isNaN && !(JSNum.fin 0).lt r.productive) := by
    funext r
    exact le_zero_eq _
  rw [hle]
  induction rows with
  | nil => rfl
  | cons r rows ih =>
    simp only [List.filter_cons]
    cases hn : r.productive.isNaN
    · cases hl : (JSNum.fin 0).lt r.productive <;> simp [hn, hl] <;> omega
    · have hl := lt_zero_nan r.productive hn
      simp [hn, hl]
      omega

/-- C18 (divergence). The two counts of `totals` add up to at most the number
of records, and to the number of records exactly when no record has a
`productive` that is NaN.  A row whose Productive cell holds "yes" gives a
record with `productive = NaN`, which neither `productive > 0` nor
`productive <= 0` counts: for this one record the totals are `tasks = 1`,
`productiveCount = 0`, `nonProductiveCount = 0`. -/
theorem totals_counts (rows : List WorkRecord) :
    (totals rows).productiveCount + (totals rows).nonProductiveCount ≤ (totals rows).tasks
    ∧ ((totals rows).productiveCount + (totals rows).nonProductiveCount = (totals rows).tasks
        ↔ ∀ r ∈ rows, r.productive.isNaN = false)
    ∧ (toRecord sampleHost NumericMode.HOURS yesProductiveRow).productive = JSNum.nan
    ∧ (totals [toRecord sampleHost NumericMode.HOURS yesProductiveRow]).tasks = 1
    ∧ (totals [toRecord sampleHost NumericMode.HOURS yesProductiveRow]).productiveCount = 0
    ∧ (totals [toRecord sampleHost NumericMode.HOURS yesProductiveRow]).nonProductiveCount = 0 := by
  refine ⟨?_, ?_, by decide, by decide, by decide, by decide⟩
  · show (rows.filter _).length + (rows.filter _).length ≤ rows.length
    rw [counts_sum]
    exact List.length_filter_le _ _
  · show (rows.filter _).length + (rows.filter _).length = rows.length ↔ _
    rw [counts_sum]
    constructor
    · intro h r hr
      have := (List.filter_eq_self.1 ((List.filter_sublist rows).eq_of_length h)) r hr
      simpa using this
    · intro h
      rw [List.filter_eq_self.2]
      intro r hr
      simp [h r hr]

/-! ## Maps in insertion order -/

theorem map_fst_set {K V : Type} [DecidableEq K] (m : JSMap K V) (k : K) (v : V) :
    (JSMap.set m k v).map Prod.fst
      = if k ∈ m.map Prod.fst then m.map Prod.fst else m.map Prod.fst ++ [k] := by
  induction m with
  | nil => simp [JSMap.set]
  | cons e m ih =>
    obtain ⟨k1, v1⟩ := e
    by_cases h : k1 = k
    · simp [JSMap.set, h]
    · have h2 : ¬ k = k1 := fun h2 => h h2.symm
      simp only [JSMap.set, h, if_false, List.map_cons, ih, List.mem_cons, h2, false_or]
      split_ifs <;> simp

theorem get?_set {K V : Type} [DecidableEq K] (m : JSMap K V) (k k2 : K) (v : V) :
    JSMap.get? (JSMap.set m k v) k2 = if k = k2 then some v else JSMap.get? m k2 := by
  induction m with
  | nil => simp [JSMap.set, JSMap.get?]
  | cons e m ih =>
    obtain ⟨k1, v1⟩ := e
    by_cases h : k1 = k
    · subst h
      by_cases h2 : k1 = k2 <;> simp [JSMap.set, JSMap.get?, h2]
    · by_cases h2 : k1 = k2
      · subst h2
        have h3 : ¬ k = k1 := fun h3 => h h3.symm
        simp [JSMap.set, JSMap.get?, h, h3]
      · simp [JSMap.set, JSMap.get?, h, h2, ih]

theorem get?_of_mem {K V : Type} [DecidableEq K] (m : JSMap K V) (k : K) (v : V)
    (hnd : (m.map Prod.fst).Nodup) (h : (k, v) ∈ m) : JSMap.get? m k = some v := by
  induction m with
  | nil => simp at h
  | cons e m ih =>
    obtain ⟨k1, v1⟩ := e
    rw [List.map_cons, List.nodup_cons] at hnd
    rcases List.mem_cons.1 h with h1 | h1
    · cases h1
      simp [JSMap.get?]
    · have hne : ¬ k1 = k := by
        intro h2
        apply hnd.1
        rw [h2]
        exact List.mem_map.2 ⟨(k, v), h1, rfl⟩
      simp [JSMap.get?, hne, ih hnd.2 h1]

theorem has_eq_isSome {K V : Type} [DecidableEq K] (m : JSMap K V) (k : K) :
    JSMap.has m k = (JSMap.get? m k).isSome := by
  induction m with
  | nil => rfl
  | cons e m ih =>
    obtain ⟨k1, v1⟩ := e
    unfold JSMap.has at ih ⊢
    by_cases h : k1 = k <;> simp [JSMap.get?, h, ih]

theorem set_set {K V : Type} [DecidableEq K] (m : JSMap K V) (k : K) (v w : V) :
    JSMap.set (JSMap.set m k v) k w = JSMap.set m k w := by
  induction m with
  | nil => simp [JSMap.set]
  | cons e m ih =>
    obtain ⟨k1, v1⟩ := e
    by_cases h : k1 = k <;> simp [JSMap.set, h, ih]

theorem firstIndex_append_of_mem {α : Type} [DecidableEq α] (a : α) (l1 l2 : List α)
    (h : a ∈ l1) : firstIndex a (l1 ++ l2) = firstIndex a l1 := by
  induction l1 with
  | nil => simp at h
  | cons b l ih =>
    by_cases hb : b = a
    · simp [firstIndex, hb]
    · have hm : a ∈ l := by
        rcases List.mem_cons.1 h with h1 | h1
        · exact absurd h1.symm hb
        · exact h1
      simp [firstIndex, hb, ih hm]

theorem firstIndex_append_of_not_mem {α : Type} [DecidableEq α] (a : α) (l1 l2 : List α)
    (h : a ∉ l1) : firstIndex a (l1 ++ l2) = l1.length + firstIndex a l2 := by
  induction l1 with
  | nil => simp
  | cons b l ih =>
    have hb : ¬ b = a := fun hb => h (hb ▸ List.mem_cons_self b l)
    have hm : a ∉ l := fun hm => h (List.mem_cons_of_mem b hm)
    simp [firstIndex, hb, ih hm]
    omega

theorem firstIndex_lt_length {α : Type} [DecidableEq α] (a : α) (l : List α) (h : a ∈ l) :
    firstIndex a l < l.length := by
  induction l with
  | nil => simp at h
  | cons b l ih =>
    by_cases hb : b = a
    · simp [firstIndex, hb]
    · have hm : a ∈ l := by
        rcases List.mem_cons.1 h with h1 | h1
        · exact absurd h1.symm hb
        · exact h1
      simp [firstIndex, hb, ih hm]

/-- The entries of a map built by one `set` per row, the value set depending
on the value found: keys are distinct, they are the keys of the rows, in the
order of first occurrence, and the value of a key is built from the rows of
that key in their order. -/
theorem fold_set_inv {K V R : Type} [DecidableEq K] (key : R → K) (upd : Option V → R → V)
    (rows : List R) :
    ((rows.foldl (fun m r => JSMap.set m (key r) (upd (JSMap.get? m (key r)) r))
        ([] : JSMap K V)).map Prod.fst).Nodup
    ∧ (∀ k, k ∈ (rows.foldl (fun m r => JSMap.set m (key r) (upd (JSMap.get? m (key r)) r))
        ([] : JSMap K V)).map Prod.fst ↔ k ∈ rows.map key)
    ∧ (∀ k, JSMap.get? (rows.foldl (fun m r => JSMap.set m (key r) (upd (JSMap.get? m (key r)) r))
        ([] : JSMap K V)) k
          = (rows.filter (fun r => decide (key r = k))).foldl (fun o r => some (upd o r)) none)
    ∧ ((rows.foldl (fun m r => JSMap.set m (key r) (upd (JSMap.get? m (key r)) r))
        ([] : JSMap K V)).map Prod.fst).Pairwise
          (fun a b => firstIndex a (rows.map key) < firstIndex b (rows.map key)) := by
  induction rows using List.reverseRecOn with
  | nil =>
    refine ⟨by simp, by simp, ?_, by simp⟩
    intro k
    rfl
  | append_singleton rows r ih =>
    obtain ⟨hnd, hmem, hget, hpw⟩ := ih
    rw [List.foldl_append]
    simp only [List.foldl_cons, List.foldl_nil]
    generalize hm : rows.foldl (fun m r => JSMap.set m (key r) (upd (JSMap.get? m (key r)) r))
      ([] : JSMap K V) = m at hnd hmem hget hpw ⊢
    rw [map_fst_set]
    have hpw2 : (m.map Prod.fst).Pairwise
        (fun a b => firstIndex a (List.map key (rows ++ [r]))
          < firstIndex b (List.map key (rows ++ [r]))) := by
      refine List.Pairwise.imp_of_mem ?_ hpw
      intro a b ha hb hab
      rw [List.map_append, firstIndex_append_of_mem _ _ _ ((hmem a).1 ha),
        firstIndex_append_of_mem _ _ _ ((hmem b).1 hb)]
      exact hab
    refine ⟨?_, ?_, ?_, ?_⟩
    · split_ifs with h
      · exact hnd
      · rw [List.nodup_append]
        refine ⟨hnd, by simp, ?_⟩
        intro a ha hb
        rw [List.mem_singleton] at hb
        exact h (hb ▸ ha)
    · intro k
      rw [List.map_append, List.mem_append, List.map_cons, List.map_nil, List.mem_singleton]
      split_ifs with h
      · rw [hmem k]
        constructor
        · exact Or.inl
        · rintro (h1 | h1)
          · exact h1
          · rw [h1]
            exact (hmem _).1 h
      · rw [List.mem_append, List.mem_singleton, hmem k]
    · intro k
      rw [get?_set, List.filter_append, List.foldl_append, ← hget k]
      by_cases h : key r = k
      · subst h
        simp
      · simp [h]
    · split_ifs with h
      · exact hpw2
      · rw [List.pairwise_append]
        refine ⟨hpw2, by simp, ?_⟩
        intro a ha b hb
        rw [List.mem_singleton] at hb
        subst hb
        have hk : key r ∉ rows.map key := fun hk => h ((hmem _).2 hk)
        rw [List.map_append, firstIndex_append_of_mem _ _ _ ((hmem a).1 ha),
          firstIndex_append_of_not_mem _ _ _ hk]
        have := firstIndex_lt_length _ _ ((hmem a).1 ha)
        omega

/-! ## The stable sort -/

theorem insertSorted_perm {α : Type} (after : α → α → Bool) (x : α) (l : List α) :
    (insertSorted after x l).Perm (x :: l) := by
  induction l with
  | nil => exact List.Perm.refl _
  | cons y l ih =>
    unfold insertSorted
    split_ifs
    · exact ((List.Perm.cons y ih).trans (List.Perm.swap x y l))
    · exact List.Perm.refl _

theorem jsSort_perm {α : Type} (after : α → α → Bool) (l : List α) :
    (jsSort after l).Perm l := by
  induction l with
  | nil => exact List.Perm.refl _
  | cons x l ih =>
    unfold jsSort
    exact (insertSorted_perm after x _).trans (List.Perm.cons x ih)

theorem insertSorted_lex {α β : Type} [LinearOrder β] (f : α → β) (g : α → ℕ)
    (after : α → α → Bool) (x : α) (l : List α)
    (hafter : ∀ y ∈ l, (after x y = true ↔ f x < f y))
    (hx : ∀ y ∈ l, g x < g y)
    (hl : l.Pairwise (fun a b => f b < f a ∨ (f a = f b ∧ g a < g b))) :
    (insertSorted after x l).Pairwise (fun a b => f b < f a ∨ (f a = f b ∧ g a < g b)) := by
  induction l with
  | nil => simp [insertSorted]
  | cons y l ih =>
    rw [List.pairwise_cons] at hl
    unfold insertSorted
    by_cases h : after x y = true
    · rw [if_pos h, List.pairwise_cons]
      have hxy : f x < f y := (hafter y (List.mem_cons_self y l)).1 h
      refine ⟨?_, ih (fun z hz => hafter z (List.mem_cons_of_mem y hz))
        (fun z hz => hx z (List.mem_cons_of_mem y hz)) hl.2⟩
      intro z hz
      rcases List.mem_cons.1 ((insertSorted_perm after x l).mem_iff.1 hz) with hz | hz
      · rw [hz]
        exact Or.inl hxy
      · exact hl.1 z hz
    · rw [if_neg h, List.pairwise_cons]
      have hxy : f y ≤ f x := by
        rw [← not_lt]
        exact fun hlt => h ((hafter y (List.mem_cons_self y l)).2 hlt)
      refine ⟨?_, List.pairwise_cons.2 hl⟩
      intro z hz
      have hgz : g x < g z := hx z hz
      have hzy : f z ≤ f y := by
        rcases List.mem_cons.1 hz with hz | hz
        · rw [hz]
        · rcases hl.1 z hz with h1 | h1
          · exact le_of_lt h1
          · exact le_of_eq h1.1.symm
      rcases lt_or_eq_of_le (le_trans hzy hxy) with h1 | h1
      · exact Or.inl h1
      · exact Or.inr ⟨h1.symm, hgz⟩

/-- The sort puts the elements in non-increasing order of `f`, and leaves
elements with equal `f` in the order they had. -/
theorem jsSort_lex {α β : Type} [LinearOrder β] (f : α → β) (g : α → ℕ)
    (after : α → α → Bool) (l : List α)
    (hafter : ∀ a ∈ l, ∀ b ∈ l, (after a b = true ↔ f a < f b))
    (hl : l.Pairwise (fun a b => g a < g b)) :
    (jsSort after l).Pairwise (fun a b => f b < f a ∨ (f a = f b ∧ g a < g b)) := by
  induction l with
  | nil => simp [jsSort]
  | cons x l ih =>
    rw [List.pairwise_cons] at hl
    unfold jsSort
    have hmem : ∀ y, y ∈ jsSort after l ↔ y ∈ l := fun y => (jsSort_perm after l).mem_iff
    apply insertSorted_lex
    · intro y hy
      exact hafter x (List.mem_cons_self x l) y (List.mem_cons_of_mem x ((hmem y).1 hy))
    · intro y hy
      exact hl.1 y ((hmem y).1 hy)
    · exact ih (fun a ha b hb => hafter a (List.mem_cons_of_mem x ha) b
        (List.mem_cons_of_mem x hb)) hl.2

/-! ## Claims on the status breakdown -/

theorem count_fold (l : List WorkRecord) (o : Option Nat) :
    l.foldl (fun (o : Option Nat) (_ : WorkRecord) => some (o.getD 0 + 1)) o
      = if l = [] then o else some (o.getD 0 + l.length) := by
  induction l generalizing o with
  | nil => rfl
  | cons x l ih =>
    rw [List.foldl_cons, ih]
    by_cases h : l = []
    · simp [h]
    · simp [h]
      omega

theorem statusCounts_inv (rows : List WorkRecord) :
    ((statusCounts rows).map Prod.fst).Nodup
    ∧ (∀ k, k ∈ (statusCounts rows).map Prod.fst ↔ k ∈ rows.map statusKey)
    ∧ (∀ e ∈ statusCounts rows,
        e.2 = (rows.filter (fun r => decide (statusKey r = e.1))).length)
    ∧ ((statusCounts rows).map Prod.fst).Pairwise
        (fun a b => firstIndex a (rows.map statusKey) < firstIndex b (rows.map statusKey)) := by
  obtain ⟨hnd, hmem, hget, hpw⟩ :=
    fold_set_inv statusKey (fun (o : Option Nat) (_ : WorkRecord) => o.getD 0 + 1) rows
  refine ⟨hnd, hmem, ?_, hpw⟩
  intro e he
  have h1 := get?_of_mem _ e.1 e.2 hnd he
  have h2 := hget e.1
  rw [count_fold] at h2
  unfold statusCounts at h1
  rw [h1] at h2
  split_ifs at h2 with h3
  simpa using h2

/-- C19. `statusBreakdown` lists every status key of the records (a blank
status counting as "Unknown") once, each with the number of records of that
key, in non-increasing order of that number; keys with equal numbers stand in
the order of their first occurrence among the records.  The `status` of
`performanceTotals` is the same list. -/
theorem statusBreakdown_spec (rows : List WorkRecord) :
    ((statusBreakdown rows).map Prod.fst).Nodup
    ∧ (∀ k, k ∈ (statusBreakdown rows).map Prod.fst ↔ ∃ r ∈ rows, statusKey r = k)
    ∧ (∀ e ∈ statusBreakdown rows,
        e.2 = (rows.filter (fun r => decide (statusKey r = e.1))).length)
    ∧ (statusBreakdown rows).Pairwise
        (fun a b => b.2 < a.2
          ∨ (a.2 = b.2
            ∧ firstIndex a.1 (rows.map statusKey) < firstIndex b.1 (rows.map statusKey)))
    ∧ (∀ r : WorkRecord, statusKey r = if r.status = [] then "Unknown".toList else r.status)
    ∧ (performanceTotals rows).status = statusBreakdown rows := by
  obtain ⟨hnd, hmem, hcount, hpw⟩ := statusCounts_inv rows
  have hperm : (statusBreakdown rows).Perm (statusCounts rows) := jsSort_perm _ _
  refine ⟨?_, ?_, ?_, ?_, ?_, rfl⟩
  · exact (hperm.map Prod.fst).nodup_iff.2 hnd
  · intro k
    rw [(hperm.map Prod.fst).mem_iff, hmem k, List.mem_map]
  · intro e he
    exact hcount e (hperm.mem_iff.1 he)
  · unfold statusBreakdown
    apply jsSort_lex (fun e : List Char × Nat => e.2)
      (fun e => firstIndex e.1 (rows.map statusKey))
    · intro a _ b _
      simp
    · have h := List.pairwise_map.1 hpw
      exact h
  · intro r
    unfold statusKey
    by_cases h : r.status = [] <;> simp [h]

/-- Witness for C19: five records with the statuses Open, Done, blank, Done,
Blocked. -/
theorem statusBreakdown_spec_witness :
    statusBreakdown statusSampleRecords
      = [("Done".toList, 2), ("Open".toList, 1), ("Unknown".toList, 1), ("Blocked".toList, 1)]
    ∧ (2 : Nat) = (statusSampleRecords.filter
        (fun r => decide (statusKey r = "Done".toList))).length :=
  ⟨by decide, (statusBreakdown_spec statusSampleRecords).2.2.1 ("Done".toList, 2) (by decide)⟩

/-! ## Claims on the task grouping -/

theorem groupRow_eq (m : JSMap (List Char) GroupAcc) (r : WorkRecord) :
    groupRow m r
      = JSMap.set m (taskKey r)
          (addToGroup ((JSMap.get? m (taskKey r)).getD (newGroup (taskKey r))) r) := by
  unfold groupRow
  simp only [has_eq_isSome]
  cases h : JSMap.get? m (taskKey r) with
  | none => simp [h, get?_set, set_set]
  | some g => simp [h]

theorem group_fold (k : List Char) (l : List WorkRecord) (o : Option GroupAcc)
    (hk : ∀ r ∈ l, taskKey r = k) :
    l.foldl (fun (o : Option GroupAcc) r =>
        some (addToGroup (o.getD (newGroup (taskKey r))) r)) o
      = if l = [] then o else some (l.foldl addToGroup (o.getD (newGroup k))) := by
  induction l generalizing o with
  | nil => rfl
  | cons x l ih =>
    rw [List.foldl_cons, ih _ (fun r hr => hk r (List.mem_cons_of_mem x hr)),
      hk x (List.mem_cons_self x l)]
    by_cases h : l = []
    · simp [h]
    · simp [h]

theorem addToGroup_fold (l : List WorkRecord) (g : GroupAcc) :
    (l.foldl addToGroup g).task = g.task
    ∧ (l.foldl addToGroup g).entries = g.entries ++ l
    ∧ (l.foldl addToGroup g).count = g.count + l.length
    ∧ (l.foldl addToGroup g).totalMinutes
        = l.foldl (fun acc r => acc.add r.timeSpentMinutes.orZero) g.totalMinutes
    ∧ (l.foldl addToGroup g).totalProductiveHours
        = l.foldl (fun acc r => acc.add r.productive.orZero) g.totalProductiveHours := by
  induction l generalizing g with
  | nil => simp
  | cons x l ih =>
    obtain ⟨h1, h2, h3, h4, h5⟩ := ih (addToGroup g x)
    simp only [List.foldl_cons]
    refine ⟨h1, ?_, ?_, h4, h5⟩
    · rw [h2]
      simp [addToGroup]
    · rw [h3]
      simp [addToGroup]
      omega

theorem taskGroups_inv (rows : List WorkRecord) :
    (((rows.foldl groupRow []).map Prod.fst).Nodup)
    ∧ (∀ k, k ∈ (rows.foldl groupRow []).map Prod.fst ↔ k ∈ rows.map taskKey)
    ∧ (∀ e ∈ rows.foldl groupRow [],
        e.2 = (rows.filter (fun r => decide (taskKey r = e.1))).foldl addToGroup (newGroup e.1))
    ∧ ((rows.foldl groupRow []).map Prod.fst).Pairwise
        (fun a b => firstIndex a (rows.map taskKey) < firstIndex b (rows.map taskKey)) := by
  have hfun : groupRow = fun m r => JSMap.set m (taskKey r)
      (addToGroup ((JSMap.get? m (taskKey r)).getD (newGroup (taskKey r))) r) := by
    funext m r
    exact groupRow_eq m r
  obtain ⟨hnd, hmem, hget, hpw⟩ := fold_set_inv taskKey
    (fun (o : Option GroupAcc) r => addToGroup (o.getD (newGroup (taskKey r))) r) rows
  rw [hfun]
  refine ⟨hnd, hmem, ?_, hpw⟩
  intro e he
  have h1 := get?_of_mem _ e.1 e.2 hnd he
  have h2 := hget e.1
  rw [group_fold e.1 _ _ (fun r hr => by simpa using (List.mem_filter.1 hr).2)] at h2
  rw [h1] at h2
  split_ifs at h2 with h3
  simpa using h2

theorem notNaN_fold (p : WorkRecord → JSNum) (l : List WorkRecord) (a0 : JSNum)
    (h0 : a0.isNaN = false) (h : ∀ r ∈ l, p r ≠ JSNum.posInf ∧ p r ≠ JSNum.negInf) :
    (l.foldl (fun acc r => acc.add (p r).orZero) a0).isNaN = false := by
  induction l generalizing a0 with
  | nil => exact h0
  | cons x l ih =>
    rw [List.foldl_cons]
    apply ih _ _ (fun r hr => h r (List.mem_cons_of_mem x hr))
    obtain ⟨h1, h2⟩ := h x (List.mem_cons_self x l)
    have hx : ∃ q, (p x).orZero = JSNum.fin q := by
      cases hp : p x with
      | nan => exact ⟨0, by simp [JSNum.orZero, JSNum.truthy]⟩
      | posInf => exact absurd hp h1
      | negInf => exact absurd hp h2
      | fin q =>
        by_cases hq : q = 0
        · exact ⟨0, by simp [JSNum.orZero, JSNum.truthy, hq]⟩
        · exact ⟨q, by simp [JSNum.orZero, JSNum.truthy, hq]⟩
    obtain ⟨q, hq⟩ := hx
    rw [hq]
    cases a0 with
    | nan => simp [JSNum.isNaN] at h0
    | posInf => rfl
    | negInf => rfl
    | fin a =>
      cases hv : (JSNum.fin a).add (JSNum.fin q) with
      | nan => exact absurd (by rw [← hv]; rfl) (ofRat_ne_nan (a + q))
      | _ => rfl

theorem orZero_nat (k : ℕ) : (JSNum.fin (k : ℚ)).orZero = JSNum.fin (k : ℚ) := by
  by_cases hk : (k : ℚ) = 0
  · simp [JSNum.orZero, JSNum.truthy, hk]
  · simp [JSNum.orZero, JSNum.truthy, hk]

theorem toNat_nat (k : ℕ) : (JSNum.fin (k : ℚ)).toNat = k := by
  simp [JSNum.toNat]

theorem natSum_fold (p : WorkRecord → JSNum) (l : List WorkRecord) (n0 : ℕ)
    (h : ∀ r ∈ l, (p r).IsNat)
    (hb : n0 + (l.map (fun r => (p r).toNat)).sum < 2 ^ 53) :
    l.foldl (fun acc r => acc.add (p r).orZero) (JSNum.fin (n0 : ℚ))
      = JSNum.fin ((n0 + (l.map (fun r => (p r).toNat)).sum : ℕ) : ℚ) := by
  induction l generalizing n0 with
  | nil => simp
  | cons x l ih =>
    obtain ⟨k, hk⟩ := h x (List.mem_cons_self x l)
    rw [List.map_cons, List.sum_cons, hk, toNat_nat] at hb
    rw [List.foldl_cons, hk, orZero_nat, add_nat n0 k (by omega)]
    have e : ((n0 : ℚ) + (k : ℚ)) = ((n0 + k : ℕ) : ℚ) := by push_cast; rfl
    rw [e, ih (n0 + k) (fun r hr => h r (List.mem_cons_of_mem x hr)) (by omega),
      List.map_cons, List.sum_cons, hk, toNat_nat, Nat.add_assoc]

theorem natSum_filter_le (p : WorkRecord → ℕ) (f : WorkRecord → Bool) (l : List WorkRecord) :
    ((l.filter f).map p).sum ≤ (l.map p).sum := by
  induction l with
  | nil => simp
  | cons x l ih =>
    by_cases hf : f x = true
    · simp [hf, ih]
    · simp [hf]
      omega

theorem add_gridded (a b : JSNum) : (a.add b).Gridded := by
  cases a <;> cases b <;> first | trivial | exact ofRat_gridded _

theorem fold_gridded (p : WorkRecord → JSNum) (l : List WorkRecord) (a0 : JSNum)
    (h0 : a0.Gridded) : (l.foldl (fun acc r => acc.add (p r).orZero) a0).Gridded := by
  induction l generalizing a0 with
  | nil => exact h0
  | cons x l ih =>
    rw [List.foldl_cons]
    exact ih _ (add_gridded _ _)

theorem lt_zero_of_isPos (x : JSNum) (h : x.IsPos) : (JSNum.fin 0).lt x = true := by
  cases x with
  | fin q => simpa [JSNum.lt] using h
  | posInf => rfl
  | nan => exact absurd h id
  | negInf => exact absurd h id

theorem lt_zero_neg_of_isNonneg (x : JSNum) (h : x.IsNonneg) :
    (JSNum.fin 0).lt x.neg = false := by
  cases x with
  | fin q =>
    have hq : 0 ≤ q := h
    simpa [JSNum.lt, JSNum.neg] using hq
  | posInf => rfl
  | nan => exact absurd h id
  | negInf => exact absurd h id

theorem lt_sub_fin (a b : ℚ) (ha : OnGrid a) (hb : OnGrid b) :
    (JSNum.fin 0).lt ((JSNum.fin b).sub (JSNum.fin a)) = true ↔ a < b := by
  have hsub : (JSNum.fin b).sub (JSNum.fin a) = JSNum.ofRat (b - a) := by
    show JSNum.ofRat (b + -a) = JSNum.ofRat (b - a)
    rw [sub_eq_add_neg]
  rw [hsub]
  constructor
  · intro h
    by_contra hlt
    have hle : 0 ≤ a - b := by linarith
    have e : b - a = -(a - b) := by ring
    rw [e, ofRat_neg_eq, lt_zero_neg_of_isNonneg _ (ofRat_nonneg hle)] at h
    exact absurd h (by decide)
  · intro h
    exact lt_zero_of_isPos _ (ofRat_pos (onGrid_gap ha hb h))

theorem lt_sub_iff (x y : JSNum) (hx : x.isNaN = false) (hy : y.isNaN = false)
    (gx : x.Gridded) (gy : y.Gridded) :
    (JSNum.fin 0).lt (y.sub x) = true ↔ x.rank < y.rank := by
  cases x with
  | nan => simp [JSNum.isNaN] at hx
  | fin a =>
    cases y with
    | nan => simp [JSNum.isNaN] at hy
    | fin b =>
      rw [lt_sub_fin a b gx gy]
      simp [JSNum.rank]
    | posInf =>
      simp only [JSNum.sub, JSNum.neg, JSNum.add, JSNum.lt, JSNum.rank, true_iff]
      rw [WithBot.coe_lt_coe]
      exact WithTop.coe_lt_top _
    | negInf => simp [JSNum.sub, JSNum.neg, JSNum.add, JSNum.lt, JSNum.rank]
  | posInf =>
    cases y <;> simp [JSNum.isNaN, JSNum.sub, JSNum.neg, JSNum.add, JSNum.lt, JSNum.rank] at hy ⊢
  | negInf =>
    cases y <;> simp [JSNum.isNaN, JSNum.sub, JSNum.neg, JSNum.add, JSNum.lt, JSNum.rank] at hy ⊢

theorem le_iff_rank (x y : JSNum) (hx : x.isNaN = false) (hy : y.isNaN = false) :
    y.le x = true ↔ y.rank ≤ x.rank := by
  cases x <;> cases y <;>
    simp [JSNum.isNaN, JSNum.rank, JSNum.le, JSNum.lt] at hx hy ⊢

theorem consistentOn_of_key {α β : Type} [LinearOrder β] (f : α → β) (after : α → α → Bool)
    (l : List α) (h : ∀ a ∈ l, ∀ b ∈ l, (after a b = true ↔ f a < f b)) :
    ConsistentOn after l := by
  have hf : ∀ a ∈ l, ∀ b ∈ l, after a b = false ↔ ¬ f a < f b := by
    intro a ha b hb
    rw [← h a ha b hb]
    simp
  refine ⟨?_, ?_, ?_⟩
  · intro a ha
    exact (hf a ha a ha).2 (lt_irrefl _)
  · intro a ha b hb c hc h1 h2
    exact (h a ha c hc).2 (lt_trans ((h a ha b hb).1 h1) ((h b hb c hc).1 h2))
  · intro a ha b hb c hc h1 h2 h3 h4
    have e1 : f a = f b :=
      le_antisymm (not_lt.1 ((hf b hb a ha).1 h2)) (not_lt.1 ((hf a ha b hb).1 h1))
    have e2 : f b = f c :=
      le_antisymm (not_lt.1 ((hf c hc b hb).1 h4)) (not_lt.1 ((hf b hb c hc).1 h3))
    exact ⟨(hf a ha c hc).2 (by rw [e1, e2]; exact lt_irrefl _),
      (hf c hc a ha).2 (by rw [e1, e2]; exact lt_irrefl _)⟩

theorem groupedPerformanceData_eq (S : SortEngine) (rows : List WorkRecord) (hne : rows ≠ []) :
    groupedPerformanceData S true rows = some (S.sort afterByTotal (unsortedGroups rows)) := by
  have hlen : ¬ rows.length = 0 := fun h => hne (List.length_eq_zero.1 h)
  unfold groupedPerformanceData
  rw [if_neg (by simp [hlen])]
  rfl

theorem unsorted_task (rows : List WorkRecord) :
    (unsortedGroups rows).map (fun g => g.task) = (rows.foldl groupRow []).map Prod.fst := by
  obtain ⟨-, -, hval, -⟩ := taskGroups_inv rows
  unfold unsortedGroups
  rw [List.map_map, List.map_map]
  apply List.map_congr_left
  intro e he
  show (finishGroup e.2).task = e.1
  rw [hval e he]
  exact (addToGroup_fold _ _).1

theorem unsorted_fields (rows : List WorkRecord) :
    ∀ g ∈ unsortedGroups rows,
      g.entries = rows.filter (fun r => decide (taskKey r = g.task))
      ∧ g.count = (rows.filter (fun r => decide (taskKey r = g.task))).length
      ∧ g.totalMinutes
          = (rows.filter (fun r => decide (taskKey r = g.task))).foldl
              (fun acc r => acc.add r.timeSpentMinutes.orZero) (JSNum.fin 0)
      ∧ g.totalProductiveHours
          = (rows.filter (fun r => decide (taskKey r = g.task))).foldl
              (fun acc r => acc.add r.productive.orZero) (JSNum.fin 0)
      ∧ g.avgProductiveHours = g.totalProductiveHours.div (JSNum.fin g.count)
      ∧ ∃ r ∈ rows, taskKey r = g.task := by
  obtain ⟨-, hmem, hval, -⟩ := taskGroups_inv rows
  intro g hg
  unfold unsortedGroups at hg
  rw [List.map_map] at hg
  obtain ⟨e, he, hge0⟩ := List.mem_map.1 hg
  have hge : g = finishGroup e.2 := hge0.symm
  have hgt : g.task = e.1 := by
    rw [hge]
    show e.2.task = e.1
    rw [hval e he]
    exact (addToGroup_fold _ _).1
  obtain ⟨-, h2, h3, h4, h5⟩ := addToGroup_fold
    (rows.filter (fun r => decide (taskKey r = e.1))) (newGroup e.1)
  rw [← hval e he] at h2 h3 h4 h5
  rw [hgt, hge]
  refine ⟨?_, ?_, ?_, ?_, rfl, ?_⟩
  · show e.2.entries = _
    rw [h2]
    simp [newGroup]
  · show e.2.count = _
    rw [h3]
    simp [newGroup]
  · show e.2.totalMinutes = _
    rw [h4]
    rfl
  · show e.2.totalProductiveHours = _
    rw [h5]
    rfl
  · have hkey : e.1 ∈ rows.map taskKey := (hmem e.1).1 (List.mem_map.2 ⟨e, he, rfl⟩)
    obtain ⟨r, hr, hrk⟩ := List.mem_map.1 hkey
    exact ⟨r, hr, hrk⟩

theorem afterByTotal_iff (rows : List WorkRecord)
    (hnan : ∀ g ∈ unsortedGroups rows, g.totalProductiveHours.isNaN = false) :
    ∀ a ∈ unsortedGroups rows, ∀ b ∈ unsortedGroups rows,
      (afterByTotal a b = true ↔ a.totalProductiveHours.rank < b.totalProductiveHours.rank) := by
  have hgrid : ∀ g ∈ unsortedGroups rows, g.totalProductiveHours.Gridded := by
    intro g hg
    obtain ⟨-, -, -, h4, -⟩ := unsorted_fields rows g hg
    rw [h4]
    exact fold_gridded (fun r => r.productive) _ _ onGrid_zero
  exact fun a ha b hb => lt_sub_iff _ _ (hnan a ha) (hnan b hb) (hgrid a ha) (hgrid b hb)

theorem sort_eq_of_notNaN (S : SortEngine) (rows : List WorkRecord)
    (hnan : ∀ g ∈ unsortedGroups rows, g.totalProductiveHours.isNaN = false) :
    S.sort afterByTotal (unsortedGroups rows) = jsSort afterByTotal (unsortedGroups rows) :=
  S.stable _ _ (consistentOn_of_key (fun g : TaskGroup => g.totalProductiveHours.rank) _ _
    (afterByTotal_iff rows hnan))

/-- C20 (amended). With task grouping enabled and at least one row,
`groupedPerformanceData` returns groups whose `task` values are the distinct
task keys of the rows (the trimmed task, "Unnamed Task" when it is blank),
each once.  A group holds the rows of its key in their order: `count` is
their number, `totalMinutes` and `totalProductiveHours` are `timeSpentMinutes
|| 0` and `productive || 0` added up over them in that order, which are the
sums of the values when these are whole numbers with sums below `2 ^ 53`, and
`avgProductiveHours` is `totalProductiveHours / count`.  No total is NaN when
no row has an infinite `productive`; and when no total is NaN the groups are
in non-increasing order of `totalProductiveHours`, whatever the sort engine
is. -/
theorem groupedPerformanceData_spec (S : SortEngine) (rows : List WorkRecord)
    (hne : rows ≠ []) :
    ∃ groups, groupedPerformanceData S true rows = some groups
      ∧ (groups.map (fun g => g.task)).Nodup
      ∧ (∀ k, k ∈ groups.map (fun g => g.task) ↔ ∃ r ∈ rows, taskKey r = k)
      ∧ (∀ r : WorkRecord,
          taskKey r = if trim r.task = [] then "Unnamed Task".toList else trim r.task)
      ∧ (∀ g ∈ groups,
          g.entries = rows.filter (fun r => decide (taskKey r = g.task))
          ∧ g.count = (rows.filter (fun r => decide (taskKey r = g.task))).length
          ∧ g.totalMinutes
              = (rows.filter (fun r => decide (taskKey r = g.task))).foldl
                  (fun acc r => acc.add r.timeSpentMinutes.orZero) (JSNum.fin 0)
          ∧ g.totalProductiveHours
              = (rows.filter (fun r => decide (taskKey r = g.task))).foldl
                  (fun acc r => acc.add r.productive.orZero) (JSNum.fin 0)
          ∧ g.avgProductiveHours = g.totalProductiveHours.div (JSNum.fin g.count))
      ∧ ((∀ r ∈ rows, r.timeSpentMinutes.IsNat ∧ r.productive.IsNat) →
          (rows.map (fun r => r.timeSpentMinutes.toNat)).sum < 2 ^ 53 →
          (rows.map (fun r => r.productive.toNat)).sum < 2 ^ 53 →
          ∀ g ∈ groups,
            g.totalMinutes
              = JSNum.fin ((((rows.filter (fun r => decide (taskKey r = g.task))).map
                  (fun r => r.timeSpentMinutes.toNat)).sum : ℕ) : ℚ)
            ∧ g.totalProductiveHours
              = JSNum.fin ((((rows.filter (fun r => decide (taskKey r = g.task))).map
                  (fun r => r.productive.toNat)).sum : ℕ) : ℚ))
      ∧ ((∀ r ∈ rows, r.productive ≠ JSNum.posInf ∧ r.productive ≠ JSNum.negInf) →
          ∀ g ∈ groups, g.totalProductiveHours.isNaN = false)
      ∧ ((∀ g ∈ groups, g.totalProductiveHours.isNaN = false) →
          groups.Pairwise
            (fun a b => b.totalProductiveHours.le a.totalProductiveHours = true)) := by
  obtain ⟨hnd, hmem, -, hpw⟩ := taskGroups_inv rows
  refine ⟨_, groupedPerformanceData_eq S rows hne, ?_⟩
  have hperm := S.perm afterByTotal (unsortedGroups rows)
  have htask := unsorted_task rows
  have hfields := unsorted_fields rows
  have hzero : (JSNum.fin 0) = JSNum.fin ((0 : ℕ) : ℚ) := by simp
  refine ⟨?_, ?_, ?_, ?_, ?_, ?_, ?_⟩
  · rw [(hperm.map (fun g => g.task)).nodup_iff, htask]
    exact hnd
  · intro k
    rw [(hperm.map (fun g => g.task)).mem_iff, htask, hmem k, List.mem_map]
  · intro r
    unfold taskKey
    by_cases h : trim r.task = [] <;> simp [h]
  · intro g hg
    obtain ⟨h1, h2, h3, h4, h5, -⟩ := hfields g (hperm.mem_iff.1 hg)
    exact ⟨h1, h2, h3, h4, h5⟩
  · intro hnat hb1 hb2 g hg
    obtain ⟨-, -, h3, h4, -⟩ := hfields g (hperm.mem_iff.1 hg)
    have l1 := natSum_filter_le (fun r => r.timeSpentMinutes.toNat)
      (fun r => decide (taskKey r = g.task)) rows
    have l2 := natSum_filter_le (fun r => r.productive.toNat)
      (fun r => decide (taskKey r = g.task)) rows
    rw [h3, h4, hzero,
      natSum_fold (fun r => r.timeSpentMinutes) _ 0
        (fun r hr => (hnat r (List.mem_filter.1 hr).1).1)
        (by rw [Nat.zero_add]; exact lt_of_le_of_lt l1 hb1),
      natSum_fold (fun r => r.productive) _ 0
        (fun r hr => (hnat r (List.mem_filter.1 hr).1).2)
        (by rw [Nat.zero_add]; exact lt_of_le_of_lt l2 hb2)]
    simp
  · intro hinf g hg
    obtain ⟨-, -, -, h4, -⟩ := hfields g (hperm.mem_iff.1 hg)
    rw [h4]
    exact notNaN_fold (fun r => r.productive) _ _ rfl
      (fun r hr => hinf r (List.mem_filter.1 hr).1)
  · intro hnan
    have hnan2 : ∀ g ∈ unsortedGroups rows, g.totalProductiveHours.isNaN = false :=
      fun g hg => hnan g (hperm.mem_iff.2 hg)
    have hlex := jsSort_lex (fun g : TaskGroup => g.totalProductiveHours.rank)
      (fun g => firstIndex g.task (rows.map taskKey)) afterByTotal (unsortedGroups rows)
      (afterByTotal_iff rows hnan2)
      (by
        have h := List.pairwise_map.1 (htask ▸ hpw)
        exact h)
    rw [← sort_eq_of_notNaN S rows hnan2] at hlex
    refine List.Pairwise.imp_of_mem ?_ hlex
    intro a b ha hb hab
    rw [le_iff_rank _ _ (hnan a ha) (hnan b hb)]
    rcases hab with h1 | h1
    · exact le_of_lt h1
    · exact le_of_eq h1.1.symm

/-- Witness for C20: four rows with the tasks "Fix bug", "Write doc",
"Fix bug" and a blank one. -/
theorem groupedPerformanceData_spec_witness :
    groupSampleRecords ≠ []
    ∧ (∀ r ∈ groupSampleRecords, r.productive ≠ JSNum.posInf ∧ r.productive ≠ JSNum.negInf)
    ∧ (groupedPerformanceData insertionEngine true groupSampleRecords).map
        (fun groups => groups.map (fun g => (g.task, g.count, g.totalProductiveHours)))
        = some [("Write doc".toList, 1, JSNum.fin 5), ("Unnamed Task".toList, 1, JSNum.fin 4),
            ("Fix bug".toList, 2, JSNum.fin 3)]
    ∧ ∃ groups, groupedPerformanceData insertionEngine true groupSampleRecords = some groups
        ∧ (∀ k, k ∈ groups.map (fun g => g.task) ↔ ∃ r ∈ groupSampleRecords, taskKey r = k)
        ∧ groups.Pairwise (fun a b => b.totalProductiveHours.le a.totalProductiveHours = true) := by
  have hinf : ∀ r ∈ groupSampleRecords,
      r.productive ≠ JSNum.posInf ∧ r.productive ≠ JSNum.negInf := by decide
  obtain ⟨groups, h1, -, h3, -, -, -, h7, h8⟩ :=
    groupedPerformanceData_spec insertionEngine groupSampleRecords (by decide)
  exact ⟨by decide, hinf, by decide!, groups, h1, h3, h8 (h7 hinf)⟩

/-- Counterexample for C20 as it was worded: rows of three tasks, the second of
which has the productive hours `Infinity` and `-Infinity` (what the cells
`Infinity` and `-Infinity` give).  Its total is NaN, which no comparison
orders, so the groups are in non-increasing order of their totals under no
sort engine; the stable insertion sort leaves them as they were found, with
the totals 1, NaN, 2. -/
theorem groupedPerformanceData_nan_counterexample :
    (toRecord sampleHost NumericMode.HOURS infinityProductiveRow).productive = JSNum.negInf
    ∧ (∀ S : SortEngine, ∃ groups, groupedPerformanceData S true nanTotalRecords = some groups
        ∧ ¬ groups.Pairwise
            (fun a b => b.totalProductiveHours.le a.totalProductiveHours = true))
    ∧ (groupedPerformanceData insertionEngine true nanTotalRecords).map
        (fun groups => groups.map (fun g => (g.task, g.totalProductiveHours)))
        = some [("Fix bug".toList, JSNum.fin 1), ("Migrate".toList, JSNum.nan),
            ("Review".toList, JSNum.fin 2)] := by
  refine ⟨by decide!, ?_, by decide!⟩
  intro S
  refine ⟨_, groupedPerformanceData_eq S nanTotalRecords (by decide), ?_⟩
  intro hpw
  have hperm := S.perm afterByTotal (unsortedGroups nanTotalRecords)
  have hx : ∃ x ∈ unsortedGroups nanTotalRecords, x.totalProductiveHours = JSNum.nan := by
    decide!
  have ha : ∃ a ∈ unsortedGroups nanTotalRecords, a.totalProductiveHours = JSNum.fin 1 := by
    decide!
  obtain ⟨x, hxm, hxt⟩ := hx
  obtain ⟨a, ham, hat⟩ := ha
  have hne : x ≠ a := by
    intro h
    rw [h, hat] at hxt
    exact absurd hxt (by decide)
  have hsym : (List.Pairwise (fun a b : TaskGroup =>
      b.totalProductiveHours.le a.totalProductiveHours = true
        ∨ a.totalProductiveHours.le b.totalProductiveHours = true)
      (S.sort afterByTotal (unsortedGroups nanTotalRecords))) :=
    hpw.imp (fun h => Or.inl h)
  have := hsym.forall (fun u v h => h.symm) (hperm.mem_iff.2 hxm) (hperm.mem_iff.2 ham) hne
  rw [hxt, hat] at this
  simp [JSNum.le, JSNum.isNaN] at this

/-! ## Claim on the header normalizer -/

theorem wsWords_isWord (s : List Char) : ∀ w ∈ wsWords s, IsWord w := by
  induction s with
  | nil => simp [wsWords]
  | cons c cs ih =>
    unfold wsWords
    by_cases hc : isWs c = true
    · rw [if_pos hc]
      exact ih
    · rw [if_neg hc]
      have hcf : isWs c = false := by simpa using hc
      by_cases hs : startsWs cs = true
      · rw [if_pos hs]
        intro w hw
        rcases List.mem_cons.1 hw with h | h
        · rw [h]
          exact ⟨by simp, fun d hd => by rw [List.mem_singleton.1 hd]; exact hcf⟩
        · exact ih w h
      · rw [if_neg hs]
        cases hW : wsWords cs with
        | nil =>
          intro w hw
          simp only [consWord, List.mem_singleton] at hw
          rw [hw]
          exact ⟨by simp, fun d hd => by rw [List.mem_singleton.1 hd]; exact hcf⟩
        | cons w0 rest =>
          rw [hW] at ih
          intro w hw
          simp only [consWord] at hw
          rcases List.mem_cons.1 hw with h | h
          · rw [h]
            refine ⟨by simp, ?_⟩
            intro d hd
            rcases List.mem_cons.1 hd with h1 | h1
            · rw [h1]
              exact hcf
            · exact (ih w0 (List.mem_cons_self _ _)).2 d h1
          · exact ih w (List.mem_cons_of_mem _ h)

theorem wsWords_ne_nil (s : List Char) (h : startsWs s = false) : wsWords s ≠ [] := by
  cases s with
  | nil => simp [startsWs] at h
  | cons c cs =>
    have hc : ¬ isWs c = true := by simpa [startsWs] using h
    unfold wsWords
    rw [if_neg hc]
    split_ifs
    · simp
    · cases wsWords cs <;> simp [consWord]

theorem joinWith_cons_word (c : Char) (w : List Char) (rest : List (List Char)) :
    joinWith " ".toList ((c :: w) :: rest) = c :: joinWith " ".toList (w :: rest) := by
  cases rest <;> simp [joinWith]

theorem joinWith_eq_nil (W : List (List Char)) (hW : ∀ w ∈ W, IsWord w)
    (h : joinWith " ".toList W = []) : W = [] := by
  cases W with
  | nil => rfl
  | cons w rest =>
    exfalso
    have hw := (hW w (List.mem_cons_self _ _)).1
    cases rest with
    | nil => exact hw (by simpa [joinWith] using h)
    | cons w2 rest2 =>
      simp only [joinWith] at h
      exact hw (List.append_eq_nil.1 (List.append_eq_nil.1 h).1).1

theorem rdropWhile_cons_neg (p : Char → Bool) (c : Char) (x : List Char) (h : p c = false) :
    (c :: x).rdropWhile p = c :: x.rdropWhile p := by
  induction x using List.reverseRecOn with
  | nil =>
    have := List.rdropWhile_concat_neg p [] c (by simp [h])
    simpa using this
  | append_singleton x d ih =>
    rw [← List.cons_append, List.rdropWhile_concat, List.rdropWhile_concat]
    split_ifs
    · exact ih
    · rfl

theorem rdropWhile_cons_pos (p : Char → Bool) (c : Char) (x : List Char) (h : p c = true) :
    (c :: x).rdropWhile p = if x.rdropWhile p = [] then [] else c :: x.rdropWhile p := by
  induction x using List.reverseRecOn with
  | nil =>
    have := List.rdropWhile_concat_pos p [] c h
    simpa using this
  | append_singleton x d ih =>
    rw [← List.cons_append, List.rdropWhile_concat, List.rdropWhile_concat]
    by_cases hd : p d = true
    · rw [if_pos hd, if_pos hd]
      exact ih
    · rw [if_neg hd, if_neg hd]
      simp

theorem collapse_true_ws (c : Char) (cs : List Char) (h : isWs c = true) :
    collapseWsAux true (c :: cs) = collapseWsAux true cs := by
  simp [collapseWsAux, h]

theorem collapse_false_ws (c : Char) (cs : List Char) (h : isWs c = true) :
    collapseWsAux false (c :: cs) = ' ' :: collapseWsAux true cs := by
  simp [collapseWsAux, h]

theorem collapse_not_ws (b : Bool) (c : Char) (cs : List Char) (h : isWs c = false) :
    collapseWsAux b (c :: cs) = c :: collapseWsAux false cs := by
  simp [collapseWsAux, h]

theorem dropWhile_collapse_true (s : List Char) :
    (collapseWsAux true s).dropWhile isWs = collapseWsAux true s := by
  induction s with
  | nil => rfl
  | cons c cs ih =>
    by_cases hc : isWs c = true
    · rw [collapse_true_ws c cs hc]
      exact ih
    · have hcf : isWs c = false := by simpa using hc
      rw [collapse_not_ws true c cs hcf, List.dropWhile_cons_of_neg hc]

theorem dropWhile_collapse_false (s : List Char) :
    (collapseWsAux false s).dropWhile isWs = collapseWsAux true s := by
  cases s with
  | nil => rfl
  | cons c cs =>
    by_cases hc : isWs c = true
    · rw [collapse_false_ws c cs hc, collapse_true_ws c cs hc,
        List.dropWhile_cons_of_pos (by decide), dropWhile_collapse_true]
    · have hcf : isWs c = false := by simpa using hc
      rw [collapse_not_ws false c cs hcf, collapse_not_ws true c cs hcf,
        List.dropWhile_cons_of_neg hc]

theorem collapse_false_of_not_startsWs (s : List Char) (h : startsWs s = false) :
    collapseWsAux false s = collapseWsAux true s := by
  cases s with
  | nil => rfl
  | cons c cs =>
    have hcf : isWs c = false := by simpa [startsWs] using h
    rw [collapse_not_ws false c cs hcf, collapse_not_ws true c cs hcf]

theorem rdropWhile_collapse (s : List Char) :
    (collapseWsAux true s).rdropWhile isWs = joinWith " ".toList (wsWords s) := by
  induction s with
  | nil => rfl
  | cons c cs ih =>
    by_cases hc : isWs c = true
    · rw [collapse_true_ws c cs hc, ih]
      simp [wsWords, hc]
    · have hcf : isWs c = false := by simpa using hc
      rw [collapse_not_ws true c cs hcf, rdropWhile_cons_neg isWs c _ hcf]
      unfold wsWords
      rw [if_neg hc]
      by_cases hs : startsWs cs = true
      · rw [if_pos hs]
        cases cs with
        | nil => rfl
        | cons d ds =>
          have hd : isWs d = true := by simpa [startsWs] using hs
          rw [collapse_false_ws d ds hd, rdropWhile_cons_pos isWs ' ' _ (by decide),
            ← collapse_true_ws d ds hd, ih]
          cases hW : wsWords (d :: ds) with
          | nil => simp [joinWith]
          | cons w rest =>
            have hne : joinWith " ".toList (w :: rest) ≠ [] := by
              intro h0
              have := joinWith_eq_nil (w :: rest) (hW ▸ wsWords_isWord (d :: ds)) h0
              exact absurd this (by simp)
            rw [if_neg hne]
            simp [joinWith]
      · rw [if_neg hs]
        have hsf : startsWs cs = false := by simpa using hs
        rw [collapse_false_of_not_startsWs cs hsf, ih]
        cases hW : wsWords cs with
        | nil => exact absurd hW (wsWords_ne_nil cs hsf)
        | cons w rest =>
          simp only [consWord]
          rw [joinWith_cons_word]

theorem normalize_eq_join (s : List Char) :
    normalizeHeaderKeyStr s = joinWith " ".toList (wsWords s) := by
  unfold normalizeHeaderKeyStr trim collapseWs
  rw [dropWhile_collapse_false, rdropWhile_collapse]

theorem wsWords_cons (c : Char) (cs : List Char) :
    wsWords (c :: cs)
      = if isWs c then wsWords cs
        else if startsWs cs then [c] :: wsWords cs else consWord c (wsWords cs) := by
  rw [wsWords]

theorem wsWords_word_append (w t : List Char) (hw : IsWord w) (ht : startsWs t = true) :
    wsWords (w ++ t) = w :: wsWords t := by
  obtain ⟨hne, hws⟩ := hw
  induction w with
  | nil => exact absurd rfl hne
  | cons c w ih =>
    have hc : ¬ isWs c = true := by
      rw [hws c (List.mem_cons_self _ _)]
      simp
    rw [List.cons_append, wsWords_cons, if_neg hc]
    cases w with
    | nil =>
      rw [List.nil_append, if_pos ht]
    | cons d w2 =>
      have hd : isWs d = false := hws d (List.mem_cons_of_mem _ (List.mem_cons_self _ _))
      have hs : ¬ startsWs ((d :: w2) ++ t) = true := by
        simp [startsWs, hd]
      rw [if_neg hs, ih (by simp) (fun x hx => hws x (List.mem_cons_of_mem _ hx))]
      rfl

theorem wsWords_join (W : List (List Char)) (hW : ∀ w ∈ W, IsWord w) :
    wsWords (joinWith " ".toList W) = W := by
  induction W with
  | nil => rfl
  | cons w rest ih =>
    have hw := hW w (List.mem_cons_self _ _)
    cases rest with
    | nil =>
      have := wsWords_word_append w [] hw rfl
      simpa [joinWith, wsWords] using this
    | cons w2 rest2 =>
      have ih2 := ih (fun x hx => hW x (List.mem_cons_of_mem _ hx))
      have hj : joinWith " ".toList (w :: w2 :: rest2)
          = w ++ ' ' :: joinWith " ".toList (w2 :: rest2) := by
        simp [joinWith]
      rw [hj, wsWords_word_append w _ hw (by simp [startsWs, isWs])]
      have hsp : wsWords (' ' :: joinWith " ".toList (w2 :: rest2))
          = wsWords (joinWith " ".toList (w2 :: rest2)) := by
        rw [wsWords_cons, if_pos (by decide)]
      rw [hsp, ih2]

theorem wsWords_leading (r b : List Char) (hr : AllWs r) : wsWords (r ++ b) = wsWords b := by
  induction r with
  | nil => rfl
  | cons c r ih =>
    rw [List.cons_append, wsWords_cons, if_pos (hr c (List.mem_cons_self _ _))]
    exact ih (fun x hx => hr x (List.mem_cons_of_mem _ hx))

theorem consWord_append (c : Char) (A B : List (List Char)) (hA : A ≠ []) :
    consWord c (A ++ B) = consWord c A ++ B := by
  cases A with
  | nil => exact absurd rfl hA
  | cons w rest => rfl

theorem wsWords_run (a r b : List Char) (hr : AllWs r) (hne : r ≠ []) :
    wsWords (a ++ r ++ b) = wsWords a ++ wsWords b := by
  induction a with
  | nil =>
    rw [List.nil_append, wsWords_leading r b hr]
    rfl
  | cons c a ih =>
    rw [List.cons_append, List.cons_append]
    by_cases hc : isWs c = true
    · rw [wsWords_cons c (a ++ r ++ b), wsWords_cons c a, if_pos hc, if_pos hc]
      exact ih
    · have hst : startsWs (a ++ r ++ b) = startsWs a := by
        cases a with
        | nil =>
          cases r with
          | nil => exact absurd rfl hne
          | cons d r2 => simp [startsWs, hr d (List.mem_cons_self _ _)]
        | cons d a2 => rfl
      rw [wsWords_cons c (a ++ r ++ b), wsWords_cons c a, if_neg hc, if_neg hc, hst, ih]
      by_cases hs : startsWs a = true
      · rw [if_pos hs, if_pos hs]
        rfl
      · rw [if_neg hs, if_neg hs]
        exact consWord_append c _ _ (wsWords_ne_nil a (by simpa using hs))

theorem wsWords_trailing (a r : List Char) (hr : AllWs r) : wsWords (a ++ r) = wsWords a := by
  cases r with
  | nil => simp
  | cons d r2 =>
    have := wsWords_run a (d :: r2) [] hr (by simp)
    simpa [wsWords] using this

theorem word_chain (w : List Char) (hw : ∀ c ∈ w, isWs c = false) :
    w.Chain' (fun c d => ¬ (isWs c = true ∧ isWs d = true)) := by
  induction w with
  | nil => exact List.chain'_nil
  | cons c w ih =>
    rw [List.chain'_cons']
    refine ⟨?_, ih (fun x hx => hw x (List.mem_cons_of_mem _ hx))⟩
    intro y _ h
    rw [hw c (List.mem_cons_self _ _)] at h
    exact absurd h.1 (by simp)

/-- The shape of words joined by single spaces. -/
theorem join_tidy (W : List (List Char)) (hW : ∀ w ∈ W, IsWord w) :
    (∀ c, (joinWith " ".toList W).head? = some c → isWs c = false)
    ∧ (∀ c, (joinWith " ".toList W).getLast? = some c → isWs c = false)
    ∧ (∀ c ∈ joinWith " ".toList W, isWs c = true → c = ' ')
    ∧ (joinWith " ".toList W).Chain' (fun c d => ¬ (isWs c = true ∧ isWs d = true)) := by
  induction W with
  | nil =>
    refine ⟨by simp [joinWith], by simp [joinWith], by simp [joinWith], ?_⟩
    exact List.chain'_nil
  | cons w rest ih =>
    obtain ⟨hne, hws⟩ := hW w (List.mem_cons_self _ _)
    obtain ⟨c0, w0, hw0⟩ := List.exists_cons_of_ne_nil hne
    have hlastw : ∀ c, w.getLast? = some c → isWs c = false :=
      fun c hc => hws c (List.mem_of_getLast?_eq_some hc)
    cases rest with
    | nil =>
      simp only [joinWith]
      refine ⟨?_, hlastw, ?_, word_chain w hws⟩
      · intro c hc
        exact hws c (List.mem_of_mem_head? hc)
      · intro c hc h
        rw [hws c hc] at h
        exact absurd h (by simp)
    | cons w2 rest2 =>
      obtain ⟨i1, i2, i3, i4⟩ := ih (fun x hx => hW x (List.mem_cons_of_mem _ hx))
      have hj : joinWith " ".toList (w :: w2 :: rest2)
          = w ++ ' ' :: joinWith " ".toList (w2 :: rest2) := by
        simp [joinWith]
      have hjne : joinWith " ".toList (w2 :: rest2) ≠ [] := by
        intro h0
        have := joinWith_eq_nil (w2 :: rest2) (fun x hx => hW x (List.mem_cons_of_mem _ hx)) h0
        exact absurd this (by simp)
      rw [hj]
      refine ⟨?_, ?_, ?_, ?_⟩
      · intro c hc
        rw [hw0] at hc
        simp only [List.cons_append, List.head?_cons, Option.some.injEq] at hc
        rw [← hc]
        exact hws c0 (hw0 ▸ List.mem_cons_self _ _)
      · intro c hc
        rw [List.getLast?_append_of_ne_nil _ (by simp)] at hc
        obtain ⟨d, ds, hd⟩ := List.exists_cons_of_ne_nil hjne
        rw [hd, List.getLast?_cons_cons, ← hd] at hc
        exact i2 c hc
      · intro c hc h
        rcases List.mem_append.1 hc with h1 | h1
        · rw [hws c h1] at h
          exact absurd h (by simp)
        · rcases List.mem_cons.1 h1 with h2 | h2
          · exact h2
          · exact i3 c h2 h
      · rw [List.chain'_append]
        refine ⟨word_chain w hws, ?_, ?_⟩
        · rw [List.chain'_cons']
          refine ⟨?_, i4⟩
          intro y hy h
          rw [i1 y hy] at h
          exact absurd h.2 (by simp)
        · intro x hx y _ h
          rw [hlastw x hx] at h
          exact absurd h.1 (by simp)

/-- C21. `normalizeHeaderKey` returns a value that is not a string unchanged.
On a string it returns the words of the string (its maximal runs without
whitespace) joined by single spaces.  So two strings get the same key exactly
when they have the same words: changing a run of whitespace into another
(not empty) run, or adding or removing leading or trailing whitespace, does
not change the key.  The key does not start or end with whitespace, its only
whitespace characters are spaces, and no two of them are adjacent.
Normalizing twice gives what normalizing once gives. -/
theorem normalizeHeaderKey_spec (s t : List Char) (v : JSVal) :
    normalizeHeaderKey (JSVal.str s) = JSVal.str (normalizeHeaderKeyStr s)
    ∧ normalizeHeaderKeyStr s = joinWith " ".toList (wsWords s)
    ∧ (∀ w ∈ wsWords s, IsWord w)
    ∧ (normalizeHeaderKeyStr s = normalizeHeaderKeyStr t ↔ wsWords s = wsWords t)
    ∧ (∀ a b r1 r2 : List Char, AllWs r1 → r1 ≠ [] → AllWs r2 → r2 ≠ [] →
        normalizeHeaderKeyStr (a ++ r1 ++ b) = normalizeHeaderKeyStr (a ++ r2 ++ b))
    ∧ (∀ r1 r2 : List Char, AllWs r1 → AllWs r2 →
        normalizeHeaderKeyStr (r1 ++ s ++ r2) = normalizeHeaderKeyStr s)
    ∧ (∀ c, (normalizeHeaderKeyStr s).head? = some c → isWs c = false)
    ∧ (∀ c, (normalizeHeaderKeyStr s).getLast? = some c → isWs c = false)
    ∧ (∀ c ∈ normalizeHeaderKeyStr s, isWs c = true → c = ' ')
    ∧ (normalizeHeaderKeyStr s).Chain' (fun c d => ¬ (isWs c = true ∧ isWs d = true))
    ∧ normalizeHeaderKeyStr (normalizeHeaderKeyStr s) = normalizeHeaderKeyStr s
    ∧ normalizeHeaderKey (normalizeHeaderKey v) = normalizeHeaderKey v
    ∧ ((∀ x, v ≠ JSVal.str x) → normalizeHeaderKey v = v) := by
  have hidem : ∀ x : List Char,
      normalizeHeaderKeyStr (normalizeHeaderKeyStr x) = normalizeHeaderKeyStr x := by
    intro x
    rw [normalize_eq_join (normalizeHeaderKeyStr x), normalize_eq_join x,
      wsWords_join _ (wsWords_isWord x)]
  obtain ⟨t1, t2, t3, t4⟩ := join_tidy (wsWords s) (wsWords_isWord s)
  rw [← normalize_eq_join] at t1 t2 t3 t4
  refine ⟨rfl, normalize_eq_join s, wsWords_isWord s, ?_, ?_, ?_, t1, t2, t3, t4, hidem s, ?_, ?_⟩
  · constructor
    · intro h
      have := congrArg wsWords h
      rw [normalize_eq_join s, normalize_eq_join t, wsWords_join _ (wsWords_isWord s),
        wsWords_join _ (wsWords_isWord t)] at this
      exact this
    · intro h
      rw [normalize_eq_join s, normalize_eq_join t, h]
  · intro a b r1 r2 h1 n1 h2 n2
    rw [normalize_eq_join, normalize_eq_join, wsWords_run a r1 b h1 n1, wsWords_run a r2 b h2 n2]
  · intro r1 r2 h1 h2
    rw [normalize_eq_join, normalize_eq_join, wsWords_trailing _ r2 h2, wsWords_leading r1 s h1]
  · cases v with
    | str x =>
      show JSVal.str (normalizeHeaderKeyStr (normalizeHeaderKeyStr x)) = _
      rw [hidem x]
      rfl
    | _ => rfl
  · intro hv
    cases v with
    | str x => exact absurd rfl (hv x)
    | _ => rfl

/-- Witness for C21: "Time  Spent " and "Time Spent" have the same key,
"Time Spent". -/
theorem normalizeHeaderKey_spec_witness :
    wsWords "Time  Spent ".toList = wsWords "Time Spent".toList
    ∧ normalizeHeaderKeyStr "Time  Spent ".toList = normalizeHeaderKeyStr "Time Spent".toList
    ∧ normalizeHeaderKeyStr "Time  Spent ".toList = "Time Spent".toList
    ∧ normalizeHeaderKey (JSVal.num (JSNum.fin 7)) = JSVal.num (JSNum.fin 7) :=
  ⟨by decide,
    (normalizeHeaderKey_spec "Time  Spent ".toList "Time Spent".toList JSVal.null).2.2.2.1.2
      (by decide),
    by decide,
    (normalizeHeaderKey_spec [] [] (JSVal.num (JSNum.fin 7))).2.2.2.2.2.2.2.2.2.2.2.2
      (fun x h => by cases h)⟩

/-! ## Claim on the ticket extractor -/

theorem matchTicketFragment_form (pre d : List Char) (hne : d ≠ []) (hd : AllDigits d) :
    matchTicketFragment (pre ++ "#!/".toList ++ d) = some d := by
  have hrev : (pre ++ "#!/".toList ++ d).reverse
      = d.reverse ++ ("/!#".toList ++ pre.reverse) := by
    simp
  have hdr : ∀ a ∈ d.reverse, isDigit a = true := fun a ha => hd a (List.mem_reverse.1 ha)
  have hstop : ∀ a, ("/!#".toList ++ pre.reverse).head? = some a → isDigit a = false := by
    intro a ha
    have : a = '/' := by
      simpa using ha.symm
    rw [this]
    decide
  unfold matchTicketFragment
  simp only [hrev, takeWhile_append_stop isDigit _ _ hdr hstop,
    dropWhile_append_stop isDigit _ _ hdr hstop, List.reverse_reverse]
  have hp : "#!/".toList.reverse.isPrefixOf ("/!#".toList ++ pre.reverse) = true :=
    isPrefixOf_append_self _ _
  simp [hne, hp]

theorem matchTicketFragment_imp (s d : List Char) (h : matchTicketFragment s = some d) :
    d ≠ [] ∧ AllDigits d ∧ ∃ pre, s = pre ++ "#!/".toList ++ d := by
  unfold matchTicketFragment at h
  simp only [List.reverse_reverse] at h
  split_ifs at h with hc
  obtain ⟨hne, hp⟩ := hc
  have hd : (s.reverse.takeWhile isDigit).reverse = d := Option.some.inj h
  obtain ⟨x, hx⟩ := isPrefixOf_split _ _ hp
  refine ⟨hd ▸ hne, ?_, x.reverse, ?_⟩
  · intro c hc
    rw [← hd] at hc
    exact takeWhile_all isDigit _ c (List.mem_reverse.1 hc)
  · have hs : s.reverse = s.reverse.takeWhile isDigit ++ s.reverse.dropWhile isDigit :=
      takeWhile_append_dropWhile_eq isDigit _
    rw [hx] at hs
    have := congrArg List.reverse hs
    rw [List.reverse_reverse] at this
    rw [this, ← hd]
    simp

/-- C22. For a string that ends with "#!/" and one or more digits,
`extractTicketNumber` returns "#" and these digits; every other string and
every value that is not a string is returned unchanged; and applying the
function twice gives what applying it once gives. -/
theorem extractTicketNumber_spec (v : JSVal) :
    (∀ pre d : List Char, d ≠ [] → AllDigits d →
      extractTicketNumber (JSVal.str (pre ++ "#!/".toList ++ d)) = JSVal.str ('#' :: d))
    ∧ (∀ s : List Char,
        (¬ ∃ pre d : List Char, d ≠ [] ∧ AllDigits d ∧ s = pre ++ "#!/".toList ++ d) →
        extractTicketNumber (JSVal.str s) = JSVal.str s)
    ∧ ((∀ s, v ≠ JSVal.str s) → extractTicketNumber v = v)
    ∧ extractTicketNumber (extractTicketNumber v) = extractTicketNumber v := by
  have hother : ∀ s : List Char, matchTicketFragment s = none →
      extractTicketNumber (JSVal.str s) = JSVal.str s := by
    intro s hs
    unfold extractTicketNumber
    simp [hs]
  have hform : ∀ pre d : List Char, d ≠ [] → AllDigits d →
      extractTicketNumber (JSVal.str (pre ++ "#!/".toList ++ d)) = JSVal.str ('#' :: d) := by
    intro pre d hne hd
    unfold extractTicketNumber
    have h0 : pre ++ "#!/".toList ++ d ≠ [] := by
      intro h
      exact hne (List.append_eq_nil.1 h).2
    simp only [matchTicketFragment_form pre d hne hd]
    simp [h0]
  refine ⟨hform, ?_, ?_, ?_⟩
  · intro s hs
    apply hother
    cases hm : matchTicketFragment s with
    | none => rfl
    | some d =>
      obtain ⟨h1, h2, pre, h3⟩ := matchTicketFragment_imp s d hm
      exact absurd ⟨pre, d, h1, h2, h3⟩ hs
  · intro hv
    cases v with
    | str s => exact absurd rfl (hv s)
    | _ => rfl
  · cases v with
    | str s =>
      cases hm : matchTicketFragment s with
      | none => rw [hother s hm, hother s hm]
      | some d =>
        obtain ⟨h1, h2, pre, h3⟩ := matchTicketFragment_imp s d hm
        rw [h3, hform pre d h1 h2]
        apply hother
        cases hm2 : matchTicketFragment ('#' :: d) with
        | none => rfl
        | some d2 =>
          exfalso
          obtain ⟨g1, g2, pre2, g3⟩ := matchTicketFragment_imp _ d2 hm2
          have hmem : '!' ∈ '#' :: d := by
            rw [g3]
            simp
          rcases List.mem_cons.1 hmem with hx | hx
          · exact absurd hx (by decide)
          · exact absurd (h2 '!' hx) (by decide)
    | _ => rfl

/-- Witness for C22: the ticket URL of the specification, and a plain ticket
key. -/
theorem extractTicketNumber_spec_witness :
    extractTicketNumber (JSVal.str "https://host/pm/tickets#!/14802".toList)
      = JSVal.str "#14802".toList
    ∧ extractTicketNumber (JSVal.str "ABC-123".toList) = JSVal.str "ABC-123".toList
    ∧ extractTicketNumber (JSVal.num (JSNum.fin 7)) = JSVal.num (JSNum.fin 7) := by
  refine ⟨(extractTicketNumber_spec JSVal.null).1 "https://host/pm/tickets".toList "14802".toList
      (by decide) (by decide), ?_,
    (extractTicketNumber_spec (JSVal.num (JSNum.fin 7))).2.2.1 (fun s h => by cases h)⟩
  apply (extractTicketNumber_spec JSVal.null).2.1
  rintro ⟨pre, d, hne, hd, h⟩
  have hm := matchTicketFragment_form pre d hne hd
  have hnone : matchTicketFragment "ABC-123".toList = none := by decide
  rw [← h, hnone] at hm
  cases hm

/-! ## Claim on the glass menu -/

theorem nearest_clamp (x : ℚ) (n j : ℤ) (hj0 : 0 ≤ j) (hj : j ≤ n - 1) :
    |x - ((max 0 (min (n - 1) ⌊x + 1 / 2⌋) : ℤ) : ℚ)| ≤ |x - (j : ℚ)| := by
  have h1 : ((⌊x + 1 / 2⌋ : ℤ) : ℚ) ≤ x + 1 / 2 := Int.floor_le _
  have h2 : x + 1 / 2 < ((⌊x + 1 / 2⌋ : ℤ) : ℚ) + 1 := Int.lt_floor_add_one _
  generalize ⌊x + 1 / 2⌋ = r at h1 h2 ⊢
  have hj0q : (0 : ℚ) ≤ (j : ℚ) := by exact_mod_cast hj0
  have hjq : (j : ℚ) ≤ (n : ℚ) - 1 := by exact_mod_cast hj
  rcases lt_or_le r 0 with hr | hr
  · have hk : max 0 (min (n - 1) r) = 0 := by
      rw [max_eq_left]
      exact le_trans (min_le_right _ _) (le_of_lt hr)
    have hrq : (r : ℚ) ≤ -1 := by exact_mod_cast (by omega : r ≤ -1)
    rw [hk]
    rcases abs_cases (x - ((0 : ℤ) : ℚ)) with ⟨ha, _⟩ | ⟨ha, _⟩ <;>
      rcases abs_cases (x - (j : ℚ)) with ⟨hb, _⟩ | ⟨hb, _⟩ <;>
      rw [ha, hb] <;> push_cast at * <;> linarith
  · rcases lt_or_le (n - 1) r with hr2 | hr2
    · have hk : max 0 (min (n - 1) r) = n - 1 := by
        rw [min_eq_left (le_of_lt hr2), max_eq_right (by omega)]
      have hrq : (n : ℚ) ≤ (r : ℚ) := by exact_mod_cast (by omega : n ≤ r)
      rw [hk]
      rcases abs_cases (x - ((n - 1 : ℤ) : ℚ)) with ⟨ha, _⟩ | ⟨ha, _⟩ <;>
        rcases abs_cases (x - (j : ℚ)) with ⟨hb, _⟩ | ⟨hb, _⟩ <;>
        rw [ha, hb] <;> push_cast at * <;> linarith
    · have hk : max 0 (min (n - 1) r) = r := by
        rw [min_eq_right hr2, max_eq_right hr]
      rw [hk]
      rcases lt_trichotomy j r with hjr | hjr | hjr
      · have hq : (j : ℚ) ≤ (r : ℚ) - 1 := by exact_mod_cast (by omega : j ≤ r - 1)
        rcases abs_cases (x - (r : ℚ)) with ⟨ha, _⟩ | ⟨ha, _⟩ <;>
          rcases abs_cases (x - (j : ℚ)) with ⟨hb, _⟩ | ⟨hb, _⟩ <;>
          rw [ha, hb] <;> linarith
      · rw [hjr]
      · have hq : (r : ℚ) + 1 ≤ (j : ℚ) := by exact_mod_cast (by omega : r + 1 ≤ j)
        rcases abs_cases (x - (r : ℚ)) with ⟨ha, _⟩ | ⟨ha, _⟩ <;>
          rcases abs_cases (x - (j : ℚ)) with ⟨hb, _⟩ | ⟨hb, _⟩ <;>
          rw [ha, hb] <;> linarith

theorem getIndex_eq (length : Nat) (w p : ℚ) :
    getIndexFromGlassPosition (some (JSNum.fin w)) length (JSNum.fin p)
      = JSNum.fin (((max 0 (min ((length : ℤ) - 1)
          ⌊(p - ((w - (length : ℚ) * 136) / 2 + 20)) / 136 + 1 / 2⌋) : ℤ)) : ℚ) := by
  simp only [getIndexFromGlassPosition, startOffset, itemWidth, JSNum.subExact, JSNum.neg, JSNum.addExact,
    JSNum.mulExact, JSNum.divExact, JSNum.round, JSNum.max, JSNum.min]
  norm_num
  have hfl : (p + (-20 + -((w + -((length : ℚ) * 136)) / 2))) / 136 + 1 / 2
      = (p - ((w - (length : ℚ) * 136) / 2 + 20)) / 136 + 1 / 2 := by ring
  rw [hfl]
  simp only [sub_eq_add_neg]

theorem rem_of_lt (i n : Nat) (h : i < n) :
    (JSNum.fin (i : ℚ)).rem (JSNum.fin (n : ℚ)) = JSNum.fin (i : ℚ) := by
  have hn : (n : ℚ) ≠ 0 := by
    have : 0 < n := by omega
    exact_mod_cast (Nat.pos_iff_ne_zero.1 this)
  have hpos : (0 : ℚ) < (n : ℚ) := by
    have : 0 < n := by omega
    exact_mod_cast this
  have h0 : (0 : ℚ) ≤ (i : ℚ) / (n : ℚ) := div_nonneg (by exact_mod_cast Nat.zero_le i) (le_of_lt hpos)
  have h1 : (i : ℚ) / (n : ℚ) < 1 := by
    rw [div_lt_one hpos]
    exact_mod_cast h
  have hfl : ⌊(i : ℚ) / (n : ℚ)⌋ = 0 := Int.floor_eq_zero_iff.2 ⟨h0, h1⟩
  simp [JSNum.rem, hn, h0, hfl]

theorem moveGlassToIndex_eq (length i : Nat) (w : ℚ) (s : MenuState) (h : i < length) :
    moveGlassToIndex (some (JSNum.fin w)) length s (JSNum.fin (i : ℚ))
      = { s with glassPosition := JSNum.fin (itemPosition w length i),
                 activeIndex := JSNum.fin (i : ℚ) } := by
  unfold moveGlassToIndex
  simp only [rem_of_lt i length h, startOffset, itemWidth, JSNum.subExact, JSNum.neg, JSNum.addExact,
    JSNum.mulExact, JSNum.divExact, itemPosition]
  norm_num
  ring_nf

/-- C23. For a menu of at least one item in a container of width `w`, and a
glass position `p`: `getIndexFromGlassPosition` returns an index `i` below the
number of items whose position `startOffset + i * 136` is at least as near to
`p` as the position of any item; `snapToClosest` puts the glass at that
position and makes `i` the active index, which is what `stopDrag` does at the
end of a drag; and from the position of item `i` the index computed is `i`. -/
theorem getIndexFromGlassPosition_nearest (length : Nat) (w p : ℚ) (s : MenuState)
    (hlen : 0 < length) (hs : s.glassPosition = JSNum.fin p) :
    (∃ i : Nat, i < length
      ∧ getIndexFromGlassPosition (some (JSNum.fin w)) length (JSNum.fin p) = JSNum.fin (i : ℚ)
      ∧ (∀ j : Nat, j < length →
          |p - itemPosition w length i| ≤ |p - itemPosition w length j|)
      ∧ snapToClosest (some (JSNum.fin w)) length s
          = { s with glassPosition := JSNum.fin (itemPosition w length i),
                     activeIndex := JSNum.fin (i : ℚ) }
      ∧ (s.isDragging = true →
          stopDrag (some (JSNum.fin w)) length s
            = { isDragging := false, startX := s.startX,
                glassPosition := JSNum.fin (itemPosition w length i),
                activeIndex := JSNum.fin (i : ℚ) }))
    ∧ (∀ i : Nat, i < length →
        getIndexFromGlassPosition (some (JSNum.fin w)) length
          (JSNum.fin (itemPosition w length i)) = JSNum.fin (i : ℚ)
        ∧ moveGlassToIndex (some (JSNum.fin w)) length s (JSNum.fin (i : ℚ))
          = { s with glassPosition := JSNum.fin (itemPosition w length i),
                     activeIndex := JSNum.fin (i : ℚ) }) := by
  constructor
  · have hx : ∀ j : Nat, p - itemPosition w length j
        = 136 * ((p - ((w - (length : ℚ) * 136) / 2 + 20)) / 136 - (j : ℚ)) := by
      intro j
      unfold itemPosition
      ring
    generalize hxdef : (p - ((w - (length : ℚ) * 136) / 2 + 20)) / 136 = x at hx
    have hk0 : 0 ≤ max 0 (min ((length : ℤ) - 1) ⌊x + 1 / 2⌋) := le_max_left _ _
    have hk1 : max 0 (min ((length : ℤ) - 1) ⌊x + 1 / 2⌋) ≤ (length : ℤ) - 1 := by
      apply max_le
      · omega
      · exact min_le_left _ _
    obtain ⟨i, hi⟩ := Int.eq_ofNat_of_zero_le hk0
    have hil : i < length := by omega
    have hidx : getIndexFromGlassPosition (some (JSNum.fin w)) length (JSNum.fin p)
        = JSNum.fin (i : ℚ) := by
      rw [getIndex_eq, hxdef, hi]
      rfl
    have hsnap : snapToClosest (some (JSNum.fin w)) length s
        = { s with glassPosition := JSNum.fin (itemPosition w length i),
                   activeIndex := JSNum.fin (i : ℚ) } := by
      unfold snapToClosest
      simp only [hs, hidx]
      exact moveGlassToIndex_eq length i w s hil
    refine ⟨i, hil, hidx, ?_, hsnap, ?_⟩
    · intro j hj
      rw [hx i, hx j, abs_mul, abs_mul]
      apply mul_le_mul_of_nonneg_left _ (abs_nonneg _)
      have := nearest_clamp x (length : ℤ) (j : ℤ) (by omega) (by omega)
      rw [hi] at this
      exact_mod_cast this
    · intro hd
      unfold stopDrag
      rw [hd, if_pos rfl, hsnap]
  · intro i hi
    refine ⟨?_, moveGlassToIndex_eq length i w s hi⟩
    rw [getIndex_eq]
    have hx : (itemPosition w length i - ((w - (length : ℚ) * 136) / 2 + 20)) / 136 + 1 / 2
        = ((i : ℤ) : ℚ) + 1 / 2 := by
      unfold itemPosition
      push_cast
      ring
    have hfl : ⌊((i : ℤ) : ℚ) + 1 / 2⌋ = (i : ℤ) := by
      rw [Int.floor_eq_iff]
      constructor <;> norm_num
    rw [hx, hfl]
    have hk : max 0 (min ((length : ℤ) - 1) (i : ℤ)) = (i : ℤ) := by
      rw [min_eq_right (by omega), max_eq_right (by omega)]
    rw [hk]
    rfl

/-- Witness for C23: six items in a container 1200 wide, so that the items
stand at 212, 348, 484, 620, ...; a drag released at 500 snaps to item 2 at
484. -/
theorem getIndexFromGlassPosition_nearest_witness :
    (0 : Nat) < 6 ∧ draggingState.glassPosition = JSNum.fin 500
    ∧ itemPosition 1200 6 2 = 484
    ∧ getIndexFromGlassPosition (some (JSNum.fin 1200)) 6 (JSNum.fin 500) = JSNum.fin 2
    ∧ stopDrag (some (JSNum.fin 1200)) 6 draggingState
        = { isDragging := false, startX := JSNum.fin 640, glassPosition := JSNum.fin 484,
            activeIndex := JSNum.fin 2 }
    ∧ getIndexFromGlassPosition (some (JSNum.fin 1200)) 6 (JSNum.fin (itemPosition 1200 6 5))
        = JSNum.fin ((5 : Nat) : ℚ) :=
  ⟨by decide, rfl, by norm_num [itemPosition], by decide!, by decide!,
    ((getIndexFromGlassPosition_nearest 6 1200 500 draggingState (by decide) rfl).2 5
      (by decide)).1⟩

/-! ## Claim on the candidate sheets -/

theorem startsWith_iff (s p : List Char) : startsWith s p = true ↔ ∃ rest, s = p ++ rest := by
  unfold startsWith
  constructor
  · exact isPrefixOf_split p s
  · rintro ⟨rest, h⟩
    rw [h]
    exact isPrefixOf_append_self p rest

theorem isDataSheet_iff (name : List Char) : isDataSheet name = true ↔ ¬ ExcludedSheet name := by
  unfold isDataSheet ExcludedSheet
  simp only [Bool.and_eq_true, Bool.not_eq_true', decide_eq_true_eq, includes_eq_false_iff,
    ← Bool.not_eq_true, startsWith_iff, not_or, and_assoc, ne_eq]
  rw [includes_iff, includes_iff]

/-- C24 (counterexample). The sheet name "Timesheet15" is left out of the
candidate list: its lower-cased form contains "sheet15".  It does not contain
"template", does not start with "sheet", and is neither "summary" nor
"sheet15". -/
theorem dataSheets_timesheet15_counterexample :
    dataSheets ["Timesheet15".toList] = []
    ∧ ¬ Occurs "template".toList (toLowerCase "Timesheet15".toList)
    ∧ ¬ (∃ rest, toLowerCase "Timesheet15".toList = "sheet".toList ++ rest)
    ∧ toLowerCase "Timesheet15".toList ≠ "summary".toList
    ∧ toLowerCase "Timesheet15".toList ≠ "sheet15".toList := by
  refine ⟨by decide, ?_, ?_, by decide, by decide⟩
  · exact (includes_eq_false_iff _ _).1 (by decide)
  · rw [← startsWith_iff, Bool.not_eq_true]
    decide

/-- C24 (amended). When a workbook is loaded, the candidate list is the list
of sheet names filtered, in workbook order, by a test that fails exactly for
the names whose lower-cased form contains "template", contains "sheet15",
starts with "sheet", or equals "summary". -/
theorem dataSheets_spec (sheetNames : List (List Char)) :
    (∃ keep : List Char → Bool,
      (∀ name, keep name = true ↔ ¬ ExcludedSheet name)
      ∧ dataSheets sheetNames = sheetNames.filter keep)
    ∧ (∀ name, name ∈ dataSheets sheetNames ↔ name ∈ sheetNames ∧ ¬ ExcludedSheet name)
    ∧ (dataSheets sheetNames).Sublist sheetNames := by
  refine ⟨⟨isDataSheet, isDataSheet_iff, rfl⟩, ?_, List.filter_sublist _⟩
  intro name
  unfold dataSheets
  rw [List.mem_filter, isDataSheet_iff]

/-- Witness for C24: of six sheet names, "March" and "April 2024" are
offered, in this order. -/
theorem dataSheets_spec_witness :
    dataSheets sampleSheetNames = ["March".toList, "April 2024".toList]
    ∧ "March".toList ∈ dataSheets sampleSheetNames :=
  ⟨by decide, ((dataSheets_spec sampleSheetNames).2.1 "March".toList).2 ⟨by decide, by
    rw [← isDataSheet_iff]
    decide⟩⟩

/-! ## Claim on a blank Time Spent text -/

theorem dropWhile_allWs (s : List Char) (h : AllWs s) : s.dropWhile isWs = [] := by
  rw [List.dropWhile_eq_nil_iff]
  exact h

theorem trim_allWs (s : List Char) (h : AllWs s) : trim s = [] := by
  unfold trim
  rw [dropWhile_allWs s h]
  rfl

/-- C25. For a Time Spent value that is a non-empty string of whitespace only,
`parseTimeSpentToMinutes` returns 0 in both numeric modes, whatever the
productive hours are: the trimmed text is empty, `Number` reads it as 0, and
the bare-number rule applies before the productive-hours fallback. -/
theorem parseTimeSpentToMinutes_blank (E : JSEnv) (mode : NumericMode) (s : List Char)
    (productiveHours : JSNum) (hne : s ≠ []) (hws : AllWs s) :
    parseTimeSpentToMinutes E mode (JSVal.str s) productiveHours = JSNum.fin 0
    ∧ stringToNumber (toLowerCase (trim s)) = JSNum.fin 0 := by
  have ht : toLowerCase (trim s) = [] := by
    rw [trim_allWs s hws]
    rfl
  have hnum : stringToNumber ([] : List Char) = JSNum.fin 0 := by decide
  refine ⟨?_, by rw [ht, hnum]⟩
  rw [parse_str_number E mode s productiveHours hne (by rw [ht]; decide) (by rw [ht]; decide),
    ht, hnum]
  cases mode <;> simp [JSNum.isNaN, byMode, JSNum.mul, JSNum.round, ofRat_zero] <;> norm_num

/-- Witness for C25: three spaces as Time Spent, with 1.5 productive hours,
where the fallback would give 90. -/
theorem parseTimeSpentToMinutes_blank_witness :
    parseTimeSpentToMinutes sampleHost NumericMode.HOURS (JSVal.str "   ".toList)
        (JSNum.fin (3 / 2)) = JSNum.fin 0
    ∧ fallbackMinutes (JSNum.fin (3 / 2)) = JSNum.fin 90 :=
  ⟨(parseTimeSpentToMinutes_blank sampleHost NumericMode.HOURS "   ".toList (JSNum.fin (3 / 2))
      (by decide) (by decide)).1, by decide!⟩

/-! ## Claim on the totals of the task groups -/

theorem set_sum {K V M : Type} [DecidableEq K] [AddCommMonoid M] (f : V → M) (m : JSMap K V)
    (k : K) (v0 v2 : V) (x : M) (h0 : f v0 = 0)
    (h : f v2 = f ((JSMap.get? m k).getD v0) + x) :
    ((JSMap.set m k v2).map (fun e => f e.2)).sum = (m.map (fun e => f e.2)).sum + x := by
  induction m with
  | nil =>
    simp only [JSMap.get?, Option.getD_none, h0, zero_add] at h
    simp [JSMap.set, h]
  | cons e m ih =>
    obtain ⟨k1, v1⟩ := e
    by_cases hk : k1 = k
    · simp only [JSMap.get?, hk, if_true, Option.getD_some] at h
      simp only [JSMap.set, hk, if_true, List.map_cons, List.sum_cons, h]
      rw [add_assoc, add_assoc, add_comm x]
    · simp only [JSMap.get?, hk, if_false] at h
      simp only [JSMap.set, hk, if_false, List.map_cons, List.sum_cons, ih h]
      rw [add_assoc]

theorem groups_sum {M : Type} [AddCommMonoid M] (f : GroupAcc → M) (v : WorkRecord → M)
    (h0 : ∀ k, f (newGroup k) = 0) (hadd : ∀ g r, f (addToGroup g r) = f g + v r)
    (rows : List WorkRecord) :
    ((rows.foldl groupRow []).map (fun e => f e.2)).sum = (rows.map v).sum := by
  induction rows using List.reverseRecOn with
  | nil => rfl
  | append_singleton rows r ih =>
    rw [List.foldl_append, List.foldl_cons, List.foldl_nil, groupRow_eq,
      set_sum f _ (taskKey r) (newGroup (taskKey r)) _ (v r) (h0 _) (hadd _ _), ih]
    simp

theorem natList_fold (l : List ℕ) (n0 : ℕ) (hb : n0 + l.sum < 2 ^ 53) :
    (l.map (fun n : ℕ => JSNum.fin (n : ℚ))).foldl JSNum.add (JSNum.fin (n0 : ℚ))
      = JSNum.fin ((n0 + l.sum : ℕ) : ℚ) := by
  induction l generalizing n0 with
  | nil => simp
  | cons k l ih =>
    rw [List.sum_cons] at hb
    rw [List.map_cons, List.foldl_cons, add_nat n0 k (by omega)]
    have e : ((n0 : ℚ) + (k : ℚ)) = ((n0 + k : ℕ) : ℚ) := by push_cast; rfl
    rw [e, ih (n0 + k) (by omega), List.sum_cons, Nat.add_assoc]

theorem entries_sum (v : WorkRecord → ℕ) (rows : List WorkRecord) :
    ((unsortedGroups rows).map (fun g => (g.entries.map v).sum)).sum = (rows.map v).sum := by
  unfold unsortedGroups
  rw [List.map_map, List.map_map]
  exact groups_sum (fun g : GroupAcc => (g.entries.map v).sum) v (fun _ => rfl)
    (fun g r => by simp [addToGroup]) rows

theorem conserved_sum (S : SortEngine) (p : WorkRecord → JSNum) (t : TaskGroup → JSNum)
    (rows : List WorkRecord)
    (ht : ∀ g ∈ unsortedGroups rows,
      t g = (rows.filter (fun r => decide (taskKey r = g.task))).foldl
        (fun acc r => acc.add (p r).orZero) (JSNum.fin 0))
    (hnat : ∀ r ∈ rows, (p r).IsNat)
    (hb : (rows.map (fun r => (p r).toNat)).sum < 2 ^ 53) :
    reduceSum ((S.sort afterByTotal (unsortedGroups rows)).map t)
      = rows.foldl (fun acc r => acc.add (p r).orZero) (JSNum.fin 0) := by
  have hperm := S.perm afterByTotal (unsortedGroups rows)
  have hzero : (JSNum.fin 0) = JSNum.fin ((0 : ℕ) : ℚ) := by simp
  have hg : ∀ g ∈ S.sort afterByTotal (unsortedGroups rows),
      t g = JSNum.fin (((g.entries.map (fun r => (p r).toNat)).sum : ℕ) : ℚ) := by
    intro g hg
    have hg2 := hperm.mem_iff.1 hg
    obtain ⟨h1, -, -, -, -, -⟩ := unsorted_fields rows g hg2
    have l1 := natSum_filter_le (fun r => (p r).toNat) (fun r => decide (taskKey r = g.task)) rows
    rw [ht g hg2, hzero, natSum_fold p _ 0 (fun r hr => hnat r (List.mem_filter.1 hr).1)
      (by rw [Nat.zero_add]; exact lt_of_le_of_lt l1 hb), h1, Nat.zero_add]
  have hmap : (S.sort afterByTotal (unsortedGroups rows)).map t
      = ((S.sort afterByTotal (unsortedGroups rows)).map
          (fun g => (g.entries.map (fun r => (p r).toNat)).sum)).map
            (fun n : ℕ => JSNum.fin (n : ℚ)) := by
    rw [List.map_map]
    exact List.map_congr_left hg
  have hsum : ((S.sort afterByTotal (unsortedGroups rows)).map
      (fun g => (g.entries.map (fun r => (p r).toNat)).sum)).sum
      = (rows.map (fun r => (p r).toNat)).sum := by
    rw [(hperm.map _).sum_eq, entries_sum]
  unfold reduceSum
  rw [hmap, hzero, natList_fold _ 0 (by rw [Nat.zero_add, hsum]; exact hb), hsum,
    natSum_fold p rows 0 hnat (by rw [Nat.zero_add]; exact hb)]

/-- C26 (amended). With task grouping enabled and at least one row, every
group of `groupedPerformanceData` has a count of at least 1, so that
`avgProductiveHours` is never a division by 0, and the counts of the groups
add up to `performanceTotals.tasks`.  When the `timeSpentMinutes` of the rows
are whole numbers with a sum below `2 ^ 53`, the `totalMinutes` of the groups
add up to `performanceTotals.minutes`; when the `productive` values are, the
`totalProductiveHours` add up to `performanceTotals.productiveHours`.  The
sums are taken in the order of the groups, as a `reduce` from 0 does. -/
theorem groupedPerformanceData_conserves (S : SortEngine) (rows : List WorkRecord)
    (hne : rows ≠ []) :
    ∃ groups, groupedPerformanceData S true rows = some groups
      ∧ (∀ g ∈ groups, 1 ≤ g.count ∧ JSNum.fin (g.count : ℚ) ≠ JSNum.fin 0
          ∧ g.avgProductiveHours = g.totalProductiveHours.div (JSNum.fin (g.count : ℚ)))
      ∧ (groups.map (fun g => g.count)).sum = (performanceTotals rows).tasks
      ∧ ((∀ r ∈ rows, r.timeSpentMinutes.IsNat) →
          (rows.map (fun r => r.timeSpentMinutes.toNat)).sum < 2 ^ 53 →
          reduceSum (groups.map (fun g => g.totalMinutes)) = (performanceTotals rows).minutes)
      ∧ ((∀ r ∈ rows, r.productive.IsNat) →
          (rows.map (fun r => r.productive.toNat)).sum < 2 ^ 53 →
          reduceSum (groups.map (fun g => g.totalProductiveHours))
            = (performanceTotals rows).productiveHours) := by
  refine ⟨_, groupedPerformanceData_eq S rows hne, ?_⟩
  have hperm := S.perm afterByTotal (unsortedGroups rows)
  refine ⟨?_, ?_, ?_, ?_⟩
  · intro g hg
    obtain ⟨-, h2, -, -, h5, r, hr, hrk⟩ := unsorted_fields rows g (hperm.mem_iff.1 hg)
    have hpos : 1 ≤ g.count := by
      rw [h2]
      exact List.length_pos_of_mem (List.mem_filter.2 ⟨hr, by simpa using hrk⟩)
    refine ⟨hpos, ?_, h5⟩
    intro h0
    have h1 : (g.count : ℚ) = 0 := JSNum.fin.inj h0
    have h3 : g.count = 0 := by exact_mod_cast h1
    omega
  · rw [(hperm.map (fun g => g.count)).sum_eq]
    unfold unsortedGroups
    rw [List.map_map, List.map_map]
    have := groups_sum (fun g : GroupAcc => g.count) (fun _ => 1) (fun _ => rfl)
      (fun g r => by simp [addToGroup]) rows
    simp only [List.map_const', List.sum_replicate, smul_eq_mul, mul_one] at this
    exact this
  · intro hnat hb
    exact conserved_sum S (fun r => r.timeSpentMinutes) (fun g => g.totalMinutes) rows
      (fun g hg => (unsorted_fields rows g hg).2.2.1) hnat hb
  · intro hnat hb
    exact conserved_sum S (fun r => r.productive) (fun g => g.totalProductiveHours) rows
      (fun g hg => (unsorted_fields rows g hg).2.2.2.1) hnat hb

/-- Witness for C26: the four sample rows in three groups, with 4 tasks, 720
minutes and 12 productive hours in all. -/
theorem groupedPerformanceData_conserves_witness :
    groupSampleRecords ≠ []
    ∧ (∀ r ∈ groupSampleRecords, r.timeSpentMinutes.IsNat)
    ∧ (∀ r ∈ groupSampleRecords, r.productive.IsNat)
    ∧ (performanceTotals groupSampleRecords).tasks = 4
    ∧ (performanceTotals groupSampleRecords).minutes = JSNum.fin 720
    ∧ (performanceTotals groupSampleRecords).productiveHours = JSNum.fin 12
    ∧ ∃ groups, groupedPerformanceData insertionEngine true groupSampleRecords = some groups
        ∧ (groups.map (fun g => g.count)).sum = 4
        ∧ reduceSum (groups.map (fun g => g.totalMinutes)) = JSNum.fin 720
        ∧ reduceSum (groups.map (fun g => g.totalProductiveHours)) = JSNum.fin 12 := by
  have h1 : (performanceTotals groupSampleRecords).tasks = 4 := by decide
  have h2 : (performanceTotals groupSampleRecords).minutes = JSNum.fin 720 := by decide!
  have h3 : (performanceTotals groupSampleRecords).productiveHours = JSNum.fin 12 := by decide!
  have hm : ∀ r ∈ groupSampleRecords, r.timeSpentMinutes.IsNat := by
    intro r hr
    simp only [groupSampleRecords, List.mem_cons, List.mem_singleton, List.not_mem_nil,
      or_false] at hr
    rcases hr with rfl | rfl | rfl | rfl
    · exact ⟨120, by simp [mkRecord]⟩
    · exact ⟨300, by simp [mkRecord]⟩
    · exact ⟨60, by simp [mkRecord]⟩
    · exact ⟨240, by simp [mkRecord]⟩
  have hp : ∀ r ∈ groupSampleRecords, r.productive.IsNat := by
    intro r hr
    simp only [groupSampleRecords, List.mem_cons, List.mem_singleton, List.not_mem_nil,
      or_false] at hr
    rcases hr with rfl | rfl | rfl | rfl
    · exact ⟨2, by simp [mkRecord]⟩
    · exact ⟨5, by simp [mkRecord]⟩
    · exact ⟨1, by simp [mkRecord]⟩
    · exact ⟨4, by simp [mkRecord]⟩
  obtain ⟨groups, g1, -, g3, g4, g5⟩ :=
    groupedPerformanceData_conserves insertionEngine groupSampleRecords (by decide)
  exact ⟨by decide, hm, hp, h1, h2, h3, groups, g1, g3.trans h1,
    (g4 hm (by decide!)).trans h2, (g5 hp (by decide!)).trans h3⟩

/-- Counterexample for C26 as it was worded: three rows of two tasks with the
productive hours 0.1, and 0.2 and 0.3.  `performanceTotals.productiveHours`
is `(0.1 + 0.2) + 0.3 = 0.6000000000000001` in binary64, while the group
totals are `0.5` and `0.1`, which add up to `0.6`, under every sort engine. -/
theorem groupedPerformanceData_conserves_counterexample :
    (performanceTotals tenthsRecords).productiveHours
      = JSNum.fin (5404319552844596 / 9007199254740992)
    ∧ JSNum.ofRat (6 / 10) = JSNum.fin (5404319552844595 / 9007199254740992)
    ∧ ∀ S : SortEngine, ∃ groups, groupedPerformanceData S true tenthsRecords = some groups
        ∧ groups.map (fun g => (g.task, g.totalProductiveHours))
            = [("Review".toList, JSNum.fin (1 / 2)), ("Fix bug".toList, JSNum.ofRat (1 / 10))]
        ∧ reduceSum (groups.map (fun g => g.totalProductiveHours)) = JSNum.ofRat (6 / 10)
        ∧ reduceSum (groups.map (fun g => g.totalProductiveHours))
            ≠ (performanceTotals tenthsRecords).productiveHours := by
  refine ⟨by decide!, by decide!, ?_⟩
  intro S
  refine ⟨_, groupedPerformanceData_eq S tenthsRecords (by decide), ?_⟩
  rw [sort_eq_of_notNaN S tenthsRecords (by decide!)]
  refine ⟨by decide!, by decide!, by decide!⟩

end SheetChecker
